import Mathlib

/-!
# Container-aware process lifecycle of the xv6 container kernel (`proc.c`)

A shallow embedding of the two tables of `proc.c` (`ctable.cont[NCONT]` and
`ptable.proc[NCONT][NPROC]`), of the kernel entry points working on them, and of
the scheduler; of the path helpers of `path_util.h`, of `can_start_container` and
the argument loops of `cont_start` of `cont.c`, and of `extract_cont_path` of
`pwd.c`; followed by the properties checked against the specification.

Conventions of the embedding
* a `struct proc *` is a pair of indices (row of `ptable.proc`, slot in the row),
  a `struct container *` is an index into `ctable.cont`; the null pointer is `none`;
* `cont->ptable` is row `ii` of `ptable.proc` for `ctable.cont[ii]`
  (the binding made by `initcontainer`);
* C strings are lists of byte values; reading past the end of the list reads the
  terminating NUL;
* `int` counters are `Int` values, `++` wraps at 32 bits;
* results of the memory allocator, of the VM layer and of the file system are
  arguments of the functions that call them.
-/

namespace Xv6

/-! ## Data model -/

/-- Sizes of param.h: container slots, process slots per container, processors. -/
structure Params where
  NCONT : Nat
  NPROC : Nat
  NCPU : Nat

/-- The tag `enum procstate`. -/
inductive procstate
  | UNUSED | EMBRYO | SLEEPING | RUNNABLE | RUNNING | ZOMBIE
  deriving DecidableEq, Repr

/-- The tag `enum contstate`. -/
inductive contstate
  | CUNUSED | CEMBRYO | CREADY | CRUNNABLE | CRUNNING | CPAUSED | CSTOPPING
  deriving DecidableEq, Repr

open procstate contstate

/-- A `struct proc *`: row of `ptable.proc` and slot in that row. -/
abbrev PRef := Nat × Nat

/-- A sleep channel (`void *`): null, the address of a process slot, or another address. -/
inductive Chan
  | null
  | proc (c p : Nat)
  | addr (a : Nat)
  deriving DecidableEq, Repr

/-- The fields of `struct proc` the lifecycle code works on (trap frame, context,
open files and cwd belong to the external kernel and are left out). -/
structure Proc where
  sz : Nat
  pgdir : Nat
  kstack : Nat
  state : procstate
  pid : Int
  parent : Option PRef
  chan : Chan
  killed : Int
  name : List Nat
  cont : Option Nat
  deriving DecidableEq, Repr

/-- The fields of `struct container`; `ptable` is the row of the same index. -/
structure Container where
  cid : Int
  name : List Nat
  rootpath : List Nat
  rootdir : Nat
  state : contstate
  nextproc : Int
  deriving DecidableEq, Repr

/-- The globals of `proc.c`: both tables, `initproc`, `curcont`, `nextcid`, `nextpid`. -/
structure State where
  proc : Nat → Nat → Proc
  cont : Nat → Container
  initproc : Option PRef
  curcont : Option Nat
  nextcid : Int
  nextpid : Int

/-- Store `v` into `ptable.proc[c][p]`. -/
def State.setProc (s : State) (c p : Nat) (v : Proc) : State :=
  { s with proc := fun i j => if i = c ∧ j = p then v else s.proc i j }

/-- Store `v` into `ctable.cont[c]`. -/
def State.setCont (s : State) (c : Nat) (v : Container) : State :=
  { s with cont := fun i => if i = c then v else s.cont i }

/-- A value stored into a 32-bit `int` (what `++` and `--` leave in a counter). -/
def int32 (x : Int) : Int := (x + 2147483648) % 4294967296 - 2147483648

/-! ## Loops -/

/-- The loop `for (i = 0; i < n; ++i) body`, threading the state. -/
def forLoop {σ : Type} (body : Nat → σ → σ) : Nat → σ → σ
  | 0, s => s
  | n + 1, s => body n (forLoop body n s)

/-- The loop `for (i = 0; i < n; ++i) body` whose body may `return r`. -/
def forLoopRet {σ ρ : Type} (body : Nat → σ → σ × Option ρ) : Nat → σ → σ × Option ρ
  | 0, s => (s, none)
  | n + 1, s =>
    match forLoopRet body n s with
    | (s1, some r) => (s1, some r)
    | (s1, none) => body n s1

/-- A search loop: the first index below `n` at which `p` holds. -/
def firstIdx (p : Nat → Bool) (n : Nat) : Option Nat :=
  (forLoopRet (fun i (u : Unit) => (u, if p i then some i else none)) n ()).2

/-! ## String helpers of string.c -/

/-- Modelled from the spec: `strlen` of string.c (not among the sources), the number
of bytes before the first NUL. -/
def strlen : List Nat → Nat
  | [] => 0
  | c :: cs => if c = 0 then 0 else strlen cs + 1

/-- Modelled from the spec: `strncmp` of string.c (not among the sources), the bounded
byte compare: walk both strings while `n > 0`, `*p` is not NUL and `*p == *q`; the
result is 0 when `n` ran out and `*p - *q` otherwise. -/
def strncmp : List Nat → List Nat → Nat → Int
  | _, _, 0 => 0
  | p, q, n + 1 =>
    if p.headD 0 ≠ 0 ∧ p.headD 0 = q.headD 0 then strncmp p.tail q.tail n
    else (p.headD 0 : Int) - (q.headD 0 : Int)

/-- Modelled from the spec: `safestrcpy` of string.c (not among the sources): copy
at most `n - 1` bytes of the string `t` and terminate. -/
def safestrcpy (t : List Nat) (n : Nat) : List Nat :=
  (t.takeWhile (fun c => c ≠ 0)).take (n - 1)

/-! ## Lookup -/

/-- The function `get_container_by_name`: first slot that is not CUNUSED and for which
`strncmp(cont.name, cont_name, strlen(cont_name)) == 0`. -/
def get_container_by_name (K : Params) (s : State) (cont_name : List Nat) : Option Nat :=
  firstIdx (fun ii => decide ((s.cont ii).state ≠ CUNUSED ∧
    strncmp (s.cont ii).name cont_name (strlen cont_name) = 0)) K.NCONT

/-- The function `get_container_by_cid`: first slot that is not CUNUSED with that cid. -/
def get_container_by_cid (K : Params) (s : State) (cid : Int) : Option Nat :=
  firstIdx (fun ii => decide ((s.cont ii).state ≠ CUNUSED ∧ (s.cont ii).cid = cid)) K.NCONT

/-! ## Allocation of slots -/

/-- The function `allocproc`: refuse unless the container is CREADY, CRUNNABLE or
CRUNNING; take the first UNUSED slot of the container's row, make it EMBRYO with
`pid = nextpid++`; then `kalloc()` (its result is the argument `kalloc`, 0 on
failure): on failure the slot goes back to UNUSED, otherwise the stack and the
container pointer are stored. -/
def allocproc (K : Params) (s : State) (c : Nat) (kalloc : Nat) : State × Option PRef :=
  if (s.cont c).state ≠ CREADY ∧ (s.cont c).state ≠ CRUNNABLE ∧ (s.cont c).state ≠ CRUNNING then
    (s, none)
  else
    match firstIdx (fun j => decide ((s.proc c j).state = UNUSED)) K.NPROC with
    | none => (s, none)
    | some j =>
      let s1 : State :=
        { s.setProc c j { s.proc c j with state := EMBRYO, pid := s.nextpid } with
          nextpid := int32 (s.nextpid + 1) }
      if kalloc = 0 then
        (s1.setProc c j { s1.proc c j with kstack := 0, state := UNUSED }, none)
      else
        (s1.setProc c j { s1.proc c j with kstack := kalloc, cont := some c }, some (c, j))

/-- The function `alloccont`: first CUNUSED slot becomes CEMBRYO with `cid = nextcid++`. -/
def alloccont (K : Params) (s : State) : State × Option Nat :=
  match firstIdx (fun ii => decide ((s.cont ii).state = CUNUSED)) K.NCONT with
  | none => (s, none)
  | some ii =>
    ({ s.setCont ii { s.cont ii with state := CEMBRYO, cid := s.nextcid } with
       nextcid := int32 (s.nextcid + 1) }, some ii)

/-! ## fork and cfork -/

/-- The first lines of `fork`: the container and the parent of the child.  The inner
`none` is the null container pointer of a caller that was never given one. -/
def forkChoice (s : State) (curproc : PRef) (parentcont : Option Nat) :
    Option Nat × Option PRef :=
  match parentcont with
  | some c => (some c, s.initproc)
  | none =>
    match s.curcont with
    | some c => (some c, s.initproc)
    | none => ((s.proc curproc.1 curproc.2).cont, some curproc)

/-- The function `fork(parentcont)` run by `curproc`; `kalloc` and `copyuvm` are the
results of the two allocations (0 on failure).  The outer `none` is a dereference of
a null container pointer; the integer is the value returned. -/
def fork (K : Params) (s : State) (curproc : PRef) (parentcont : Option Nat)
    (kalloc copyuvm : Nat) : Option (State × Int) :=
  match forkChoice s curproc parentcont with
  | (none, _) => none
  | (some c, parent) =>
    match allocproc K s c kalloc with
    | (s1, none) => some (s1, -1)
    | (s1, some np) =>
      if copyuvm = 0 then
        some (s1.setProc np.1 np.2
          { s1.proc np.1 np.2 with pgdir := 0, kstack := 0, state := UNUSED }, -1)
      else
        let cp := s1.proc curproc.1 curproc.2
        let s2 := s1.setProc np.1 np.2
          { s1.proc np.1 np.2 with
            pgdir := copyuvm, sz := cp.sz, parent := parent, name := safestrcpy cp.name 16 }
        some (s2.setProc np.1 np.2 { s2.proc np.1 np.2 with state := RUNNABLE },
          (s2.proc np.1 np.2).pid)

/-- The test `cont < 0` of `cfork` on a pointer: an address is never below 0. -/
def ptrBelowNull (_cont : Option Nat) : Bool := false

/-- The function `cfork(cid)`: look the container up by cid, return -1 when the
pointer is `< 0`, otherwise `fork(cont)`. -/
def cfork (K : Params) (s : State) (curproc : PRef) (cid : Int)
    (kalloc copyuvm : Nat) : Option (State × Int) :=
  if ptrBelowNull (get_container_by_cid K s cid) then some (s, -1)
  else fork K s curproc (get_container_by_cid K s cid) kalloc copyuvm

/-! ## Boot -/

/-- All of `ptable`, `ctable` and the pointers zero-initialised; the counters at 1. -/
def zeroState : State where
  proc := fun _ _ =>
    { sz := 0, pgdir := 0, kstack := 0, state := UNUSED, pid := 0, parent := none,
      chan := Chan.null, killed := 0, name := [], cont := none }
  cont := fun _ =>
    { cid := 0, name := [], rootpath := [], rootdir := 0, state := CUNUSED, nextproc := 0 }
  initproc := none
  curcont := none
  nextcid := 1
  nextpid := 1

/-- The bytes of "root container". -/
def rootContName : List Nat := [114, 111, 111, 116, 32, 99, 111, 110, 116, 97, 105, 110, 101, 114]

/-- The bytes of "initcode". -/
def initcodeName : List Nat := [105, 110, 105, 116, 99, 111, 100, 101]

/-- The function `initcontainer`: allocate the root container (panic, here `none`,
when there is no slot or "/" has no inode), make it CRUNNABLE with rootpath "/". -/
def initcontainer (K : Params) (s : State) (rootdir : Nat) : Option (State × Nat) :=
  match alloccont K s with
  | (_, none) => none
  | (s1, some c) =>
    if rootdir = 0 then none
    else
      some (s1.setCont c
        { s1.cont c with
          rootdir := rootdir, state := CRUNNABLE, nextproc := 0, rootpath := [47],
          name := safestrcpy rootContName 16 }, c)

/-- The function `initprocess`: the first process, RUNNABLE in the given container;
panics (`none`) when the slot or the page directory cannot be had. -/
def initprocess (K : Params) (s : State) (c : Nat) (kalloc setupkvm : Nat) :
    Option (State × PRef) :=
  match allocproc K s c kalloc with
  | (_, none) => none
  | (s1, some p) =>
    if setupkvm = 0 then none
    else
      let s2 := s1.setProc p.1 p.2
        { s1.proc p.1 p.2 with
          pgdir := setupkvm, sz := 4096, name := safestrcpy initcodeName 16, cont := some c }
      some (s2.setProc p.1 p.2 { s2.proc p.1 p.2 with state := RUNNABLE }, p)

/-- The function `userinit`: root container, then `initproc`. -/
def userinit (K : Params) (s : State) (rootdir kalloc setupkvm : Nat) : Option State :=
  match initcontainer K s rootdir with
  | none => none
  | some (s1, c) =>
    match initprocess K s1 c kalloc setupkvm with
    | none => none
    | some (s2, p) => some { s2 with initproc := some p }

/-! ## sleep, wakeup, kill -/

/-- The address of a process slot used as a sleep channel. -/
def procChan : Option PRef → Chan
  | none => Chan.null
  | some p => Chan.proc p.1 p.2

/-- The function `sleep` up to its call of `sched`: record the channel, go SLEEPING. -/
def sleep (s : State) (p : PRef) (chan : Chan) : State :=
  s.setProc p.1 p.2 { s.proc p.1 p.2 with chan := chan, state := SLEEPING }

/-- The function `sleep` after `sched` comes back: `p->chan = 0`. -/
def sleepTidy (s : State) (p : PRef) : State :=
  s.setProc p.1 p.2 { s.proc p.1 p.2 with chan := Chan.null }

/-- The function `yield` up to its call of `sched`. -/
def yield (s : State) (p : PRef) : State :=
  s.setProc p.1 p.2 { s.proc p.1 p.2 with state := RUNNABLE }

/-- The function `wakeup1`: every slot of every row that is SLEEPING on `chan`
becomes RUNNABLE. -/
def wakeup1 (K : Params) (s : State) (chan : Chan) : State :=
  forLoop (fun ii s1 =>
    forLoop (fun jj s2 =>
      if (s2.proc ii jj).state = SLEEPING ∧ (s2.proc ii jj).chan = chan then
        s2.setProc ii jj { s2.proc ii jj with state := RUNNABLE }
      else s2) K.NPROC s1) K.NCONT s

/-- The function `wakeup`: `wakeup1` under the lock. -/
def wakeup (K : Params) (s : State) (chan : Chan) : State := wakeup1 K s chan

/-- The function `kill1` run by `curproc`: the first slot of the caller's row whose
pid is `pid` gets `killed = 1` and is woken when SLEEPING; 0 when found, else -1.
The outer `none` is a null container pointer of the caller. -/
def kill1 (K : Params) (s : State) (curproc : PRef) (pid : Int) : Option (State × Int) :=
  match (s.proc curproc.1 curproc.2).cont with
  | none => none
  | some c =>
    match firstIdx (fun j => decide ((s.proc c j).pid = pid)) K.NPROC with
    | none => some (s, -1)
    | some j =>
      let s1 := s.setProc c j { s.proc c j with killed := 1 }
      if (s1.proc c j).state = SLEEPING then
        some (s1.setProc c j { s1.proc c j with state := RUNNABLE }, 0)
      else some (s1, 0)

/-- The function `kill`. -/
def kill (K : Params) (s : State) (curproc : PRef) (pid : Int) : Option (State × Int) :=
  kill1 K s curproc pid

/-! ## exit and wait -/

/-- The function `exit` run by `curproc`, up to its call of `sched`: wake the parent,
hand the children found in the caller's own row to `initproc` (waking it for a
ZOMBIE child), become ZOMBIE.  The result `none` is the panic "init exiting" or a
null container pointer. -/
def exit (K : Params) (s : State) (curproc : PRef) : Option State :=
  if s.initproc = some curproc then none
  else
    match (s.proc curproc.1 curproc.2).cont with
    | none => none
    | some c =>
      let s1 := wakeup1 K s (procChan (s.proc curproc.1 curproc.2).parent)
      let s2 := forLoop (fun j t =>
        if (t.proc c j).parent = some curproc then
          let t1 := t.setProc c j { t.proc c j with parent := t.initproc }
          if (t1.proc c j).state = ZOMBIE then wakeup1 K t1 (procChan (t1.proc c j).parent)
          else t1
        else t) K.NPROC s1
      some (s2.setProc curproc.1 curproc.2 { s2.proc curproc.1 curproc.2 with state := ZOMBIE })

/-- The body of `if(p->state == ZOMBIE)` in `wait`: release the slot. -/
def reap (s : State) (ii j : Nat) : State :=
  s.setProc ii j
    { s.proc ii j with
      kstack := 0, pid := 0, parent := none, name := [], killed := 0, state := UNUSED }

/-- The body of the inner loop of `wait` for slot `j` of row `ii`; the Boolean is
`havekids`, the result is the pid returned from inside the loop. -/
def waitSlot (curproc : PRef) (ii j : Nat) (t : State × Bool) : (State × Bool) × Option Int :=
  if (t.1.proc ii j).parent ≠ some curproc then (t, none)
  else if (t.1.proc ii j).state = ZOMBIE then
    ((reap t.1 ii j, true), some (t.1.proc ii j).pid)
  else ((t.1, true), none)

/-- The inner loop of `wait` over the slots of row `ii`. -/
def waitProcs (K : Params) (curproc : PRef) (ii : Nat) (sh : State × Bool) :
    (State × Bool) × Option Int :=
  forLoopRet (waitSlot curproc ii) K.NPROC sh

/-- The body of the outer loop of `wait` for container `ii`: a CUNUSED slot is
skipped, and a container that is CSTOPPING after its row was walked becomes CUNUSED. -/
def waitCont (K : Params) (curproc : PRef) (ii : Nat) (t : State × Bool) :
    (State × Bool) × Option Int :=
  if (t.1.cont ii).state = CUNUSED then (t, none)
  else
    match waitProcs K curproc ii t with
    | (t1, some pid) => (t1, some pid)
    | (t1, none) =>
      if (t1.1.cont ii).state = CSTOPPING then
        ((t1.1.setCont ii { t1.1.cont ii with state := CUNUSED }, t1.2), none)
      else (t1, none)

/-- The outer loop of `wait` over the containers. -/
def waitConts (K : Params) (curproc : PRef) (sh : State × Bool) :
    (State × Bool) × Option Int :=
  forLoopRet (waitCont K curproc) K.NCONT sh

/-- One round of the `for(;;)` of `wait` run by `curproc`: the value returned (a
reaped pid, or -1), or `none` when the caller went to sleep on its own address (the
round is run again when it is woken). -/
def wait (K : Params) (s : State) (curproc : PRef) : State × Option Int :=
  match waitConts K curproc (s, false) with
  | (t, some pid) => (t.1, some pid)
  | (t, none) =>
    if t.2 = false ∨ (t.1.proc curproc.1 curproc.2).killed ≠ 0 then (t.1, some (-1))
    else (sleep t.1 curproc (procChan (some curproc)), none)

/-! ## Scheduler -/

/-- The operator `%` of C on an `int` and a positive constant: remainder of the
division that truncates toward zero. -/
def cmod (a : Int) (n : Nat) : Int := Int.tmod a (n : Int)

/-- The slot `&cont->ptable[idx]` for the container `ii`.  `cont->ptable` is row `ii`
of `ptable.proc` (the binding made by `initcontainer`) and the rows lie one after
the other in memory, so an index that is negative (and above `-NPROC`) gives a slot
of the row before; for the first row it gives an address before the table, which is
`none`. -/
def slotAt (K : Params) (ii : Nat) (idx : Int) : Option PRef :=
  if 0 ≤ idx then some (ii, idx.toNat)
  else if ii = 0 then none
  else some (ii - 1, ((K.NPROC : Int) + idx).toNat)

/-- One iteration of the loop over the containers in `scheduler` as far as the test
of `p->state`: skip the container unless it is CRUNNABLE or CRUNNING; take the slot
with index `(cont->nextproc++) % NPROC`; the inner option is that slot when it is
RUNNABLE.  The outer `none` is a fault: division by `NPROC = 0`, or a slot before
the table. -/
def schedChoose (K : Params) (s : State) (ii : Nat) : Option (State × Option PRef) :=
  if (s.cont ii).state ≠ CRUNNABLE ∧ (s.cont ii).state ≠ CRUNNING then some (s, none)
  else if K.NPROC = 0 then none
  else
    let s1 := s.setCont ii { s.cont ii with nextproc := int32 ((s.cont ii).nextproc + 1) }
    match slotAt K ii (cmod (s.cont ii).nextproc K.NPROC) with
    | none => none
    | some p =>
      if (s1.proc p.1 p.2).state ≠ RUNNABLE then some (s1, none) else some (s1, some p)

/-- The lines of `scheduler` between the test of `p->state` and `swtch`:
`p->state = RUNNING; cont->state = CRUNNING`. -/
def schedSwitch (s : State) (ii : Nat) (p : PRef) : State :=
  let s2 := s.setProc p.1 p.2 { s.proc p.1 p.2 with state := RUNNING }
  s2.setCont ii { s2.cont ii with state := CRUNNING }

/-- One iteration of the loop over the containers in `scheduler`, up to `swtch`, run
without interruption: `schedChoose`, and for the slot it gives `schedSwitch`.  The
inner option is the process switched to. -/
def schedVisit (K : Params) (s : State) (ii : Nat) : Option (State × Option PRef) :=
  match schedChoose K s ii with
  | none => none
  | some (s1, none) => some (s1, none)
  | some (s1, some p) => some (schedSwitch s1 ii p, some p)

/-- The same iteration of `scheduler` after `swtch` has come back: unless the
container is CSTOPPING or CPAUSED it is reset to CRUNNABLE. -/
def schedReturn (s : State) (ii : Nat) : State :=
  if (s.cont ii).state ≠ CSTOPPING ∧ (s.cont ii).state ≠ CPAUSED then
    s.setCont ii { s.cont ii with state := CRUNNABLE }
  else s

/-- One pass of `scheduler` over the container table.  What happens between `swtch`
to a process and the switch back (the process itself, other processors) is the
argument `env`, applied to the iteration index and the state at the switch. -/
def schedulerPass (K : Params) (env : Nat → State → State) (s : State) : Option State :=
  forLoop (fun ii (o : Option State) =>
    match o with
    | none => none
    | some t =>
      match schedVisit K t ii with
      | none => none
      | some (t1, none) => some t1
      | some (t1, some _) => some (schedReturn (env ii t1) ii)) K.NCONT (some s)

/-! ## Container control -/

/-- The function `cstart`: the container found for the name must be CREADY, CRUNNING
or CRUNNABLE; it becomes CRUNNABLE and `curcont`; the result is its cid. -/
def cstart (K : Params) (s : State) (cont_name : List Nat) : State × Int :=
  match get_container_by_name K s cont_name with
  | none => (s, -1)
  | some c =>
    if (s.cont c).state ≠ CREADY ∧ (s.cont c).state ≠ CRUNNING ∧ (s.cont c).state ≠ CRUNNABLE then
      (s, -1)
    else
      ({ s.setCont c { s.cont c with state := CRUNNABLE } with curcont := some c }, (s.cont c).cid)

/-- The function `cpause`: the container found must be CRUNNABLE or CRUNNING; it
becomes CPAUSED and `curcont` is cleared when it pointed there. -/
def cpause (K : Params) (s : State) (cont_name : List Nat) : State × Int :=
  match get_container_by_name K s cont_name with
  | none => (s, -1)
  | some c =>
    if (s.cont c).state ≠ CRUNNABLE ∧ (s.cont c).state ≠ CRUNNING then (s, -1)
    else
      ({ s.setCont c { s.cont c with state := CPAUSED } with
         curcont := if s.curcont = some c then none else s.curcont }, 0)

/-- The function `cresume`: the container found must be CPAUSED; it becomes CRUNNABLE. -/
def cresume (K : Params) (s : State) (cont_name : List Nat) : State × Int :=
  match get_container_by_name K s cont_name with
  | none => (s, -1)
  | some c =>
    if (s.cont c).state ≠ CPAUSED then (s, -1)
    else (s.setCont c { s.cont c with state := CRUNNABLE }, 0)

/-- The body of `cstop` once the container is found: every slot of its row that is
not UNUSED gets `parent = initproc` and becomes ZOMBIE; the container becomes
CSTOPPING; `curcont` is cleared when it pointed there. -/
def cstopAt (K : Params) (s : State) (c : Nat) : State :=
  let s1 := forLoop (fun ii t =>
    if (t.proc c ii).state ≠ UNUSED then
      t.setProc c ii { t.proc c ii with parent := t.initproc, state := ZOMBIE }
    else t) K.NPROC s
  { s1.setCont c { s1.cont c with state := CSTOPPING } with
    curcont := if s1.curcont = some c then none else s1.curcont }

/-- The function `cstop`: -1 when no container is found for the name, else the body
above and 0. -/
def cstop (K : Params) (s : State) (cont_name : List Nat) : State × Int :=
  match get_container_by_name K s cont_name with
  | none => (s, -1)
  | some c => (cstopAt K s c, 0)

/-- The function `extract_container_name`: `len` counts the bytes after the last
'/', `idx` is the position of the last '/' (0 when there is none); more than 15
bytes is an error; the name is the `len` bytes from `fpath + idx + 1`. -/
def extract_container_name (fpath : List Nat) : Option (List Nat) :=
  let li : Nat × Nat := forLoop (fun k (a : Nat × Nat) =>
    if fpath.getD k 0 = 47 then (0, k) else (a.1 + 1, a.2)) (strlen fpath) (0, 0)
  if li.1 > 15 then none
  else some ((List.range li.1).map (fun k => fpath.getD (li.2 + 1 + k) 0))

/-- The function `ccreate`; `namei` is the inode found for the path (0 when there is
none).  On the failure of `namei` the slot taken by `alloccont` is given back and
`nextcid` is decremented. -/
def ccreate (K : Params) (s : State) (fpath : List Nat) (namei : Nat) : State × Int :=
  match extract_container_name fpath with
  | none => (s, -1)
  | some cont_name =>
    if (get_container_by_name K s cont_name).isSome then (s, -1)
    else
      match alloccont K s with
      | (s1, none) => (s1, -1)
      | (s1, some c) =>
        if namei = 0 then
          ({ s1.setCont c { s1.cont c with state := CUNUSED } with
             nextcid := int32 (s1.nextcid - 1) }, -1)
        else
          (s1.setCont c
            { s1.cont c with
              rootdir := namei, rootpath := safestrcpy fpath 200, state := CREADY,
              nextproc := 0, name := safestrcpy cont_name 16 }, 0)

/-! ## The machine: processors, steps, reachable states -/

/-- What `scheduler` keeps per processor: `c->proc`, and its loop index `ii`
(so `cont` is `&ctable.cont[ii]`). -/
structure Cpu where
  proc : Option PRef
  ii : Nat
  deriving DecidableEq, Repr

/-- The kernel state together with the processors. -/
structure Sys where
  st : State
  cpu : Nat → Cpu

/-- The steps of the machine.  `visit k`: the scheduler of processor `k` handles the
next container.  The others are taken by the process running on processor `k`
(`wakeup` may also come from an interrupt handler). -/
inductive Op
  | visit (k : Nat)
  | yield (k : Nat)
  | sleep (k : Nat) (chan : Chan)
  | tidy (k : Nat)
  | exit (k : Nat)
  | wait (k : Nat)
  | fork (k : Nat) (kalloc copyuvm : Nat)
  | cfork (k : Nat) (cid : Int) (kalloc copyuvm : Nat)
  | kill (k : Nat) (pid : Int)
  | wakeup (chan : Chan)
  | ccreate (k : Nat) (fpath : List Nat) (namei : Nat)
  | cstart (k : Nat) (cont_name : List Nat)
  | cpause (k : Nat) (cont_name : List Nat)
  | cresume (k : Nat) (cont_name : List Nat)
  | cstop (k : Nat) (cont_name : List Nat)
  deriving DecidableEq, Repr

/-- The process running on processor `k` (`myproc()`), if any. -/
def running (K : Params) (s : Sys) (k : Nat) : Option PRef :=
  if k < K.NCPU then (s.cpu k).proc else none

/-- The index the loop of `scheduler` handles after `ii`; a new pass starts at 0. -/
def nextIdx (K : Params) (ii : Nat) : Nat := if ii + 1 < K.NCONT then ii + 1 else 0

/-- The process on processor `k` has called `sched` in kernel state `st`: `swtch`
comes back in `scheduler`, which clears `c->proc`, resets the container it had
switched into, and goes on with its loop. -/
def toScheduler (K : Params) (s : Sys) (k : Nat) (st : State) : Sys :=
  { st := schedReturn st (s.cpu k).ii
    cpu := fun i => if i = k then { proc := none, ii := nextIdx K (s.cpu k).ii } else s.cpu i }

/-- A system call that comes back to its caller: only the kernel state changes. -/
def withState (s : Sys) (st : State) : Sys := { s with st := st }

/-- One step of the machine; `none` when the step cannot be taken in `s`.  A call
runs to its end within its step.  Calls that hold different locks can overlap in
time (`cstop`, `cpause`, `cstart`, `cresume` hold `ctable.lock`, the scheduler holds
`ptable.lock`, `ccreate` holds no lock around `namei`); where a property depends on
it they are taken apart into `schedChoose` and `schedSwitch`, `cstopMark` and
`cstopFinish`, `ccreateAlloc` and `ccreateFinish`.  The call is made by whatever
process is on the processor, also by one whose slot `wait` has reaped; the guard
`live` leaves those calls out. -/
def step (K : Params) (s : Sys) : Op → Option Sys
  | Op.visit k =>
    if k < K.NCPU ∧ (s.cpu k).proc = none ∧ (s.cpu k).ii < K.NCONT then
      match schedVisit K s.st (s.cpu k).ii with
      | none => none
      | some (st, none) =>
        some { st := st
               cpu := fun i =>
                 if i = k then { proc := none, ii := nextIdx K (s.cpu k).ii } else s.cpu i }
      | some (st, some p) =>
        some { st := st
               cpu := fun i => if i = k then { proc := some p, ii := (s.cpu k).ii } else s.cpu i }
    else none
  | Op.yield k => (running K s k).map (fun p => toScheduler K s k (yield s.st p))
  | Op.sleep k chan => (running K s k).map (fun p => toScheduler K s k (sleep s.st p chan))
  | Op.tidy k => (running K s k).map (fun p => withState s (sleepTidy s.st p))
  | Op.exit k =>
    (running K s k).bind (fun p => (exit K s.st p).map (fun st => toScheduler K s k st))
  | Op.wait k =>
    (running K s k).map (fun p =>
      match wait K s.st p with
      | (st, some _) => withState s st
      | (st, none) => toScheduler K s k st)
  | Op.fork k kalloc copyuvm =>
    (running K s k).bind (fun p =>
      (fork K s.st p none kalloc copyuvm).map (fun r => withState s r.1))
  | Op.cfork k cid kalloc copyuvm =>
    (running K s k).bind (fun p =>
      (cfork K s.st p cid kalloc copyuvm).map (fun r => withState s r.1))
  | Op.kill k pid =>
    (running K s k).bind (fun p => (kill K s.st p pid).map (fun r => withState s r.1))
  | Op.wakeup chan => some (withState s (wakeup K s.st chan))
  | Op.ccreate k fpath namei =>
    (running K s k).map (fun _ => withState s (ccreate K s.st fpath namei).1)
  | Op.cstart k cont_name =>
    (running K s k).map (fun _ => withState s (cstart K s.st cont_name).1)
  | Op.cpause k cont_name =>
    (running K s k).map (fun _ => withState s (cpause K s.st cont_name).1)
  | Op.cresume k cont_name =>
    (running K s k).map (fun _ => withState s (cresume K s.st cont_name).1)
  | Op.cstop k cont_name =>
    (running K s k).map (fun _ => withState s (cstop K s.st cont_name).1)

/-- A run of steps from `s`. -/
def run (K : Params) (s : Sys) : List Op → Option Sys
  | [] => some s
  | op :: ops => (step K s op).bind (fun s1 => run K s1 ops)

/-- The machine after `userinit`: every scheduler at the start of its loop. -/
def bootSys (st : State) : Sys := { st := st, cpu := fun _ => { proc := none, ii := 0 } }

/-- The states reachable from boot: `userinit` on the zeroed tables (root container
CRUNNABLE holding the RUNNABLE `initproc`), then any steps. -/
inductive Reachable (K : Params) : Sys → Prop
  | boot (rootdir kalloc setupkvm : Nat) (st : State)
      (h : userinit K zeroState rootdir kalloc setupkvm = some st) : Reachable K (bootSys st)
  | step (s s1 : Sys) (op : Op) (hs : Reachable K s) (h : step K s op = some s1) :
      Reachable K s1

/-! ## Predicates and measures used in the statements -/

/-- The container admits new processes: CREADY, CRUNNABLE or CRUNNING. -/
def Allocatable (s : State) (c : Nat) : Prop :=
  (s.cont c).state = CREADY ∨ (s.cont c).state = CRUNNABLE ∨ (s.cont c).state = CRUNNING

instance (s : State) (c : Nat) : Decidable (Allocatable s c) := by
  unfold Allocatable; infer_instance

/-- Slot `j` of row `i` is a ZOMBIE whose parent is `cur`. -/
def zombieChild (s : State) (cur : PRef) (i j : Nat) : Bool :=
  decide ((s.proc i j).parent = some cur ∧ (s.proc i j).state = ZOMBIE)

/-- The first ZOMBIE child of `cur` in row `i`. -/
def firstZombie (K : Params) (s : State) (cur : PRef) (i : Nat) : Option Nat :=
  firstIdx (zombieChild s cur i) K.NPROC

/-- The first container below `n` that is not CUNUSED and holds a ZOMBIE child of `cur`. -/
def firstZombieCont (K : Params) (s : State) (cur : PRef) (n : Nat) : Option Nat :=
  firstIdx (fun i => decide ((s.cont i).state ≠ CUNUSED) && (firstZombie K s cur i).isSome) n

/-- Some slot of row `i` has `cur` as parent. -/
def hasChildIn (K : Params) (s : State) (cur : PRef) (i : Nat) : Bool :=
  (firstIdx (fun j => decide ((s.proc i j).parent = some cur)) K.NPROC).isSome

/-- Some container below `n` that is not CUNUSED has a slot with `cur` as parent. -/
def hasChild (K : Params) (s : State) (cur : PRef) (n : Nat) : Bool :=
  (firstIdx (fun i => decide ((s.cont i).state ≠ CUNUSED) && hasChildIn K s cur i) n).isSome

/-- The state in which every CSTOPPING container below `n` has become CUNUSED. -/
def sweep (s : State) (n : Nat) : State :=
  { s with cont := fun i =>
      if i < n ∧ (s.cont i).state = CSTOPPING then { s.cont i with state := CUNUSED }
      else s.cont i }

/-- The state after `n` successive rounds of `wait` run by `cur`, nothing else
happening in between. -/
def waitIter (K : Params) (cur : PRef) : Nat → State → State
  | 0, s => s
  | n + 1, s => waitIter K cur n (wait K s cur).1

/-- The number of slots of container `c` that are not UNUSED. -/
def usedSlots (K : Params) (s : State) (c : Nat) : Nat :=
  ((Finset.range K.NPROC).filter (fun j => (s.proc c j).state ≠ UNUSED)).card

/-- The number of ZOMBIE children of `cur` in the rows other than `c`. -/
def otherZombies (K : Params) (s : State) (cur : PRef) (c : Nat) : Nat :=
  (((Finset.range K.NCONT) ×ˢ (Finset.range K.NPROC)).filter
    (fun ij => ij.1 ≠ c ∧ zombieChild s cur ij.1 ij.2 = true)).card

/-- Container `c` is CSTOPPING and each of its slots is UNUSED or a ZOMBIE child of `cur`. -/
def StoppingRow (K : Params) (s : State) (cur : PRef) (c : Nat) : Prop :=
  (s.cont c).state = CSTOPPING ∧
  ∀ j, j < K.NPROC → (s.proc c j).state = UNUSED ∨
    ((s.proc c j).state = ZOMBIE ∧ (s.proc c j).parent = some cur)

/-- Container `c` is CUNUSED and all its slots are UNUSED. -/
def FreedRow (K : Params) (s : State) (c : Nat) : Prop :=
  (s.cont c).state = CUNUSED ∧ ∀ j, j < K.NPROC → (s.proc c j).state = UNUSED

/-- The ZOMBIE children of `cur` that a scan meets up to and including container `c`. -/
def pendingZombies (K : Params) (s : State) (cur : PRef) (c : Nat) : Finset (Nat × Nat) :=
  ((Finset.range K.NCONT) ×ˢ (Finset.range K.NPROC)).filter
    (fun ij => ij.1 ≤ c ∧ (s.cont ij.1).state ≠ CUNUSED ∧ zombieChild s cur ij.1 ij.2 = true)

/-- No container is CRUNNING in `s1` that was not CRUNNING in `s`. -/
def NoNewRunning (s s1 : State) : Prop :=
  ∀ i, (s1.cont i).state = CRUNNING → (s.cont i).state = CRUNNING

/-- Every CRUNNING container is the one some processor has switched into. -/
def RunningHeld (K : Params) (s : Sys) : Prop :=
  ∀ i, (s.st.cont i).state = CRUNNING →
    ∃ k, k < K.NCPU ∧ (s.cpu k).proc ≠ none ∧ (s.cpu k).ii = i

/-- Some slot below `n` of row `c` is a ZOMBIE whose parent is `cur`. -/
def hasZombieChild (s : State) (cur : PRef) (c n : Nat) : Bool :=
  (firstIdx (zombieChild s cur c) n).isSome

/-- How the process table may differ after a kernel operation run by `cur` (`none`
for the scheduler and interrupt handlers): a container pointer is kept or set to the
slot's own row; a parent pointer is kept, cleared, set to `initproc`, or set to the
caller when the caller's container is the slot's row; and a slot that is in use
afterwards was in use before, or has its container pointer set, or is the caller's. -/
def SlotStep (s s1 : State) (cur : Option PRef) : Prop :=
  ∀ i j,
    ((s1.proc i j).cont = (s.proc i j).cont ∨ (s1.proc i j).cont = some i) ∧
    ((s1.proc i j).parent = (s.proc i j).parent ∨ (s1.proc i j).parent = none ∨
      (s1.proc i j).parent = s.initproc ∨
      ∃ p, cur = some p ∧ (s1.proc i j).parent = some p ∧ (s.proc p.1 p.2).cont = some i) ∧
    ((s1.proc i j).state ≠ UNUSED →
      (s.proc i j).state ≠ UNUSED ∨ (s1.proc i j).cont = some i ∨ cur = some (i, j))

/-- Pointers stay inside the table and parents stay local: `initproc` is a slot of
the table; a process on a processor is a slot of the table whose container pointer
is its own row; a slot in use has its container pointer set to its own row; and a
parent pointer refers to a slot of the table that is `initproc` or lies in the same
row as the child. -/
def ProcsLocal (K : Params) (s : Sys) : Prop :=
  (∃ r, s.st.initproc = some r ∧ r.1 < K.NCONT ∧ r.2 < K.NPROC) ∧
  (∀ k p, (s.cpu k).proc = some p →
    (s.st.proc p.1 p.2).cont = some p.1 ∧ p.1 < K.NCONT ∧ p.2 < K.NPROC) ∧
  (∀ i j, (s.st.proc i j).state ≠ UNUSED → (s.st.proc i j).cont = some i) ∧
  (∀ i j q, (s.st.proc i j).parent = some q →
    (s.st.initproc = some q ∨ q.1 = i) ∧ q.1 < K.NCONT ∧ q.2 < K.NPROC)

/-- The value fits a 32-bit `int`. -/
def IsInt32 (x : Int) : Prop := -2147483648 ≤ x ∧ x < 2147483648

instance (x : Int) : Decidable (IsInt32 x) := by
  unfold IsInt32; infer_instance

/-! ## A small machine on which the code is evaluated -/

/-- Two container slots, two process slots per container, two processors. -/
def K2 : Params := { NCONT := 2, NPROC := 2, NCPU := 2 }

/-- The kernel state after `userinit` on the small machine. -/
def boot2 : State := (userinit K2 zeroState 7 100 200).getD zeroState

/-- The bytes of "/c1". -/
def c1Path : List Nat := [47, 99, 49]

/-- The bytes of "c1". -/
def c1Name : List Nat := [99, 49]

/-- The bytes of "c". -/
def cName : List Nat := [99]

/-- The machine after boot, then: processor 0 switches to `initproc`. -/
def sysInit : Sys := (run K2 (bootSys boot2) [Op.visit 0]).getD (bootSys boot2)

/-- The machine `sysInit`, then: `initproc` creates the container "c1" at "/c1". -/
def sysC1 : Sys := (run K2 sysInit [Op.ccreate 0 c1Path 9]).getD sysInit

/-- The machine `sysC1`, then: `initproc` starts "c1" and forks; the child (pid 2)
lands in "c1". -/
def sysC1Proc : Sys := (run K2 sysC1 [Op.cstart 0 c1Name, Op.fork 0 300 400]).getD sysC1

/-- The kernel state of `sysInit` after `initproc` has called `fork(0)` with both
allocations granted. -/
def forkedSt : State := ((fork K2 sysInit.st (0, 0) none 300 400).getD (sysInit.st, 0)).1

/-- The kernel state of `sysC1Proc` after "c1" was paused. -/
def pausedSt : State := (cpause K2 sysC1Proc.st c1Name).1

/-- The kernel state of `sysC1Proc` after `cstop("c1")`. -/
def stoppedSt : State := (cstop K2 sysC1Proc.st c1Name).1

/-- A run with two processors: `initproc` forks a child in the root container, the
second processor switches to that child; `initproc` creates and starts "c1", forks
into it and stops it; then the child in the root container calls `wait`. -/
def traceOrphan : List Op :=
  [Op.visit 0, Op.fork 0 300 400, Op.visit 1, Op.ccreate 0 c1Path 9, Op.cstart 0 c1Name,
   Op.fork 0 500 600, Op.cstop 0 c1Name, Op.wait 1]

/-- The machine after `traceOrphan`. -/
def sysOrphan : Sys := (run K2 (bootSys boot2) traceOrphan).getD (bootSys boot2)

/-- The kernel state of `sysInit` after `initproc` went to sleep on the address 5. -/
def sleepingSt : State := sleep sysInit.st (0, 0) (Chan.addr 5)

/-- The bytes of "/root". -/
def rootPath : List Nat := [47, 114, 111, 111, 116]

/-- The bytes of "root". -/
def rootName : List Nat := [114, 111, 111, 116]

/-- Three container slots, two process slots per container, two processors. -/
def K3 : Params := { NCONT := 3, NPROC := 2, NCPU := 2 }

/-- The kernel state after `userinit` on the machine with three container slots. -/
def boot3 : State := (userinit K3 zeroState 7 100 200).getD zeroState

/-- The bytes of "/a". -/
def aPath : List Nat := [47, 97]

/-- The bytes of "a". -/
def aName : List Nat := [97]

/-- A run with two processors and three container slots: `initproc` creates "a"
(slot 1) and "c1" (slot 2), starts "c1" and forks into it; the second processor
passes the root container and "a" and switches to the child in "c1"; `initproc` stops
"c1" and "a" and calls `wait` twice (the first call reaps the child, the second
frees both containers), then creates "c1" anew, which takes slot 1; at last the
child, still on its processor, calls `exit`. -/
def traceSameName : List Op :=
  [Op.visit 0, Op.ccreate 0 aPath 8, Op.ccreate 0 c1Path 9, Op.cstart 0 c1Name,
   Op.fork 0 300 400, Op.visit 1, Op.visit 1, Op.visit 1, Op.cstop 0 c1Name,
   Op.cstop 0 aName, Op.wait 0, Op.wait 0, Op.ccreate 0 c1Path 9, Op.exit 1]

/-- The machine after `traceSameName`. -/
def sysSameName : Sys := (run K3 (bootSys boot3) traceSameName).getD (bootSys boot3)

/-- A run with two processors: `initproc` forks a child in the root container, the
second processor switches to the child, and `initproc` calls `wait` and sleeps. -/
def traceWaiting : List Op := [Op.visit 0, Op.fork 0 300 400, Op.visit 1, Op.wait 0]

/-- The machine after `traceWaiting`. -/
def sysWaiting : Sys := (run K2 (bootSys boot2) traceWaiting).getD (bootSys boot2)

/-! ## Character arrays, `getcontrootdir`, and the path helpers of path_util.h -/

/-- The store `b[i] = v` into a character array.  An array is the list of its
leading bytes, every byte after them being NUL; its capacity is what the caller
provides and is not limited here. -/
def store (b : List Nat) (i v : Nat) : List Nat :=
  if i < b.length then b.set i v else b ++ List.replicate (i - b.length) 0 ++ [v]

/-- The string held by a character array: the bytes before the first NUL. -/
def cstr (b : List Nat) : List Nat := b.takeWhile (fun c => c ≠ 0)

/-- Modelled from the spec: `memmove(dst + off, src, n)` of string.c (not among the
sources) for arrays that do not overlap: `n` bytes of `src` stored from `dst[off]` on. -/
def memmove (dst : List Nat) (off : Nat) (src : List Nat) (n : Nat) : List Nat :=
  forLoop (fun k d => store d (off + k) (src.getD k 0)) n dst

/-- Modelled from the spec: `strncpy(dst, src, n)` of string.c (not among the
sources): the bytes of the string `src`, then NULs, `n` bytes in all. -/
def strncpy (dst src : List Nat) (n : Nat) : List Nat :=
  forLoop (fun k d => store d k (if k < strlen src then src.getD k 0 else 0)) n dst

/-- The function `getcontrootdir`: the first slot of the container table whose name
has the length of `cont_name` and compares equal to it over that length has its
`rootpath` copied into `rootdir` (`strlen(rootpath)` bytes), result 0; -1 when there
is no such slot. -/
def getcontrootdir (K : Params) (s : State) (cont_name rootdir : List Nat) : List Nat × Int :=
  match firstIdx (fun ii => decide (strlen (s.cont ii).name = strlen cont_name ∧
      strncmp (s.cont ii).name cont_name (strlen (s.cont ii).name) = 0)) K.NCONT with
  | some ii => (strncpy rootdir (s.cont ii).rootpath (strlen (s.cont ii).rootpath), 0)
  | none => (rootdir, -1)

/-- The inner loop of `filter_path`: `while (idx1 > 0 && fpath[idx1 - 1] != '/') --idx1`. -/
def rollBack (fpath : List Nat) : Nat → Nat
  | 0 => 0
  | idx1 + 1 => if fpath.getD idx1 0 ≠ 47 then rollBack fpath idx1 else idx1 + 1

/-- The loop of `filter_path` from the state `(fpath, idx1, idx2)`, at most `fuel`
iterations; the result is the array and `idx1` when the loop has ended. -/
def filterLoop : Nat → List Nat → Nat → Nat → Option (List Nat × Nat)
  | 0, _, _, _ => none
  | fuel + 1, fpath, idx1, idx2 =>
    if fpath.getD idx2 0 = 0 then some (fpath, idx1)
    else if fpath.getD idx2 0 = 47 ∧ fpath.getD (idx2 + 1) 0 = 46 ∧
        (fpath.getD (idx2 + 2) 0 = 47 ∨ fpath.getD (idx2 + 2) 0 = 0) then
      filterLoop fuel fpath idx1 (idx2 + 1 + 1)
    else if fpath.getD idx2 0 = 47 ∧ fpath.getD (idx2 + 1) 0 = 46 ∧
        fpath.getD (idx2 + 2) 0 = 46 then
      let r := rollBack fpath idx1
      filterLoop fuel fpath (if r > 1 then r - 1 else r) (idx2 + 2 + 1)
    else if idx1 > 0 ∧ fpath.getD (idx1 - 1) 0 = 47 ∧ fpath.getD idx2 0 = 47 then
      filterLoop fuel fpath idx1 (idx2 + 1)
    else
      filterLoop fuel (store fpath idx1 (fpath.getD idx2 0)) (idx1 + 1) (idx2 + 1)

/-- The function `filter_path`, in place on the array: "/." is skipped, "/.." rolls
the result back to the previous '/', a '/' after a '/' is dropped, every other byte
is kept; at the end the result is terminated.  Each iteration moves `idx2` forward
and the loop ends at the first NUL, so `length + 1` iterations are enough. -/
def filter_path (fpath : List Nat) : Option (List Nat) :=
  (filterLoop (fpath.length + 1) fpath 0 0).map (fun r => store r.1 r.2 0)

/-- The function `concatenate_path`: `subdirectory` alone when it starts with '/',
else `base_path` and `subdirectory` joined (with a '/' unless `base_path` has length
1), written into `dst` and filtered there. -/
def concatenate_path (dst base_path subdirectory : List Nat) : Option (List Nat) :=
  let len1 := strlen base_path
  let len2 := strlen subdirectory
  if subdirectory.getD 0 0 = 47 then filter_path (memmove dst 0 subdirectory len2)
  else
    let d := memmove dst 0 base_path len1
    if len1 = 1 then filter_path (memmove d 1 subdirectory len2)
    else filter_path (memmove (store d len1 47) (len1 + 1) subdirectory len2)

/-- The loop of `is_prefix_path` from index `idx`, at most `fuel` iterations, and the
`return` after it. -/
def prefixLoop (fpath contpath : List Nat) : Nat → Nat → Option Int
  | 0, _ => none
  | fuel + 1, idx =>
    if fpath.getD idx 0 ≠ 0 ∧ contpath.getD idx 0 ≠ 0 then
      if fpath.getD idx 0 ≠ contpath.getD idx 0 then some 0
      else prefixLoop fpath contpath fuel (idx + 1)
    else
      some (if contpath.getD idx 0 = 0 ∧ (fpath.getD idx 0 = 0 ∨ fpath.getD idx 0 = 47)
        then 1 else 0)

/-- The function `is_prefix_path`.  The loop ends at the first NUL of `fpath` at the
latest, so `length + 1` iterations are enough. -/
def is_prefix_path (fpath contpath : List Nat) : Option Int :=
  if contpath.getD 0 0 = 47 ∧ contpath.getD 1 0 = 0 then some 1
  else prefixLoop fpath contpath (fpath.length + 1) 0

/-- The function `can_start_container` of cont.c; `cwd` is what `getcwd` has written
(`none` when it failed).  The result `none` is `exit()`. -/
def can_start_container (K : Params) (s : State) (cwd : Option (List Nat))
    (cont_name : List Nat) : Option Int :=
  match cwd with
  | none => none
  | some w =>
    if (getcontrootdir K s cont_name []).2 ≠ 0 then none
    else is_prefix_path w (getcontrootdir K s cont_name []).1

/-- The slot the visit of `scheduler` to container `ii` examines in state `s`:
`&cont->ptable[(cont->nextproc++) % NPROC]`; `none` when that address lies before the
process table. -/
def examined (K : Params) (s : State) (ii : Nat) : Option PRef :=
  slotAt K ii (cmod (s.cont ii).nextproc K.NPROC)

/-- The kernel state after "c1" was created, stopped while empty, and freed by a
`wait` of `initproc`. -/
def freedSt : State :=
  ((run K2 sysC1 [Op.cstop 0 c1Name, Op.wait 0]).getD sysC1).st

/-- A run with two processors: `initproc` creates and starts "c1" and forks into it,
the second processor switches to that child; `initproc` stops "c1" and calls `wait`
twice, which reaps the child and frees the container while the child is still on
its processor. -/
def traceFreedRunning : List Op :=
  [Op.visit 0, Op.ccreate 0 c1Path 9, Op.cstart 0 c1Name, Op.fork 0 300 400,
   Op.visit 1, Op.visit 1, Op.cstop 0 c1Name, Op.wait 0, Op.wait 0]

/-- The machine after `traceFreedRunning`. -/
def sysFreedRunning : Sys := (run K2 (bootSys boot2) traceFreedRunning).getD (bootSys boot2)

/-- The bytes of "/jiang/hao", the base path of the tests of path_concatenation_test.c. -/
def jiangHao : List Nat := [47, 106, 105, 97, 110, 103, 47, 104, 97, 111]

/-- The bytes of "/..x": a directory named "..x" under the root. -/
def dotdotxPath : List Nat := [47, 46, 46, 120]

/-- The states reachable from boot by steps that are admitted by `ok` in the state
they are taken in. -/
inductive ReachableVia (K : Params) (ok : Sys → Op → Bool) : Sys → Prop
  | boot (rootdir kalloc setupkvm : Nat) (st : State)
      (h : userinit K zeroState rootdir kalloc setupkvm = some st) :
      ReachableVia K ok (bootSys st)
  | step (s s1 : Sys) (op : Op) (hs : ReachableVia K ok s) (hok : ok s op = true)
      (h : step K s op = some s1) : ReachableVia K ok s1

/-- A run of steps from `s`, each admitted by `ok`. -/
def runVia (K : Params) (ok : Sys → Op → Bool) (s : Sys) : List Op → Option Sys
  | [] => some s
  | op :: ops => if ok s op then (step K s op).bind (fun s1 => runVia K ok s1 ops) else none

/-- The process that makes the call of step `op`: the one on the processor named in
the step; the scheduler's visit and `wakeup` from an interrupt have none. -/
def callerOf (K : Params) (s : Sys) : Op → Option PRef
  | Op.visit _ => none
  | Op.wakeup _ => none
  | Op.yield k => running K s k
  | Op.sleep k _ => running K s k
  | Op.tidy k => running K s k
  | Op.exit k => running K s k
  | Op.wait k => running K s k
  | Op.fork k _ _ => running K s k
  | Op.cfork k _ _ _ => running K s k
  | Op.kill k _ => running K s k
  | Op.ccreate k _ _ => running K s k
  | Op.cstart k _ => running K s k
  | Op.cpause k _ => running K s k
  | Op.cresume k _ => running K s k
  | Op.cstop k _ => running K s k

/-- The container that the lookup of a `cpause` step finds. -/
def pausedBy (K : Params) (s : Sys) : Op → Option Nat
  | Op.cpause _ cont_name => get_container_by_name K s.st cont_name
  | _ => none

/-- The container that the lookup of a `cstop` step finds. -/
def stoppedBy (K : Params) (s : Sys) : Op → Option Nat
  | Op.cstop _ cont_name => get_container_by_name K s.st cont_name
  | _ => none

/-- The step is not a `cpause` or `cstop` whose lookup finds the container of
`initproc`. -/
def sparesRoot (K : Params) (s : Sys) (op : Op) : Bool :=
  match s.st.initproc with
  | none => true
  | some r => decide (pausedBy K s op ≠ some r.1 ∧ stoppedBy K s op ≠ some r.1)

/-- Neither counter is at the largest `int`, so the next `++` does not wrap. -/
def noWrap (s : Sys) (_op : Op) : Bool :=
  decide (s.st.nextpid < 2147483647 ∧ s.st.nextcid < 2147483647)

/-- How the states of the containers and of the process slots may differ after one
kernel operation, up to the scheduler's code after `swtch`: `cur` is the caller,
`paused` and `stopped` the container found by `cpause` and by `cstop`. -/
def KStep (K : Params) (s st : State) (cur : Option PRef) (paused stopped : Option Nat) :
    Prop :=
  st.initproc = s.initproc ∧
  (∀ i, (st.cont i).state = (s.cont i).state ∨
    ((st.cont i).state = CRUNNING ∧ (s.cont i).state = CRUNNABLE) ∨
    ((st.cont i).state = CRUNNABLE ∧
      ((s.cont i).state = CREADY ∨ (s.cont i).state = CRUNNING ∨ (s.cont i).state = CPAUSED)) ∨
    ((st.cont i).state = CUNUSED ∧ (s.cont i).state = CSTOPPING) ∨
    ((st.cont i).state = CREADY ∧ (s.cont i).state = CUNUSED) ∨
    (paused = some i ∧ (st.cont i).state = CPAUSED) ∨
    (stopped = some i ∧ (st.cont i).state = CSTOPPING ∧
      ∀ j, j < K.NPROC → (st.proc i j).state ≠ RUNNING)) ∧
  (∀ i j, (st.proc i j).state = (s.proc i j).state ∨
    ((s.proc i j).state = SLEEPING ∧ (st.proc i j).state = RUNNABLE) ∨
    ((s.proc i j).state = RUNNABLE ∧ (st.proc i j).state = RUNNING) ∨
    (cur = some (i, j) ∧
      ((st.proc i j).state = RUNNABLE ∨ (st.proc i j).state = SLEEPING)) ∨
    (cur = some (i, j) ∧ s.initproc ≠ cur ∧ (st.proc i j).state = ZOMBIE) ∨
    ((s.proc i j).state = ZOMBIE ∧ (st.proc i j).state = UNUSED) ∨
    ((s.proc i j).state = UNUSED ∧ (st.proc i j).state = RUNNABLE) ∨
    (stopped = some i ∧ (st.proc i j).state = ZOMBIE))

/-- The container of `initproc` is CRUNNABLE or CRUNNING, and `initproc` is neither
a ZOMBIE nor a free slot. -/
def RootOk (s : State) : Prop :=
  ∃ r, s.initproc = some r ∧
    ((s.cont r.1).state = CRUNNABLE ∨ (s.cont r.1).state = CRUNNING) ∧
    (s.proc r.1 r.2).state ≠ ZOMBIE ∧ (s.proc r.1 r.2).state ≠ UNUSED

/-- The process a processor runs was taken by its scheduler at the container it is
at: from the row of that container, or from the row before it. -/
def CpuRow (s : Sys) : Prop :=
  ∀ k p, (s.cpu k).proc = some p → p.1 = (s.cpu k).ii ∨ p.1 + 1 = (s.cpu k).ii

/-- The machine after `initproc` has called `cstop("root container")`. -/
def sysRootStopped : Sys :=
  (run K2 (bootSys boot2) [Op.visit 0, Op.cstop 0 rootContName]).getD (bootSys boot2)

/-- The machine after `initproc` has called `cpause("root container")`. -/
def sysRootPaused : Sys :=
  (run K2 (bootSys boot2) [Op.visit 0, Op.cpause 0 rootContName]).getD (bootSys boot2)

/-- A run that pauses, resumes and stops "c1" and never names the root container:
`initproc` creates and starts "c1", forks into it, pauses and resumes it, stops it
and calls `wait`. -/
def traceSparing : List Op :=
  [Op.visit 0, Op.ccreate 0 c1Path 9, Op.cstart 0 c1Name, Op.fork 0 300 400,
   Op.cpause 0 c1Name, Op.cresume 0 c1Name, Op.cstop 0 c1Name, Op.wait 0]

/-- The machine after `traceSparing`. -/
def sysSparing : Sys :=
  (runVia K2 (sparesRoot K2) (bootSys boot2) traceSparing).getD (bootSys boot2)

/-- Pids and cids are as before, and so are the two counters. -/
def IdsKept (s st : State) : Prop :=
  st.nextpid = s.nextpid ∧ st.nextcid = s.nextcid ∧
  (∀ i j, (st.proc i j).pid = (s.proc i j).pid) ∧ (∀ i, (st.cont i).cid = (s.cont i).cid)

/-- How pids, cids and the two counters may differ after a step.  Pids: the counter
is kept and each pid is kept or cleared; or one slot is given the value of the
counter, which is incremented, and the other pids are kept.  Cids: all kept; or one
slot is given the value of the counter and freed again, the counter being
incremented and decremented; or one slot that was CUNUSED is given the value of the
counter, which is incremented. -/
def IdStep (s st : State) : Prop :=
  ((st.nextpid = s.nextpid ∧
      ∀ i j, (st.proc i j).pid = (s.proc i j).pid ∨ (st.proc i j).pid = 0) ∨
    (st.nextpid = int32 (s.nextpid + 1) ∧
      ∃ a b, (st.proc a b).pid = s.nextpid ∧
        ∀ i j, ¬ (i = a ∧ j = b) → (st.proc i j).pid = (s.proc i j).pid)) ∧
  ((st.nextcid = s.nextcid ∧ ∀ i, (st.cont i).cid = (s.cont i).cid) ∨
    (st.nextcid = int32 (int32 (s.nextcid + 1) - 1) ∧
      ∃ c, (st.cont c).cid = s.nextcid ∧ ∀ i, i ≠ c → (st.cont i).cid = (s.cont i).cid) ∨
    (st.nextcid = int32 (s.nextcid + 1) ∧
      ∃ c, (st.cont c).cid = s.nextcid ∧ (s.cont c).state = CUNUSED ∧
        ∀ i, i ≠ c → (st.cont i).cid = (s.cont i).cid))

/-- The pid counter is positive and above every pid of the table, no pid is
negative, and no two slots hold the same pid other than 0; the cid counter is
positive and no cid is above it. -/
def IdsFresh (s : State) : Prop :=
  0 < s.nextpid ∧ 0 < s.nextcid ∧
  (∀ i j, 0 ≤ (s.proc i j).pid ∧ (s.proc i j).pid < s.nextpid) ∧
  (∀ i j i' j', (s.proc i j).pid ≠ 0 → (s.proc i j).pid = (s.proc i' j').pid →
    i = i' ∧ j = j') ∧
  (∀ i, (s.cont i).cid ≤ s.nextcid)

/-! ## `extract_cont_path` of pwd.c and the argument vector of `cont_start` -/

/-- The first loop of `extract_cont_path` from index `idx`, at most `fuel`
iterations: `some none` is the `return -1` inside the loop, `some (some idx)` is the
loop ending with the index at `idx`. -/
def contPathScan (fpath cont_rootdir : List Nat) : Nat → Nat → Option (Option Nat)
  | 0, _ => none
  | fuel + 1, idx =>
    if fpath.getD idx 0 ≠ 0 ∧ cont_rootdir.getD idx 0 ≠ 0 then
      if fpath.getD idx 0 ≠ cont_rootdir.getD idx 0 then some none
      else contPathScan fpath cont_rootdir fuel (idx + 1)
    else some (some idx)

/-- The last loop of `extract_cont_path` from the state `(cont_path, idx, fidx)`, at
most `fuel` iterations: `cont_path[fidx] = fpath[idx]` up to the NUL of `fpath`. -/
def contPathCopy (fpath : List Nat) : Nat → List Nat → Nat → Nat → Option (List Nat)
  | 0, _, _, _ => none
  | fuel + 1, cont_path, idx, fidx =>
    if fpath.getD idx 0 ≠ 0 then
      contPathCopy fpath fuel (store cont_path fidx (fpath.getD idx 0)) (idx + 1) (fidx + 1)
    else some cont_path

/-- The function `extract_cont_path` of pwd.c: the array `cont_path` afterwards and
the value returned.  Both loops end at the first NUL of `fpath` at the latest, so
`length + 1` iterations are enough for each. -/
def extract_cont_path (cont_path fpath cont_rootdir : List Nat) : Option (List Nat × Int) :=
  match contPathScan fpath cont_rootdir (fpath.length + 1) 0 with
  | none => none
  | some none => some (cont_path, -1)
  | some (some idx) =>
    if fpath.getD idx 0 = 0 ∧ cont_rootdir.getD idx 0 ≠ 0 then some (cont_path, -1)
    else if fpath.getD idx 0 = 0 ∧ cont_rootdir.getD idx 0 = 0 then
      some (store cont_path 0 47, 0)
    else (contPathCopy fpath (fpath.length + 1) cont_path idx 0).map (fun c => (c, 0))

/-- The constant `MAX_ARG` of cont.c. -/
def MAX_ARG : Nat := 10

/-- The store `args[i] = v` into the array `char *args[MAX_ARG]` of `cont_start`; a
pointer is `none` when null and else the array it points to.  The result is `none`
when `i` is outside the array. -/
def setArg (args : List (Option (List Nat))) (i : Nat) (v : Option (List Nat)) :
    Option (List (Option (List Nat))) :=
  if i < args.length then some (args.set i v) else none

/-- The copy of an argument made in the first loop of `cont_start`: `len + 1` bytes
from `malloc`, the `len` bytes of the argument and the terminator. -/
def argCopy (arg : List Nat) : List Nat :=
  store (memmove [] 0 arg (strlen arg)) (strlen arg) 0

/-- The two loops of `cont_start` on the array `args`, whose contents at entry are
`args`: `for (; ii < argc; ++ii, ++jj)` from `ii = 3`, `jj = 0` stores a copy of
`argv[ii]` in `args[jj]`; then `for (; ii < MAX_ARG; ++ii)` stores a null pointer in
`args[ii]`.  The result is `none` when a store is outside the array. -/
def cont_start_args (argc : Nat) (argv : List (List Nat))
    (args : List (Option (List Nat))) : Option (List (Option (List Nat))) :=
  let a1 := forLoop (fun jj (o : Option (List (Option (List Nat)))) =>
    o.bind (fun a => setArg a jj (some (argCopy (argv.getD (3 + jj) []))))) (argc - 3)
    (some args)
  let ii := 3 + (argc - 3)
  forLoop (fun k (o : Option (List (Option (List Nat)))) =>
    o.bind (fun a => setArg a (ii + k) none)) (MAX_ARG - ii) a1

/-- The bytes of "/x". -/
def slashX : List Nat := [47, 120]

/-- The bytes of "/a". -/
def slashA : List Nat := [47, 97]

/-- The bytes of "/ab": a directory whose name begins with the name of "/a". -/
def slashAB : List Nat := [47, 97, 98]

/-- The command line `cont start c1 sh`. -/
def argvSh : List (List Nat) :=
  [[99, 111, 110, 116], [115, 116, 97, 114, 116], [99, 49], [115, 104]]

/-- An array `args` that holds ten stale pointers at entry. -/
def staleArgs : List (Option (List Nat)) := List.replicate 10 (some [33])

/-- A command line `cont start c1 a a a a a a a a a a` with ten words after the
name: `argc` is `MAX_ARG + 3`. -/
def argvFull : List (List Nat) :=
  [[99, 111, 110, 116], [115, 116, 97, 114, 116], [99, 49]] ++ List.replicate 10 [97]

/-! ## A machine on which only the cursor of the root container moves -/

/-- On the small machine: the root container is CRUNNING with its cursor at `c`, no
slot of its row is RUNNABLE, the other container is free, and the scheduler of
processor 1 is idle at the start of its loop. -/
def Spinning (s : Sys) (c : Int) : Prop :=
  (s.st.cont 0).state = CRUNNING ∧ (s.st.cont 0).nextproc = c ∧
  (∀ j, j < K2.NPROC → (s.st.proc 0 j).state ≠ RUNNABLE) ∧
  (s.st.cont 1).state = CUNUSED ∧ (s.cpu 1).proc = none ∧ (s.cpu 1).ii = 0

/-! ## Calls of live processes, and the pieces of calls that hold different locks -/

/-- The caller of the step (if it has one) has a slot that is RUNNING, or a ZOMBIE
that `cstop` marked while the process was on its processor: `wait` has not reaped the
slot and freed the kernel stack the process runs on. -/
def live (K : Params) (s : Sys) (op : Op) : Bool :=
  match callerOf K s op with
  | none => true
  | some p =>
    decide ((s.st.proc p.1 p.2).state = RUNNING ∨ (s.st.proc p.1 p.2).state = ZOMBIE)

/-- The loop of `cstop` over the row of the container found (run under `ctable.lock`
only): every slot that is not UNUSED gets `parent = initproc` and becomes ZOMBIE. -/
def cstopMark (K : Params) (s : State) (c : Nat) : State :=
  forLoop (fun ii t =>
    if (t.proc c ii).state ≠ UNUSED then
      t.setProc c ii { t.proc c ii with parent := t.initproc, state := ZOMBIE }
    else t) K.NPROC s

/-- The lines of `cstop` after its loop: `cont->state = CSTOPPING` and the reset of
`curcont`. -/
def cstopFinish (s : State) (c : Nat) : State :=
  { s.setCont c { s.cont c with state := CSTOPPING } with
    curcont := if s.curcont = some c then none else s.curcont }

/-- The function `ccreate` down to the return of `alloccont`: the slot taken and the
name extracted, or `none` when `ccreate` returns -1 before.  `alloccont` holds
`ctable.lock` and releases it before it returns. -/
def ccreateAlloc (K : Params) (s : State) (fpath : List Nat) :
    State × Option (Nat × List Nat) :=
  match extract_container_name fpath with
  | none => (s, none)
  | some cont_name =>
    if (get_container_by_name K s cont_name).isSome then (s, none)
    else
      match alloccont K s with
      | (s1, none) => (s1, none)
      | (s1, some c) => (s1, some (c, cont_name))

/-- The function `ccreate` after `namei` (which runs with no lock held): when `namei`
failed, `--nextcid; cont->state = CUNUSED` without a lock; otherwise the fields of
the slot are set under `ctable.lock`. -/
def ccreateFinish (s : State) (c : Nat) (cont_name fpath : List Nat) (namei : Nat) :
    State × Int :=
  if namei = 0 then
    ({ s.setCont c { s.cont c with state := CUNUSED } with
       nextcid := int32 (s.nextcid - 1) }, -1)
  else
    (s.setCont c
      { s.cont c with
        rootdir := namei, rootpath := safestrcpy fpath 200, state := CREADY,
        nextproc := 0, name := safestrcpy cont_name 16 }, 0)

/-- A run with two processors: `initproc` is switched to, creates and starts "c1"
and forks into it; the scheduler of the second processor passes the root container
and stands at "c1". -/
def traceAtC1 : List Op :=
  [Op.visit 0, Op.ccreate 0 c1Path 9, Op.cstart 0 c1Name, Op.fork 0 300 400, Op.visit 1]

/-- The machine after `traceAtC1`. -/
def sysAtC1 : Sys := (run K2 (bootSys boot2) traceAtC1).getD (bootSys boot2)

/-- The kernel state of `sysAtC1` after the scheduler of the second processor has
tested the state of "c1" and of the slot its cursor gives (`schedChoose`). -/
def chosenSt : State := ((schedChoose K2 sysAtC1.st 1).getD (sysAtC1.st, none)).1

/-- The kernel state `chosenSt` after `initproc` has called `cpause("c1")` on the
first processor. -/
def pausedMeanwhileSt : State := (cpause K2 chosenSt c1Name).1

/-- The kernel state `pausedMeanwhileSt` after the scheduler of the second processor
has gone on to `p->state = RUNNING; cont->state = CRUNNING`. -/
def pauseRaceSt : State := schedSwitch pausedMeanwhileSt 1 (1, 0)

/-- The kernel state `chosenSt` after the loop of `cstop("c1")`, called by `initproc`
on the first processor, then `p->state = RUNNING; cont->state = CRUNNING` of the
scheduler of the second processor, then the lines of `cstop` after its loop. -/
def stopRaceSt : State := cstopFinish (schedSwitch (cstopMark K2 chosenSt 1) 1 (1, 0)) 1

/-- What happens between `swtch` to the process in slot 0 of row 1 and the switch
back, in the scheduler pass below: `initproc` calls `cstop("c1")`; the process,
marked ZOMBIE but still on its processor, calls `wait` and then `exit`. -/
def envStopWaitExit (_ii : Nat) (t : State) : State :=
  (exit K2 (wait K2 (cstop K2 t c1Name).1 (1, 0)).1 (1, 0)).getD t

/-- The kernel state of `sysAtC1` after the visit of "c1" by the scheduler of the
second processor and then `envStopWaitExit`: the state in which `swtch` comes back. -/
def backFromExitSt : State :=
  envStopWaitExit 1 ((schedVisit K2 sysAtC1.st 1).getD (sysAtC1.st, none)).1

/-- A run with two processors in which every call is made by a live process:
`initproc` creates and starts "c1" and forks into it, the second processor switches
to that child; `initproc` stops "c1"; the child, now marked ZOMBIE, calls `wait`,
which frees "c1"; `initproc` creates "c1" again; the child calls `fork`; `initproc`
calls `wait`, which reaps the child. -/
def traceLateFork : List Op :=
  [Op.visit 0, Op.ccreate 0 c1Path 9, Op.cstart 0 c1Name, Op.fork 0 300 400,
   Op.visit 1, Op.visit 1, Op.cstop 0 c1Name, Op.wait 1, Op.ccreate 0 c1Path 9,
   Op.fork 1 500 600, Op.wait 0]

/-- The machine after `traceLateFork`. -/
def sysLateFork : Sys :=
  (runVia K2 (live K2) (bootSys boot2) traceLateFork).getD (bootSys boot2)

/-- The bytes of "/x". -/
def xPath : List Nat := [47, 120]

/-- The bytes of "x". -/
def xName : List Nat := [120]

/-- The bytes of "/c2". -/
def c2Path : List Nat := [47, 99, 50]

/-- The bytes of "/c10". -/
def c10Path : List Nat := [47, 99, 49, 48]

/-- The bytes of "c10". -/
def c10Name : List Nat := [99, 49, 48]

/-- A run with three container slots: `initproc` creates "x" (slot 1) and "c1"
(slot 2), stops "x" and frees it with `wait`, and creates "c10", which takes slot 1. -/
def traceC10 : List Op :=
  [Op.visit 0, Op.ccreate 0 xPath 7, Op.ccreate 0 c1Path 9, Op.cstop 0 xName, Op.wait 0,
   Op.ccreate 0 c10Path 8]

/-- The machine after `traceC10`. -/
def sysC10 : Sys := (run K3 (bootSys boot3) traceC10).getD (bootSys boot3)

/-- A run with three container slots: `initproc` is switched to and forks a child in
the root container, and the second processor switches to the child. -/
def traceTwoCallers : List Op := [Op.visit 0, Op.fork 0 300 400, Op.visit 1]

/-- The machine after `traceTwoCallers`: a process on each processor. -/
def sysTwoCallers : Sys := (run K3 (bootSys boot3) traceTwoCallers).getD (bootSys boot3)

/-- Two calls of `ccreate` at the same time.  `initproc` calls `ccreate("/x")`, a
path with no inode, and has come back from `alloccont`. -/
def raceA1 : State := (ccreateAlloc K3 sysTwoCallers.st xPath).1

/-- Then the child calls `ccreate("/c1")` and has come back from `alloccont`. -/
def raceB1 : State := (ccreateAlloc K3 raceA1 c1Path).1

/-- Then `namei` fails in the call of `initproc`, which gives its slot 1 back. -/
def raceA2 : State := (ccreateFinish raceB1 1 xName xPath 0).1

/-- Then the call of the child sets the fields of its slot 2. -/
def raceB2 : State := (ccreateFinish raceA2 2 c1Name c1Path 9).1

/-- Then `initproc` calls `ccreate("/c2")`, which runs to its end. -/
def raceC : State := (ccreate K3 raceB2 c2Path 8).1

/-- A run with two processors: `initproc` is switched to and forks a child in the
root container (slot 1 of row 0), creates and starts "c1", in which no process runs,
and pauses the root container by its name. -/
def traceBesidePaused : List Op :=
  [Op.visit 0, Op.fork 0 300 400, Op.ccreate 0 c1Path 9, Op.cstart 0 c1Name,
   Op.cpause 0 rootContName]

/-- The machine after `traceBesidePaused`. -/
def sysBesidePaused : Sys := (run K2 (bootSys boot2) traceBesidePaused).getD (bootSys boot2)

/-- On the small machine: the root container is CPAUSED and its slot 1 is RUNNABLE;
"c1" is CRUNNABLE with its cursor at `c` and no slot of its row is RUNNABLE; the
scheduler of processor 1 is idle at the start of its loop. -/
def SpinningBesidePaused (s : Sys) (c : Int) : Prop :=
  (s.st.cont 0).state = CPAUSED ∧ (s.st.proc 0 1).state = RUNNABLE ∧
  (s.st.cont 1).state = CRUNNABLE ∧ (s.st.cont 1).nextproc = c ∧
  (∀ j, j < K2.NPROC → (s.st.proc 1 j).state ≠ RUNNABLE) ∧
  (s.cpu 1).proc = none ∧ (s.cpu 1).ii = 0

/-! # Properties -/

/-! ## Basic facts: stores and loops -/

@[simp] theorem setProc_proc (s : State) (c p : Nat) (v : Proc) (i j : Nat) :
    (s.setProc c p v).proc i j = if i = c ∧ j = p then v else s.proc i j := rfl

@[simp] theorem setProc_cont (s : State) (c p : Nat) (v : Proc) : (s.setProc c p v).cont = s.cont := rfl

@[simp] theorem setProc_initproc (s : State) (c p : Nat) (v : Proc) :
    (s.setProc c p v).initproc = s.initproc := rfl

@[simp] theorem setProc_curcont (s : State) (c p : Nat) (v : Proc) :
    (s.setProc c p v).curcont = s.curcont := rfl

@[simp] theorem setProc_nextcid (s : State) (c p : Nat) (v : Proc) :
    (s.setProc c p v).nextcid = s.nextcid := rfl

@[simp] theorem setProc_nextpid (s : State) (c p : Nat) (v : Proc) :
    (s.setProc c p v).nextpid = s.nextpid := rfl

@[simp] theorem setCont_cont (s : State) (c : Nat) (v : Container) (i : Nat) :
    (s.setCont c v).cont i = if i = c then v else s.cont i := rfl

@[simp] theorem setCont_proc (s : State) (c : Nat) (v : Container) : (s.setCont c v).proc = s.proc := rfl

@[simp] theorem setCont_initproc (s : State) (c : Nat) (v : Container) :
    (s.setCont c v).initproc = s.initproc := rfl

@[simp] theorem setCont_curcont (s : State) (c : Nat) (v : Container) :
    (s.setCont c v).curcont = s.curcont := rfl

@[simp] theorem setCont_nextcid (s : State) (c : Nat) (v : Container) :
    (s.setCont c v).nextcid = s.nextcid := rfl

@[simp] theorem setCont_nextpid (s : State) (c : Nat) (v : Container) :
    (s.setCont c v).nextpid = s.nextpid := rfl

/-- A property kept by every iteration is kept by the loop. -/
theorem forLoop_inv {σ : Type} (body : Nat → σ → σ) (P : σ → Prop)
    (hb : ∀ i s, P s → P (body i s)) (n : Nat) (s : σ) (h : P s) : P (forLoop body n s) := by
  induction n with
  | zero => exact h
  | succ n ih => exact hb n _ ih

theorem firstIdx_succ (p : Nat → Bool) (n : Nat) :
    firstIdx p (n + 1) =
      match firstIdx p n with
      | some r => some r
      | none => if p n then some n else none := by
  unfold firstIdx
  simp only [forLoopRet]
  rcases h : forLoopRet (fun i (u : Unit) => (u, if p i then some i else none)) n () with ⟨u, o⟩
  cases o <;> simp

/-- The search finds nothing exactly when no index below `n` qualifies. -/
theorem firstIdx_eq_none (p : Nat → Bool) (n : Nat) :
    firstIdx p n = none ↔ ∀ i, i < n → p i = false := by
  induction n with
  | zero => simp [firstIdx, forLoopRet]
  | succ n ih =>
    rw [firstIdx_succ]
    cases h : firstIdx p n with
    | some r =>
      constructor
      · intro h1; cases h1
      · intro hall
        have h2 : firstIdx p n = none := ih.mpr (fun i hi => hall i (Nat.lt_succ_of_lt hi))
        rw [h] at h2
        cases h2
    | none =>
      have hn := ih.mp h
      cases hp : p n with
      | true =>
        constructor
        · intro h1; simp at h1
        · intro hall
          have h2 := hall n (Nat.lt_succ_self n)
          rw [hp] at h2
          cases h2
      | false =>
        constructor
        · intro _ i hi
          rcases Nat.lt_succ_iff_lt_or_eq.mp hi with h1 | h1
          · exact hn i h1
          · rw [h1]; exact hp
        · intro _; simp

/-- The search returns the least qualifying index below `n`. -/
theorem firstIdx_eq_some (p : Nat → Bool) (n i : Nat) :
    firstIdx p n = some i ↔ i < n ∧ p i = true ∧ ∀ j, j < i → p j = false := by
  induction n generalizing i with
  | zero => simp [firstIdx, forLoopRet]
  | succ n ih =>
    rw [firstIdx_succ]
    cases h : firstIdx p n with
    | some r =>
      obtain ⟨hr1, hr2, hr3⟩ := (ih r).mp h
      constructor
      · intro h1
        cases h1
        exact ⟨Nat.lt_succ_of_lt hr1, hr2, hr3⟩
      · rintro ⟨_, hi2, hi3⟩
        rcases Nat.lt_trichotomy i r with h1 | h1 | h1
        · rw [hr3 i h1] at hi2; cases hi2
        · rw [h1]
        · rw [hi3 r h1] at hr2; cases hr2
    | none =>
      have hn := (firstIdx_eq_none p n).mp h
      cases hp : p n with
      | true =>
        constructor
        · intro h1
          simp only [if_true, Option.some.injEq] at h1
          subst h1
          exact ⟨Nat.lt_succ_self _, hp, hn⟩
        · rintro ⟨hi1, hi2, _⟩
          rcases Nat.lt_succ_iff_lt_or_eq.mp hi1 with h1 | h1
          · rw [hn i h1] at hi2; cases hi2
          · simp [h1]
      | false =>
        constructor
        · intro h1; simp at h1
        · rintro ⟨hi1, hi2, _⟩
          rcases Nat.lt_succ_iff_lt_or_eq.mp hi1 with h1 | h1
          · rw [hn i h1] at hi2; cases hi2
          · rw [h1, hp] at hi2; cases hi2

/-! ## Lookup by name (C2) and by cid (C9) -/

/-- C2, the code at the failing input: with the containers "root container" and "c1"
in the table, the lookup of the key "c" returns the slot of "c1", whose name is not
"c"; the lookup of the empty key returns the root container; and `cstop("c")`
succeeds and stops "c1". -/
theorem get_container_by_name_matches_longer_name :
    get_container_by_name K2 sysC1.st cName = some 1 ∧
    (sysC1.st.cont 1).name = c1Name ∧ (sysC1.st.cont 1).name ≠ cName ∧
    (sysC1.st.cont 0).name ≠ cName ∧
    get_container_by_name K2 sysC1.st [] = some 0 ∧
    (cstop K2 sysC1.st cName).2 = 0 ∧
    ((cstop K2 sysC1.st cName).1.cont 1).state = CSTOPPING := by
  decide

/-- C9, the code at the failing input: no container has cid 99, yet `cfork(99)`
called by `initproc` returns the pid 2 and leaves a new RUNNABLE process in the
slot that was UNUSED. -/
theorem cfork_unknown_cid_forks :
    get_container_by_cid K2 sysInit.st 99 = none ∧
    (sysInit.st.proc 0 1).state = UNUSED ∧
    (cfork K2 sysInit.st (0, 0) 99 300 400).map
      (fun r => (r.2, (r.1.proc 0 1).state, (r.1.proc 0 1).pid)) = some (2, RUNNABLE, 2) := by
  decide

/-! ## cstop (C3) -/

/-- The loop of `cstop` over the first `n` slots of row `c`. -/
theorem cstop_loop (s : State) (c n : Nat) :
    let t := forLoop (fun ii t =>
      if (t.proc c ii).state ≠ UNUSED then
        t.setProc c ii { t.proc c ii with parent := t.initproc, state := ZOMBIE }
      else t) n s
    t.cont = s.cont ∧ t.initproc = s.initproc ∧ t.curcont = s.curcont ∧
    t.nextcid = s.nextcid ∧ t.nextpid = s.nextpid ∧
    ∀ i j, t.proc i j =
      if i = c ∧ j < n ∧ (s.proc c j).state ≠ UNUSED then
        { s.proc c j with parent := s.initproc, state := ZOMBIE }
      else s.proc i j := by
  induction n with
  | zero => simp [forLoop]
  | succ n ih =>
    simp only [forLoop]
    generalize forLoop _ n s = T at ih ⊢
    obtain ⟨h1, h2, h3, h4, h5, h6⟩ := ih
    have hn : T.proc c n = s.proc c n := by
      rw [h6]; simp
    by_cases hne : (T.proc c n).state ≠ UNUSED
    · rw [if_pos hne]
      refine ⟨h1, h2, h3, h4, h5, ?_⟩
      intro i j
      rw [hn] at hne
      simp only [setProc_proc, h6, h2, hn]
      by_cases hi : i = c
      · by_cases hj : j = n
        · subst hi; subst hj
          simp [hne]
        · subst hi
          have : j < n + 1 ↔ j < n := by omega
          simp [hj, this]
      · simp [hi]
    · rw [if_neg hne]
      refine ⟨h1, h2, h3, h4, h5, ?_⟩
      intro i j
      rw [h6]
      rw [hn] at hne
      by_cases hi : i = c
      · by_cases hj : j = n
        · subst hi; subst hj
          simp [hne]
        · have : j < n + 1 ↔ j < n := by omega
          simp [hi, this]
      · simp [hi]

/-- C3: when `cstop(name)` succeeds it has found a container `c` for the name, and
afterwards every slot of `c` that was not UNUSED is ZOMBIE with `initproc` as parent
(nothing else of the slot changes), every UNUSED slot of `c` is as it was, `c` is
CSTOPPING, `curcont` is null when it pointed at `c` and is otherwise unchanged, and
no process slot and no container outside `c` is modified. -/
theorem cstop_effect (K : Params) (s : State) (cont_name : List Nat)
    (h : (cstop K s cont_name).2 = 0) :
    ∃ c, get_container_by_name K s cont_name = some c ∧ c < K.NCONT ∧
      (∀ j, j < K.NPROC → (s.proc c j).state ≠ UNUSED →
        ((cstop K s cont_name).1.proc c j).state = ZOMBIE ∧
        ((cstop K s cont_name).1.proc c j).parent = s.initproc ∧
        (cstop K s cont_name).1.proc c j =
          { s.proc c j with parent := s.initproc, state := ZOMBIE }) ∧
      (∀ j, (s.proc c j).state = UNUSED →
        ((cstop K s cont_name).1.proc c j).state = UNUSED ∧
        (cstop K s cont_name).1.proc c j = s.proc c j) ∧
      ((cstop K s cont_name).1.cont c).state = CSTOPPING ∧
      (cstop K s cont_name).1.curcont = (if s.curcont = some c then none else s.curcont) ∧
      (∀ i j, i ≠ c → (cstop K s cont_name).1.proc i j = s.proc i j) ∧
      (∀ i, i ≠ c → (cstop K s cont_name).1.cont i = s.cont i) := by
  unfold cstop at h ⊢
  cases hl : get_container_by_name K s cont_name with
  | none => rw [hl] at h; simp at h
  | some c =>
    simp only []
    have hc : c < K.NCONT := ((firstIdx_eq_some _ _ _).mp hl).1
    obtain ⟨h1, h2, h3, h4, h5, h6⟩ := cstop_loop s c K.NPROC
    refine ⟨c, rfl, hc, ?_, ?_, ?_, ?_, ?_, ?_⟩
    · intro j hj hne
      have : (cstopAt K s c).proc c j =
          { s.proc c j with parent := s.initproc, state := ZOMBIE } := by
        simp only [cstopAt, setCont_proc]
        rw [h6]; simp [hj, hne]
      rw [this]
      exact ⟨rfl, rfl, rfl⟩
    · intro j hu
      have : (cstopAt K s c).proc c j = s.proc c j := by
        simp only [cstopAt, setCont_proc]
        rw [h6]; simp [hu]
      rw [this]
      exact ⟨hu, rfl⟩
    · simp [cstopAt]
    · simp only [cstopAt, h3]
    · intro i j hi
      simp only [cstopAt, setCont_proc]
      rw [h6]; simp [hi]
    · intro i hi
      simp only [cstopAt, setCont_cont, if_neg hi, h1]

/-- Witness of C3: `cstop("c1")` on the machine whose container "c1" holds a process. -/
theorem cstop_effect_witness :
    (cstop K2 sysC1Proc.st c1Name).2 = 0 ∧
    ∃ c, get_container_by_name K2 sysC1Proc.st c1Name = some c ∧
      ((cstop K2 sysC1Proc.st c1Name).1.cont c).state = CSTOPPING :=
  ⟨by decide, (cstop_effect K2 sysC1Proc.st c1Name (by decide)).imp
    (fun _ hc => ⟨hc.1, hc.2.2.2.2.1⟩)⟩

/-! ## allocproc and fork (C7, C8) -/

/-- `allocproc` refuses a container that is not CREADY, CRUNNABLE or CRUNNING and
changes nothing. -/
theorem allocproc_refuses (K : Params) (s : State) (c kalloc : Nat) (h : ¬ Allocatable s c) :
    allocproc K s c kalloc = (s, none) := by
  unfold allocproc
  have : (s.cont c).state ≠ CREADY ∧ (s.cont c).state ≠ CRUNNABLE ∧ (s.cont c).state ≠ CRUNNING := by
    unfold Allocatable at h
    push_neg at h
    exact h
  rw [if_pos this]

/-- `allocproc` fails on a full row and changes nothing. -/
theorem allocproc_full (K : Params) (s : State) (c kalloc : Nat)
    (h : ∀ j, j < K.NPROC → (s.proc c j).state ≠ UNUSED) :
    allocproc K s c kalloc = (s, none) := by
  unfold allocproc
  split
  · rfl
  · have : firstIdx (fun j => decide ((s.proc c j).state = UNUSED)) K.NPROC = none := by
      rw [firstIdx_eq_none]
      intro i hi
      simpa using h i hi
    rw [this]

/-- What `allocproc` does, by cases on its result. -/
theorem allocproc_spec (K : Params) (s : State) (c kalloc : Nat) :
    (∃ s1, allocproc K s c kalloc = (s1, none) ∧ s1.cont = s.cont ∧ s1.initproc = s.initproc ∧
        s1.curcont = s.curcont ∧ s1.nextcid = s.nextcid ∧
        (∀ i j, (s1.proc i j).state = (s.proc i j).state) ∧
        (∀ i j, (s1.proc i j).parent = (s.proc i j).parent) ∧
        (kalloc ≠ 0 → s1 = s)) ∨
    (∃ j, allocproc K s c kalloc =
        ({ s.setProc c j { s.proc c j with
              state := EMBRYO, pid := s.nextpid, kstack := kalloc, cont := some c } with
            nextpid := int32 (s.nextpid + 1) }, some (c, j)) ∧
        kalloc ≠ 0 ∧ Allocatable s c ∧ j < K.NPROC ∧ (s.proc c j).state = UNUSED ∧
        ∀ j', j' < j → (s.proc c j').state ≠ UNUSED) := by
  unfold allocproc
  split
  · exact Or.inl ⟨s, rfl, rfl, rfl, rfl, rfl, fun _ _ => rfl, fun _ _ => rfl, fun _ => rfl⟩
  · rename_i hst
    cases hf : firstIdx (fun j => decide ((s.proc c j).state = UNUSED)) K.NPROC with
    | none => exact Or.inl ⟨s, rfl, rfl, rfl, rfl, rfl, fun _ _ => rfl, fun _ _ => rfl, fun _ => rfl⟩
    | some j =>
      obtain ⟨hj, hu, hmin⟩ := (firstIdx_eq_some _ _ _).mp hf
      simp only [decide_eq_true_eq, decide_eq_false_iff_not] at hu hmin
      by_cases hk : kalloc = 0
      · left
        simp only [hk, if_true]
        refine ⟨_, rfl, rfl, rfl, rfl, rfl, ?_, ?_, fun h => absurd rfl h⟩
        · intro i j'
          simp only [setProc_proc]
          by_cases hij : i = c ∧ j' = j
          · obtain ⟨rfl, rfl⟩ := hij
            simp [hu]
          · simp [hij]
        · intro i j'
          simp only [setProc_proc]
          by_cases hij : i = c ∧ j' = j
          · obtain ⟨rfl, rfl⟩ := hij
            simp
          · simp [hij]
      · right
        refine ⟨j, ?_, hk, ?_, hj, hu, hmin⟩
        · simp only [hk, if_false]
          congr 1
          simp only [State.setProc]
          congr 1
          funext i j'
          by_cases hij : i = c ∧ j' = j
          · simp [hij]
          · simp [hij]
        · unfold Allocatable
          by_contra hcon
          push_neg at hcon
          exact hst hcon

/-- C7: a successful `fork(target)` (a result other than -1, the pid counter being
positive) has put the child in a slot `j` of the container `c` chosen by the rule
(the target with parent `initproc` when a target is given; else `curcont` with
parent `initproc` when it is set; else the caller's container with the caller as
parent); `j` is the first UNUSED slot of `c`; the child is RUNNABLE, its container
field is `c`, its parent is the chosen one, and the value returned is its pid, which
is positive; no other slot is touched. -/
theorem fork_chooses_container_and_parent (K : Params) (s s1 : State) (curproc : PRef)
    (parentcont : Option Nat) (kalloc copyuvm : Nat) (r : Int)
    (hpid : 0 < s.nextpid)
    (hf : fork K s curproc parentcont kalloc copyuvm = some (s1, r)) (hr : r ≠ -1) :
    ∃ c parent j,
      (∀ t, parentcont = some t → c = t ∧ parent = s.initproc) ∧
      (parentcont = none → ∀ cc, s.curcont = some cc → c = cc ∧ parent = s.initproc) ∧
      (parentcont = none → s.curcont = none →
        (s.proc curproc.1 curproc.2).cont = some c ∧ parent = some curproc) ∧
      Allocatable s c ∧ j < K.NPROC ∧ (s.proc c j).state = UNUSED ∧
      (∀ j', j' < j → (s.proc c j').state ≠ UNUSED) ∧
      (s1.proc c j).state = RUNNABLE ∧ (s1.proc c j).cont = some c ∧
      (s1.proc c j).parent = parent ∧ (s1.proc c j).pid = r ∧ 0 < r ∧
      (∀ i j', ¬ (i = c ∧ j' = j) → s1.proc i j' = s.proc i j') ∧
      s1.cont = s.cont := by
  unfold fork at hf
  have hchoice : forkChoice s curproc parentcont =
      ((forkChoice s curproc parentcont).1, (forkChoice s curproc parentcont).2) := rfl
  rw [hchoice] at hf
  cases hc : (forkChoice s curproc parentcont).1 with
  | none => rw [hc] at hf; simp at hf
  | some c =>
    rw [hc] at hf
    simp only [] at hf
    have hrule : (∀ t, parentcont = some t → c = t ∧ (forkChoice s curproc parentcont).2 = s.initproc) ∧
        (parentcont = none → ∀ cc, s.curcont = some cc →
          c = cc ∧ (forkChoice s curproc parentcont).2 = s.initproc) ∧
        (parentcont = none → s.curcont = none →
          (s.proc curproc.1 curproc.2).cont = some c ∧
          (forkChoice s curproc parentcont).2 = some curproc) := by
      unfold forkChoice at hc ⊢
      refine ⟨?_, ?_, ?_⟩
      · intro t ht
        subst ht
        simp at hc
        exact ⟨hc.symm, rfl⟩
      · intro hn cc hcc
        subst hn
        simp only [hcc] at hc ⊢
        simp at hc
        exact ⟨hc.symm, trivial⟩
      · intro hn hcn
        subst hn
        simp only [hcn] at hc ⊢
        exact ⟨hc, trivial⟩
    rcases allocproc_spec K s c kalloc with ⟨s2, ha, _⟩ | ⟨j, ha, hk, hal, hj, hu, hmin⟩
    · rw [ha] at hf
      simp at hf
      exact absurd hf.2.symm hr
    · rw [ha] at hf
      simp only [] at hf
      by_cases hcp : copyuvm = 0
      · simp [hcp] at hf
        exact absurd hf.2.symm hr
      · simp only [hcp, if_false, Option.some.injEq, Prod.mk.injEq] at hf
        obtain ⟨hs1, hr1⟩ := hf
        subst hs1
        refine ⟨c, (forkChoice s curproc parentcont).2, j, hrule.1, hrule.2.1, hrule.2.2,
          hal, hj, hu, hmin, ?_, ?_, ?_, ?_, ?_, ?_, ?_⟩
        · simp
        · simp
        · simp
        · rw [← hr1]; simp
        · rw [← hr1]; simpa using hpid
        · intro i j' hij
          simp [hij]
        · simp

/-- Witness of C7: `fork(0)` by `initproc` right after boot returns pid 2. -/
theorem fork_chooses_container_and_parent_witness :
    0 < sysInit.st.nextpid ∧
    fork K2 sysInit.st (0, 0) none 300 400 = some (forkedSt, 2) ∧
    ∃ c parent j, (sysInit.st.proc (0, 0).1 (0, 0).2).cont = some c ∧ parent = some (0, 0) ∧
      (forkedSt.proc c j).state = RUNNABLE ∧ (forkedSt.proc c j).parent = parent ∧
      (forkedSt.proc c j).pid = 2 :=
  ⟨by decide, rfl,
    (fork_chooses_container_and_parent K2 sysInit.st forkedSt (0, 0) none 300 400 2
      (by decide) rfl (by decide)).imp
      (fun _ hc => hc.imp (fun _ hp => hp.imp (fun _ hj =>
        ⟨(hj.2.2.1 rfl rfl).1, (hj.2.2.1 rfl rfl).2, hj.2.2.2.2.2.2.2.1, hj.2.2.2.2.2.2.2.2.2.1,
          hj.2.2.2.2.2.2.2.2.2.2.1⟩)))⟩

/-- C8: (a) a `fork` whose chosen container is not CREADY, CRUNNABLE or CRUNNING, or
has no UNUSED slot, returns -1 and changes nothing; (b) whenever `fork` returns -1,
no slot has been left in EMBRYO (a slot that is EMBRYO afterwards was EMBRYO before);
(c) when `kalloc` or `copyuvm` fails, `fork` returns -1 and every slot has the state
it had; (d) `cfork` is `fork` with the container found for the cid as target, so the
same holds for it. -/
theorem fork_failure_leaves_slots (K : Params) (s : State) (curproc : PRef)
    (parentcont : Option Nat) (kalloc copyuvm : Nat) :
    (∀ c, (forkChoice s curproc parentcont).1 = some c →
      (¬ Allocatable s c ∨ ∀ j, j < K.NPROC → (s.proc c j).state ≠ UNUSED) →
      fork K s curproc parentcont kalloc copyuvm = some (s, -1)) ∧
    (∀ s1 r, fork K s curproc parentcont kalloc copyuvm = some (s1, r) → r = -1 →
      ∀ i j, (s1.proc i j).state = EMBRYO → (s.proc i j).state = EMBRYO) ∧
    (∀ s1 r, fork K s curproc parentcont kalloc copyuvm = some (s1, r) →
      (kalloc = 0 ∨ copyuvm = 0) →
      r = -1 ∧ ∀ i j, (s1.proc i j).state = (s.proc i j).state) ∧
    (∀ cid, cfork K s curproc cid kalloc copyuvm =
      fork K s curproc (get_container_by_cid K s cid) kalloc copyuvm) := by
  have hchoice : forkChoice s curproc parentcont =
      ((forkChoice s curproc parentcont).1, (forkChoice s curproc parentcont).2) := rfl
  refine ⟨?_, ?_, ?_, ?_⟩
  · intro c hc hbad
    unfold fork
    rw [hchoice, hc]
    simp only []
    have : allocproc K s c kalloc = (s, none) := by
      rcases hbad with h | h
      · exact allocproc_refuses K s c kalloc h
      · exact allocproc_full K s c kalloc h
    rw [this]
  · intro s1 r hf _ i j
    unfold fork at hf
    rw [hchoice] at hf
    cases hc : (forkChoice s curproc parentcont).1 with
    | none => rw [hc] at hf; simp at hf
    | some c =>
      rw [hc] at hf
      simp only [] at hf
      rcases allocproc_spec K s c kalloc with ⟨s2, ha, _, _, _, _, hst, _⟩ | ⟨j0, ha, hk, hal, hj, hu, hmin⟩
      · rw [ha] at hf
        simp only [Option.some.injEq, Prod.mk.injEq] at hf
        rw [← hf.1, hst]
        exact id
      · rw [ha] at hf
        simp only [] at hf
        by_cases hcp : copyuvm = 0
        · simp only [hcp, if_true, Option.some.injEq, Prod.mk.injEq] at hf
          rw [← hf.1]
          by_cases hij : i = c ∧ j = j0
          · simp [hij]
          · simp [hij]
        · simp only [hcp, if_false, Option.some.injEq, Prod.mk.injEq] at hf
          rw [← hf.1]
          by_cases hij : i = c ∧ j = j0
          · simp [hij]
          · simp [hij]
  · intro s1 r hf hfail
    unfold fork at hf
    rw [hchoice] at hf
    cases hc : (forkChoice s curproc parentcont).1 with
    | none => rw [hc] at hf; simp at hf
    | some c =>
      rw [hc] at hf
      simp only [] at hf
      rcases allocproc_spec K s c kalloc with ⟨s2, ha, _, _, _, _, hst, _⟩ | ⟨j0, ha, hk, hal, hj, hu, hmin⟩
      · rw [ha] at hf
        simp only [Option.some.injEq, Prod.mk.injEq] at hf
        rw [← hf.1, ← hf.2]
        exact ⟨rfl, hst⟩
      · rw [ha] at hf
        simp only [] at hf
        have hcp : copyuvm = 0 := by
          rcases hfail with h | h
          · exact absurd h hk
          · exact h
        simp only [hcp, if_true, Option.some.injEq, Prod.mk.injEq] at hf
        rw [← hf.1, ← hf.2]
        refine ⟨rfl, ?_⟩
        intro i j
        by_cases hij : i = c ∧ j = j0
        · obtain ⟨rfl, rfl⟩ := hij
          simp [hu]
        · simp [hij]
  · intro cid
    simp [cfork, ptrBelowNull]

/-- Witness of C8: a `fork` into the paused container "c1" returns -1 and changes nothing. -/
theorem fork_failure_leaves_slots_witness :
    (forkChoice pausedSt (0, 0) (some 1)).1 = some 1 ∧ ¬ Allocatable pausedSt 1 ∧
    fork K2 pausedSt (0, 0) (some 1) 300 400 = some (pausedSt, -1) :=
  ⟨rfl, by decide,
    (fork_failure_leaves_slots K2 pausedSt (0, 0) (some 1) 300 400).1 1 rfl (Or.inl (by decide))⟩

/-! ## wait (C10, C4) -/

theorem State.ext_fields (a b : State) (h1 : a.proc = b.proc) (h2 : a.cont = b.cont)
    (h3 : a.initproc = b.initproc) (h4 : a.curcont = b.curcont) (h5 : a.nextcid = b.nextcid)
    (h6 : a.nextpid = b.nextpid) : a = b := by
  cases a; cases b
  simp only [State.mk.injEq]
  exact ⟨h1, h2, h3, h4, h5, h6⟩

/-- The inner loop of `wait` over the first `n` slots of row `ii`. -/
theorem waitProcs_loop (cur : PRef) (ii : Nat) (s : State) (hk : Bool) (n : Nat) :
    forLoopRet (waitSlot cur ii) n (s, hk) =
    match firstIdx (zombieChild s cur ii) n with
    | some j => ((reap s ii j, true), some (s.proc ii j).pid)
    | none =>
      ((s, hk || (firstIdx (fun j => decide ((s.proc ii j).parent = some cur)) n).isSome), none) := by
  induction n with
  | zero => simp [forLoopRet, firstIdx]
  | succ n ih =>
    simp only [forLoopRet]
    rw [ih, firstIdx_succ (zombieChild s cur ii), firstIdx_succ (fun j => decide ((s.proc ii j).parent = some cur))]
    cases hz : firstIdx (zombieChild s cur ii) n with
    | some j => simp
    | none =>
      simp only []
      by_cases hp : (s.proc ii n).parent = some cur
      · by_cases hzs : (s.proc ii n).state = ZOMBIE
        · simp [waitSlot, zombieChild, hp, hzs]
        · simp only [waitSlot, zombieChild, hp, hzs, and_false, decide_False, ne_eq,
            not_true_eq_false, if_false]
          cases firstIdx (fun j => decide ((s.proc ii j).parent = some cur)) n <;> simp
      · simp only [waitSlot, zombieChild, hp, false_and, decide_False, ne_eq, not_false_eq_true,
          if_true]
        cases firstIdx (fun j => decide ((s.proc ii j).parent = some cur)) n <;> simp

@[simp] theorem sweep_proc (s : State) (n : Nat) : (sweep s n).proc = s.proc := rfl

@[simp] theorem sweep_initproc (s : State) (n : Nat) : (sweep s n).initproc = s.initproc := rfl

@[simp] theorem sweep_curcont (s : State) (n : Nat) : (sweep s n).curcont = s.curcont := rfl

theorem sweep_cont (s : State) (n i : Nat) :
    (sweep s n).cont i =
      if i < n ∧ (s.cont i).state = CSTOPPING then { s.cont i with state := CUNUSED }
      else s.cont i := rfl

theorem sweep_cont_self (s : State) (n : Nat) : (sweep s n).cont n = s.cont n := by
  simp [sweep_cont]

theorem sweep_succ_stopping (s : State) (n : Nat) (h : (s.cont n).state = CSTOPPING) :
    (sweep s n).setCont n { s.cont n with state := CUNUSED } = sweep s (n + 1) := by
  apply State.ext_fields <;> try rfl
  funext i
  simp only [setCont_cont, sweep_cont]
  by_cases hi : i = n
  · subst hi; simp [h]
  · have : i < n + 1 ↔ i < n := by omega
    simp [hi, this]

theorem sweep_succ_other (s : State) (n : Nat) (h : (s.cont n).state ≠ CSTOPPING) :
    sweep s n = sweep s (n + 1) := by
  apply State.ext_fields <;> try rfl
  funext i
  simp only [sweep_cont]
  by_cases hi : i = n
  · subst hi; simp [h]
  · have : i < n + 1 ↔ i < n := by omega
    simp [this]

/-- The outer loop of `wait` over the first `n` containers. -/
theorem waitConts_loop (K : Params) (cur : PRef) (s : State) (hk : Bool) (n : Nat) :
    forLoopRet (waitCont K cur) n (s, hk) =
    match firstZombieCont K s cur n with
    | some i0 =>
      ((reap (sweep s i0) i0 ((firstZombie K s cur i0).getD 0), true),
        some (s.proc i0 ((firstZombie K s cur i0).getD 0)).pid)
    | none => ((sweep s n, hk || hasChild K s cur n), none) := by
  induction n with
  | zero => simp [forLoopRet, firstZombieCont, hasChild, firstIdx, sweep]
  | succ n ih =>
    simp only [forLoopRet]
    rw [ih]
    unfold firstZombieCont hasChild
    rw [firstIdx_succ, firstIdx_succ]
    cases hz : firstIdx (fun i => decide ((s.cont i).state ≠ CUNUSED) &&
        (firstZombie K s cur i).isSome) n with
    | some i0 =>
      simp only [firstZombieCont, hz]
    | none =>
      simp only [firstZombieCont, hz, waitCont, sweep_cont_self]
      by_cases hu : (s.cont n).state = CUNUSED
      · have hns : (s.cont n).state ≠ CSTOPPING := by rw [hu]; decide
        simp only [hu, if_true, ne_eq, not_true_eq_false, decide_False, Bool.false_and]
        rw [← sweep_succ_other s n hns]
        cases firstIdx (fun i => decide ((s.cont i).state ≠ CUNUSED) && hasChildIn K s cur i) n <;>
          simp
      · simp only [hu, if_false, ne_eq, not_false_eq_true, decide_True, Bool.true_and]
        unfold waitProcs
        rw [waitProcs_loop]
        have hzc : zombieChild (sweep s n) cur n = zombieChild s cur n := rfl
        rw [hzc]
        cases hfz : firstIdx (zombieChild s cur n) K.NPROC with
        | some j0 =>
          simp [firstZombie, hfz]
        | none =>
          simp only [firstZombie, hfz, Option.isSome_none, sweep_proc, sweep_cont_self]
          have hci : (firstIdx (fun j => decide ((s.proc n j).parent = some cur)) K.NPROC).isSome =
              hasChildIn K s cur n := rfl
          rw [hci]
          generalize hasChildIn K s cur n = b
          generalize firstIdx (fun i => decide ((s.cont i).state ≠ CUNUSED) &&
            hasChildIn K s cur i) n = a
          by_cases hs : (s.cont n).state = CSTOPPING
          · simp only [hs, if_true]
            rw [sweep_succ_stopping s n hs]
            cases a <;> cases b <;> simp
          · simp only [hs, if_false]
            rw [← sweep_succ_other s n hs]
            cases a <;> cases b <;> simp

/-- One round of `wait` in closed form. -/
theorem wait_eq (K : Params) (s : State) (cur : PRef) :
    wait K s cur =
      match firstZombieCont K s cur K.NCONT with
      | some i0 =>
        (reap (sweep s i0) i0 ((firstZombie K s cur i0).getD 0),
          some (s.proc i0 ((firstZombie K s cur i0).getD 0)).pid)
      | none =>
        if hasChild K s cur K.NCONT = false ∨ (s.proc cur.1 cur.2).killed ≠ 0 then
          (sweep s K.NCONT, some (-1))
        else (sleep (sweep s K.NCONT) cur (procChan (some cur)), none) := by
  unfold wait waitConts
  rw [waitConts_loop]
  cases firstZombieCont K s cur K.NCONT with
  | some i0 => rfl
  | none => simp

/-- The first ZOMBIE child found by the scan, when there is one. -/
theorem firstZombieCont_some (K : Params) (s : State) (cur : PRef)
    (h : ∃ i j, i < K.NCONT ∧ j < K.NPROC ∧ (s.cont i).state ≠ CUNUSED ∧
      (s.proc i j).parent = some cur ∧ (s.proc i j).state = ZOMBIE) :
    ∃ i0 j0, firstZombieCont K s cur K.NCONT = some i0 ∧ firstZombie K s cur i0 = some j0 ∧
      i0 < K.NCONT ∧ j0 < K.NPROC ∧ (s.cont i0).state ≠ CUNUSED ∧
      (s.proc i0 j0).parent = some cur ∧ (s.proc i0 j0).state = ZOMBIE ∧
      ∀ i j, i < K.NCONT → j < K.NPROC → (i < i0 ∨ (i = i0 ∧ j < j0)) →
        (s.cont i).state ≠ CUNUSED →
        ¬ ((s.proc i j).parent = some cur ∧ (s.proc i j).state = ZOMBIE) := by
  obtain ⟨i, j, hi, hj, hne, hp, hz⟩ := h
  cases hf : firstZombieCont K s cur K.NCONT with
  | none =>
    exfalso
    have h1 := (firstIdx_eq_none _ _).mp hf i hi
    simp only [hne, ne_eq, not_false_eq_true, decide_True, Bool.true_and] at h1
    have h2 : firstZombie K s cur i = none := by
      cases hq : firstZombie K s cur i with
      | none => rfl
      | some q => rw [hq] at h1; simp at h1
    have h3 := (firstIdx_eq_none _ _).mp h2 j hj
    simp [zombieChild, hp, hz] at h3
  | some i0 =>
    obtain ⟨hi0, hq, hmin⟩ := (firstIdx_eq_some _ _ _).mp hf
    simp only [Bool.and_eq_true, decide_eq_true_eq] at hq
    obtain ⟨hne0, hsome⟩ := hq
    cases hfz : firstZombie K s cur i0 with
    | none => rw [hfz] at hsome; simp at hsome
    | some j0 =>
      obtain ⟨hj0, hzc, hminj⟩ := (firstIdx_eq_some _ _ _).mp hfz
      simp only [zombieChild, decide_eq_true_eq] at hzc
      refine ⟨i0, j0, rfl, hfz, hi0, hj0, hne0, hzc.1, hzc.2, ?_⟩
      intro i' j' _ hj' hlt hne' hzz
      rcases hlt with h1 | ⟨h1, h2⟩
      · have h3 := hmin i' h1
        simp only [hne', ne_eq, not_false_eq_true, decide_True, Bool.true_and] at h3
        have h4 : firstZombie K s cur i' = none := by
          cases hq : firstZombie K s cur i' with
          | none => rfl
          | some q => rw [hq] at h3; simp at h3
        have h5 := (firstIdx_eq_none _ _).mp h4 j' hj'
        simp [zombieChild, hzz.1, hzz.2] at h5
      · subst h1
        have h5 := hminj j' h2
        simp [zombieChild, hzz.1, hzz.2] at h5

/-- C10: (a) when some slot of a container that is not CUNUSED is a ZOMBIE with parent
`cur`, `wait` run by `cur` returns the pid of the first such slot in (container
index, slot index) order, that slot is afterwards UNUSED with pid 0, no parent,
`killed = 0` and no kernel stack, and no other process slot changes; (b) when no
slot of a container that is not CUNUSED has parent `cur`, `wait` returns -1 and no
process slot changes. -/
theorem wait_reaps_first_zombie_child (K : Params) (s : State) (cur : PRef) :
    ((∃ i j, i < K.NCONT ∧ j < K.NPROC ∧ (s.cont i).state ≠ CUNUSED ∧
        (s.proc i j).parent = some cur ∧ (s.proc i j).state = ZOMBIE) →
      ∃ i0 j0, i0 < K.NCONT ∧ j0 < K.NPROC ∧ (s.cont i0).state ≠ CUNUSED ∧
        (s.proc i0 j0).parent = some cur ∧ (s.proc i0 j0).state = ZOMBIE ∧
        (∀ i j, i < K.NCONT → j < K.NPROC → (i < i0 ∨ (i = i0 ∧ j < j0)) →
          (s.cont i).state ≠ CUNUSED →
          ¬ ((s.proc i j).parent = some cur ∧ (s.proc i j).state = ZOMBIE)) ∧
        (wait K s cur).2 = some (s.proc i0 j0).pid ∧
        ((wait K s cur).1.proc i0 j0).state = UNUSED ∧
        ((wait K s cur).1.proc i0 j0).pid = 0 ∧
        ((wait K s cur).1.proc i0 j0).parent = none ∧
        ((wait K s cur).1.proc i0 j0).killed = 0 ∧
        ((wait K s cur).1.proc i0 j0).kstack = 0 ∧
        ∀ i j, ¬ (i = i0 ∧ j = j0) → (wait K s cur).1.proc i j = s.proc i j) ∧
    ((∀ i j, i < K.NCONT → j < K.NPROC → (s.cont i).state ≠ CUNUSED →
        (s.proc i j).parent ≠ some cur) →
      (wait K s cur).2 = some (-1) ∧ ∀ i j, (wait K s cur).1.proc i j = s.proc i j) := by
  constructor
  · intro h
    obtain ⟨i0, j0, hf, hfz, hi0, hj0, hne, hp, hz, hmin⟩ := firstZombieCont_some K s cur h
    refine ⟨i0, j0, hi0, hj0, hne, hp, hz, hmin, ?_⟩
    rw [wait_eq, hf]
    simp only [hfz, Option.getD_some]
    refine ⟨trivial, ?_, ?_, ?_, ?_, ?_, ?_⟩
    · simp [reap]
    · simp [reap]
    · simp [reap]
    · simp [reap]
    · simp [reap]
    · intro i j hij
      simp [reap, hij]
  · intro h
    have hf : firstZombieCont K s cur K.NCONT = none := by
      rw [firstZombieCont, firstIdx_eq_none]
      intro i hi
      by_cases hne : (s.cont i).state = CUNUSED
      · simp [hne]
      · have : firstZombie K s cur i = none := by
          rw [firstZombie, firstIdx_eq_none]
          intro j hj
          simp [zombieChild, h i j hi hj hne]
        simp [this]
    have hc : hasChild K s cur K.NCONT = false := by
      have : firstIdx (fun i => decide ((s.cont i).state ≠ CUNUSED) && hasChildIn K s cur i)
          K.NCONT = none := by
        rw [firstIdx_eq_none]
        intro i hi
        by_cases hne : (s.cont i).state = CUNUSED
        · simp [hne]
        · have : firstIdx (fun j => decide ((s.proc i j).parent = some cur)) K.NPROC = none := by
            rw [firstIdx_eq_none]
            intro j hj
            simp [h i j hi hj hne]
          simp [hasChildIn, this]
      rw [hasChild, this]; rfl
    rw [wait_eq, hf]
    simp [hc]

/-- Witness of C10: after `cstop("c1")` the process of "c1" is a ZOMBIE child of
`initproc`, and `wait` run by `initproc` returns its pid. -/
theorem wait_reaps_first_zombie_child_witness :
    (∃ i j, i < K2.NCONT ∧ j < K2.NPROC ∧ (stoppedSt.cont i).state ≠ CUNUSED ∧
      (stoppedSt.proc i j).parent = some (0, 0) ∧ (stoppedSt.proc i j).state = ZOMBIE) ∧
    ∃ i0 j0, (wait K2 stoppedSt (0, 0)).2 = some (stoppedSt.proc i0 j0).pid ∧
      ((wait K2 stoppedSt (0, 0)).1.proc i0 j0).state = UNUSED :=
  ⟨⟨1, 0, by decide⟩,
    ((wait_reaps_first_zombie_child K2 stoppedSt (0, 0)).1 ⟨1, 0, by decide⟩).imp
      (fun _ h => h.imp (fun _ g => ⟨g.2.2.2.2.2.2.1, g.2.2.2.2.2.2.2.1⟩))⟩

/-! ## Reaping a stopped container (C4) -/

theorem reap_proc (s : State) (ii j i j' : Nat) :
    (reap s ii j).proc i j' =
      if i = ii ∧ j' = j then
        { s.proc ii j with
          kstack := 0, pid := 0, parent := none, name := [], killed := 0, state := UNUSED }
      else s.proc i j' := rfl

@[simp] theorem reap_cont (s : State) (ii j : Nat) : (reap s ii j).cont = s.cont := rfl

theorem sleep_proc_other (s : State) (p : PRef) (chan : Chan) (i j : Nat) (h : i ≠ p.1) :
    (sleep s p chan).proc i j = s.proc i j := by
  simp [sleep, h]

@[simp] theorem sleep_cont (s : State) (p : PRef) (chan : Chan) : (sleep s p chan).cont = s.cont := rfl

/-- A row without ZOMBIE child of `cur` in a CSTOPPING container of the kind left by
`cstop` is entirely UNUSED. -/
theorem stoppingRow_all_unused (K : Params) (t : State) (cur : PRef) (c : Nat)
    (hJ : StoppingRow K t cur c) (hz : firstZombie K t cur c = none) :
    ∀ j, j < K.NPROC → (t.proc c j).state = UNUSED := by
  intro j hj
  have h1 := (firstIdx_eq_none _ _).mp hz j hj
  rcases hJ.2 j hj with h | ⟨h2, h3⟩
  · exact h
  · simp [zombieChild, h2, h3] at h1

/-- One round of `wait` run by `cur` on a container left CSTOPPING by `cstop`:
either a ZOMBIE child is reaped at or before the container, which stays as it is
otherwise, or the container is freed with all its slots UNUSED. -/
theorem wait_round_stopping (K : Params) (t : State) (cur : PRef) (c : Nat)
    (hc : c < K.NCONT) (hic : cur.1 ≠ c) (hJ : StoppingRow K t cur c) :
    ((∃ pid, (wait K t cur).2 = some pid) ∧ StoppingRow K (wait K t cur).1 cur c ∧
      (pendingZombies K (wait K t cur).1 cur c).card < (pendingZombies K t cur c).card) ∨
    FreedRow K (wait K t cur).1 c := by
  have hne : (t.cont c).state ≠ CUNUSED := by rw [hJ.1]; decide
  rw [wait_eq]
  cases hf : firstZombieCont K t cur K.NCONT with
  | none =>
    right
    have h1 := (firstIdx_eq_none _ _).mp hf c hc
    simp only [hne, ne_eq, not_false_eq_true, decide_True, Bool.true_and] at h1
    have hz : firstZombie K t cur c = none := by
      cases hq : firstZombie K t cur c with
      | none => rfl
      | some q => rw [hq] at h1; simp at h1
    have hall := stoppingRow_all_unused K t cur c hJ hz
    simp only []
    split
    · refine ⟨?_, ?_⟩
      · simp [sweep_cont, hc, hJ.1]
      · intro j hj; simpa using hall j hj
    · refine ⟨?_, ?_⟩
      · simp [sweep_cont, hc, hJ.1]
      · intro j hj
        rw [sleep_proc_other _ _ _ _ _ (Ne.symm hic)]
        simpa using hall j hj
  | some i0 =>
    obtain ⟨hi0, hq, hmin⟩ := (firstIdx_eq_some _ _ _).mp hf
    simp only [Bool.and_eq_true, decide_eq_true_eq] at hq
    obtain ⟨hne0, hsome⟩ := hq
    cases hfz : firstZombie K t cur i0 with
    | none => rw [hfz] at hsome; simp at hsome
    | some j0 =>
      obtain ⟨hj0, hzc, _⟩ := (firstIdx_eq_some _ _ _).mp hfz
      simp only [hfz, Option.getD_some]
      by_cases hle : i0 ≤ c
      · left
        refine ⟨⟨_, rfl⟩, ⟨?_, ?_⟩, ?_⟩
        · have : ¬ c < i0 := by omega
          simp [sweep_cont, this, hJ.1]
        · intro j hj
          rw [reap_proc]
          by_cases hij : c = i0 ∧ j = j0
          · simp [hij]
          · simpa [hij] using hJ.2 j hj
        · apply Finset.card_lt_card
          rw [Finset.ssubset_iff_of_subset]
          · refine ⟨(i0, j0), ?_, ?_⟩
            · simp only [pendingZombies, Finset.mem_filter, Finset.mem_product, Finset.mem_range]
              exact ⟨⟨hi0, hj0⟩, hle, hne0, hzc⟩
            · simp [pendingZombies, zombieChild, reap_proc]
          · intro ij
            simp only [pendingZombies, Finset.mem_filter, Finset.mem_product, Finset.mem_range,
              reap_cont, sweep_cont, zombieChild, reap_proc, sweep_proc, decide_eq_true_eq]
            rintro ⟨hb, hl, hcn, hzz⟩
            refine ⟨hb, hl, ?_, ?_⟩
            · intro hu
              apply hcn
              split <;> simp [hu]
            · by_cases hij : ij.1 = i0 ∧ ij.2 = j0
              · simp [hij] at hzz
              · simpa [hij] using hzz
      · right
        have hlt : c < i0 := by omega
        have h1 := hmin c hlt
        simp only [hne, ne_eq, not_false_eq_true, decide_True, Bool.true_and] at h1
        have hz : firstZombie K t cur c = none := by
          cases hq : firstZombie K t cur c with
          | none => rfl
          | some q => rw [hq] at h1; simp at h1
        have hall := stoppingRow_all_unused K t cur c hJ hz
        refine ⟨?_, ?_⟩
        · simp [sweep_cont, hlt, hJ.1]
        · intro j hj
          rw [reap_proc]
          have : ¬ (c = i0 ∧ j = j0) := by omega
          simpa [this] using hall j hj

/-- A freed container with an empty row is not touched by a round of `wait`. -/
theorem wait_round_freed (K : Params) (t : State) (cur : PRef) (c : Nat)
    (hic : cur.1 ≠ c) (hJ : FreedRow K t c) : FreedRow K (wait K t cur).1 c := by
  rw [wait_eq]
  cases hf : firstZombieCont K t cur K.NCONT with
  | none =>
    simp only []
    split
    · exact ⟨by simp [sweep_cont, hJ.1], fun j hj => by simpa using hJ.2 j hj⟩
    · refine ⟨by simp [sweep_cont, hJ.1], fun j hj => ?_⟩
      rw [sleep_proc_other _ _ _ _ _ (Ne.symm hic)]
      simpa using hJ.2 j hj
  | some i0 =>
    obtain ⟨_, hq, _⟩ := (firstIdx_eq_some _ _ _).mp hf
    simp only [Bool.and_eq_true, decide_eq_true_eq] at hq
    have hci : c ≠ i0 := by
      intro h
      rw [← h] at hq
      exact hq.1 hJ.1
    refine ⟨by simp [sweep_cont, hJ.1], fun j hj => ?_⟩
    simp only []
    rw [reap_proc]
    simpa [hci] using hJ.2 j hj

/-- Repeated rounds of `wait` free a container left by `cstop`, within one round more
than there are ZOMBIE children to reap first. -/
theorem waitIter_frees (K : Params) (cur : PRef) (c : Nat) (hc : c < K.NCONT) (hic : cur.1 ≠ c)
    (N : Nat) : ∀ t, StoppingRow K t cur c → (pendingZombies K t cur c).card ≤ N →
      ∃ n, n ≤ N + 1 ∧
        (∀ m, m + 1 < n → ∃ pid, (wait K (waitIter K cur m t) cur).2 = some pid) ∧
        FreedRow K (waitIter K cur n t) c := by
  induction N with
  | zero =>
    intro t hJ hN
    rcases wait_round_stopping K t cur c hc hic hJ with ⟨_, _, hlt⟩ | hfree
    · omega
    · exact ⟨1, by omega, fun m hm => by omega, hfree⟩
  | succ N ih =>
    intro t hJ hN
    rcases wait_round_stopping K t cur c hc hic hJ with ⟨hret, hJ1, hlt⟩ | hfree
    · obtain ⟨n, hn, hcalls, hfreed⟩ := ih (wait K t cur).1 hJ1 (by omega)
      refine ⟨n + 1, by omega, ?_, hfreed⟩
      intro m hm
      cases m with
      | zero => exact hret
      | succ m => exact hcalls m (by omega)
    · exact ⟨1, by omega, fun m hm => by omega, hfree⟩

/-- The row of a container stays in one of the two shapes through rounds of `wait`. -/
theorem waitIter_shape (K : Params) (cur : PRef) (c : Nat) (hc : c < K.NCONT) (hic : cur.1 ≠ c)
    (m : Nat) : ∀ t, StoppingRow K t cur c ∨ FreedRow K t c →
      StoppingRow K (waitIter K cur m t) cur c ∨ FreedRow K (waitIter K cur m t) c := by
  induction m with
  | zero => intro t h; exact h
  | succ m ih =>
    intro t h
    apply ih
    rcases h with h | h
    · rcases wait_round_stopping K t cur c hc hic h with ⟨_, h1, _⟩ | h1
      · exact Or.inl h1
      · exact Or.inr h1
    · exact Or.inr (wait_round_freed K t cur c hic h)

theorem cstopAt_proc (K : Params) (s : State) (c i j : Nat) :
    (cstopAt K s c).proc i j =
      if i = c ∧ j < K.NPROC ∧ (s.proc c j).state ≠ UNUSED then
        { s.proc c j with parent := s.initproc, state := ZOMBIE }
      else s.proc i j := by
  simp only [cstopAt, setCont_proc]
  exact (cstop_loop s c K.NPROC).2.2.2.2.2 i j

theorem cstopAt_cont (K : Params) (s : State) (c i : Nat) :
    (cstopAt K s c).cont i =
      if i = c then { s.cont c with state := CSTOPPING } else s.cont i := by
  simp only [cstopAt, setCont_cont, (cstop_loop s c K.NPROC).1]

/-- After `cstop` the row of the container is in the shape expected by the reaper. -/
theorem cstopAt_stoppingRow (K : Params) (s : State) (c : Nat) (init : PRef)
    (hinit : s.initproc = some init) : StoppingRow K (cstopAt K s c) init c := by
  refine ⟨by simp [cstopAt_cont], fun j hj => ?_⟩
  rw [cstopAt_proc]
  by_cases hu : (s.proc c j).state = UNUSED
  · left; simp [hu]
  · right; simp [hu, hj, hinit]

/-- The ZOMBIE children pending after `cstop` are the used slots of the container and
ZOMBIE children elsewhere. -/
theorem pendingZombies_cstopAt_le (K : Params) (s : State) (c : Nat) (init : PRef) :
    (pendingZombies K (cstopAt K s c) init c).card ≤
      usedSlots K s c + otherZombies K s init c := by
  unfold usedSlots otherZombies
  refine le_trans (Finset.card_le_card ?_)
    (le_trans (Finset.card_union_le
      (((Finset.range K.NPROC).filter (fun j => (s.proc c j).state ≠ UNUSED)).image
        (fun j => (c, j)))
      (((Finset.range K.NCONT) ×ˢ (Finset.range K.NPROC)).filter
        (fun ij => ij.1 ≠ c ∧ zombieChild s init ij.1 ij.2 = true)))
      (Nat.add_le_add_right Finset.card_image_le _))
  intro ij
  simp only [pendingZombies, Finset.mem_filter, Finset.mem_product, Finset.mem_range,
    Finset.mem_union, Finset.mem_image, zombieChild, cstopAt_proc, decide_eq_true_eq]
  rintro ⟨⟨hi, hj⟩, _, _, hz⟩
  by_cases hic : ij.1 = c
  · left
    refine ⟨ij.2, ⟨hj, ?_⟩, ?_⟩
    · intro hu
      simp [hic, hu] at hz
    · rw [← hic]
  · right
    exact ⟨⟨hi, hj⟩, hic, by simpa [hic] using hz⟩

/-- C4: let `cstop` succeed on the container `c`, which is not the container of
`initproc`, and let `initproc` then run `wait` again and again with nothing else
happening.  After some number `n` of calls, at most the number of slots of `c` that
were not UNUSED plus the number of other ZOMBIE children of `initproc` plus one, the
container is CUNUSED and all its slots are UNUSED; each call before the `n`-th
returns a reaped pid; and after no number of calls is the container CUNUSED while
one of its slots is still ZOMBIE. -/
theorem stop_then_wait_frees_container (K : Params) (s : State) (cont_name : List Nat)
    (c : Nat) (init : PRef) (hinit : s.initproc = some init) (hroot : init.1 ≠ c)
    (hstop : get_container_by_name K s cont_name = some c) :
    (cstop K s cont_name).2 = 0 ∧
    ∃ n, n ≤ usedSlots K s c + otherZombies K s init c + 1 ∧
      (∀ m, m + 1 < n →
        ∃ pid, (wait K (waitIter K init m (cstop K s cont_name).1) init).2 = some pid) ∧
      ((waitIter K init n (cstop K s cont_name).1).cont c).state = CUNUSED ∧
      (∀ j, j < K.NPROC → ((waitIter K init n (cstop K s cont_name).1).proc c j).state = UNUSED) ∧
      ∀ m, ((waitIter K init m (cstop K s cont_name).1).cont c).state = CUNUSED →
        ∀ j, j < K.NPROC → ((waitIter K init m (cstop K s cont_name).1).proc c j).state ≠ ZOMBIE := by
  have hc : c < K.NCONT := ((firstIdx_eq_some _ _ _).mp hstop).1
  have hcs : cstop K s cont_name = (cstopAt K s c, 0) := by
    unfold cstop; rw [hstop]
  rw [hcs]
  refine ⟨rfl, ?_⟩
  have hJ := cstopAt_stoppingRow K s c init hinit
  obtain ⟨n, hn, hcalls, hfreed⟩ :=
    waitIter_frees K init c hc hroot _ (cstopAt K s c) hJ (pendingZombies_cstopAt_le K s c init)
  refine ⟨n, hn, hcalls, hfreed.1, hfreed.2, ?_⟩
  intro m hm j hj
  rcases waitIter_shape K init c hc hroot m (cstopAt K s c) (Or.inl hJ) with h | h
  · rw [h.1] at hm; cases hm
  · rw [h.2 j hj]; decide

/-- Witness of C4: "c1" holding one process is stopped and then reaped by `initproc`. -/
theorem stop_then_wait_frees_container_witness :
    sysC1Proc.st.initproc = some (0, 0) ∧
    get_container_by_name K2 sysC1Proc.st c1Name = some 1 ∧
    (cstop K2 sysC1Proc.st c1Name).2 = 0 ∧
    ∃ n, n ≤ usedSlots K2 sysC1Proc.st 1 + otherZombies K2 sysC1Proc.st (0, 0) 1 + 1 ∧
      ((waitIter K2 (0, 0) n (cstop K2 sysC1Proc.st c1Name).1).cont 1).state = CUNUSED ∧
      ∀ j, j < K2.NPROC →
        ((waitIter K2 (0, 0) n (cstop K2 sysC1Proc.st c1Name).1).proc 1 j).state = UNUSED :=
  ⟨rfl, by decide,
    (stop_then_wait_frees_container K2 sysC1Proc.st c1Name 1 (0, 0) rfl (by decide)
      (by decide)).1,
    (stop_then_wait_frees_container K2 sysC1Proc.st c1Name 1 (0, 0) rfl (by decide)
      (by decide)).2.imp (fun _ h => ⟨h.1, h.2.2.1, h.2.2.2.1⟩)⟩

/-! ## The scheduler's visit, case by case -/

theorem neg_lt_tmod (a : Int) (b : Nat) (hb : 0 < b) : -(b : Int) < a.tmod (b : Int) := by
  cases a with
  | ofNat m =>
    have e : (Int.ofNat m).tmod (b : Int) = ((m % b : Nat) : Int) := rfl
    rw [e]
    exact Int.lt_of_lt_of_le (by omega) (Int.ofNat_nonneg _)
  | negSucc m =>
    have e : (Int.negSucc m).tmod (b : Int) = -((Nat.succ m % b : Nat) : Int) := rfl
    rw [e]
    have h := Nat.mod_lt (Nat.succ m) hb
    exact Int.neg_lt_neg (by exact_mod_cast h)

/-- The slot taken for an index `nextproc % NPROC` lies in the row of the container
or in the row before it. -/
theorem slotAt_bounds (K : Params) (ii : Nat) (c : Int) (p : PRef) (hN : 0 < K.NPROC)
    (h : slotAt K ii (cmod c K.NPROC) = some p) :
    p.2 < K.NPROC ∧ (p.1 = ii ∨ p.1 + 1 = ii) := by
  have h1 : cmod c K.NPROC < (K.NPROC : Int) := Int.tmod_lt_of_pos c (by exact_mod_cast hN)
  have h2 : -(K.NPROC : Int) < cmod c K.NPROC := neg_lt_tmod c K.NPROC hN
  unfold slotAt at h
  split at h
  · cases h
    exact ⟨by show (cmod c K.NPROC).toNat < K.NPROC; omega, Or.inl rfl⟩
  · split at h
    · cases h
    · cases h
      exact ⟨by show ((K.NPROC : Int) + cmod c K.NPROC).toNat < K.NPROC; omega,
        Or.inr (by show ii - 1 + 1 = ii; omega)⟩

/-- The outcomes of one visit of the scheduler: the container is skipped; or the slot
taken is not RUNNABLE and only the cursor moves; or the slot taken is RUNNABLE and is
switched to. -/
theorem schedVisit_cases (K : Params) (s s1 : State) (ii : Nat) (d : Option PRef)
    (h : schedVisit K s ii = some (s1, d)) :
    (((s.cont ii).state ≠ CRUNNABLE ∧ (s.cont ii).state ≠ CRUNNING) ∧ s1 = s ∧ d = none) ∨
    (((s.cont ii).state = CRUNNABLE ∨ (s.cont ii).state = CRUNNING) ∧ 0 < K.NPROC ∧
      ∃ p, slotAt K ii (cmod (s.cont ii).nextproc K.NPROC) = some p ∧
        p.2 < K.NPROC ∧ (p.1 = ii ∨ p.1 + 1 = ii) ∧
        (((s.proc p.1 p.2).state ≠ RUNNABLE ∧ d = none ∧
            s1 = s.setCont ii
              { s.cont ii with nextproc := int32 ((s.cont ii).nextproc + 1) }) ∨
          ((s.proc p.1 p.2).state = RUNNABLE ∧ d = some p ∧
            s1 = schedSwitch (s.setCont ii
              { s.cont ii with nextproc := int32 ((s.cont ii).nextproc + 1) }) ii p))) := by
  unfold schedVisit schedChoose at h
  by_cases hs : (s.cont ii).state ≠ CRUNNABLE ∧ (s.cont ii).state ≠ CRUNNING
  · rw [if_pos hs] at h
    simp only [Option.some.injEq, Prod.mk.injEq] at h
    exact Or.inl ⟨hs, h.1.symm, h.2.symm⟩
  · rw [if_neg hs] at h
    have hs' : (s.cont ii).state = CRUNNABLE ∨ (s.cont ii).state = CRUNNING := by
      by_cases h1 : (s.cont ii).state = CRUNNABLE
      · exact Or.inl h1
      · by_cases h2 : (s.cont ii).state = CRUNNING
        · exact Or.inr h2
        · exact absurd ⟨h1, h2⟩ hs
    by_cases hN : K.NPROC = 0
    · rw [if_pos hN] at h
      cases h
    · rw [if_neg hN] at h
      have hN' : 0 < K.NPROC := Nat.pos_of_ne_zero hN
      simp only [] at h
      cases hp : slotAt K ii (cmod (s.cont ii).nextproc K.NPROC) with
      | none =>
        rw [hp] at h
        cases h
      | some p =>
        rw [hp] at h
        simp only [setCont_proc] at h
        obtain ⟨b1, b2⟩ := slotAt_bounds K ii _ p hN' hp
        refine Or.inr ⟨hs', hN', p, rfl, b1, b2, ?_⟩
        by_cases hr : (s.proc p.1 p.2).state = RUNNABLE
        · rw [if_neg (by simpa using hr)] at h
          simp only [Option.some.injEq, Prod.mk.injEq] at h
          exact Or.inr ⟨hr, h.2.symm, h.1.symm⟩
        · rw [if_pos hr] at h
          simp only [Option.some.injEq, Prod.mk.injEq] at h
          exact Or.inl ⟨hr, h.2.symm, h.1.symm⟩

/-- A container that is neither CRUNNABLE nor CRUNNING is skipped. -/
theorem schedVisit_skip (K : Params) (s : State) (ii : Nat)
    (hst : (s.cont ii).state ≠ CRUNNABLE ∧ (s.cont ii).state ≠ CRUNNING) :
    schedVisit K s ii = some (s, none) := by
  unfold schedVisit schedChoose
  rw [if_pos hst]

/-- The slot taken is not RUNNABLE: only the cursor moves. -/
theorem schedVisit_pass (K : Params) (s : State) (ii : Nat) (p : PRef) (hN : K.NPROC ≠ 0)
    (hst : ¬ ((s.cont ii).state ≠ CRUNNABLE ∧ (s.cont ii).state ≠ CRUNNING))
    (hp : slotAt K ii (cmod (s.cont ii).nextproc K.NPROC) = some p)
    (hr : (s.proc p.1 p.2).state ≠ RUNNABLE) :
    schedVisit K s ii =
      some (s.setCont ii { s.cont ii with nextproc := int32 ((s.cont ii).nextproc + 1) },
        none) := by
  unfold schedVisit schedChoose
  rw [if_neg hst, if_neg hN]
  simp only [hp, setCont_proc]
  rw [if_pos hr]

/-- The slot taken is RUNNABLE: it is switched to. -/
theorem schedVisit_switch (K : Params) (s : State) (ii : Nat) (p : PRef) (hN : K.NPROC ≠ 0)
    (hst : ¬ ((s.cont ii).state ≠ CRUNNABLE ∧ (s.cont ii).state ≠ CRUNNING))
    (hp : slotAt K ii (cmod (s.cont ii).nextproc K.NPROC) = some p)
    (hr : (s.proc p.1 p.2).state = RUNNABLE) :
    schedVisit K s ii =
      some (schedSwitch (s.setCont ii
        { s.cont ii with nextproc := int32 ((s.cont ii).nextproc + 1) }) ii p, some p) := by
  unfold schedVisit schedChoose
  rw [if_neg hst, if_neg hN]
  simp only [hp, setCont_proc]
  rw [if_neg (by simpa using hr)]

/-- The index gives an address before the table: the visit has no result. -/
theorem schedVisit_fault (K : Params) (s : State) (ii : Nat) (hN : K.NPROC ≠ 0)
    (hst : ¬ ((s.cont ii).state ≠ CRUNNABLE ∧ (s.cont ii).state ≠ CRUNNING))
    (hp : slotAt K ii (cmod (s.cont ii).nextproc K.NPROC) = none) :
    schedVisit K s ii = none := by
  unfold schedVisit schedChoose
  rw [if_neg hst, if_neg hN]
  simp only [hp]

theorem slotAt_natCast (K : Params) (ii m : Nat) : slotAt K ii (m : Int) = some (ii, m) := by
  unfold slotAt
  rw [if_pos (Int.ofNat_nonneg m)]
  simp

/-- What one iteration of `scheduler` writes: only the visited container and one
slot, of its row or of the row before it. -/
theorem schedVisit_frame (K : Params) (s s1 : State) (ii : Nat) (d : Option PRef)
    (h : schedVisit K s ii = some (s1, d)) :
    (∀ i, i ≠ ii → s1.cont i = s.cont i) ∧
    (∀ i j, i ≠ ii → i + 1 ≠ ii → s1.proc i j = s.proc i j) ∧
    (d = none → s1.proc = s.proc ∧ ∀ i, (s1.cont i).state = (s.cont i).state) ∧
    (∀ p, d = some p → (p.1 = ii ∨ p.1 + 1 = ii) ∧ p.2 < K.NPROC ∧
      (s.proc p.1 p.2).state = RUNNABLE ∧ (s1.cont ii).state = CRUNNING ∧
      s1.proc p.1 p.2 = { s.proc p.1 p.2 with state := RUNNING } ∧
      ∀ i j, ¬ (i = p.1 ∧ j = p.2) → s1.proc i j = s.proc i j) ∧
    s1.initproc = s.initproc ∧ s1.curcont = s.curcont ∧ s1.nextpid = s.nextpid ∧
    s1.nextcid = s.nextcid ∧ (∀ i, (s1.cont i).cid = (s.cont i).cid) := by
  rcases schedVisit_cases K s s1 ii d h with ⟨_, rfl, rfl⟩ | ⟨_, _, p, _, b1, b2, h2⟩
  · exact ⟨fun _ _ => rfl, fun _ _ _ _ => rfl, fun _ => ⟨rfl, fun _ => rfl⟩,
      fun p hp => (by cases hp), rfl, rfl, rfl, rfl, fun _ => rfl⟩
  · rcases h2 with ⟨_, rfl, rfl⟩ | ⟨hr, rfl, rfl⟩
    · refine ⟨fun i hi => by simp [hi], fun _ _ _ _ => rfl, fun _ => ⟨rfl, fun i => ?_⟩,
        fun p hp => (by cases hp), rfl, rfl, rfl, rfl, fun i => ?_⟩
      · simp only [setCont_cont]
        split
        · rename_i g
          rw [g]
        · rfl
      · simp only [setCont_cont]
        split
        · rename_i g
          rw [g]
        · rfl
    · refine ⟨fun i hi => by simp [schedSwitch, hi], fun i j h1 h2 => ?_,
        fun e => (by cases e), fun q hq => ?_, rfl, rfl, rfl, rfl, fun i => ?_⟩
      · simp only [schedSwitch, setCont_proc, setProc_proc]
        rw [if_neg]
        rintro ⟨rfl, _⟩
        rcases b2 with g | g
        · exact h1 g
        · exact h2 g
      · cases hq
        refine ⟨b2, b1, hr, by simp [schedSwitch], by simp [schedSwitch], fun i j hij => ?_⟩
        simp only [schedSwitch, setCont_proc, setProc_proc, if_neg hij]
      · by_cases g : i = ii
        · subst g
          simp [schedSwitch]
        · simp [schedSwitch, g]

/-- What the scheduler writes after `swtch` has come back: only the container it had
switched into. -/
theorem schedReturn_frame (s : State) (ii : Nat) :
    (∀ i, i ≠ ii → (schedReturn s ii).cont i = s.cont i) ∧ (schedReturn s ii).proc = s.proc := by
  unfold schedReturn
  split
  · exact ⟨fun i hi => by simp [hi], rfl⟩
  · exact ⟨fun _ _ => rfl, rfl⟩

/-! ## Reachable states: which containers are CRUNNING (C5) -/

/-- A run from a reachable state ends in a reachable state. -/
theorem reachable_run (K : Params) (ops : List Op) :
    ∀ s s1, Reachable K s → run K s ops = some s1 → Reachable K s1 := by
  induction ops with
  | nil =>
    intro s s1 hs h
    simp only [run, Option.some.injEq] at h
    subst h
    exact hs
  | cons op ops ih =>
    intro s s1 hs h
    simp only [run] at h
    cases hst : step K s op with
    | none => rw [hst] at h; cases h
    | some s2 =>
      rw [hst] at h
      exact ih s2 s1 (Reachable.step s s2 op hs hst) h

theorem reachable_boot2 : Reachable K2 (bootSys boot2) :=
  Reachable.boot 7 100 200 boot2 rfl

theorem wakeup1_cont (K : Params) (s : State) (chan : Chan) : (wakeup1 K s chan).cont = s.cont := by
  unfold wakeup1
  refine forLoop_inv _ (fun t : State => t.cont = s.cont) ?_ _ _ ?_
  · intro ii t ht
    refine forLoop_inv _ (fun t : State => t.cont = s.cont) ?_ _ _ ?_
    · intro jj u hu
      split
      · exact hu
      · exact hu
    · exact ht
  · rfl

theorem exit_cont (K : Params) (s s1 : State) (p : PRef) (h : exit K s p = some s1) :
    s1.cont = s.cont := by
  unfold exit at h
  split at h
  · cases h
  · split at h
    · cases h
    · simp only [Option.some.injEq] at h
      subst h
      simp only [setProc_cont]
      refine forLoop_inv _ (fun t : State => t.cont = s.cont) ?_ _ _ ?_
      · intro j t ht
        split
        · split
          · rw [wakeup1_cont]; exact ht
          · exact ht
        · exact ht
      · exact wakeup1_cont K s _

theorem fork_cont (K : Params) (s s1 : State) (p : PRef) (target : Option Nat)
    (kalloc copyuvm : Nat) (r : Int) (h : fork K s p target kalloc copyuvm = some (s1, r)) :
    s1.cont = s.cont := by
  unfold fork at h
  have hchoice : forkChoice s p target =
      ((forkChoice s p target).1, (forkChoice s p target).2) := rfl
  rw [hchoice] at h
  cases hc : (forkChoice s p target).1 with
  | none => rw [hc] at h; simp at h
  | some c =>
    rw [hc] at h
    simp only [] at h
    rcases allocproc_spec K s c kalloc with ⟨s2, ha, hcont, _⟩ | ⟨j, ha, _⟩
    · rw [ha] at h
      simp only [Option.some.injEq, Prod.mk.injEq] at h
      rw [← h.1, hcont]
    · rw [ha] at h
      simp only [] at h
      split at h
      · simp only [Option.some.injEq, Prod.mk.injEq] at h
        rw [← h.1]; rfl
      · simp only [Option.some.injEq, Prod.mk.injEq] at h
        rw [← h.1]; rfl

theorem kill_cont (K : Params) (s s1 : State) (p : PRef) (pid r : Int)
    (h : kill K s p pid = some (s1, r)) : s1.cont = s.cont := by
  unfold kill kill1 at h
  split at h
  · cases h
  · split at h
    · simp only [Option.some.injEq, Prod.mk.injEq] at h
      rw [← h.1]
    · simp only [] at h
      split at h
      · simp only [Option.some.injEq, Prod.mk.injEq] at h
        rw [← h.1]; rfl
      · simp only [Option.some.injEq, Prod.mk.injEq] at h
        rw [← h.1]; rfl

theorem wait_noNewRunning (K : Params) (s : State) (p : PRef) :
    NoNewRunning s (wait K s p).1 := by
  intro i
  rw [wait_eq]
  have hsw : ∀ n, ((sweep s n).cont i).state = CRUNNING → (s.cont i).state = CRUNNING := by
    intro n
    rw [sweep_cont]
    split
    · intro h; cases h
    · exact id
  cases firstZombieCont K s p K.NCONT with
  | none =>
    simp only []
    split
    · exact hsw _
    · exact hsw _
  | some i0 => exact hsw _

/-- What `alloccont` does, by cases on its result. -/
theorem alloccont_spec (K : Params) (s : State) :
    (alloccont K s = (s, none) ∧ ∀ i, i < K.NCONT → (s.cont i).state ≠ CUNUSED) ∨
    ∃ c, alloccont K s =
        ({ s.setCont c { s.cont c with state := CEMBRYO, cid := s.nextcid } with
           nextcid := int32 (s.nextcid + 1) }, some c) ∧
      c < K.NCONT ∧ (s.cont c).state = CUNUSED ∧
      ∀ i, i < c → (s.cont i).state ≠ CUNUSED := by
  unfold alloccont
  cases hf : firstIdx (fun ii => decide ((s.cont ii).state = CUNUSED)) K.NCONT with
  | none =>
    left
    refine ⟨rfl, fun i hi => ?_⟩
    simpa using (firstIdx_eq_none _ _).mp hf i hi
  | some c =>
    right
    obtain ⟨h1, h2, h3⟩ := (firstIdx_eq_some _ _ _).mp hf
    refine ⟨c, rfl, h1, by simpa using h2, fun i hi => ?_⟩
    simpa using h3 i hi

theorem ccreate_noNewRunning (K : Params) (s : State) (fpath : List Nat) (namei : Nat) :
    NoNewRunning s (ccreate K s fpath namei).1 := by
  intro i
  unfold ccreate
  split
  · exact id
  · split
    · exact id
    · rcases alloccont_spec K s with ⟨ha, _⟩ | ⟨c, ha, _⟩
      · rw [ha]; exact id
      · rw [ha]
        simp only []
        split
        · simp only [setCont_cont]
          by_cases hi : i = c
          · rw [if_pos hi]; intro h; cases h
          · rw [if_neg hi, if_neg hi]; exact id
        · simp only [setCont_cont]
          by_cases hi : i = c
          · rw [if_pos hi]; intro h; cases h
          · rw [if_neg hi, if_neg hi]; exact id

theorem cstart_noNewRunning (K : Params) (s : State) (cont_name : List Nat) :
    NoNewRunning s (cstart K s cont_name).1 := by
  intro i
  unfold cstart
  split
  · exact id
  · split
    · exact id
    · simp only [setCont_cont]
      split
      · intro h; cases h
      · exact id

theorem cpause_noNewRunning (K : Params) (s : State) (cont_name : List Nat) :
    NoNewRunning s (cpause K s cont_name).1 := by
  intro i
  unfold cpause
  split
  · exact id
  · split
    · exact id
    · simp only [setCont_cont]
      split
      · intro h; cases h
      · exact id

theorem cresume_noNewRunning (K : Params) (s : State) (cont_name : List Nat) :
    NoNewRunning s (cresume K s cont_name).1 := by
  intro i
  unfold cresume
  split
  · exact id
  · split
    · exact id
    · simp only [setCont_cont]
      split
      · intro h; cases h
      · exact id

theorem cstop_noNewRunning (K : Params) (s : State) (cont_name : List Nat) :
    NoNewRunning s (cstop K s cont_name).1 := by
  intro i
  unfold cstop
  split
  · exact id
  · simp only [cstopAt_cont]
    split
    · intro h; cases h
    · exact id

theorem noNewRunning_of_cont (s s1 : State) (h : s1.cont = s.cont) : NoNewRunning s s1 := by
  intro i hi
  rw [h] at hi
  exact hi

theorem running_some (K : Params) (s : Sys) (k : Nat) (p : PRef) (h : running K s k = some p) :
    k < K.NCPU ∧ (s.cpu k).proc = some p := by
  unfold running at h
  split at h
  · exact ⟨by assumption, h⟩
  · cases h

/-- A system call that comes back to its caller keeps `RunningHeld` when it makes no
container CRUNNING. -/
theorem held_withState (K : Params) (s : Sys) (st : State) (hn : NoNewRunning s.st st)
    (hI : RunningHeld K s) : RunningHeld K (withState s st) := by
  intro i hi
  exact hI i (hn i hi)

/-- Giving up the processor keeps `RunningHeld`. -/
theorem held_toScheduler (K : Params) (s : Sys) (k : Nat) (st : State)
    (hn : NoNewRunning s.st st) (hI : RunningHeld K s) : RunningHeld K (toScheduler K s k st) := by
  intro i hi
  simp only [toScheduler] at hi
  have hne : i ≠ (s.cpu k).ii := by
    intro heq
    subst heq
    unfold schedReturn at hi
    split at hi
    · simp at hi
    · rename_i hcond
      apply hcond
      rw [hi]
      exact ⟨by decide, by decide⟩
  rw [(schedReturn_frame st (s.cpu k).ii).1 i hne] at hi
  obtain ⟨k1, hk1, hp1, hii1⟩ := hI i (hn i hi)
  have hkk : k1 ≠ k := by
    intro heq
    subst heq
    exact hne hii1.symm
  exact ⟨k1, hk1, by simpa [toScheduler, hkk] using hp1, by simpa [toScheduler, hkk] using hii1⟩

/-- Right after `userinit` no container is CRUNNING. -/
theorem userinit_no_running (K : Params) (rootdir kalloc setupkvm : Nat) (st : State)
    (h : userinit K zeroState rootdir kalloc setupkvm = some st) (i : Nat) :
    (st.cont i).state ≠ CRUNNING := by
  unfold userinit at h
  cases hc : initcontainer K zeroState rootdir with
  | none => rw [hc] at h; cases h
  | some r =>
    obtain ⟨s1, c⟩ := r
    rw [hc] at h
    simp only [] at h
    have h1 : ∀ i, (s1.cont i).state ≠ CRUNNING := by
      intro i
      unfold initcontainer at hc
      rcases alloccont_spec K zeroState with ⟨ha, _⟩ | ⟨c0, ha, _⟩
      · rw [ha] at hc; cases hc
      · rw [ha] at hc
        simp only [] at hc
        split at hc
        · cases hc
        · simp only [Option.some.injEq, Prod.mk.injEq] at hc
          rw [← hc.1]
          by_cases hi : i = c0
          · simp [hi]
          · simp [hi, zeroState]
    cases hp : initprocess K s1 c kalloc setupkvm with
    | none => rw [hp] at h; cases h
    | some r2 =>
      obtain ⟨s2, p⟩ := r2
      rw [hp] at h
      simp only [Option.some.injEq] at h
      rw [← h]
      unfold initprocess at hp
      rcases allocproc_spec K s1 c kalloc with ⟨s3, ha, _⟩ | ⟨j, ha, _⟩
      · rw [ha] at hp; cases hp
      · rw [ha] at hp
        simp only [] at hp
        split at hp
        · cases hp
        · simp only [Option.some.injEq, Prod.mk.injEq] at hp
          rw [← hp.1]
          exact h1 i

/-- Every step of the machine keeps `RunningHeld`. -/
theorem step_runningHeld (K : Params) (s s1 : Sys) (op : Op) (h : step K s op = some s1)
    (hI : RunningHeld K s) : RunningHeld K s1 := by
  cases op with
  | visit k =>
    simp only [step] at h
    split at h
    · rename_i hg
      obtain ⟨hk, hidle, _⟩ := hg
      cases hv : schedVisit K s.st (s.cpu k).ii with
      | none => rw [hv] at h; cases h
      | some r =>
        obtain ⟨st, d⟩ := r
        rw [hv] at h
        obtain ⟨f1, _, f3, _, _⟩ := schedVisit_frame K s.st st (s.cpu k).ii d hv
        have hother : ∀ i, i ≠ (s.cpu k).ii → (st.cont i).state = CRUNNING →
            ∃ k1, k1 < K.NCPU ∧ k1 ≠ k ∧ (s.cpu k1).proc ≠ none ∧ (s.cpu k1).ii = i := by
          intro i hi hr
          rw [f1 i hi] at hr
          obtain ⟨k1, a, b, c⟩ := hI i hr
          refine ⟨k1, a, ?_, b, c⟩
          intro hkk
          rw [hkk] at b
          exact b hidle
        cases d with
        | none =>
          simp only [Option.some.injEq] at h
          subst h
          intro i hi
          simp only [] at hi
          have hold : (s.st.cont i).state = CRUNNING := by
            rw [← (f3 rfl).2 i]; exact hi
          obtain ⟨k1, a, b, c⟩ := hI i hold
          have hkk : k1 ≠ k := by
            intro hkk
            rw [hkk] at b
            exact b hidle
          exact ⟨k1, a, by simpa [hkk] using b, by simpa [hkk] using c⟩
        | some p =>
          simp only [Option.some.injEq] at h
          subst h
          intro i hi
          simp only [] at hi
          by_cases hii : i = (s.cpu k).ii
          · exact ⟨k, hk, by simp, by simp [hii]⟩
          · obtain ⟨k1, a, hkk, b, c⟩ := hother i hii hi
            exact ⟨k1, a, by simpa [hkk] using b, by simpa [hkk] using c⟩
    · cases h
  | yield k =>
    simp only [step, Option.map_eq_some'] at h
    obtain ⟨p, _, rfl⟩ := h
    exact held_toScheduler K s k _ (noNewRunning_of_cont _ _ rfl) hI
  | sleep k chan =>
    simp only [step, Option.map_eq_some'] at h
    obtain ⟨p, _, rfl⟩ := h
    exact held_toScheduler K s k _ (noNewRunning_of_cont _ _ rfl) hI
  | tidy k =>
    simp only [step, Option.map_eq_some'] at h
    obtain ⟨p, _, rfl⟩ := h
    exact held_withState K s _ (noNewRunning_of_cont _ _ rfl) hI
  | exit k =>
    simp only [step, Option.bind_eq_some, Option.map_eq_some'] at h
    obtain ⟨p, _, st, he, rfl⟩ := h
    exact held_toScheduler K s k _ (noNewRunning_of_cont _ _ (exit_cont K _ _ _ he)) hI
  | wait k =>
    simp only [step, Option.map_eq_some'] at h
    obtain ⟨p, _, rfl⟩ := h
    have hw := wait_noNewRunning K s.st p
    rcases hr : wait K s.st p with ⟨st, o⟩
    rw [hr] at hw
    cases o with
    | none => exact held_toScheduler K s k _ hw hI
    | some v => exact held_withState K s _ hw hI
  | fork k kalloc copyuvm =>
    simp only [step, Option.bind_eq_some, Option.map_eq_some'] at h
    obtain ⟨p, _, r, hf, rfl⟩ := h
    exact held_withState K s _ (noNewRunning_of_cont _ _ (fork_cont K _ _ _ _ _ _ r.2 hf)) hI
  | cfork k cid kalloc copyuvm =>
    simp only [step, Option.bind_eq_some, Option.map_eq_some'] at h
    obtain ⟨p, _, r, hf, rfl⟩ := h
    simp only [cfork, ptrBelowNull, Bool.false_eq_true, if_false] at hf
    exact held_withState K s _ (noNewRunning_of_cont _ _ (fork_cont K _ _ _ _ _ _ r.2 hf)) hI
  | kill k pid =>
    simp only [step, Option.bind_eq_some, Option.map_eq_some'] at h
    obtain ⟨p, _, r, hf, rfl⟩ := h
    exact held_withState K s _ (noNewRunning_of_cont _ _ (kill_cont K _ _ _ _ r.2 hf)) hI
  | wakeup chan =>
    simp only [step, Option.some.injEq] at h
    subst h
    exact held_withState K s _ (noNewRunning_of_cont _ _ (wakeup1_cont K _ _)) hI
  | ccreate k fpath namei =>
    simp only [step, Option.map_eq_some'] at h
    obtain ⟨p, _, rfl⟩ := h
    exact held_withState K s _ (ccreate_noNewRunning K _ _ _) hI
  | cstart k cont_name =>
    simp only [step, Option.map_eq_some'] at h
    obtain ⟨p, _, rfl⟩ := h
    exact held_withState K s _ (cstart_noNewRunning K _ _) hI
  | cpause k cont_name =>
    simp only [step, Option.map_eq_some'] at h
    obtain ⟨p, _, rfl⟩ := h
    exact held_withState K s _ (cpause_noNewRunning K _ _) hI
  | cresume k cont_name =>
    simp only [step, Option.map_eq_some'] at h
    obtain ⟨p, _, rfl⟩ := h
    exact held_withState K s _ (cresume_noNewRunning K _ _) hI
  | cstop k cont_name =>
    simp only [step, Option.map_eq_some'] at h
    obtain ⟨p, _, rfl⟩ := h
    exact held_withState K s _ (cstop_noNewRunning K _ _) hI

/-- In every reachable state each CRUNNING container is held by a processor. -/
theorem reachable_runningHeld (K : Params) (s : Sys) (h : Reachable K s) : RunningHeld K s := by
  induction h with
  | boot rootdir kalloc setupkvm st hb =>
    intro i hi
    exact absurd hi (userinit_no_running K rootdir kalloc setupkvm st hb i)
  | step s s1 op _ hst ih => exact step_runningHeld K s s1 op hst ih

/-- C1, the code at the failing input: after `cstop("c1")` a process other than
`initproc` calls `wait`; its scan frees the CSTOPPING container although the ZOMBIE
left by `cstop` (a child of `initproc`) is still in its row.  The resulting state is
reachable, and in it a slot that is not UNUSED belongs to a CUNUSED container. -/
theorem wait_frees_container_holding_zombie :
    Reachable K2 sysOrphan ∧ (sysOrphan.st.cont 1).state = CUNUSED ∧
      (sysOrphan.st.proc 1 0).state = ZOMBIE ∧ (sysOrphan.st.proc 1 0).cont = some 1 :=
  ⟨reachable_run K2 traceOrphan _ _ reachable_boot2 rfl, by decide, by decide, by decide⟩

/-! ## wakeup (C12) -/

/-- The inner loop of `wakeup1` over the first `m` slots of row `ii`. -/
theorem wakeup1_row (chan : Chan) (ii : Nat) (s : State) (m : Nat) :
    let t := forLoop (fun jj (s2 : State) =>
      if (s2.proc ii jj).state = SLEEPING ∧ (s2.proc ii jj).chan = chan then
        s2.setProc ii jj { s2.proc ii jj with state := RUNNABLE }
      else s2) m s
    t.cont = s.cont ∧ t.initproc = s.initproc ∧ t.curcont = s.curcont ∧
    t.nextcid = s.nextcid ∧ t.nextpid = s.nextpid ∧
    ∀ i j, t.proc i j =
      if i = ii ∧ j < m ∧ (s.proc i j).state = SLEEPING ∧ (s.proc i j).chan = chan then
        { s.proc i j with state := RUNNABLE }
      else s.proc i j := by
  induction m with
  | zero => simp [forLoop]
  | succ m ih =>
    simp only [forLoop]
    generalize forLoop _ m s = T at ih ⊢
    obtain ⟨h1, h2, h3, h4, h5, h6⟩ := ih
    have hn : T.proc ii m = s.proc ii m := by
      rw [h6]; simp
    rw [hn]
    by_cases hc : (s.proc ii m).state = SLEEPING ∧ (s.proc ii m).chan = chan
    · rw [if_pos hc]
      refine ⟨h1, h2, h3, h4, h5, ?_⟩
      intro i j
      simp only [setProc_proc, h6]
      by_cases hi : i = ii
      · subst hi
        by_cases hj : j = m
        · subst hj
          simp [hc]
        · have : j < m + 1 ↔ j < m := by omega
          simp [hj, this]
      · simp [hi]
    · rw [if_neg hc]
      refine ⟨h1, h2, h3, h4, h5, ?_⟩
      intro i j
      rw [h6]
      by_cases hi : i = ii
      · subst hi
        by_cases hj : j = m
        · subst hj
          have : ¬ ((s.proc i j).state = SLEEPING ∧ (s.proc i j).chan = chan) := hc
          simp only [lt_self_iff_false, false_and, and_false, if_false]
          rw [if_neg]
          intro h
          exact hc h.2.2
        · have : j < m + 1 ↔ j < m := by omega
          simp [this]
      · simp [hi]

/-- The loops of `wakeup1` over the first `n` rows. -/
theorem wakeup1_rows (K : Params) (chan : Chan) (s : State) (n : Nat) :
    let t := forLoop (fun ii (s1 : State) =>
      forLoop (fun jj (s2 : State) =>
        if (s2.proc ii jj).state = SLEEPING ∧ (s2.proc ii jj).chan = chan then
          s2.setProc ii jj { s2.proc ii jj with state := RUNNABLE }
        else s2) K.NPROC s1) n s
    t.cont = s.cont ∧ t.initproc = s.initproc ∧ t.curcont = s.curcont ∧
    t.nextcid = s.nextcid ∧ t.nextpid = s.nextpid ∧
    ∀ i j, t.proc i j =
      if i < n ∧ j < K.NPROC ∧ (s.proc i j).state = SLEEPING ∧ (s.proc i j).chan = chan then
        { s.proc i j with state := RUNNABLE }
      else s.proc i j := by
  induction n with
  | zero => simp [forLoop]
  | succ n ih =>
    simp only [forLoop]
    generalize forLoop _ n s = T at ih ⊢
    obtain ⟨h1, h2, h3, h4, h5, h6⟩ := ih
    obtain ⟨g1, g2, g3, g4, g5, g6⟩ := wakeup1_row chan n T K.NPROC
    refine ⟨g1.trans h1, g2.trans h2, g3.trans h3, g4.trans h4, g5.trans h5, ?_⟩
    intro i j
    rw [g6, h6]
    by_cases hi : i = n
    · subst hi
      simp
    · have : i < n + 1 ↔ i < n := by omega
      simp only [hi, false_and, if_false, this]

/-- The function `wakeup1`, slot by slot. -/
theorem wakeup1_proc (K : Params) (s : State) (chan : Chan) (i j : Nat) :
    (wakeup1 K s chan).proc i j =
      if i < K.NCONT ∧ j < K.NPROC ∧ (s.proc i j).state = SLEEPING ∧ (s.proc i j).chan = chan then
        { s.proc i j with state := RUNNABLE }
      else s.proc i j :=
  (wakeup1_rows K chan s K.NCONT).2.2.2.2.2 i j

theorem wakeup1_fields (K : Params) (s : State) (chan : Chan) :
    (wakeup1 K s chan).initproc = s.initproc ∧ (wakeup1 K s chan).curcont = s.curcont ∧
    (wakeup1 K s chan).nextcid = s.nextcid ∧ (wakeup1 K s chan).nextpid = s.nextpid :=
  ⟨(wakeup1_rows K chan s K.NCONT).2.1, (wakeup1_rows K chan s K.NCONT).2.2.1,
    (wakeup1_rows K chan s K.NCONT).2.2.2.1, (wakeup1_rows K chan s K.NCONT).2.2.2.2.1⟩

/-- C12: after `wakeup(c)` every slot of the table that was SLEEPING with `chan = c`
is RUNNABLE (nothing else of it changes), no slot of the table is SLEEPING with
`chan = c`, every other slot and every container is unchanged, and a second
`wakeup(c)` changes nothing more. -/
theorem wakeup_wakes_all_sleepers (K : Params) (s : State) (c : Chan) :
    (∀ i j, i < K.NCONT → j < K.NPROC →
      (s.proc i j).state = SLEEPING → (s.proc i j).chan = c →
      ((wakeup K s c).proc i j).state = RUNNABLE ∧
      (wakeup K s c).proc i j = { s.proc i j with state := RUNNABLE }) ∧
    (∀ i j, i < K.NCONT → j < K.NPROC →
      ¬ (((wakeup K s c).proc i j).state = SLEEPING ∧ ((wakeup K s c).proc i j).chan = c)) ∧
    (∀ i j, ¬ ((s.proc i j).state = SLEEPING ∧ (s.proc i j).chan = c) →
      (wakeup K s c).proc i j = s.proc i j) ∧
    (wakeup K s c).cont = s.cont ∧
    (wakeup K s c).initproc = s.initproc ∧ (wakeup K s c).curcont = s.curcont ∧
    (wakeup K s c).nextcid = s.nextcid ∧ (wakeup K s c).nextpid = s.nextpid ∧
    wakeup K (wakeup K s c) c = wakeup K s c := by
  unfold wakeup
  obtain ⟨f1, f2, f3, f4⟩ := wakeup1_fields K s c
  have hno : ∀ i j, i < K.NCONT → j < K.NPROC →
      ¬ (((wakeup1 K s c).proc i j).state = SLEEPING ∧ ((wakeup1 K s c).proc i j).chan = c) := by
    intro i j hi hj
    rw [wakeup1_proc]
    by_cases h : (s.proc i j).state = SLEEPING ∧ (s.proc i j).chan = c
    · simp [hi, hj, h]
    · have : ¬ (i < K.NCONT ∧ j < K.NPROC ∧ (s.proc i j).state = SLEEPING ∧ (s.proc i j).chan = c) :=
        fun g => h g.2.2
      rw [if_neg this]
      exact h
  refine ⟨?_, hno, ?_, wakeup1_cont K s c, f1, f2, f3, f4, ?_⟩
  · intro i j hi hj h1 h2
    rw [wakeup1_proc]
    simp [hi, hj, h1, h2]
  · intro i j h
    rw [wakeup1_proc]
    have : ¬ (i < K.NCONT ∧ j < K.NPROC ∧ (s.proc i j).state = SLEEPING ∧ (s.proc i j).chan = c) :=
      fun g => h g.2.2
    rw [if_neg this]
  · obtain ⟨g1, g2, g3, g4⟩ := wakeup1_fields K (wakeup1 K s c) c
    apply State.ext_fields
    · funext i j
      rw [wakeup1_proc K (wakeup1 K s c)]
      by_cases hb : i < K.NCONT ∧ j < K.NPROC
      · have := hno i j hb.1 hb.2
        rw [if_neg]
        intro g
        exact this g.2.2
      · rw [if_neg]
        intro g
        exact hb ⟨g.1, g.2.1⟩
    · exact wakeup1_cont K _ c
    · exact g1
    · exact g2
    · exact g3
    · exact g4

/-- Witness of C12: `initproc` asleep on the address 5 is woken by `wakeup` of it. -/
theorem wakeup_wakes_all_sleepers_witness :
    (sleepingSt.proc 0 0).state = SLEEPING ∧ (sleepingSt.proc 0 0).chan = Chan.addr 5 ∧
    ((wakeup K2 sleepingSt (Chan.addr 5)).proc 0 0).state = RUNNABLE :=
  ⟨by decide, by decide,
    ((wakeup_wakes_all_sleepers K2 sleepingSt (Chan.addr 5)).1 0 0 (by decide) (by decide)
      (by decide) (by decide)).1⟩

/-! ## cstart, cpause, cresume (C14, C15, C16) -/

/-- Two searches over predicates that agree below `n` find the same index. -/
theorem firstIdx_congr (p q : Nat → Bool) (n : Nat) (h : ∀ i, i < n → p i = q i) :
    firstIdx p n = firstIdx q n := by
  induction n with
  | zero => rfl
  | succ n ih =>
    rw [firstIdx_succ, firstIdx_succ, ih (fun i hi => h i (Nat.lt_succ_of_lt hi)),
      h n (Nat.lt_succ_self n)]

/-- The lookup by name reads only the names and whether a slot is CUNUSED. -/
theorem get_container_by_name_congr (K : Params) (s s1 : State) (cont_name : List Nat)
    (h : ∀ i, i < K.NCONT → (s1.cont i).name = (s.cont i).name ∧
      ((s1.cont i).state = CUNUSED ↔ (s.cont i).state = CUNUSED)) :
    get_container_by_name K s1 cont_name = get_container_by_name K s cont_name := by
  unfold get_container_by_name
  apply firstIdx_congr
  intro i hi
  obtain ⟨h1, h2⟩ := h i hi
  rw [h1]
  by_cases hu : (s.cont i).state = CUNUSED
  · simp [hu, h2.mpr hu]
  · have : ¬ (s1.cont i).state = CUNUSED := fun g => hu (h2.mp g)
    simp [hu, this]

/-- A container found by the lookup is inside the table and not CUNUSED. -/
theorem get_container_by_name_some (K : Params) (s : State) (cont_name : List Nat) (c : Nat)
    (h : get_container_by_name K s cont_name = some c) :
    c < K.NCONT ∧ (s.cont c).state ≠ CUNUSED := by
  obtain ⟨h1, h2, _⟩ := (firstIdx_eq_some _ _ _).mp h
  simp only [decide_eq_true_eq] at h2
  exact ⟨h1, h2.1⟩

/-- C14: when the container `c` found for the name is CREADY, CRUNNABLE or CRUNNING,
`cstart` returns its cid (positive when the cid is), makes `c` CRUNNABLE and
`curcont`, and touches no process slot and no other container; when no container is
found, or the one found is in another state (CEMBRYO, CPAUSED, CSTOPPING), it
returns -1 and changes nothing; so, the cids being positive, it succeeds exactly in
the first case. -/
theorem cstart_effect (K : Params) (s : State) (cont_name : List Nat) :
    (∀ c, get_container_by_name K s cont_name = some c →
      ((s.cont c).state = CREADY ∨ (s.cont c).state = CRUNNABLE ∨ (s.cont c).state = CRUNNING) →
      (cstart K s cont_name).2 = (s.cont c).cid ∧
      (0 < (s.cont c).cid → 0 < (cstart K s cont_name).2) ∧
      ((cstart K s cont_name).1.cont c).state = CRUNNABLE ∧
      (cstart K s cont_name).1.cont c = { s.cont c with state := CRUNNABLE } ∧
      (cstart K s cont_name).1.curcont = some c ∧
      (cstart K s cont_name).1.proc = s.proc ∧
      (∀ i, i ≠ c → (cstart K s cont_name).1.cont i = s.cont i)) ∧
    ((get_container_by_name K s cont_name = none ∨
        ∃ c, get_container_by_name K s cont_name = some c ∧
          ¬ ((s.cont c).state = CREADY ∨ (s.cont c).state = CRUNNABLE ∨
            (s.cont c).state = CRUNNING)) →
      cstart K s cont_name = (s, -1)) ∧
    ((∀ c, get_container_by_name K s cont_name = some c → 0 < (s.cont c).cid) →
      ((cstart K s cont_name).2 ≠ -1 ↔
        ∃ c, get_container_by_name K s cont_name = some c ∧
          ((s.cont c).state = CREADY ∨ (s.cont c).state = CRUNNABLE ∨
            (s.cont c).state = CRUNNING))) := by
  have hok : ∀ c, get_container_by_name K s cont_name = some c →
      ((s.cont c).state = CREADY ∨ (s.cont c).state = CRUNNABLE ∨ (s.cont c).state = CRUNNING) →
      cstart K s cont_name =
        ({ s.setCont c { s.cont c with state := CRUNNABLE } with curcont := some c },
          (s.cont c).cid) := by
    intro c hc hst
    unfold cstart
    rw [hc]
    simp only []
    rw [if_neg]
    rintro ⟨h1, h2, h3⟩
    rcases hst with h | h | h
    · exact h1 h
    · exact h3 h
    · exact h2 h
  have hbad : (get_container_by_name K s cont_name = none ∨
        ∃ c, get_container_by_name K s cont_name = some c ∧
          ¬ ((s.cont c).state = CREADY ∨ (s.cont c).state = CRUNNABLE ∨
            (s.cont c).state = CRUNNING)) →
      cstart K s cont_name = (s, -1) := by
    rintro (h | ⟨c, hc, hst⟩)
    · unfold cstart; rw [h]
    · unfold cstart
      rw [hc]
      simp only []
      rw [if_pos]
      push_neg at hst
      exact ⟨hst.1, hst.2.2, hst.2.1⟩
  refine ⟨?_, hbad, ?_⟩
  · intro c hc hst
    rw [hok c hc hst]
    refine ⟨rfl, fun h => h, by simp, by simp, rfl, rfl, fun i hi => by simp [hi]⟩
  · intro hpos
    constructor
    · intro hne
      by_contra hcon
      apply hne
      have : cstart K s cont_name = (s, -1) := by
        apply hbad
        cases hl : get_container_by_name K s cont_name with
        | none => exact Or.inl rfl
        | some c =>
          right
          refine ⟨c, rfl, ?_⟩
          intro hst
          exact hcon ⟨c, hl, hst⟩
      rw [this]
    · rintro ⟨c, hc, hst⟩
      rw [hok c hc hst]
      have := hpos c hc
      simp only []
      omega

/-- Witness of C14: `cstart("c1")` on the freshly created container returns its cid. -/
theorem cstart_effect_witness :
    get_container_by_name K2 sysC1.st c1Name = some 1 ∧ (sysC1.st.cont 1).state = CREADY ∧
    (cstart K2 sysC1.st c1Name).2 = (sysC1.st.cont 1).cid ∧
    ((cstart K2 sysC1.st c1Name).1.cont 1).state = CRUNNABLE :=
  ⟨by decide, by decide,
    ((cstart_effect K2 sysC1.st c1Name).1 1 (by decide) (Or.inl (by decide))).1,
    ((cstart_effect K2 sysC1.st c1Name).1 1 (by decide) (Or.inl (by decide))).2.2.1⟩

/-- C15: `cpause` returns 0 exactly when the container found for the name is
CRUNNABLE or CRUNNING; then that container becomes CPAUSED (nothing else of it
changes), `curcont` is cleared when it pointed at it and is otherwise kept, and no
process slot and no other container changes; in every other case, in particular for
a container that is already CPAUSED, it returns -1 and changes nothing. -/
theorem cpause_effect (K : Params) (s : State) (cont_name : List Nat) :
    (∀ c, get_container_by_name K s cont_name = some c →
      ((s.cont c).state = CRUNNABLE ∨ (s.cont c).state = CRUNNING) →
      (cpause K s cont_name).2 = 0 ∧
      (cpause K s cont_name).1.cont c = { s.cont c with state := CPAUSED } ∧
      (cpause K s cont_name).1.curcont = (if s.curcont = some c then none else s.curcont) ∧
      (cpause K s cont_name).1.proc = s.proc ∧
      (∀ i, i ≠ c → (cpause K s cont_name).1.cont i = s.cont i)) ∧
    ((get_container_by_name K s cont_name = none ∨
        ∃ c, get_container_by_name K s cont_name = some c ∧
          ¬ ((s.cont c).state = CRUNNABLE ∨ (s.cont c).state = CRUNNING)) →
      cpause K s cont_name = (s, -1)) ∧
    (∀ c, get_container_by_name K s cont_name = some c → (s.cont c).state = CPAUSED →
      cpause K s cont_name = (s, -1)) ∧
    ((cpause K s cont_name).2 = 0 ↔
      ∃ c, get_container_by_name K s cont_name = some c ∧
        ((s.cont c).state = CRUNNABLE ∨ (s.cont c).state = CRUNNING)) := by
  have hok : ∀ c, get_container_by_name K s cont_name = some c →
      ((s.cont c).state = CRUNNABLE ∨ (s.cont c).state = CRUNNING) →
      cpause K s cont_name =
        ({ s.setCont c { s.cont c with state := CPAUSED } with
           curcont := if s.curcont = some c then none else s.curcont }, 0) := by
    intro c hc hst
    unfold cpause
    rw [hc]
    simp only []
    rw [if_neg]
    rintro ⟨h1, h2⟩
    rcases hst with h | h
    · exact h1 h
    · exact h2 h
  have hbad : (get_container_by_name K s cont_name = none ∨
        ∃ c, get_container_by_name K s cont_name = some c ∧
          ¬ ((s.cont c).state = CRUNNABLE ∨ (s.cont c).state = CRUNNING)) →
      cpause K s cont_name = (s, -1) := by
    rintro (h | ⟨c, hc, hst⟩)
    · unfold cpause; rw [h]
    · unfold cpause
      rw [hc]
      simp only []
      rw [if_pos]
      push_neg at hst
      exact hst
  refine ⟨?_, hbad, ?_, ?_⟩
  · intro c hc hst
    rw [hok c hc hst]
    exact ⟨rfl, by simp, rfl, rfl, fun i hi => by simp [hi]⟩
  · intro c hc hp
    apply hbad
    right
    refine ⟨c, hc, ?_⟩
    rw [hp]
    decide
  · constructor
    · intro h0
      by_contra hcon
      have : cpause K s cont_name = (s, -1) := by
        apply hbad
        cases hl : get_container_by_name K s cont_name with
        | none => exact Or.inl rfl
        | some c => exact Or.inr ⟨c, rfl, fun hst => hcon ⟨c, hl, hst⟩⟩
      rw [this] at h0
      simp at h0
    · rintro ⟨c, hc, hst⟩
      rw [hok c hc hst]

/-- Witness of C15: pausing the started container "c1" returns 0. -/
theorem cpause_effect_witness :
    get_container_by_name K2 sysC1Proc.st c1Name = some 1 ∧
    (sysC1Proc.st.cont 1).state = CRUNNABLE ∧
    (cpause K2 sysC1Proc.st c1Name).2 = 0 ∧
    (cpause K2 sysC1Proc.st c1Name).1.curcont = none :=
  ⟨by decide, by decide,
    ((cpause_effect K2 sysC1Proc.st c1Name).1 1 (by decide) (Or.inl (by decide))).1,
    by
      rw [((cpause_effect K2 sysC1Proc.st c1Name).1 1 (by decide) (Or.inl (by decide))).2.2.1]
      decide⟩

/-- C16: `cresume` returns 0 exactly when the container found for the name is
CPAUSED, and then only the state of that container changes, to CRUNNABLE; in every
other case it returns -1 and changes nothing; no process slot and no cursor is
modified in either case; and for a container found CRUNNABLE or CRUNNING, `cpause`
followed by `cresume` of the same name returns 0 twice and leaves that container
CRUNNABLE, with its other fields, all process slots and all other containers as
they were. -/
theorem cresume_effect (K : Params) (s : State) (cont_name : List Nat) :
    (∀ c, get_container_by_name K s cont_name = some c → (s.cont c).state = CPAUSED →
      (cresume K s cont_name).2 = 0 ∧
      (cresume K s cont_name).1.cont c = { s.cont c with state := CRUNNABLE } ∧
      (∀ i, i ≠ c → (cresume K s cont_name).1.cont i = s.cont i) ∧
      (cresume K s cont_name).1.curcont = s.curcont) ∧
    ((get_container_by_name K s cont_name = none ∨
        ∃ c, get_container_by_name K s cont_name = some c ∧ (s.cont c).state ≠ CPAUSED) →
      cresume K s cont_name = (s, -1)) ∧
    ((cresume K s cont_name).2 = 0 ↔
      ∃ c, get_container_by_name K s cont_name = some c ∧ (s.cont c).state = CPAUSED) ∧
    (cresume K s cont_name).1.proc = s.proc ∧
    (∀ i, ((cresume K s cont_name).1.cont i).nextproc = (s.cont i).nextproc) ∧
    (∀ c, get_container_by_name K s cont_name = some c →
      ((s.cont c).state = CRUNNABLE ∨ (s.cont c).state = CRUNNING) →
      (cpause K s cont_name).2 = 0 ∧
      (cresume K (cpause K s cont_name).1 cont_name).2 = 0 ∧
      (cresume K (cpause K s cont_name).1 cont_name).1.cont c =
        { s.cont c with state := CRUNNABLE } ∧
      (cresume K (cpause K s cont_name).1 cont_name).1.proc = s.proc ∧
      (∀ i, i ≠ c → (cresume K (cpause K s cont_name).1 cont_name).1.cont i = s.cont i)) := by
  have hok : ∀ (t : State) c, get_container_by_name K t cont_name = some c →
      (t.cont c).state = CPAUSED →
      cresume K t cont_name = (t.setCont c { t.cont c with state := CRUNNABLE }, 0) := by
    intro t c hc hst
    unfold cresume
    rw [hc]
    simp only []
    rw [if_neg (fun h => h hst)]
  have hbad : (get_container_by_name K s cont_name = none ∨
        ∃ c, get_container_by_name K s cont_name = some c ∧ (s.cont c).state ≠ CPAUSED) →
      cresume K s cont_name = (s, -1) := by
    rintro (h | ⟨c, hc, hst⟩)
    · unfold cresume; rw [h]
    · unfold cresume
      rw [hc]
      simp only []
      rw [if_pos hst]
  have hcases : (∃ c, get_container_by_name K s cont_name = some c ∧ (s.cont c).state = CPAUSED) ∨
      (get_container_by_name K s cont_name = none ∨
        ∃ c, get_container_by_name K s cont_name = some c ∧ (s.cont c).state ≠ CPAUSED) := by
    cases hl : get_container_by_name K s cont_name with
    | none => exact Or.inr (Or.inl rfl)
    | some c =>
      by_cases hp : (s.cont c).state = CPAUSED
      · exact Or.inl ⟨c, rfl, hp⟩
      · exact Or.inr (Or.inr ⟨c, rfl, hp⟩)
  refine ⟨?_, hbad, ?_, ?_, ?_, ?_⟩
  · intro c hc hst
    rw [hok s c hc hst]
    exact ⟨rfl, by simp, fun i hi => by simp [hi], rfl⟩
  · constructor
    · intro h0
      rcases hcases with h | h
      · exact h
      · rw [hbad h] at h0
        simp at h0
    · rintro ⟨c, hc, hst⟩
      rw [hok s c hc hst]
  · rcases hcases with ⟨c, hc, hst⟩ | h
    · rw [hok s c hc hst]; rfl
    · rw [hbad h]
  · intro i
    rcases hcases with ⟨c, hc, hst⟩ | h
    · rw [hok s c hc hst]
      by_cases hi : i = c
      · simp [hi]
      · simp [hi]
    · rw [hbad h]
  · intro c hc hst
    obtain ⟨p1, p2, p3, p4, p5⟩ := (cpause_effect K s cont_name).1 c hc hst
    have hl : get_container_by_name K (cpause K s cont_name).1 cont_name = some c := by
      rw [get_container_by_name_congr K s _ cont_name, hc]
      intro i _
      by_cases hi : i = c
      · subst hi
        rw [p2]
        refine ⟨rfl, ?_⟩
        have := (get_container_by_name_some K s cont_name i hc).2
        simp only []
        constructor
        · intro g; cases g
        · intro g; exact absurd g this
      · rw [p5 i hi]
        exact ⟨rfl, Iff.rfl⟩
    have hp : ((cpause K s cont_name).1.cont c).state = CPAUSED := by rw [p2]
    rw [hok _ c hl hp]
    refine ⟨p1, rfl, ?_, ?_, ?_⟩
    · simp [p2]
    · simp [p4]
    · intro i hi
      simp [hi, p5 i hi]

/-- Witness of C16: the paused container "c1" is resumed. -/
theorem cresume_effect_witness :
    get_container_by_name K2 pausedSt c1Name = some 1 ∧ (pausedSt.cont 1).state = CPAUSED ∧
    (cresume K2 pausedSt c1Name).2 = 0 :=
  ⟨by decide, by decide,
    ((cresume_effect K2 pausedSt c1Name).1 1 (by decide) (by decide)).1⟩

/-! ## cstop twice (C20) -/

theorem cstopAt_fields (K : Params) (s : State) (c : Nat) :
    (cstopAt K s c).initproc = s.initproc ∧
    (cstopAt K s c).curcont = (if s.curcont = some c then none else s.curcont) ∧
    (cstopAt K s c).nextcid = s.nextcid ∧ (cstopAt K s c).nextpid = s.nextpid := by
  obtain ⟨_, h2, h3, h4, h5, _⟩ := cstop_loop s c K.NPROC
  refine ⟨?_, ?_, ?_, ?_⟩
  · simp only [cstopAt]; exact h2
  · simp only [cstopAt, h3]
  · simp only [cstopAt]; exact h4
  · simp only [cstopAt]; exact h5

/-- Stopping a container that was just stopped changes nothing. -/
theorem cstopAt_idem (K : Params) (s : State) (c : Nat) :
    cstopAt K (cstopAt K s c) c = cstopAt K s c := by
  obtain ⟨f1, f2, f3, f4⟩ := cstopAt_fields K s c
  obtain ⟨g1, g2, g3, g4⟩ := cstopAt_fields K (cstopAt K s c) c
  apply State.ext_fields
  · funext i j
    rw [cstopAt_proc K (cstopAt K s c), f1]
    by_cases h : i = c ∧ j < K.NPROC ∧ ((cstopAt K s c).proc c j).state ≠ UNUSED
    · rw [if_pos h]
      obtain ⟨rfl, hj, hu⟩ := h
      rw [cstopAt_proc K s i] at hu ⊢
      by_cases hs : (s.proc i j).state ≠ UNUSED
      · simp [hj, hs]
      · simp [hs] at hu
    · rw [if_neg h]
  · funext i
    rw [cstopAt_cont K (cstopAt K s c)]
    by_cases hi : i = c
    · rw [if_pos hi, hi, cstopAt_cont K s c]
      simp
    · rw [if_neg hi]
  · rw [g1, f1]
  · rw [g2, f2]
    by_cases h : s.curcont = some c
    · simp [h]
    · simp [h]
  · rw [g3, f3]
  · rw [g4, f4]

/-- C20 (as amended): when `cstop(name)` finds the container `c`, it returns 0 and
leaves `c` CSTOPPING, which is not CUNUSED; so a second `cstop(name)` in immediate
succession finds `c` again, returns 0 again and changes nothing.  `cstop` returns -1
exactly when the lookup finds no container for the name, and a container found by
the lookup is never CUNUSED. -/
theorem cstop_twice_succeeds_twice (K : Params) (s : State) (cont_name : List Nat) (c : Nat)
    (h : get_container_by_name K s cont_name = some c) :
    (cstop K s cont_name).2 = 0 ∧
    ((cstop K s cont_name).1.cont c).state = CSTOPPING ∧
    get_container_by_name K (cstop K s cont_name).1 cont_name = some c ∧
    cstop K (cstop K s cont_name).1 cont_name = ((cstop K s cont_name).1, 0) ∧
    (∀ t : State, (cstop K t cont_name).2 = -1 ↔ get_container_by_name K t cont_name = none) ∧
    (∀ (t : State) d, get_container_by_name K t cont_name = some d →
      (t.cont d).state ≠ CUNUSED) := by
  have hcs : cstop K s cont_name = (cstopAt K s c, 0) := by
    unfold cstop; rw [h]
  have hl : get_container_by_name K (cstopAt K s c) cont_name = some c := by
    rw [get_container_by_name_congr K s _ cont_name, h]
    intro i _
    rw [cstopAt_cont]
    by_cases hi : i = c
    · subst hi
      have := (get_container_by_name_some K s cont_name i h).2
      simp only [if_true]
      refine ⟨trivial, ?_⟩
      constructor
      · intro g; cases g
      · intro g; exact absurd g this
    · simp [hi]
  rw [hcs]
  refine ⟨rfl, by simp [cstopAt_cont], hl, ?_, ?_, ?_⟩
  · simp only [cstop, hl, cstopAt_idem]
  · intro t
    unfold cstop
    cases get_container_by_name K t cont_name with
    | none => simp
    | some d => simp
  · intro t d hd
    exact (get_container_by_name_some K t cont_name d hd).2

/-- Witness of C20 (as amended): "c1" is stopped twice. -/
theorem cstop_twice_succeeds_twice_witness :
    get_container_by_name K2 sysC1Proc.st c1Name = some 1 ∧
    (cstop K2 sysC1Proc.st c1Name).2 = 0 ∧
    get_container_by_name K2 (cstop K2 sysC1Proc.st c1Name).1 c1Name = some 1 :=
  ⟨by decide, (cstop_twice_succeeds_twice K2 sysC1Proc.st c1Name 1 (by decide)).1,
    (cstop_twice_succeeds_twice K2 sysC1Proc.st c1Name 1 (by decide)).2.2.1⟩

/-- C20, counterexample: the existing container "c1" is stopped twice in succession;
the second call returns 0, not -1, the container being still CSTOPPING. -/
theorem second_cstop_returns_zero :
    (cstop K2 sysC1Proc.st c1Name).2 = 0 ∧
    ((cstop K2 sysC1Proc.st c1Name).1.cont 1).state = CSTOPPING ∧
    (cstop K2 (cstop K2 sysC1Proc.st c1Name).1 c1Name).2 = 0 := by
  decide

/-! ## ccreate (C17, C18, C19) and kill (C13) -/

theorem int32_succ_pred (x : Int) (h : IsInt32 x) : int32 (int32 (x + 1) - 1) = x := by
  unfold IsInt32 at h
  unfold int32
  omega

/-- What `ccreate` does, by cases: the four ways to fail and the success. -/
theorem ccreate_cases (K : Params) (s : State) (fpath : List Nat) (namei : Nat) :
    (ccreate K s fpath namei = (s, -1) ∧
      (extract_container_name fpath = none ∨
        (∃ n d, extract_container_name fpath = some n ∧
          get_container_by_name K s n = some d) ∨
        (∀ i, i < K.NCONT → (s.cont i).state ≠ CUNUSED))) ∨
    (∃ n c, extract_container_name fpath = some n ∧ get_container_by_name K s n = none ∧
      c < K.NCONT ∧ (s.cont c).state = CUNUSED ∧ (∀ i, i < c → (s.cont i).state ≠ CUNUSED) ∧
      ((namei = 0 ∧ ccreate K s fpath namei =
          ({ s.setCont c { s.cont c with state := CUNUSED, cid := s.nextcid } with
             nextcid := int32 (int32 (s.nextcid + 1) - 1) }, -1)) ∨
        (namei ≠ 0 ∧ ccreate K s fpath namei =
          ({ s.setCont c
              { s.cont c with
                cid := s.nextcid, rootdir := namei, rootpath := safestrcpy fpath 200,
                state := CREADY, nextproc := 0, name := safestrcpy n 16 } with
             nextcid := int32 (s.nextcid + 1) }, 0)))) := by
  unfold ccreate
  cases he : extract_container_name fpath with
  | none => exact Or.inl ⟨rfl, Or.inl rfl⟩
  | some n =>
    simp only []
    cases hl : get_container_by_name K s n with
    | some d =>
      left
      simp only [Option.isSome_some, if_true]
      exact ⟨trivial, Or.inr (Or.inl ⟨n, d, rfl, hl⟩)⟩
    | none =>
      simp only [Option.isSome_none, Bool.false_eq_true, if_false]
      rcases alloccont_spec K s with ⟨ha, hfull⟩ | ⟨c, ha, hc, hu, hmin⟩
      · left
        rw [ha]
        exact ⟨rfl, Or.inr (Or.inr hfull)⟩
      · right
        refine ⟨n, c, rfl, hl, hc, hu, hmin, ?_⟩
        rw [ha]
        simp only []
        by_cases hn : namei = 0
        · left
          refine ⟨hn, ?_⟩
          rw [if_pos hn]
          congr 1
          apply State.ext_fields <;> try rfl
          funext i
          by_cases hi : i = c
          · simp [hi]
          · simp [hi]
        · right
          refine ⟨hn, ?_⟩
          rw [if_neg hn]
          congr 1
          apply State.ext_fields <;> try rfl
          funext i
          by_cases hi : i = c
          · simp [hi]
          · simp [hi]

/-- C19: `ccreate` returns -1 exactly in the four cases (no name of at most 15 bytes,
a container found for the name, no CUNUSED slot, no inode for the path); and
whenever it returns -1, the cid counter (a 32-bit value) is what it was, every
container slot has the state it had, so none has been left in CEMBRYO, no process
slot has changed, and a later `ccreate` that succeeds gives its container the cid the
counter had before the failed call. -/
theorem ccreate_failure_restores (K : Params) (s : State) (fpath : List Nat) (namei : Nat)
    (h32 : IsInt32 s.nextcid) :
    ((ccreate K s fpath namei).2 = -1 ↔
      (extract_container_name fpath = none ∨
        (∃ n d, extract_container_name fpath = some n ∧ get_container_by_name K s n = some d) ∨
        (∀ i, i < K.NCONT → (s.cont i).state ≠ CUNUSED) ∨ namei = 0)) ∧
    ((ccreate K s fpath namei).2 = -1 →
      (ccreate K s fpath namei).1.nextcid = s.nextcid ∧
      (∀ i, ((ccreate K s fpath namei).1.cont i).state = (s.cont i).state) ∧
      (∀ i, ((ccreate K s fpath namei).1.cont i).state = CEMBRYO → (s.cont i).state = CEMBRYO) ∧
      (ccreate K s fpath namei).1.proc = s.proc ∧
      (ccreate K s fpath namei).1.curcont = s.curcont ∧
      ∀ fpath2 namei2, (ccreate K (ccreate K s fpath namei).1 fpath2 namei2).2 = 0 →
        ∃ c, c < K.NCONT ∧ (s.cont c).state = CUNUSED ∧
          ((ccreate K (ccreate K s fpath namei).1 fpath2 namei2).1.cont c).state = CREADY ∧
          ((ccreate K (ccreate K s fpath namei).1 fpath2 namei2).1.cont c).cid = s.nextcid) := by
  have hsucc : ∀ (t : State) (f2 : List Nat) (n2 : Nat), (ccreate K t f2 n2).2 = 0 →
      ∃ c, c < K.NCONT ∧ (t.cont c).state = CUNUSED ∧
        ((ccreate K t f2 n2).1.cont c).state = CREADY ∧
        ((ccreate K t f2 n2).1.cont c).cid = t.nextcid := by
    intro t f2 n2 h0
    rcases ccreate_cases K t f2 n2 with ⟨he, _⟩ | ⟨n, c, _, _, hc, hu, _, ⟨_, he⟩ | ⟨_, he⟩⟩
    · rw [he] at h0; simp at h0
    · rw [he] at h0; simp at h0
    · rw [he]
      exact ⟨c, hc, hu, by simp, by simp⟩
  have hrest : ∀ t : State, t.nextcid = s.nextcid →
      (∀ i, (t.cont i).state = (s.cont i).state) → t.proc = s.proc → t.curcont = s.curcont →
      t.nextcid = s.nextcid ∧ (∀ i, (t.cont i).state = (s.cont i).state) ∧
      (∀ i, (t.cont i).state = CEMBRYO → (s.cont i).state = CEMBRYO) ∧
      t.proc = s.proc ∧ t.curcont = s.curcont ∧
      ∀ fpath2 namei2, (ccreate K t fpath2 namei2).2 = 0 →
        ∃ c, c < K.NCONT ∧ (s.cont c).state = CUNUSED ∧
          ((ccreate K t fpath2 namei2).1.cont c).state = CREADY ∧
          ((ccreate K t fpath2 namei2).1.cont c).cid = s.nextcid := by
    intro t h1 h2 h3 h4
    refine ⟨h1, h2, fun i hi => by rw [← h2 i]; exact hi, h3, h4, ?_⟩
    intro f2 n2 h0
    obtain ⟨c, hc, hu, hr, hcid⟩ := hsucc t f2 n2 h0
    exact ⟨c, hc, by rw [← h2 c]; exact hu, hr, by rw [hcid, h1]⟩
  rcases ccreate_cases K s fpath namei with
    ⟨he, hcause⟩ | ⟨n, c, hx, hl, hc, hu, hmin, ⟨hn, he⟩ | ⟨hn, he⟩⟩
  · rw [he]
    refine ⟨?_, fun _ => hrest s rfl (fun _ => rfl) rfl rfl⟩
    simp only [true_iff]
    rcases hcause with h | h | h
    · exact Or.inl h
    · exact Or.inr (Or.inl h)
    · exact Or.inr (Or.inr (Or.inl h))
  · rw [he]
    refine ⟨?_, fun _ => hrest _ ?_ ?_ rfl rfl⟩
    · simp only [true_iff]
      exact Or.inr (Or.inr (Or.inr hn))
    · simp only []
      exact int32_succ_pred _ h32
    · intro i
      by_cases hi : i = c
      · simp [hi, hu]
      · simp [hi]
  · rw [he]
    constructor
    · constructor
      · intro h; simp at h
      · rintro (h | ⟨m, d, h1, h2⟩ | h | h)
        · rw [hx] at h; cases h
        · rw [hx] at h1
          cases h1
          rw [hl] at h2
          cases h2
        · exact absurd hu (h c hc)
        · exact absurd h hn
    · intro h; simp at h

/-- Witness of C19: a `ccreate` whose path has no inode. -/
theorem ccreate_failure_restores_witness :
    IsInt32 sysInit.st.nextcid ∧ (ccreate K2 sysInit.st c1Path 0).2 = -1 ∧
    (ccreate K2 sysInit.st c1Path 0).1.nextcid = sysInit.st.nextcid :=
  ⟨by decide, by decide,
    ((ccreate_failure_restores K2 sysInit.st c1Path 0 (by decide)).2 (by decide)).1⟩

/-- C17, the code at the failing input: right after boot the path "/root" has the
trailing component "root" (4 bytes), no container is named "root" (the only one in
use is "root container"), slot 1 is CUNUSED and the path has an inode; yet `ccreate`
returns -1 and slot 1 stays CUNUSED, because the lookup takes "root" for the
container whose name starts with it. -/
theorem ccreate_rejects_name_that_starts_another :
    extract_container_name rootPath = some rootName ∧
    (sysInit.st.cont 0).name ≠ rootName ∧ (sysInit.st.cont 1).state = CUNUSED ∧
    get_container_by_name K2 sysInit.st rootName = some 0 ∧
    (ccreate K2 sysInit.st rootPath 9).2 = -1 ∧
    ((ccreate K2 sysInit.st rootPath 9).1.cont 1).state = CUNUSED := by
  decide

/-- C18, the code at the failing input: the state after `traceSameName` is
reachable, and in it the slots 1 and 2 of the container table are both in use
(CREADY and CRUNNABLE) under the same name "c1". -/
theorem two_containers_same_name :
    Reachable K3 sysSameName ∧
    (sysSameName.st.cont 1).state = CREADY ∧ (sysSameName.st.cont 2).state = CRUNNABLE ∧
    (sysSameName.st.cont 1).name = c1Name ∧ (sysSameName.st.cont 2).name = c1Name :=
  ⟨reachable_run K3 traceSameName _ _ (Reachable.boot 7 100 200 boot3 rfl) rfl,
    by decide, by decide, by decide, by decide⟩

/-- C13, the code at the failing input: right after boot no process has pid 0 and
slot 1 of the root container is UNUSED (its pid field is 0); `kill(0)` called by
`initproc` returns 0 and sets `killed` in that free slot, and the process that the
next `fork` puts there starts with `killed = 1`. -/
theorem kill_zero_marks_free_slot :
    (sysInit.st.proc 0 0).pid = 1 ∧ (sysInit.st.proc 0 1).state = UNUSED ∧
    (sysInit.st.proc 0 1).pid = 0 ∧ (sysInit.st.proc 0 1).killed = 0 ∧
    (kill K2 sysInit.st (0, 0) 0).map (fun r => (r.2, (r.1.proc 0 1).state, (r.1.proc 0 1).killed)) =
      some (0, UNUSED, 1) ∧
    ((kill K2 sysInit.st (0, 0) 0).bind (fun r => fork K2 r.1 (0, 0) none 300 400)).map
      (fun r => (r.2, (r.1.proc 0 1).state, (r.1.proc 0 1).killed)) = some (2, RUNNABLE, 1) := by
  decide

/-! ## exit (C11) -/

theorem wakeup1_parent (K : Params) (s : State) (chan : Chan) (i j : Nat) :
    ((wakeup1 K s chan).proc i j).parent = (s.proc i j).parent := by
  rw [wakeup1_proc]; split <;> rfl

theorem wakeup1_chan (K : Params) (s : State) (chan : Chan) (i j : Nat) :
    ((wakeup1 K s chan).proc i j).chan = (s.proc i j).chan := by
  rw [wakeup1_proc]; split <;> rfl

theorem wakeup1_pcont (K : Params) (s : State) (chan : Chan) (i j : Nat) :
    ((wakeup1 K s chan).proc i j).cont = (s.proc i j).cont := by
  rw [wakeup1_proc]; split <;> rfl

theorem wakeup1_state (K : Params) (s : State) (chan : Chan) (i j : Nat) :
    ((wakeup1 K s chan).proc i j).state =
      if i < K.NCONT ∧ j < K.NPROC ∧ (s.proc i j).state = SLEEPING ∧ (s.proc i j).chan = chan then
        RUNNABLE
      else (s.proc i j).state := by
  rw [wakeup1_proc]; split <;> rfl

theorem hasZombieChild_succ (s : State) (cur : PRef) (c n : Nat) :
    hasZombieChild s cur c (n + 1) = (hasZombieChild s cur c n || zombieChild s cur c n) := by
  unfold hasZombieChild
  rw [firstIdx_succ]
  cases firstIdx (zombieChild s cur c) n with
  | some r => simp
  | none => cases zombieChild s cur c n <;> simp

/-- The loop of `exit` over the first `n` slots of the caller's row `c`, started in
`t0`: the children of `cur` among them get `initproc` as parent, and when one of them
is a ZOMBIE every slot of the table asleep on `initproc` is RUNNABLE; nothing else
changes. -/
theorem exit_loop (K : Params) (t0 : State) (cur : PRef) (c n : Nat) :
    let t := forLoop (fun j (t : State) =>
      if (t.proc c j).parent = some cur then
        let t1 := t.setProc c j { t.proc c j with parent := t.initproc }
        if (t1.proc c j).state = ZOMBIE then wakeup1 K t1 (procChan (t1.proc c j).parent)
        else t1
      else t) n t0
    t.cont = t0.cont ∧ t.initproc = t0.initproc ∧ t.curcont = t0.curcont ∧
    t.nextcid = t0.nextcid ∧ t.nextpid = t0.nextpid ∧
    (∀ i j, (t.proc i j).parent =
      if i = c ∧ j < n ∧ (t0.proc c j).parent = some cur then t0.initproc
      else (t0.proc i j).parent) ∧
    (∀ i j, (t.proc i j).state =
      if hasZombieChild t0 cur c n = true ∧ i < K.NCONT ∧ j < K.NPROC ∧
          (t0.proc i j).state = SLEEPING ∧ (t0.proc i j).chan = procChan t0.initproc then
        RUNNABLE
      else (t0.proc i j).state) ∧
    (∀ i j, (t.proc i j).cont = (t0.proc i j).cont ∧ (t.proc i j).chan = (t0.proc i j).chan ∧
      (t.proc i j).pid = (t0.proc i j).pid ∧ (t.proc i j).killed = (t0.proc i j).killed) := by
  induction n with
  | zero =>
    simp [forLoop, hasZombieChild, firstIdx, forLoopRet]
  | succ n ih =>
    simp only [forLoop]
    generalize forLoop _ n t0 = T at ih ⊢
    obtain ⟨h1, h2, h3, h4, h5, hp, hs, hr⟩ := ih
    have hpn : (T.proc c n).parent = (t0.proc c n).parent := by
      rw [hp]; simp
    rw [hasZombieChild_succ]
    by_cases hA : (t0.proc c n).parent = some cur
    · rw [if_pos (hpn.trans hA)]
      simp only [setProc_proc, and_self, if_true]
      have hsn : (T.proc c n).state = ZOMBIE ↔ (t0.proc c n).state = ZOMBIE := by
        rw [hs]
        constructor
        · intro h
          split at h
          · cases h
          · exact h
        · intro h
          rw [if_neg]
          · exact h
          · intro g
            rw [h] at g
            exact absurd g.2.2.2.1 (by decide)
      by_cases hB : (t0.proc c n).state = ZOMBIE
      · rw [if_pos (hsn.mpr hB)]
        have hz : zombieChild t0 cur c n = true := by simp [zombieChild, hA, hB]
        obtain ⟨w1, w2, w3, w4⟩ := wakeup1_fields K
          (T.setProc c n { T.proc c n with parent := T.initproc }) (procChan T.initproc)
        refine ⟨(wakeup1_cont K _ _).trans h1, w1.trans h2, w2.trans h3, w3.trans h4,
          w4.trans h5, ?_, ?_, ?_⟩
        · intro i j
          rw [wakeup1_parent]
          simp only [setProc_proc]
          by_cases hij : i = c ∧ j = n
          · obtain ⟨rfl, rfl⟩ := hij
            simp [hA, h2]
          · rw [if_neg hij, hp]
            by_cases hi : i = c
            · subst hi
              have hj : j ≠ n := fun g => hij ⟨rfl, g⟩
              have : j < n + 1 ↔ j < n := by omega
              simp [this]
            · simp [hi]
        · intro i j
          rw [wakeup1_state]
          have e1 : ((T.setProc c n { T.proc c n with parent := T.initproc }).proc i j).state =
              (T.proc i j).state := by
            simp only [setProc_proc]; split
            · rename_i g; rw [g.1, g.2]
            · rfl
          have e2 : ((T.setProc c n { T.proc c n with parent := T.initproc }).proc i j).chan =
              (T.proc i j).chan := by
            simp only [setProc_proc]; split
            · rename_i g; rw [g.1, g.2]
            · rfl
          rw [e1, e2, hs, (hr i j).2.1, h2, hz]
          simp only [Bool.or_true, true_and]
          by_cases hw : i < K.NCONT ∧ j < K.NPROC ∧ (t0.proc i j).state = SLEEPING ∧
              (t0.proc i j).chan = procChan t0.initproc
          · rw [if_pos hw]
            by_cases ha : hasZombieChild t0 cur c n = true
            · simp [ha, hw]
            · simp [ha, hw]
          · rw [if_neg hw]
            have : ¬ (hasZombieChild t0 cur c n = true ∧ i < K.NCONT ∧ j < K.NPROC ∧
                (t0.proc i j).state = SLEEPING ∧ (t0.proc i j).chan = procChan t0.initproc) :=
              fun g => hw g.2
            rw [if_neg this, if_neg]
            intro g
            exact hw ⟨g.1, g.2.1, g.2.2.1, g.2.2.2⟩
        · intro i j
          rw [wakeup1_pcont, wakeup1_chan, wakeup1_proc]
          have := hr i j
          simp only [setProc_proc]
          by_cases hij : i = c ∧ j = n
          · obtain ⟨rfl, rfl⟩ := hij
            simp only [and_self, if_true]
            split <;> exact this
          · simp only [hij, if_false]
            split <;> exact this
      · have hB1 : ¬ (T.proc c n).state = ZOMBIE := fun g => hB (hsn.mp g)
        rw [if_neg hB1]
        have hz : zombieChild t0 cur c n = false := by simp [zombieChild, hA, hB]
        refine ⟨h1, h2, h3, h4, h5, ?_, ?_, ?_⟩
        · intro i j
          simp only [setProc_proc]
          by_cases hij : i = c ∧ j = n
          · obtain ⟨rfl, rfl⟩ := hij
            simp [hA, h2]
          · rw [if_neg hij, hp]
            by_cases hi : i = c
            · subst hi
              have hj : j ≠ n := fun g => hij ⟨rfl, g⟩
              have : j < n + 1 ↔ j < n := by omega
              simp [this]
            · simp [hi]
        · intro i j
          rw [hz, Bool.or_false, ← hs]
          simp only [setProc_proc]
          split
          · rename_i g; rw [g.1, g.2]
          · rfl
        · intro i j
          have := hr i j
          simp only [setProc_proc]
          by_cases hij : i = c ∧ j = n
          · obtain ⟨rfl, rfl⟩ := hij
            simp only [and_self, if_true]
            exact this
          · simp only [hij, if_false]
            exact this
    · rw [if_neg (fun g => hA (hpn.symm.trans g))]
      have hz : zombieChild t0 cur c n = false := by simp [zombieChild, hA]
      refine ⟨h1, h2, h3, h4, h5, ?_, ?_, hr⟩
      · intro i j
        rw [hp]
        by_cases hi : i = c
        · subst hi
          by_cases hj : j = n
          · subst hj; simp [hA]
          · have : j < n + 1 ↔ j < n := by omega
            simp [this]
        · simp [hi]
      · intro i j
        rw [hz, Bool.or_false]
        exact hs i j

/-- The first `wakeup1` of `exit` does not change which slots are ZOMBIE children. -/
theorem zombieChild_wakeup1 (K : Params) (s : State) (chan : Chan) (cur : PRef) (i j : Nat) :
    zombieChild (wakeup1 K s chan) cur i j = zombieChild s cur i j := by
  unfold zombieChild
  rw [wakeup1_parent, wakeup1_state]
  by_cases h : i < K.NCONT ∧ j < K.NPROC ∧ (s.proc i j).state = SLEEPING ∧ (s.proc i j).chan = chan
  · rw [if_pos h]
    have h1 : (s.proc i j).state ≠ ZOMBIE := by rw [h.2.2.1]; decide
    simp [h1]
  · rw [if_neg h]

theorem hasZombieChild_wakeup1 (K : Params) (s : State) (chan : Chan) (cur : PRef) (c n : Nat) :
    hasZombieChild (wakeup1 K s chan) cur c n = hasZombieChild s cur c n := by
  unfold hasZombieChild
  rw [firstIdx_congr _ (zombieChild s cur c) n (fun j _ => zombieChild_wakeup1 K s chan cur c j)]

/-- What `exit` does when it neither panics nor faults: the caller is not `initproc`
and its container pointer is `c`. -/
theorem exit_spec (K : Params) (s : State) (cur : PRef) (c : Nat)
    (hinit : s.initproc ≠ some cur) (hc : (s.proc cur.1 cur.2).cont = some c) :
    ∃ st, exit K s cur = some st ∧ st.cont = s.cont ∧ st.initproc = s.initproc ∧
      st.curcont = s.curcont ∧ st.nextcid = s.nextcid ∧ st.nextpid = s.nextpid ∧
      (st.proc cur.1 cur.2).state = ZOMBIE ∧
      (∀ i j, (st.proc i j).parent =
        if i = c ∧ j < K.NPROC ∧ (s.proc c j).parent = some cur then s.initproc
        else (s.proc i j).parent) ∧
      (∀ i j, (st.proc i j).cont = (s.proc i j).cont ∧ (st.proc i j).chan = (s.proc i j).chan ∧
        (st.proc i j).pid = (s.proc i j).pid ∧ (st.proc i j).killed = (s.proc i j).killed) ∧
      (∀ i j, ¬ (i = cur.1 ∧ j = cur.2) →
        (st.proc i j).state = (s.proc i j).state ∨
          ((s.proc i j).state = SLEEPING ∧ (st.proc i j).state = RUNNABLE)) ∧
      (∀ i j, ¬ (i = cur.1 ∧ j = cur.2) → i < K.NCONT → j < K.NPROC →
        (s.proc i j).state = SLEEPING →
        (s.proc i j).chan = procChan (s.proc cur.1 cur.2).parent →
        (st.proc i j).state = RUNNABLE) ∧
      (∀ i j, ¬ (i = cur.1 ∧ j = cur.2) → i < K.NCONT → j < K.NPROC →
        (s.proc i j).state = SLEEPING → (s.proc i j).chan = procChan s.initproc →
        hasZombieChild s cur c K.NPROC = true → (st.proc i j).state = RUNNABLE) := by
  unfold exit
  rw [if_neg hinit, hc]
  simp only []
  obtain ⟨h1, h2, h3, h4, h5, hp, hs, hr⟩ :=
    exit_loop K (wakeup1 K s (procChan (s.proc cur.1 cur.2).parent)) cur c K.NPROC
  simp only [] at h1 h2 h3 h4 h5 hp hs hr
  generalize forLoop _ K.NPROC (wakeup1 K s (procChan (s.proc cur.1 cur.2).parent)) = T
    at h1 h2 h3 h4 h5 hp hs hr
  obtain ⟨w1, w2, w3, w4⟩ := wakeup1_fields K s (procChan (s.proc cur.1 cur.2).parent)
  have hstate : ∀ i j, ¬ (i = cur.1 ∧ j = cur.2) →
      ((T.setProc cur.1 cur.2 { T.proc cur.1 cur.2 with state := ZOMBIE }).proc i j).state =
        (T.proc i j).state := by
    intro i j hij
    simp [hij]
  refine ⟨_, rfl, ?_, ?_, ?_, ?_, ?_, ?_, ?_, ?_, ?_, ?_, ?_⟩
  · exact h1.trans (wakeup1_cont K s _)
  · exact h2.trans w1
  · exact h3.trans w2
  · exact h4.trans w3
  · exact h5.trans w4
  · simp
  · intro i j
    have e : ((T.setProc cur.1 cur.2 { T.proc cur.1 cur.2 with state := ZOMBIE }).proc i j).parent =
        (T.proc i j).parent := by
      simp only [setProc_proc]; split
      · rename_i g; rw [g.1, g.2]
      · rfl
    rw [e, hp, w1, wakeup1_parent, wakeup1_parent]
  · intro i j
    have e : ((T.setProc cur.1 cur.2 { T.proc cur.1 cur.2 with state := ZOMBIE }).proc i j).cont =
          (T.proc i j).cont ∧
        ((T.setProc cur.1 cur.2 { T.proc cur.1 cur.2 with state := ZOMBIE }).proc i j).chan =
          (T.proc i j).chan ∧
        ((T.setProc cur.1 cur.2 { T.proc cur.1 cur.2 with state := ZOMBIE }).proc i j).pid =
          (T.proc i j).pid ∧
        ((T.setProc cur.1 cur.2 { T.proc cur.1 cur.2 with state := ZOMBIE }).proc i j).killed =
          (T.proc i j).killed := by
      simp only [setProc_proc]; split
      · rename_i g; rw [g.1, g.2]; exact ⟨rfl, rfl, rfl, rfl⟩
      · exact ⟨rfl, rfl, rfl, rfl⟩
    have hw := wakeup1_proc K s (procChan (s.proc cur.1 cur.2).parent) i j
    obtain ⟨r1, r2, r3, r4⟩ := hr i j
    refine ⟨?_, ?_, ?_, ?_⟩
    · rw [e.1, r1, wakeup1_pcont]
    · rw [e.2.1, r2, wakeup1_chan]
    · rw [e.2.2.1, r3, hw]; split <;> rfl
    · rw [e.2.2.2, r4, hw]; split <;> rfl
  · intro i j hij
    rw [hstate i j hij, hs, wakeup1_state]
    by_cases hW : i < K.NCONT ∧ j < K.NPROC ∧ (s.proc i j).state = SLEEPING ∧
        (s.proc i j).chan = procChan (s.proc cur.1 cur.2).parent
    · right
      rw [if_pos hW]
      refine ⟨hW.2.2.1, ?_⟩
      rw [if_neg]
      intro g
      exact absurd g.2.2.2.1 (by decide)
    · rw [if_neg hW]
      split
      · rename_i g
        exact Or.inr ⟨g.2.2.2.1, rfl⟩
      · exact Or.inl rfl
  · intro i j hij hi hj hsl hch
    have hw : ((wakeup1 K s (procChan (s.proc cur.1 cur.2).parent)).proc i j).state = RUNNABLE := by
      rw [wakeup1_state, if_pos ⟨hi, hj, hsl, hch⟩]
    rw [hstate i j hij, hs, hw]
    split <;> rfl
  · intro i j hij hi hj hsl hch hz
    rw [hstate i j hij, hs, hasZombieChild_wakeup1, wakeup1_chan, w1]
    by_cases hW : (s.proc i j).chan = procChan (s.proc cur.1 cur.2).parent
    · have hw : ((wakeup1 K s (procChan (s.proc cur.1 cur.2).parent)).proc i j).state =
          RUNNABLE := by
        rw [wakeup1_state, if_pos ⟨hi, hj, hsl, hW⟩]
      rw [hw]
      split <;> rfl
    · have hw : ((wakeup1 K s (procChan (s.proc cur.1 cur.2).parent)).proc i j).state =
          SLEEPING := by
        rw [wakeup1_state, if_neg (fun g => hW g.2.2.2), hsl]
      rw [hw, if_pos ⟨hz, hi, hj, rfl, hch⟩]

/-! ## Reachable states: pointers stay in the table, parents stay local (C11) -/

/-- An operation that leaves the process table alone is a `SlotStep`. -/
theorem slotStep_of_proc_eq (s s1 : State) (cur : Option PRef) (h : s1.proc = s.proc) :
    SlotStep s s1 cur := by
  intro i j
  rw [h]
  exact ⟨Or.inl rfl, Or.inl rfl, fun g => Or.inl g⟩

/-- A store into the caller's slot that keeps container and parent is a `SlotStep`. -/
theorem slotStep_setProc_self (s : State) (p : PRef) (v : Proc)
    (hc : v.cont = (s.proc p.1 p.2).cont) (hp : v.parent = (s.proc p.1 p.2).parent) :
    SlotStep s (s.setProc p.1 p.2 v) (some p) := by
  intro i j
  simp only [setProc_proc]
  by_cases h : i = p.1 ∧ j = p.2
  · rw [if_pos h]
    obtain ⟨rfl, rfl⟩ := h
    exact ⟨Or.inl hc, Or.inl hp, fun _ => Or.inr (Or.inr rfl)⟩
  · rw [if_neg h]
    exact ⟨Or.inl rfl, Or.inl rfl, fun g => Or.inl g⟩

/-- `ProcsLocal` is kept by a system call that returns to its caller, when its effect
on the process table is a `SlotStep` of a process that is on a processor. -/
theorem procsLocal_withState (K : Params) (s : Sys) (st : State) (cur : Option PRef)
    (hI : ProcsLocal K s)
    (hcur : ∀ p, cur = some p → ∃ k, (s.cpu k).proc = some p)
    (hstep : SlotStep s.st st cur) (hinit : st.initproc = s.st.initproc) :
    ProcsLocal K (withState s st) := by
  obtain ⟨⟨r, hr, hr1, hr2⟩, hcpu, hused, hpar⟩ := hI
  refine ⟨⟨r, by simp only [withState]; rw [hinit, hr], hr1, hr2⟩, ?_, ?_, ?_⟩
  · intro k p hp
    obtain ⟨h1, h2, h3⟩ := hcpu k p hp
    refine ⟨?_, h2, h3⟩
    rcases (hstep p.1 p.2).1 with g | g
    · simp only [withState]; rw [g, h1]
    · exact g
  · intro i j hne
    simp only [withState] at hne ⊢
    rcases (hstep i j).1 with g | g
    · rcases (hstep i j).2.2 hne with g1 | g1 | g1
      · rw [g]; exact hused i j g1
      · exact g1
      · obtain ⟨k, hk⟩ := hcur (i, j) g1
        rw [g]
        exact (hcpu k (i, j) hk).1
    · exact g
  · intro i j q hq
    simp only [withState] at hq ⊢
    rw [hinit]
    rcases (hstep i j).2.1 with g | g | g | ⟨p, hp1, hp2, hp3⟩
    · rw [g] at hq
      exact hpar i j q hq
    · rw [g] at hq; cases hq
    · rw [g, hr] at hq
      cases hq
      exact ⟨Or.inl hr, hr1, hr2⟩
    · rw [hp2] at hq
      have e := Option.some.inj hq
      subst e
      obtain ⟨k, hk⟩ := hcur p hp1
      obtain ⟨h1, h2, h3⟩ := hcpu k p hk
      rw [h1] at hp3
      cases hp3
      exact ⟨Or.inr rfl, h2, h3⟩

/-- `ProcsLocal` survives the return to the scheduler. -/
theorem procsLocal_toScheduler (K : Params) (s : Sys) (k : Nat) (st : State)
    (h : ProcsLocal K (withState s st)) : ProcsLocal K (toScheduler K s k st) := by
  obtain ⟨hinit, hcpu, hused, hpar⟩ := h
  have hproc : (schedReturn st (s.cpu k).ii).proc = st.proc := (schedReturn_frame st _).2
  have hi : (schedReturn st (s.cpu k).ii).initproc = st.initproc := by
    unfold schedReturn; split <;> rfl
  refine ⟨?_, ?_, ?_, ?_⟩
  · simpa [toScheduler, withState, hi] using hinit
  · intro k1 p hp
    simp only [toScheduler] at hp ⊢
    rw [hproc]
    by_cases hk : k1 = k
    · rw [if_pos hk] at hp; cases hp
    · rw [if_neg hk] at hp
      exact hcpu k1 p hp
  · intro i j hne
    simp only [toScheduler] at hne ⊢
    rw [hproc] at hne ⊢
    exact hused i j hne
  · intro i j q hq
    simp only [toScheduler] at hq ⊢
    rw [hproc] at hq
    rw [hi]
    exact hpar i j q hq

theorem exit_slotStep (K : Params) (s st : State) (p : PRef) (h : exit K s p = some st) :
    SlotStep s st (some p) ∧ st.initproc = s.initproc := by
  by_cases hinit : s.initproc = some p
  · unfold exit at h; rw [if_pos hinit] at h; cases h
  · cases hc : (s.proc p.1 p.2).cont with
    | none => unfold exit at h; rw [if_neg hinit, hc] at h; cases h
    | some c =>
      obtain ⟨st1, he, _, hi, _, _, _, _, hpar, hrest, hst, _, _⟩ := exit_spec K s p c hinit hc
      rw [he] at h
      cases h
      refine ⟨?_, hi⟩
      intro i j
      refine ⟨Or.inl (hrest i j).1, ?_, ?_⟩
      · rw [hpar]
        split
        · exact Or.inr (Or.inr (Or.inl rfl))
        · exact Or.inl rfl
      · intro hne
        by_cases hij : i = p.1 ∧ j = p.2
        · obtain ⟨rfl, rfl⟩ := hij
          exact Or.inr (Or.inr rfl)
        · left
          rcases hst i j hij with g | ⟨g, _⟩
          · rw [← g]; exact hne
          · rw [g]; decide

theorem wait_slotStep (K : Params) (s : State) (p : PRef) :
    SlotStep s (wait K s p).1 (some p) ∧ (wait K s p).1.initproc = s.initproc := by
  rw [wait_eq]
  cases firstZombieCont K s p K.NCONT with
  | some i0 =>
    refine ⟨?_, rfl⟩
    intro i j
    simp only [reap_proc, sweep_proc]
    split
    · exact ⟨Or.inl (by rename_i g; rw [g.1, g.2]), Or.inr (Or.inl rfl), fun g => absurd rfl g⟩
    · exact ⟨Or.inl rfl, Or.inl rfl, fun g => Or.inl g⟩
  | none =>
    simp only []
    split
    · exact ⟨slotStep_of_proc_eq _ _ _ rfl, rfl⟩
    · refine ⟨?_, rfl⟩
      have := slotStep_setProc_self (sweep s K.NCONT) p
        { (sweep s K.NCONT).proc p.1 p.2 with chan := procChan (some p), state := SLEEPING }
        rfl rfl
      exact this

theorem allocproc_slot (K : Params) (s : State) (c kalloc : Nat) :
    (allocproc K s c kalloc).1.initproc = s.initproc ∧
    ∀ i j,
      (((allocproc K s c kalloc).1.proc i j).cont = (s.proc i j).cont ∨
        ((allocproc K s c kalloc).1.proc i j).cont = some i) ∧
      ((allocproc K s c kalloc).1.proc i j).parent = (s.proc i j).parent ∧
      (((allocproc K s c kalloc).1.proc i j).state ≠ UNUSED →
        (s.proc i j).state ≠ UNUSED ∨ ((allocproc K s c kalloc).1.proc i j).cont = some i) := by
  unfold allocproc
  split
  · exact ⟨rfl, fun i j => ⟨Or.inl rfl, rfl, fun g => Or.inl g⟩⟩
  · cases hf : firstIdx (fun j => decide ((s.proc c j).state = UNUSED)) K.NPROC with
    | none => exact ⟨rfl, fun i j => ⟨Or.inl rfl, rfl, fun g => Or.inl g⟩⟩
    | some j0 =>
      simp only []
      split
      · refine ⟨rfl, fun i j => ?_⟩
        simp only [setProc_proc]
        by_cases hij : i = c ∧ j = j0
        · obtain ⟨rfl, rfl⟩ := hij
          simp
        · simp only [hij, if_false]
          exact ⟨Or.inl trivial, trivial, fun g => Or.inl g⟩
      · refine ⟨rfl, fun i j => ?_⟩
        simp only [setProc_proc]
        by_cases hij : i = c ∧ j = j0
        · obtain ⟨rfl, rfl⟩ := hij
          simp
        · simp only [hij, if_false]
          exact ⟨Or.inl trivial, trivial, fun g => Or.inl g⟩

theorem forkChoice_cases (s : State) (p : PRef) (target : Option Nat) (c : Nat)
    (h : (forkChoice s p target).1 = some c) :
    (forkChoice s p target).2 = s.initproc ∨
    ((forkChoice s p target).2 = some p ∧ (s.proc p.1 p.2).cont = some c) := by
  unfold forkChoice at h ⊢
  cases target with
  | some t => exact Or.inl rfl
  | none =>
    cases hcc : s.curcont with
    | some cc => exact Or.inl rfl
    | none =>
      rw [hcc] at h
      exact Or.inr ⟨rfl, h⟩

theorem fork_slotStep (K : Params) (s s1 : State) (p : PRef) (target : Option Nat)
    (kalloc copyuvm : Nat) (r : Int) (h : fork K s p target kalloc copyuvm = some (s1, r)) :
    SlotStep s s1 (some p) ∧ s1.initproc = s.initproc := by
  unfold fork at h
  have hchoice : forkChoice s p target =
      ((forkChoice s p target).1, (forkChoice s p target).2) := rfl
  rw [hchoice] at h
  cases hc : (forkChoice s p target).1 with
  | none => rw [hc] at h; simp at h
  | some c =>
    rw [hc] at h
    simp only [] at h
    have hpar := forkChoice_cases s p target c hc
    rcases allocproc_spec K s c kalloc with ⟨s2, ha, _⟩ | ⟨j0, ha, _, _, _, hu, _⟩
    · obtain ⟨hi, hslot⟩ := allocproc_slot K s c kalloc
      rw [ha] at h hi hslot
      simp only [Option.some.injEq, Prod.mk.injEq] at h
      obtain ⟨rfl, _⟩ := h
      refine ⟨fun i j => ?_, hi⟩
      obtain ⟨a1, a2, a3⟩ := hslot i j
      refine ⟨a1, Or.inl a2, fun g => ?_⟩
      rcases a3 g with g1 | g1
      · exact Or.inl g1
      · exact Or.inr (Or.inl g1)
    · rw [ha] at h
      simp only [] at h
      by_cases hcp : copyuvm = 0
      · simp only [hcp, if_true, Option.some.injEq, Prod.mk.injEq] at h
        obtain ⟨rfl, _⟩ := h
        refine ⟨fun i j => ?_, rfl⟩
        simp only [setProc_proc]
        by_cases hij : i = c ∧ j = j0
        · obtain ⟨rfl, rfl⟩ := hij
          simp
        · simp only [hij, if_false]
          exact ⟨Or.inl trivial, Or.inl trivial, fun g => Or.inl g⟩
      · simp only [hcp, if_false, Option.some.injEq, Prod.mk.injEq] at h
        obtain ⟨rfl, _⟩ := h
        refine ⟨fun i j => ?_, rfl⟩
        simp only [setProc_proc]
        by_cases hij : i = c ∧ j = j0
        · obtain ⟨rfl, rfl⟩ := hij
          simp only [and_self, if_true]
          refine ⟨Or.inr trivial, ?_, fun _ => Or.inr (Or.inl trivial)⟩
          rcases hpar with g | ⟨g1, g2⟩
          · exact Or.inr (Or.inr (Or.inl g))
          · exact Or.inr (Or.inr (Or.inr ⟨p, rfl, g1, g2⟩))
        · simp only [hij, if_false]
          exact ⟨Or.inl trivial, Or.inl trivial, fun g => Or.inl g⟩

theorem kill_slotStep (K : Params) (s s1 : State) (p : PRef) (pid r : Int)
    (h : kill K s p pid = some (s1, r)) : SlotStep s s1 (some p) ∧ s1.initproc = s.initproc := by
  unfold kill kill1 at h
  cases hc : (s.proc p.1 p.2).cont with
  | none => rw [hc] at h; cases h
  | some c =>
    rw [hc] at h
    simp only [] at h
    cases hf : firstIdx (fun j => decide ((s.proc c j).pid = pid)) K.NPROC with
    | none =>
      rw [hf] at h
      simp only [Option.some.injEq, Prod.mk.injEq] at h
      obtain ⟨rfl, _⟩ := h
      exact ⟨slotStep_of_proc_eq _ _ _ rfl, rfl⟩
    | some j0 =>
      rw [hf] at h
      simp only [] at h
      by_cases hs : (s.proc c j0).state = SLEEPING
      · simp only [setProc_proc, and_self, if_true, hs, Option.some.injEq, Prod.mk.injEq] at h
        obtain ⟨rfl, _⟩ := h
        refine ⟨fun i j => ?_, rfl⟩
        simp only [setProc_proc]
        by_cases hij : i = c ∧ j = j0
        · obtain ⟨rfl, rfl⟩ := hij
          simp only [and_self, if_true]
          exact ⟨Or.inl trivial, Or.inl trivial, fun _ => Or.inl (by rw [hs]; decide)⟩
        · simp only [hij, if_false]
          exact ⟨Or.inl trivial, Or.inl trivial, fun g => Or.inl g⟩
      · simp only [setProc_proc, and_self, if_true, hs, if_false, Option.some.injEq,
          Prod.mk.injEq] at h
        obtain ⟨rfl, _⟩ := h
        refine ⟨fun i j => ?_, rfl⟩
        simp only [setProc_proc]
        by_cases hij : i = c ∧ j = j0
        · obtain ⟨rfl, rfl⟩ := hij
          simp only [and_self, if_true]
          exact ⟨Or.inl trivial, Or.inl trivial, fun g => Or.inl g⟩
        · simp only [hij, if_false]
          exact ⟨Or.inl trivial, Or.inl trivial, fun g => Or.inl g⟩

theorem wakeup1_slotStep (K : Params) (s : State) (chan : Chan) :
    SlotStep s (wakeup1 K s chan) none := by
  intro i j
  rw [wakeup1_proc]
  split
  · rename_i g
    exact ⟨Or.inl rfl, Or.inl rfl, fun _ => Or.inl (by rw [g.2.2.1]; decide)⟩
  · exact ⟨Or.inl rfl, Or.inl rfl, fun g => Or.inl g⟩

theorem cstop_slotStep (K : Params) (s : State) (cont_name : List Nat) :
    SlotStep s (cstop K s cont_name).1 none ∧ (cstop K s cont_name).1.initproc = s.initproc := by
  unfold cstop
  cases get_container_by_name K s cont_name with
  | none => exact ⟨slotStep_of_proc_eq _ _ _ rfl, rfl⟩
  | some c =>
    refine ⟨fun i j => ?_, (cstopAt_fields K s c).1⟩
    simp only [cstopAt_proc]
    split
    · rename_i g
      obtain ⟨rfl, _, g3⟩ := g
      exact ⟨Or.inl rfl, Or.inr (Or.inr (Or.inl rfl)), fun _ => Or.inl g3⟩
    · exact ⟨Or.inl rfl, Or.inl rfl, fun g => Or.inl g⟩

theorem schedVisit_detail (K : Params) (s s1 : State) (ii : Nat) (d : Option PRef)
    (h : schedVisit K s ii = some (s1, d)) :
    s1.initproc = s.initproc ∧ SlotStep s s1 none ∧
    ∀ p, d = some p → (p.1 = ii ∨ p.1 + 1 = ii) ∧ p.2 < K.NPROC ∧
      (s.proc p.1 p.2).state ≠ UNUSED ∧
      (s1.proc p.1 p.2).cont = (s.proc p.1 p.2).cont := by
  obtain ⟨_, _, f3, f4, f5, _⟩ := schedVisit_frame K s s1 ii d h
  refine ⟨f5, ?_, ?_⟩
  · cases d with
    | none => exact slotStep_of_proc_eq _ _ _ (f3 rfl).1
    | some p =>
      obtain ⟨_, _, hr, _, hp, hfr⟩ := f4 p rfl
      intro i j
      by_cases hij : i = p.1 ∧ j = p.2
      · obtain ⟨rfl, rfl⟩ := hij
        rw [hp]
        exact ⟨Or.inl rfl, Or.inl rfl, fun _ => Or.inl (by rw [hr]; decide)⟩
      · rw [hfr i j hij]
        exact ⟨Or.inl rfl, Or.inl rfl, fun g => Or.inl g⟩
  · intro p hp
    obtain ⟨a, b, hr, _, hp2, _⟩ := f4 p hp
    exact ⟨a, b, by rw [hr]; decide, by rw [hp2]⟩

theorem ccreate_proc (K : Params) (s : State) (fpath : List Nat) (namei : Nat) :
    (ccreate K s fpath namei).1.proc = s.proc ∧
    (ccreate K s fpath namei).1.initproc = s.initproc := by
  rcases ccreate_cases K s fpath namei with ⟨he, _⟩ | ⟨n, c, _, _, _, _, _, ⟨_, he⟩ | ⟨_, he⟩⟩ <;>
    rw [he] <;> exact ⟨rfl, rfl⟩

theorem cstart_proc (K : Params) (s : State) (cont_name : List Nat) :
    (cstart K s cont_name).1.proc = s.proc ∧
    (cstart K s cont_name).1.initproc = s.initproc := by
  unfold cstart
  split
  · exact ⟨rfl, rfl⟩
  · split <;> exact ⟨rfl, rfl⟩

theorem cpause_proc (K : Params) (s : State) (cont_name : List Nat) :
    (cpause K s cont_name).1.proc = s.proc ∧
    (cpause K s cont_name).1.initproc = s.initproc := by
  unfold cpause
  split
  · exact ⟨rfl, rfl⟩
  · split <;> exact ⟨rfl, rfl⟩

theorem cresume_proc (K : Params) (s : State) (cont_name : List Nat) :
    (cresume K s cont_name).1.proc = s.proc ∧
    (cresume K s cont_name).1.initproc = s.initproc := by
  unfold cresume
  split
  · exact ⟨rfl, rfl⟩
  · split <;> exact ⟨rfl, rfl⟩

/-- Right after `userinit` the pointers are in the table and no slot has a parent. -/
theorem userinit_procsLocal (K : Params) (rootdir kalloc setupkvm : Nat) (st : State)
    (h : userinit K zeroState rootdir kalloc setupkvm = some st) : ProcsLocal K (bootSys st) := by
  unfold userinit at h
  cases hc : initcontainer K zeroState rootdir with
  | none => rw [hc] at h; cases h
  | some r =>
    obtain ⟨s1, c⟩ := r
    rw [hc] at h
    simp only [] at h
    have h1 : s1.proc = zeroState.proc ∧ c < K.NCONT := by
      unfold initcontainer at hc
      rcases alloccont_spec K zeroState with ⟨ha, _⟩ | ⟨c0, ha, hc0, _⟩
      · rw [ha] at hc; cases hc
      · rw [ha] at hc
        simp only [] at hc
        split at hc
        · cases hc
        · simp only [Option.some.injEq, Prod.mk.injEq] at hc
          obtain ⟨rfl, rfl⟩ := hc
          exact ⟨rfl, hc0⟩
    cases hp : initprocess K s1 c kalloc setupkvm with
    | none => rw [hp] at h; cases h
    | some r2 =>
      obtain ⟨s2, p⟩ := r2
      rw [hp] at h
      simp only [Option.some.injEq] at h
      subst h
      unfold initprocess at hp
      rcases allocproc_spec K s1 c kalloc with ⟨s3, ha, _⟩ | ⟨j, ha, _, _, hj, _, _⟩
      · rw [ha] at hp; cases hp
      · rw [ha] at hp
        simp only [] at hp
        split at hp
        · cases hp
        · simp only [Option.some.injEq, Prod.mk.injEq] at hp
          obtain ⟨rfl, rfl⟩ := hp
          refine ⟨⟨(c, j), rfl, h1.2, hj⟩, ?_, ?_, ?_⟩
          · intro k p hp
            simp [bootSys] at hp
          · intro i j1 hne
            by_cases hij : i = c ∧ j1 = j
            · obtain ⟨rfl, rfl⟩ := hij
              simp [bootSys, setProc_proc]
            · exfalso
              apply hne
              simp only [bootSys, setProc_proc, if_neg hij]
              rw [h1.1]
              rfl
          · intro i j1 q hq
            exfalso
            by_cases hij : i = c ∧ j1 = j
            · obtain ⟨rfl, rfl⟩ := hij
              simp only [bootSys, setProc_proc, and_self, if_true] at hq
              rw [h1.1] at hq
              simp [zeroState] at hq
            · simp only [bootSys, setProc_proc, if_neg hij] at hq
              rw [h1.1] at hq
              simp [zeroState] at hq

theorem running_cpu (K : Params) (s : Sys) (k : Nat) (p : PRef) (h : running K s k = some p) :
    (s.cpu k).proc = some p := by
  unfold running at h
  split at h
  · exact h
  · cases h

theorem procsLocal_visit (K : Params) (s : Sys) (k : Nat) (st : State) (c : Cpu)
    (h : ProcsLocal K (withState s st))
    (hc : ∀ p, c.proc = some p →
      (st.proc p.1 p.2).cont = some p.1 ∧ p.1 < K.NCONT ∧ p.2 < K.NPROC) :
    ProcsLocal K { st := st, cpu := fun i => if i = k then c else s.cpu i } := by
  obtain ⟨h1, h2, h3, h4⟩ := h
  refine ⟨h1, ?_, h3, h4⟩
  intro k1 p hp
  simp only [] at hp
  split at hp
  · exact hc p hp
  · exact h2 k1 p hp

/-- Every step of the machine keeps the pointers in the table and the parents local. -/
theorem step_procsLocal (K : Params) (s s1 : Sys) (op : Op) (hI : ProcsLocal K s)
    (h : step K s op = some s1) : ProcsLocal K s1 := by
  have hself : ∀ (k : Nat) (p : PRef), running K s k = some p →
      ∀ q, some p = some q → ∃ k, (s.cpu k).proc = some q := by
    intro k p hp q hq
    cases hq
    exact ⟨k, running_cpu K s k p hp⟩
  have hnone : ∀ q : PRef, (none : Option PRef) = some q → ∃ k, (s.cpu k).proc = some q := by
    intro q hq
    cases hq
  cases op with
  | visit k =>
    simp only [step] at h
    split at h
    · rename_i hg
      cases hv : schedVisit K s.st (s.cpu k).ii with
      | none => rw [hv] at h; cases h
      | some r =>
        obtain ⟨st, d⟩ := r
        rw [hv] at h
        obtain ⟨e1, e2, e3⟩ := schedVisit_detail K s.st st (s.cpu k).ii d hv
        have hw := procsLocal_withState K s st none hI hnone e2 e1
        cases d with
        | none =>
          simp only [Option.some.injEq] at h
          subst h
          exact procsLocal_visit K s k st _ hw (fun p hp => by cases hp)
        | some p =>
          simp only [Option.some.injEq] at h
          subst h
          refine procsLocal_visit K s k st _ hw ?_
          intro q hq
          cases hq
          obtain ⟨a1, a2, a3, a4⟩ := e3 p rfl
          refine ⟨?_, ?_, a2⟩
          · rw [a4]
            exact hI.2.2.1 p.1 p.2 a3
          · have hii := hg.2.2
            rcases a1 with a | a <;> omega
    · cases h
  | yield k =>
    simp only [step] at h
    cases hr : running K s k with
    | none => rw [hr] at h; cases h
    | some p =>
      rw [hr] at h
      simp only [Option.map_some', Option.some.injEq] at h
      subst h
      exact procsLocal_toScheduler K s k _ (procsLocal_withState K s _ (some p) hI
        (hself k p hr) (slotStep_setProc_self s.st p _ rfl rfl) rfl)
  | sleep k chan =>
    simp only [step] at h
    cases hr : running K s k with
    | none => rw [hr] at h; cases h
    | some p =>
      rw [hr] at h
      simp only [Option.map_some', Option.some.injEq] at h
      subst h
      exact procsLocal_toScheduler K s k _ (procsLocal_withState K s _ (some p) hI
        (hself k p hr) (slotStep_setProc_self s.st p _ rfl rfl) rfl)
  | tidy k =>
    simp only [step] at h
    cases hr : running K s k with
    | none => rw [hr] at h; cases h
    | some p =>
      rw [hr] at h
      simp only [Option.map_some', Option.some.injEq] at h
      subst h
      exact procsLocal_withState K s _ (some p) hI
        (hself k p hr) (slotStep_setProc_self s.st p _ rfl rfl) rfl
  | exit k =>
    simp only [step] at h
    cases hr : running K s k with
    | none => rw [hr] at h; cases h
    | some p =>
      rw [hr] at h
      simp only [Option.some_bind] at h
      cases he : exit K s.st p with
      | none => rw [he] at h; cases h
      | some st =>
        rw [he] at h
        simp only [Option.map_some', Option.some.injEq] at h
        subst h
        obtain ⟨a, b⟩ := exit_slotStep K s.st st p he
        exact procsLocal_toScheduler K s k _ (procsLocal_withState K s _ (some p) hI
          (hself k p hr) a b)
  | wait k =>
    simp only [step] at h
    cases hr : running K s k with
    | none => rw [hr] at h; cases h
    | some p =>
      rw [hr] at h
      simp only [Option.map_some', Option.some.injEq] at h
      obtain ⟨a, b⟩ := wait_slotStep K s.st p
      have hw := procsLocal_withState K s _ (some p) hI (hself k p hr) a b
      cases hwt : wait K s.st p with
      | mk st r =>
        rw [hwt] at h hw
        cases r with
        | none =>
          simp only [] at h
          subst h
          exact procsLocal_toScheduler K s k _ hw
        | some v =>
          simp only [] at h
          subst h
          exact hw
  | fork k kalloc copyuvm =>
    simp only [step] at h
    cases hr : running K s k with
    | none => rw [hr] at h; cases h
    | some p =>
      rw [hr] at h
      simp only [Option.some_bind] at h
      cases he : fork K s.st p none kalloc copyuvm with
      | none => rw [he] at h; cases h
      | some r =>
        obtain ⟨st, v⟩ := r
        rw [he] at h
        simp only [Option.map_some', Option.some.injEq] at h
        subst h
        obtain ⟨a, b⟩ := fork_slotStep K s.st st p none kalloc copyuvm v he
        exact procsLocal_withState K s _ (some p) hI (hself k p hr) a b
  | cfork k cid kalloc copyuvm =>
    simp only [step] at h
    cases hr : running K s k with
    | none => rw [hr] at h; cases h
    | some p =>
      rw [hr] at h
      simp only [Option.some_bind] at h
      cases he : cfork K s.st p cid kalloc copyuvm with
      | none => rw [he] at h; cases h
      | some r =>
        obtain ⟨st, v⟩ := r
        rw [he] at h
        simp only [Option.map_some', Option.some.injEq] at h
        subst h
        unfold cfork at he
        split at he
        · simp only [Option.some.injEq, Prod.mk.injEq] at he
          obtain ⟨rfl, _⟩ := he
          exact procsLocal_withState K s _ (some p) hI (hself k p hr)
            (slotStep_of_proc_eq _ _ _ rfl) rfl
        · obtain ⟨a, b⟩ := fork_slotStep K s.st st p _ kalloc copyuvm v he
          exact procsLocal_withState K s _ (some p) hI (hself k p hr) a b
  | kill k pid =>
    simp only [step] at h
    cases hr : running K s k with
    | none => rw [hr] at h; cases h
    | some p =>
      rw [hr] at h
      simp only [Option.some_bind] at h
      cases he : kill K s.st p pid with
      | none => rw [he] at h; cases h
      | some r =>
        obtain ⟨st, v⟩ := r
        rw [he] at h
        simp only [Option.map_some', Option.some.injEq] at h
        subst h
        obtain ⟨a, b⟩ := kill_slotStep K s.st st p pid v he
        exact procsLocal_withState K s _ (some p) hI (hself k p hr) a b
  | wakeup chan =>
    simp only [step, Option.some.injEq] at h
    subst h
    refine procsLocal_withState K s _ none hI hnone (wakeup1_slotStep K s.st chan) ?_
    simp only [wakeup, wakeup1_fields]
  | ccreate k fpath namei =>
    simp only [step] at h
    cases hr : running K s k with
    | none => rw [hr] at h; cases h
    | some p =>
      rw [hr] at h
      simp only [Option.map_some', Option.some.injEq] at h
      subst h
      obtain ⟨a, b⟩ := ccreate_proc K s.st fpath namei
      exact procsLocal_withState K s _ none hI hnone (slotStep_of_proc_eq _ _ _ a) b
  | cstart k cont_name =>
    simp only [step] at h
    cases hr : running K s k with
    | none => rw [hr] at h; cases h
    | some p =>
      rw [hr] at h
      simp only [Option.map_some', Option.some.injEq] at h
      subst h
      obtain ⟨a, b⟩ := cstart_proc K s.st cont_name
      exact procsLocal_withState K s _ none hI hnone (slotStep_of_proc_eq _ _ _ a) b
  | cpause k cont_name =>
    simp only [step] at h
    cases hr : running K s k with
    | none => rw [hr] at h; cases h
    | some p =>
      rw [hr] at h
      simp only [Option.map_some', Option.some.injEq] at h
      subst h
      obtain ⟨a, b⟩ := cpause_proc K s.st cont_name
      exact procsLocal_withState K s _ none hI hnone (slotStep_of_proc_eq _ _ _ a) b
  | cresume k cont_name =>
    simp only [step] at h
    cases hr : running K s k with
    | none => rw [hr] at h; cases h
    | some p =>
      rw [hr] at h
      simp only [Option.map_some', Option.some.injEq] at h
      subst h
      obtain ⟨a, b⟩ := cresume_proc K s.st cont_name
      exact procsLocal_withState K s _ none hI hnone (slotStep_of_proc_eq _ _ _ a) b
  | cstop k cont_name =>
    simp only [step] at h
    cases hr : running K s k with
    | none => rw [hr] at h; cases h
    | some p =>
      rw [hr] at h
      simp only [Option.map_some', Option.some.injEq] at h
      subst h
      obtain ⟨a, b⟩ := cstop_slotStep K s.st cont_name
      exact procsLocal_withState K s _ none hI hnone a b

/-- In every reachable state the pointers are in the table and the parents are local. -/
theorem reachable_procsLocal (K : Params) (s : Sys) (h : Reachable K s) : ProcsLocal K s := by
  induction h with
  | boot rootdir kalloc setupkvm st h => exact userinit_procsLocal K rootdir kalloc setupkvm st h
  | step s s1 op _ h ih => exact step_procsLocal K s s1 op ih h

/-! ## C11: `exit` -/

/-- C11: when a process `P` that runs on a processor and is not `initproc` calls
`exit` in a reachable state (the slot of a process that makes a call is RUNNING, or
a ZOMBIE when `cstop` has marked it meanwhile), `exit` reaches its call of `sched`,
and then: `P` is a ZOMBIE; `initproc` is the same; no slot of the table has `P` as
its parent, every slot that had has `initproc` as its parent; the parent of `P` is
RUNNABLE if it was SLEEPING on its own address; and `initproc` is RUNNABLE if it was
SLEEPING on its own address and a slot of the table with parent `P` was a ZOMBIE. -/
theorem exit_reparents_and_wakes (K : Params) (s : Sys) (k : Nat) (P : PRef)
    (hr : Reachable K s) (hrun : running K s k = some P)
    (hlive : (s.st.proc P.1 P.2).state = RUNNING ∨ (s.st.proc P.1 P.2).state = ZOMBIE)
    (hinit : s.st.initproc ≠ some P) :
    ∃ st, exit K s.st P = some st ∧
      (st.proc P.1 P.2).state = ZOMBIE ∧ st.initproc = s.st.initproc ∧
      (∀ i j, i < K.NCONT → j < K.NPROC → (st.proc i j).parent ≠ some P) ∧
      (∀ i j, i < K.NCONT → j < K.NPROC → (s.st.proc i j).parent = some P →
        (st.proc i j).parent = st.initproc) ∧
      (∀ q, (s.st.proc P.1 P.2).parent = some q →
        (s.st.proc q.1 q.2).state = SLEEPING → (s.st.proc q.1 q.2).chan = procChan (some q) →
        (st.proc q.1 q.2).state = RUNNABLE) ∧
      (∀ r, s.st.initproc = some r →
        (s.st.proc r.1 r.2).state = SLEEPING → (s.st.proc r.1 r.2).chan = procChan (some r) →
        (∃ i j, i < K.NCONT ∧ j < K.NPROC ∧ (s.st.proc i j).parent = some P ∧
          (s.st.proc i j).state = ZOMBIE) →
        (st.proc r.1 r.2).state = RUNNABLE) := by
  obtain ⟨_, h2, _, h4⟩ := reachable_procsLocal K s hr
  obtain ⟨hc, hP1, hP2⟩ := h2 k P (running_cpu K s k P hrun)
  obtain ⟨st, he, _, e2, _, _, _, e6, e7, _, _, e10, e11⟩ := exit_spec K s.st P P.1 hinit hc
  have hrow : ∀ i j, (s.st.proc i j).parent = some P → i = P.1 := by
    intro i j hp
    rcases (h4 i j P hp).1 with g | g
    · exact absurd g hinit
    · exact g.symm
  refine ⟨st, he, e6, e2, ?_, ?_, ?_, ?_⟩
  · intro i j _ hj hp
    rw [e7] at hp
    split at hp
    · exact hinit hp
    · rename_i hn
      exact hn ⟨hrow i j hp, hj, by rw [← hrow i j hp]; exact hp⟩
  · intro i j _ hj hp
    rw [e7, e2]
    have hi := hrow i j hp
    rw [if_pos ⟨hi, hj, by rw [← hi]; exact hp⟩]
  · intro q hq hs hch
    have hne : q ≠ P := by
      intro g
      rw [g] at hs
      rcases hlive with h | h <;> rw [h] at hs <;> cases hs
    obtain ⟨_, hq1, hq2⟩ := h4 P.1 P.2 q hq
    refine e10 q.1 q.2 (fun g => hne (Prod.ext g.1 g.2)) hq1 hq2 hs ?_
    rw [hch, hq]
  · intro r hir hs hch ⟨i, j, _, hj, hp, hz⟩
    have hne : r ≠ P := fun g => hinit (by rw [hir, g])
    obtain ⟨r0, hr0, hr1, hr2⟩ := reachable_procsLocal K s hr |>.1
    have er : r0 = r := Option.some.inj (hr0.symm.trans hir)
    subst er
    refine e11 r0.1 r0.2 (fun g => hne (Prod.ext g.1 g.2)) hr1 hr2 hs ?_ ?_
    · rw [hch, hir]
    · have hi := hrow i j hp
      rw [hi] at hp hz
      unfold hasZombieChild
      cases hf : firstIdx (zombieChild s.st P P.1) K.NPROC with
      | some v => simp
      | none =>
        have := (firstIdx_eq_none _ _).1 hf j hj
        simp [zombieChild, hp, hz] at this

/-- Witness of C11: after `traceWaiting` the child of `initproc` runs on the second
processor, its slot RUNNING, while `initproc` sleeps in `wait`; the child's `exit`
makes `initproc` RUNNABLE. -/
theorem exit_reparents_and_wakes_witness :
    Reachable K2 sysWaiting ∧ running K2 sysWaiting 1 = some (0, 1) ∧
    (sysWaiting.st.proc 0 1).state = RUNNING ∧
    sysWaiting.st.initproc ≠ some (0, 1) ∧
    (sysWaiting.st.proc 0 1).parent = some (0, 0) ∧
    (sysWaiting.st.proc 0 0).state = SLEEPING ∧
    ∃ st, exit K2 sysWaiting.st (0, 1) = some st ∧ (st.proc 0 1).state = ZOMBIE ∧
      (st.proc 0 0).state = RUNNABLE := by
  have hr : Reachable K2 sysWaiting := reachable_run K2 traceWaiting _ _ reachable_boot2 rfl
  obtain ⟨st, a, b, _, _, _, c, _⟩ :=
    exit_reparents_and_wakes K2 sysWaiting 1 (0, 1) hr (by decide) (Or.inl (by decide))
      (by decide)
  exact ⟨hr, by decide, by decide, by decide, by decide, by decide, st, a, b,
    c (0, 0) (by decide) (by decide) (by decide)⟩

/-! ## The function `is_prefix_path` -/

theorem prefixLoop_shift (x y : Nat) (f c : List Nat) :
    ∀ n idx, prefixLoop (x :: f) (y :: c) n (idx + 1) = prefixLoop f c n idx := by
  intro n
  induction n with
  | zero => intro idx; rfl
  | succ n ih =>
    intro idx
    simp only [prefixLoop, List.getD_cons_succ]
    rw [ih]

theorem cstr_nil_iff (c : List Nat) : cstr c = [] ↔ c.getD 0 0 = 0 := by
  cases c with
  | nil => simp [cstr]
  | cons y c =>
    by_cases hy : y = 0 <;> simp [cstr, List.takeWhile_cons, hy]

theorem cstr_cons (x : Nat) (f : List Nat) :
    cstr (x :: f) = if x = 0 then [] else x :: cstr f := by
  by_cases hx : x = 0 <;> simp [cstr, List.takeWhile_cons, hx]

theorem prefixLoop_spec (f : List Nat) :
    ∀ (c : List Nat) (n : Nat), f.length < n →
      ∃ r, prefixLoop f c n 0 = some r ∧ (r = 1 ∨ r = 0) ∧
        (r = 1 ↔ (cstr f = cstr c ∨ (cstr c ++ [47]) <+: cstr f)) := by
  induction f with
  | nil =>
    intro c n hn
    obtain ⟨n, rfl⟩ : ∃ m, n = m + 1 := ⟨n - 1, by simp at hn; omega⟩
    cases c with
    | nil => exact ⟨1, by simp [prefixLoop], Or.inl rfl, by simp [cstr]⟩
    | cons y c =>
      by_cases hy : y = 0
      · refine ⟨1, by simp [prefixLoop, hy], Or.inl rfl, ?_⟩
        simp [cstr_cons, hy, cstr]
      · refine ⟨0, by simp [prefixLoop, hy], Or.inr rfl, ?_⟩
        simp [cstr_cons, hy, cstr]
  | cons x f ih =>
    intro c n hn
    obtain ⟨n, rfl⟩ : ∃ m, n = m + 1 := ⟨n - 1, by simp at hn; omega⟩
    have hn1 : f.length < n := by simp at hn; omega
    cases c with
    | nil =>
      by_cases hx : x = 0
      · refine ⟨1, by simp [prefixLoop, hx], Or.inl rfl, ?_⟩
        simp [cstr_cons, hx, cstr]
      · by_cases hx47 : x = 47
        · refine ⟨1, by simp [prefixLoop, hx47], Or.inl rfl, ?_⟩
          simp [cstr_cons, hx47, cstr]
        · refine ⟨0, by simp [prefixLoop, hx, hx47], Or.inr rfl, ?_⟩
          simp [cstr_cons, hx, cstr]
          intro h
          exact hx47 h.symm
    | cons y c =>
      by_cases hx : x = 0
      · by_cases hy : y = 0
        · refine ⟨1, by simp [prefixLoop, hx, hy], Or.inl rfl, ?_⟩
          simp [cstr_cons, hx, hy]
        · refine ⟨0, by simp [prefixLoop, hx, hy], Or.inr rfl, ?_⟩
          simp [cstr_cons, hx, hy]
      · by_cases hy : y = 0
        · by_cases hx47 : x = 47
          · refine ⟨1, by simp [prefixLoop, hy, hx47], Or.inl rfl, ?_⟩
            simp [cstr_cons, hy, hx47]
          · refine ⟨0, by simp [prefixLoop, hx, hy, hx47], Or.inr rfl, ?_⟩
            simp [cstr_cons, hx, hy]
            intro h
            exact hx47 h.symm
        · by_cases hxy : x = y
          · subst hxy
            obtain ⟨r, h1, h2, h3⟩ := ih c n hn1
            refine ⟨r, ?_, h2, ?_⟩
            · simp only [prefixLoop, List.getD_cons_zero, ne_eq, hx, not_false_eq_true,
                and_self, if_true, not_true_eq_false, if_false]
              rw [prefixLoop_shift]
              exact h1
            · rw [h3]
              simp [cstr_cons, hx, List.cons_prefix_cons]
          · refine ⟨0, by simp [prefixLoop, hx, hy, hxy], Or.inr rfl, ?_⟩
            simp [cstr_cons, hx, hy, List.cons_prefix_cons, hxy]
            intro h
            exact fun _ => hxy h.symm

theorem cstr_eq_slash_iff (c : List Nat) :
    cstr c = [47] ↔ c.getD 0 0 = 47 ∧ c.getD 1 0 = 0 := by
  cases c with
  | nil => simp [cstr]
  | cons y c =>
    by_cases hy : y = 0
    · simp [cstr_cons, hy]
    · simp only [cstr_cons, hy, if_false, List.cons.injEq, List.getD_cons_zero,
        List.getD_cons_succ, cstr_nil_iff]

theorem strlen_eq (l : List Nat) : strlen l = (cstr l).length := by
  induction l with
  | nil => rfl
  | cons x l ih =>
    by_cases hx : x = 0 <;> simp [strlen, cstr_cons, hx, ih]

theorem cstr_getD (l : List Nat) : ∀ k, k < strlen l → (cstr l).getD k 0 = l.getD k 0 := by
  induction l with
  | nil => intro k hk; simp [strlen] at hk
  | cons x l ih =>
    intro k hk
    by_cases hx : x = 0
    · simp [strlen, hx] at hk
    · simp only [strlen, hx, if_false] at hk
      cases k with
      | zero => simp [cstr_cons, hx]
      | succ k =>
        simp only [cstr_cons, hx, if_false, List.getD_cons_succ]
        exact ih k (by omega)

theorem cstr_idem (l : List Nat) : cstr (cstr l) = cstr l := by
  induction l with
  | nil => rfl
  | cons x l ih =>
    by_cases hx : x = 0
    · simp [cstr_cons, hx, cstr]
    · simp [cstr_cons, hx, ih]

theorem store_length (b : List Nat) (v : Nat) : store b b.length v = b ++ [v] := by
  simp [store]

theorem strncpy_fresh (src : List Nat) :
    ∀ n, n ≤ strlen src → strncpy [] src n = (cstr src).take n := by
  intro n
  induction n with
  | zero => intro _; simp [strncpy, forLoop]
  | succ n ih =>
    intro hn
    have h1 := ih (by omega)
    unfold strncpy at h1 ⊢
    simp only [forLoop]
    rw [h1]
    have hlen : ((cstr src).take n).length = n := by
      rw [List.length_take, ← strlen_eq]; omega
    have hst := store_length ((cstr src).take n) (if n < strlen src then src.getD n 0 else 0)
    rw [hlen] at hst
    rw [hst, if_pos (by omega), ← cstr_getD src n (by omega)]
    have hlt : n < (cstr src).length := by rw [← strlen_eq]; omega
    rw [List.take_succ, List.getD_eq_getElem _ _ hlt, List.getElem?_eq_getElem hlt]
    rfl

theorem getcontrootdir_writes (K : Params) (s : State) (cont_name : List Nat) (ii : Nat)
    (h : firstIdx (fun ii => decide (strlen (s.cont ii).name = strlen cont_name ∧
      strncmp (s.cont ii).name cont_name (strlen (s.cont ii).name) = 0)) K.NCONT = some ii) :
    (getcontrootdir K s cont_name []).2 = 0 ∧
    cstr (getcontrootdir K s cont_name []).1 = cstr (s.cont ii).rootpath := by
  unfold getcontrootdir
  rw [h]
  refine ⟨rfl, ?_⟩
  simp only []
  rw [strncpy_fresh _ _ (le_refl _), strlen_eq, List.take_length, cstr_idem]

/-- The function `is_prefix_path(fpath, contpath)` returns (the loop ends) 1 or 0,
and 1 exactly when `contpath` is "/", or `fpath` equals `contpath`, or `fpath` begins
with `contpath` followed by '/'.  So it returns 0 for a directory whose name only
begins with the name of `contpath` ("/home/c10" against "/home/c1") and for a proper
ancestor of `contpath`. -/
theorem is_prefix_path_cases :
    (∀ fpath contpath : List Nat,
      ∃ r, is_prefix_path fpath contpath = some r ∧ (r = 1 ∨ r = 0) ∧
        (r = 1 ↔ (cstr contpath = [47] ∨ cstr fpath = cstr contpath ∨
          (cstr contpath ++ [47]) <+: cstr fpath))) ∧
    (∀ (fpath contpath t : List Nat) (x : Nat), x ≠ 47 → cstr contpath ≠ [47] →
      cstr fpath = cstr contpath ++ x :: t → is_prefix_path fpath contpath = some 0) ∧
    (∀ fpath contpath t : List Nat, cstr contpath ≠ [47] →
      cstr contpath = cstr fpath ++ 47 :: t → is_prefix_path fpath contpath = some 0) ∧
    is_prefix_path [47, 104, 111, 109, 101, 47, 99, 49, 48] [47, 104, 111, 109, 101, 47, 99, 49]
      = some 0 ∧
    is_prefix_path [47, 104, 111, 109, 101] [47, 104, 111, 109, 101, 47, 99, 49] = some 0 := by
  have main : ∀ fpath contpath : List Nat,
      ∃ r, is_prefix_path fpath contpath = some r ∧ (r = 1 ∨ r = 0) ∧
        (r = 1 ↔ (cstr contpath = [47] ∨ cstr fpath = cstr contpath ∨
          (cstr contpath ++ [47]) <+: cstr fpath)) := by
    intro f c
    unfold is_prefix_path
    by_cases hc : c.getD 0 0 = 47 ∧ c.getD 1 0 = 0
    · rw [if_pos hc]
      exact ⟨1, rfl, Or.inl rfl, by simp [(cstr_eq_slash_iff c).2 hc]⟩
    · rw [if_neg hc]
      obtain ⟨r, h1, h2, h3⟩ := prefixLoop_spec f c (f.length + 1) (by omega)
      refine ⟨r, h1, h2, ?_⟩
      rw [h3]
      have : ¬ cstr c = [47] := fun h => hc ((cstr_eq_slash_iff c).1 h)
      simp [this]
  have zero : ∀ fpath contpath : List Nat, ¬ (cstr contpath = [47] ∨
      cstr fpath = cstr contpath ∨ (cstr contpath ++ [47]) <+: cstr fpath) →
      is_prefix_path fpath contpath = some 0 := by
    intro f c hn
    obtain ⟨r, h1, h2, h3⟩ := main f c
    rcases h2 with h2 | h2
    · exact absurd (h3.1 h2) hn
    · rw [h1, h2]
  refine ⟨main, ?_, ?_, by decide, by decide⟩
  · intro f c t x hx hc hf
    apply zero
    rintro (h | h | h)
    · exact hc h
    · rw [h] at hf
      have := congrArg List.length hf
      simp at this
    · rw [hf] at h
      have := (List.prefix_append_right_inj (cstr c)).1 h
      rw [List.cons_prefix_cons] at this
      exact hx this.1.symm
  · intro f c t hc hcf
    apply zero
    rintro (h | h | h)
    · exact hc h
    · rw [h] at hcf
      have := congrArg List.length hcf
      simp at this
    · have := h.length_le
      rw [hcf] at this
      simp at this

/-! ## C21: `getcontrootdir` -/

/-- C21, the code at the failing inputs: in `freedSt` the slot of "c1" is CUNUSED
and `get_container_by_name` finds no container "c1", yet `getcontrootdir("c1")`
returns 0 and writes "/c1" into the zeroed buffer; and right after boot
`getcontrootdir("")` returns 0 (the never used slot 1 has the empty name), where no
container in use has the empty name. -/
theorem getcontrootdir_finds_free_slot :
    (freedSt.cont 1).state = CUNUSED ∧ (freedSt.cont 1).name = c1Name ∧
    get_container_by_name K2 freedSt c1Name = none ∧
    getcontrootdir K2 freedSt c1Name [] = (c1Path, 0) ∧
    (sysInit.st.cont 0).name ≠ [] ∧ (sysInit.st.cont 1).state = CUNUSED ∧
    getcontrootdir K2 sysInit.st [] [] = ([], 0) := by
  decide

/-! ## C26, C27: `concatenate_path` -/

set_option maxRecDepth 100000 in
/-- The nine tests of path_concatenation_test.c pass on the embedding. -/
theorem concatenate_path_tests :
    (concatenate_path [] [47, 104, 97, 111] [106, 105, 97, 110, 103]).map cstr =
      some [47, 104, 97, 111, 47, 106, 105, 97, 110, 103] ∧
    (concatenate_path [] [47, 104, 97, 111, 47, 106, 105, 97, 110, 103]
        [106, 105, 97, 110, 103, 47, 104, 97, 111]).map cstr =
      some [47, 104, 97, 111, 47, 106, 105, 97, 110, 103, 47, 106, 105, 97, 110, 103,
        47, 104, 97, 111] ∧
    (concatenate_path [] [47, 104, 97, 111, 47, 106, 105, 97, 110, 103]
        [47, 106, 105, 97, 110, 103, 47, 104, 97, 111]).map cstr = some jiangHao ∧
    (concatenate_path [] [47] [106, 105, 97, 110, 103, 47, 104, 97, 111]).map cstr =
      some jiangHao ∧
    (concatenate_path [] jiangHao
        [46, 47, 46, 47, 104, 97, 111, 47, 46, 46, 47, 106, 105, 97, 110, 103]).map cstr =
      some [47, 106, 105, 97, 110, 103, 47, 104, 97, 111, 47, 106, 105, 97, 110, 103] ∧
    (concatenate_path [] jiangHao [46, 46, 47, 46, 46]).map cstr = some [47] ∧
    (concatenate_path [] jiangHao
        [46, 46, 47, 46, 46, 47, 46, 47, 104, 97, 111, 47, 46, 46, 47, 46, 47, 46, 46, 47,
          106, 105, 97, 110, 103, 47, 46, 46, 47, 46, 47, 106, 105, 97, 110, 103]).map cstr =
      some [47, 106, 105, 97, 110, 103] ∧
    (concatenate_path [] jiangHao
        [46, 46, 47, 46, 46, 47, 46, 46, 47, 46, 46, 47, 46, 47, 46, 46, 47, 46, 46, 47,
          46, 46, 47, 46, 47, 46, 47, 46, 47, 46, 47, 46, 47, 46, 46, 47, 46, 46, 47,
          46, 46]).map cstr = some [47] ∧
    (concatenate_path [] jiangHao
        [46, 46, 47, 106, 105, 97, 110, 103, 47, 46, 46, 47, 104, 97, 111, 47, 46, 46, 47, 46, 47, 46, 46, 47, 106, 105, 97, 110, 103, 47, 106, 105, 97, 110, 103, 47, 106, 105, 97, 110, 103, 47, 46, 46, 47, 46, 47, 46, 47, 104, 97, 111, 47, 46, 46, 47, 46, 46, 47, 46, 47, 46, 47, 106, 105, 97, 110, 103, 47, 46, 46]).map cstr =
      some [47, 106, 105, 97, 110, 103] := by
  decide

/-- C26, the code at the failing input: the base "/..x" is a canonical absolute
path and the subdirectory "a" is a single name; joined they are "/..x/a", whose
normal form is itself; `concatenate_path` writes "x/a", because `filter_path` takes
the "/.." at the head of "/..x" for a parent directory. -/
theorem concatenate_path_base_dotdot_name :
    (concatenate_path [] dotdotxPath [97]).map cstr = some [120, 47, 97] ∧
    (filter_path [47, 46, 46, 120, 47, 97]).map cstr = some [120, 47, 97] := by
  decide

/-- C27, the code at the failing input: for the base "/" (no component) and the
subdirectories ".." and ".", `concatenate_path` writes the empty string, not "/";
the first '/' is consumed with the "/.." or "/." it begins, before anything has been
kept.  For the base "/jiang/hao" and "../.." it writes "/". -/
theorem concatenate_path_root_base_empty :
    (concatenate_path [] [47] [46, 46]).map cstr = some [] ∧
    (concatenate_path [] [47] [46]).map cstr = some [] ∧
    (concatenate_path [] [47] [46, 46, 47, 46, 46]).map cstr = some [] ∧
    (concatenate_path [] jiangHao [46, 46, 47, 46, 46]).map cstr = some [47] := by
  decide

/-! ## C29: the scheduler after `swtch` -/

/-- C29, the code at the failing input: the state after `traceFreedRunning` is
reachable; in it container 1 is CUNUSED while the process of its slot 0 is still on
processor 1, whose scheduler is at container 1.  When that process calls `exit`, the
kernel state it leaves has container 1 still CUNUSED, and the scheduler's code after
`swtch` makes container 1 CRUNNABLE. -/
theorem scheduler_return_revives_free_container :
    Reachable K2 sysFreedRunning ∧
    (sysFreedRunning.st.cont 1).state = CUNUSED ∧
    running K2 sysFreedRunning 1 = some (1, 0) ∧ (sysFreedRunning.cpu 1).ii = 1 ∧
    (exit K2 sysFreedRunning.st (1, 0)).map (fun st => (st.cont 1).state) = some CUNUSED ∧
    (exit K2 sysFreedRunning.st (1, 0)).map (fun st => ((schedReturn st 1).cont 1).state) =
      some CRUNNABLE ∧
    (step K2 sysFreedRunning (Op.exit 1)).map (fun s => (s.st.cont 1).state) =
      some CRUNNABLE :=
  ⟨reachable_run K2 traceFreedRunning _ _ reachable_boot2 rfl,
    by decide, by decide, by decide, by decide, by decide, by decide⟩

/-! ## The cursor `nextproc` below the largest `int` -/

theorem cmod_natCast (n : Nat) (K : Params) : cmod (n : Int) K.NPROC = ((n % K.NPROC : Nat) : Int) := by
  unfold cmod
  rw [Int.tmod_eq_emod (Int.ofNat_nonneg n) (Int.ofNat_nonneg _)]
  exact (Int.ofNat_emod n K.NPROC).symm

theorem int32_small (x : Int) (h0 : -2147483648 ≤ x) (h1 : x < 2147483648) : int32 x = x := by
  unfold int32
  omega

/-- What a visit does to a container that is schedulable and whose cursor has the
value `n` below the largest `int`. -/
theorem schedVisit_cursor (K : Params) (s : State) (ii n : Nat) (hN : 0 < K.NPROC)
    (hst : (s.cont ii).state = CRUNNABLE ∨ (s.cont ii).state = CRUNNING)
    (hn : (s.cont ii).nextproc = (n : Int)) (hlt : n < 2147483647) :
    examined K s ii = some (ii, n % K.NPROC) ∧
    ∃ s1, schedVisit K s ii =
        some (s1, if (s.proc ii (n % K.NPROC)).state = RUNNABLE then some (ii, n % K.NPROC)
          else none) ∧
      (s1.cont ii).nextproc = (n : Int) + 1 ∧
      (∀ i, i ≠ ii → s1.cont i = s.cont i) ∧
      (∀ i j, ¬ (i = ii ∧ j = n % K.NPROC) → s1.proc i j = s.proc i j) ∧
      ((s.proc ii (n % K.NPROC)).state ≠ RUNNABLE →
        s1.proc = s.proc ∧ (s1.cont ii).state = (s.cont ii).state) ∧
      ((s.proc ii (n % K.NPROC)).state = RUNNABLE →
        s1.proc ii (n % K.NPROC) = { s.proc ii (n % K.NPROC) with state := RUNNING } ∧
        (s1.cont ii).state = CRUNNING) := by
  have hidx : cmod (s.cont ii).nextproc K.NPROC = ((n % K.NPROC : Nat) : Int) := by
    rw [hn, cmod_natCast]
  have hslot : slotAt K ii (cmod (s.cont ii).nextproc K.NPROC) = some (ii, n % K.NPROC) := by
    rw [hidx]
    exact slotAt_natCast K ii _
  refine ⟨hslot, ?_⟩
  have h32 : int32 ((s.cont ii).nextproc + 1) = (n : Int) + 1 := by
    rw [hn]
    exact int32_small _ (by omega) (by omega)
  have hg : ¬ ((s.cont ii).state ≠ CRUNNABLE ∧ (s.cont ii).state ≠ CRUNNING) := by
    rcases hst with h | h <;> simp [h]
  by_cases hr : (s.proc ii (n % K.NPROC)).state = RUNNABLE
  · rw [schedVisit_switch K s ii _ (by omega) hg hslot hr, if_pos hr]
    refine ⟨_, rfl, ?_, ?_, ?_, ?_, ?_⟩
    · simp [schedSwitch, h32]
    · intro i hi
      simp [schedSwitch, hi]
    · intro i j hij
      simp [schedSwitch, hij]
    · intro h
      exact (h hr).elim
    · intro _
      simp [schedSwitch]
  · rw [schedVisit_pass K s ii _ (by omega) hg hslot hr, if_neg hr]
    refine ⟨_, rfl, ?_, ?_, ?_, ?_, ?_⟩
    · simp [h32]
    · intro i hi
      simp [hi]
    · intro i j _
      simp
    · intro _
      simp
    · intro h
      exact (hr h).elim

/-- Round robin while the cursor is below the largest `int`: a visit of the
scheduler to a container that is CRUNNABLE or CRUNNING, with the cursor at `n`,
examines the slot `n mod NPROC` of the container and no other: it switches to that
slot exactly when it is RUNNABLE, leaves every other slot as it was, and advances the
cursor to `n + 1` in both cases.  Hence, whatever else happens between the visits, as
long as the visits alone move the cursor: over `NPROC` consecutive visits each slot
is the examined one exactly once, and a slot that is RUNNABLE at each of these
visits, in a container schedulable at each of them, is switched to by one of them. -/
theorem round_robin_below_largest_int (K : Params) (ii : Nat) (hN : 0 < K.NPROC) :
    (∀ (s : State) (n : Nat),
      ((s.cont ii).state = CRUNNABLE ∨ (s.cont ii).state = CRUNNING) →
      (s.cont ii).nextproc = (n : Int) → n < 2147483647 →
      examined K s ii = some (ii, n % K.NPROC) ∧
      ∃ s1, schedVisit K s ii =
          some (s1, if (s.proc ii (n % K.NPROC)).state = RUNNABLE then
            some (ii, n % K.NPROC) else none) ∧
        (s1.cont ii).nextproc = (n : Int) + 1 ∧
        (∀ i j, ¬ (i = ii ∧ j = n % K.NPROC) → s1.proc i j = s.proc i j) ∧
        ((s.proc ii (n % K.NPROC)).state ≠ RUNNABLE → s1.proc = s.proc) ∧
        ((s.proc ii (n % K.NPROC)).state = RUNNABLE →
          s1.proc ii (n % K.NPROC) = { s.proc ii (n % K.NPROC) with state := RUNNING })) ∧
    (∀ (σ : Nat → State) (n : Nat), n + K.NPROC ≤ 2147483647 →
      (∀ t, t < K.NPROC →
        ((σ t).cont ii).nextproc = ((n + t : Nat) : Int) ∧
        (((σ t).cont ii).state = CRUNNABLE ∨ ((σ t).cont ii).state = CRUNNING)) →
      (∀ j, j < K.NPROC → ∃ t, t < K.NPROC ∧ examined K (σ t) ii = some (ii, j) ∧
        ∀ t1, t1 < K.NPROC → examined K (σ t1) ii = some (ii, j) → t1 = t) ∧
      (∀ j, j < K.NPROC → (∀ t, t < K.NPROC → ((σ t).proc ii j).state = RUNNABLE) →
        ∃ t s1, t < K.NPROC ∧ schedVisit K (σ t) ii = some (s1, some (ii, j)))) := by
  refine ⟨?_, ?_⟩
  · intro s n hst hn hlt
    obtain ⟨h1, s1, h2, h3, _, h5, h6, h7⟩ := schedVisit_cursor K s ii n hN hst hn hlt
    exact ⟨h1, s1, h2, h3, h5, fun h => (h6 h).1, fun h => (h7 h).1⟩
  · intro σ n hbound hσ
    have hex : ∀ t, t < K.NPROC → examined K (σ t) ii = some (ii, (n + t) % K.NPROC) := by
      intro t ht
      exact (schedVisit_cursor K (σ t) ii (n + t) hN (hσ t ht).2 (hσ t ht).1 (by omega)).1
    -- the visit that examines slot `j`
    have hpick : ∀ j, j < K.NPROC → ∃ t, t < K.NPROC ∧ (n + t) % K.NPROC = j ∧
        ∀ t1, t1 < K.NPROC → (n + t1) % K.NPROC = j → t1 = t := by
      intro j hj
      refine ⟨(j + K.NPROC - n % K.NPROC) % K.NPROC, Nat.mod_lt _ hN, ?_, ?_⟩
      · have hm := Nat.mod_lt n hN
        have e : (n + (j + K.NPROC - n % K.NPROC) % K.NPROC) % K.NPROC =
            (n % K.NPROC + (j + K.NPROC - n % K.NPROC)) % K.NPROC := by
          rw [Nat.add_mod, Nat.mod_mod, ← Nat.add_mod]
          rw [Nat.add_mod (n % K.NPROC), Nat.mod_mod, ← Nat.add_mod]
        rw [e]
        have e2 : n % K.NPROC + (j + K.NPROC - n % K.NPROC) = j + K.NPROC := by omega
        rw [e2, Nat.add_mod_right, Nat.mod_eq_of_lt hj]
      · intro t1 ht1 h1
        have hm := Nat.mod_lt n hN
        have e : (n % K.NPROC + t1) % K.NPROC = j := by
          rw [← h1, Nat.add_mod, Nat.mod_mod, ← Nat.add_mod]
        have : (j + K.NPROC - n % K.NPROC) % K.NPROC = t1 := by
          by_cases hc : n % K.NPROC + t1 < K.NPROC
          · rw [Nat.mod_eq_of_lt hc] at e
            have e3 : j + K.NPROC - n % K.NPROC = t1 + K.NPROC := by omega
            rw [e3, Nat.add_mod_right, Nat.mod_eq_of_lt ht1]
          · have e4 : n % K.NPROC + t1 = (n % K.NPROC + t1 - K.NPROC) + K.NPROC := by omega
            rw [e4, Nat.add_mod_right, Nat.mod_eq_of_lt (by omega)] at e
            have e3 : j + K.NPROC - n % K.NPROC = t1 := by omega
            rw [e3, Nat.mod_eq_of_lt ht1]
        exact this.symm
    refine ⟨?_, ?_⟩
    · intro j hj
      obtain ⟨t, ht, h1, h2⟩ := hpick j hj
      refine ⟨t, ht, by rw [hex t ht, h1], ?_⟩
      intro t1 ht1 h
      rw [hex t1 ht1] at h
      exact h2 t1 ht1 (by simpa using h)
    · intro j hj hrun
      obtain ⟨t, ht, h1, _⟩ := hpick j hj
      obtain ⟨_, s1, h2, _⟩ :=
        schedVisit_cursor K (σ t) ii (n + t) hN (hσ t ht).2 (hσ t ht).1 (by omega)
      refine ⟨t, s1, ht, ?_⟩
      rw [h2, h1, if_pos (hrun t ht)]

/-! ## The transitions one kernel operation can make (C22) -/

theorem kstep_of_eq (K : Params) (s st : State) (cur : Option PRef) (pa so : Option Nat)
    (hi : st.initproc = s.initproc) (hc : ∀ i, (st.cont i).state = (s.cont i).state)
    (hp : ∀ i j, (st.proc i j).state = (s.proc i j).state) : KStep K s st cur pa so :=
  ⟨hi, fun i => Or.inl (hc i), fun i j => Or.inl (hp i j)⟩

theorem kstep_setProc_self (K : Params) (s : State) (p : PRef) (v : Proc)
    (pa so : Option Nat) (hv : v.state = RUNNABLE ∨ v.state = SLEEPING) :
    KStep K s (s.setProc p.1 p.2 v) (some p) pa so := by
  refine ⟨rfl, fun i => Or.inl rfl, fun i j => ?_⟩
  simp only [setProc_proc]
  by_cases hij : i = p.1 ∧ j = p.2
  · rw [if_pos hij]
    obtain ⟨rfl, rfl⟩ := hij
    exact Or.inr (Or.inr (Or.inr (Or.inl ⟨rfl, hv⟩)))
  · rw [if_neg hij]
    exact Or.inl rfl

theorem kstep_setProc_same (K : Params) (s : State) (p : PRef) (v : Proc)
    (cur : Option PRef) (pa so : Option Nat) (hv : v.state = (s.proc p.1 p.2).state) :
    KStep K s (s.setProc p.1 p.2 v) cur pa so := by
  refine kstep_of_eq K _ _ _ _ _ rfl (fun i => rfl) (fun i j => ?_)
  simp only [setProc_proc]
  split
  · rename_i hij
    rw [hij.1, hij.2]
    exact hv
  · rfl

theorem exit_kstep (K : Params) (s st : State) (p : PRef) (pa so : Option Nat)
    (h : exit K s p = some st) : KStep K s st (some p) pa so := by
  have hinit : s.initproc ≠ some p := by
    intro e
    unfold exit at h
    rw [if_pos e] at h
    cases h
  cases hc : (s.proc p.1 p.2).cont with
  | none =>
    unfold exit at h
    rw [if_neg hinit, hc] at h
    cases h
  | some c =>
    obtain ⟨st1, he, e1, e2, _, _, _, e6, _, _, e9, _⟩ := exit_spec K s p c hinit hc
    rw [he] at h
    cases h
    refine ⟨e2, fun i => Or.inl (by rw [e1]), fun i j => ?_⟩
    by_cases hij : i = p.1 ∧ j = p.2
    · obtain ⟨rfl, rfl⟩ := hij
      exact Or.inr (Or.inr (Or.inr (Or.inr (Or.inl ⟨rfl, hinit, e6⟩))))
    · rcases e9 i j hij with g | g
      · exact Or.inl g
      · exact Or.inr (Or.inl g)

theorem wait_kstep (K : Params) (s : State) (p : PRef) (pa so : Option Nat) :
    KStep K s (wait K s p).1 (some p) pa so := by
  have hsw : ∀ n i, ((sweep s n).cont i).state = (s.cont i).state ∨
      (((sweep s n).cont i).state = CUNUSED ∧ (s.cont i).state = CSTOPPING) := by
    intro n i
    rw [sweep_cont]
    split
    · rename_i g
      exact Or.inr ⟨rfl, g.2⟩
    · exact Or.inl rfl
  have hc : ∀ (n i : Nat) (t : State), t.cont = (sweep s n).cont →
      (t.cont i).state = (s.cont i).state ∨
      ((t.cont i).state = CRUNNING ∧ (s.cont i).state = CRUNNABLE) ∨
      ((t.cont i).state = CRUNNABLE ∧
        ((s.cont i).state = CREADY ∨ (s.cont i).state = CRUNNING ∨
          (s.cont i).state = CPAUSED)) ∨
      ((t.cont i).state = CUNUSED ∧ (s.cont i).state = CSTOPPING) ∨
      ((t.cont i).state = CREADY ∧ (s.cont i).state = CUNUSED) ∨
      (pa = some i ∧ (t.cont i).state = CPAUSED) ∨
      (so = some i ∧ (t.cont i).state = CSTOPPING ∧
        ∀ j, j < K.NPROC → (t.proc i j).state ≠ RUNNING) := by
    intro n i t ht
    rw [ht]
    rcases hsw n i with g | g
    · exact Or.inl g
    · exact Or.inr (Or.inr (Or.inr (Or.inl g)))
  rw [wait_eq]
  cases hz : firstZombieCont K s p K.NCONT with
  | some i0 =>
    simp only []
    obtain ⟨_, hp0, _⟩ := (firstIdx_eq_some _ _ _).1 hz
    simp only [Bool.and_eq_true, decide_eq_true_eq] at hp0
    obtain ⟨j0, hj0⟩ := Option.isSome_iff_exists.1 hp0.2
    obtain ⟨_, hzc, _⟩ := (firstIdx_eq_some _ _ _).1 hj0
    simp only [zombieChild, decide_eq_true_eq] at hzc
    rw [hj0]
    simp only [Option.getD_some]
    refine ⟨rfl, fun i => hc i0 i _ rfl, fun i j => ?_⟩
    simp only [reap_proc, sweep_proc]
    split
    · rename_i g
      obtain ⟨rfl, rfl⟩ := g
      exact Or.inr (Or.inr (Or.inr (Or.inr (Or.inr (Or.inl ⟨hzc.2, rfl⟩)))))
    · exact Or.inl rfl
  | none =>
    simp only []
    split
    · exact ⟨rfl, fun i => hc K.NCONT i _ rfl, fun i j => Or.inl rfl⟩
    · refine ⟨rfl, fun i => hc K.NCONT i _ rfl, fun i j => ?_⟩
      have := (kstep_setProc_self K (sweep s K.NCONT) p
        { (sweep s K.NCONT).proc p.1 p.2 with chan := procChan (some p), state := SLEEPING }
        pa so (Or.inr rfl)).2.2 i j
      exact this

theorem fork_kstep (K : Params) (s s1 : State) (p : PRef) (target : Option Nat)
    (kalloc copyuvm : Nat) (r : Int) (cur : Option PRef) (pa so : Option Nat)
    (h : fork K s p target kalloc copyuvm = some (s1, r)) : KStep K s s1 cur pa so := by
  have hcont := fork_cont K s s1 p target kalloc copyuvm r h
  unfold fork at h
  have hchoice : forkChoice s p target =
      ((forkChoice s p target).1, (forkChoice s p target).2) := rfl
  rw [hchoice] at h
  cases hc : (forkChoice s p target).1 with
  | none => rw [hc] at h; simp at h
  | some c =>
    rw [hc] at h
    simp only [] at h
    rcases allocproc_spec K s c kalloc with ⟨s2, ha, _, hi, _, _, hst, _⟩ | ⟨j0, ha, _, _, _, hu, _⟩
    · rw [ha] at h
      simp only [Option.some.injEq, Prod.mk.injEq] at h
      obtain ⟨rfl, _⟩ := h
      exact kstep_of_eq K _ _ _ _ _ hi (fun i => by rw [hcont]) hst
    · rw [ha] at h
      simp only [] at h
      by_cases hcp : copyuvm = 0
      · simp only [hcp, if_true, Option.some.injEq, Prod.mk.injEq] at h
        obtain ⟨rfl, _⟩ := h
        refine kstep_of_eq K _ _ _ _ _ rfl (fun i => by rw [hcont]) (fun i j => ?_)
        simp only [setProc_proc]
        by_cases hij : i = c ∧ j = j0
        · obtain ⟨rfl, rfl⟩ := hij
          simp [hu]
        · simp [hij]
      · simp only [hcp, if_false, Option.some.injEq, Prod.mk.injEq] at h
        obtain ⟨rfl, _⟩ := h
        refine ⟨rfl, fun i => Or.inl (by rw [hcont]), fun i j => ?_⟩
        simp only [setProc_proc]
        by_cases hij : i = c ∧ j = j0
        · obtain ⟨rfl, rfl⟩ := hij
          simp only [and_self, if_true]
          exact Or.inr (Or.inr (Or.inr (Or.inr (Or.inr (Or.inr (Or.inl ⟨hu, trivial⟩))))))
        · simp only [hij, if_false]
          exact Or.inl trivial

theorem cfork_kstep (K : Params) (s s1 : State) (p : PRef) (cid : Int)
    (kalloc copyuvm : Nat) (r : Int) (cur : Option PRef) (pa so : Option Nat)
    (h : cfork K s p cid kalloc copyuvm = some (s1, r)) : KStep K s s1 cur pa so := by
  unfold cfork at h
  split at h
  · simp only [Option.some.injEq, Prod.mk.injEq] at h
    obtain ⟨rfl, _⟩ := h
    exact kstep_of_eq K _ _ _ _ _ rfl (fun _ => rfl) (fun _ _ => rfl)
  · exact fork_kstep K s s1 p _ kalloc copyuvm r cur pa so h

theorem kill_kstep (K : Params) (s s1 : State) (p : PRef) (pid r : Int)
    (cur : Option PRef) (pa so : Option Nat)
    (h : kill K s p pid = some (s1, r)) : KStep K s s1 cur pa so := by
  unfold kill kill1 at h
  cases hc : (s.proc p.1 p.2).cont with
  | none => rw [hc] at h; cases h
  | some c =>
    rw [hc] at h
    simp only [] at h
    cases hf : firstIdx (fun j => decide ((s.proc c j).pid = pid)) K.NPROC with
    | none =>
      rw [hf] at h
      simp only [Option.some.injEq, Prod.mk.injEq] at h
      obtain ⟨rfl, _⟩ := h
      exact kstep_of_eq K _ _ _ _ _ rfl (fun _ => rfl) (fun _ _ => rfl)
    | some j0 =>
      rw [hf] at h
      simp only [] at h
      by_cases hs : (s.proc c j0).state = SLEEPING
      · simp only [setProc_proc, and_self, if_true, hs, Option.some.injEq, Prod.mk.injEq] at h
        obtain ⟨rfl, _⟩ := h
        refine ⟨rfl, fun i => Or.inl rfl, fun i j => ?_⟩
        simp only [setProc_proc]
        by_cases hij : i = c ∧ j = j0
        · obtain ⟨rfl, rfl⟩ := hij
          simp only [and_self, if_true]
          exact Or.inr (Or.inl ⟨hs, trivial⟩)
        · simp only [hij, if_false]
          exact Or.inl trivial
      · simp only [setProc_proc, and_self, if_true, hs, if_false, Option.some.injEq,
          Prod.mk.injEq] at h
        obtain ⟨rfl, _⟩ := h
        refine kstep_of_eq K _ _ _ _ _ rfl (fun _ => rfl) (fun i j => ?_)
        simp only [setProc_proc]
        by_cases hij : i = c ∧ j = j0
        · obtain ⟨rfl, rfl⟩ := hij
          simp
        · simp [hij]

theorem wakeup1_kstep (K : Params) (s : State) (chan : Chan) (cur : Option PRef)
    (pa so : Option Nat) : KStep K s (wakeup1 K s chan) cur pa so := by
  refine ⟨(wakeup1_fields K s chan).1, fun i => Or.inl (by rw [wakeup1_cont]), fun i j => ?_⟩
  rw [wakeup1_state]
  split
  · rename_i g
    exact Or.inr (Or.inl ⟨g.2.2.1, rfl⟩)
  · exact Or.inl rfl

theorem ccreate_kstep (K : Params) (s : State) (fpath : List Nat) (namei : Nat)
    (cur : Option PRef) (pa so : Option Nat) :
    KStep K s (ccreate K s fpath namei).1 cur pa so := by
  rcases ccreate_cases K s fpath namei with ⟨he, _⟩ | ⟨n, c, _, _, _, hu, _, ⟨_, he⟩ | ⟨_, he⟩⟩
  · rw [he]
    exact kstep_of_eq K _ _ _ _ _ rfl (fun _ => rfl) (fun _ _ => rfl)
  · rw [he]
    refine kstep_of_eq K _ _ _ _ _ rfl (fun i => ?_) (fun _ _ => rfl)
    simp only [setCont_cont]
    split
    · rename_i g
      rw [g, hu]
    · rfl
  · rw [he]
    refine ⟨rfl, fun i => ?_, fun _ _ => Or.inl rfl⟩
    simp only [setCont_cont]
    split
    · rename_i g
      rw [g]
      exact Or.inr (Or.inr (Or.inr (Or.inr (Or.inl ⟨rfl, hu⟩))))
    · exact Or.inl rfl

theorem cstart_kstep (K : Params) (s : State) (cont_name : List Nat)
    (cur : Option PRef) (pa so : Option Nat) :
    KStep K s (cstart K s cont_name).1 cur pa so := by
  unfold cstart
  cases get_container_by_name K s cont_name with
  | none => exact kstep_of_eq K _ _ _ _ _ rfl (fun _ => rfl) (fun _ _ => rfl)
  | some c =>
    simp only []
    split
    · exact kstep_of_eq K _ _ _ _ _ rfl (fun _ => rfl) (fun _ _ => rfl)
    · rename_i g
      refine ⟨rfl, fun i => ?_, fun _ _ => Or.inl rfl⟩
      simp only [setCont_cont]
      split
      · rename_i e
        rw [e]
        by_cases h1 : (s.cont c).state = CRUNNABLE
        · exact Or.inl h1.symm
        · refine Or.inr (Or.inr (Or.inl ⟨rfl, ?_⟩))
          by_cases h2 : (s.cont c).state = CREADY
          · exact Or.inl h2
          · by_cases h3 : (s.cont c).state = CRUNNING
            · exact Or.inr (Or.inl h3)
            · exact absurd ⟨h2, h3, h1⟩ g
      · exact Or.inl rfl

theorem cpause_kstep (K : Params) (s : State) (cont_name : List Nat)
    (cur : Option PRef) (so : Option Nat) :
    KStep K s (cpause K s cont_name).1 cur (get_container_by_name K s cont_name) so := by
  unfold cpause
  cases get_container_by_name K s cont_name with
  | none => exact kstep_of_eq K _ _ _ _ _ rfl (fun _ => rfl) (fun _ _ => rfl)
  | some c =>
    simp only []
    split
    · exact kstep_of_eq K _ _ _ _ _ rfl (fun _ => rfl) (fun _ _ => rfl)
    · refine ⟨rfl, fun i => ?_, fun _ _ => Or.inl rfl⟩
      simp only [setCont_cont]
      split
      · rename_i e
        rw [e]
        exact Or.inr (Or.inr (Or.inr (Or.inr (Or.inr (Or.inl ⟨rfl, rfl⟩)))))
      · exact Or.inl rfl

theorem cresume_kstep (K : Params) (s : State) (cont_name : List Nat)
    (cur : Option PRef) (pa so : Option Nat) :
    KStep K s (cresume K s cont_name).1 cur pa so := by
  unfold cresume
  cases get_container_by_name K s cont_name with
  | none => exact kstep_of_eq K _ _ _ _ _ rfl (fun _ => rfl) (fun _ _ => rfl)
  | some c =>
    simp only []
    split
    · exact kstep_of_eq K _ _ _ _ _ rfl (fun _ => rfl) (fun _ _ => rfl)
    · rename_i g
      refine ⟨rfl, fun i => ?_, fun _ _ => Or.inl rfl⟩
      simp only [setCont_cont]
      split
      · rename_i e
        rw [e]
        exact Or.inr (Or.inr (Or.inl ⟨rfl, Or.inr (Or.inr (not_not.1 g))⟩))
      · exact Or.inl rfl

theorem cstop_kstep (K : Params) (s : State) (cont_name : List Nat)
    (cur : Option PRef) (pa : Option Nat) :
    KStep K s (cstop K s cont_name).1 cur pa (get_container_by_name K s cont_name) := by
  unfold cstop
  cases get_container_by_name K s cont_name with
  | none => exact kstep_of_eq K _ _ _ _ _ rfl (fun _ => rfl) (fun _ _ => rfl)
  | some c =>
    simp only []
    have hp : ∀ i j, ((cstopAt K s c).proc i j).state = (s.proc i j).state ∨
        (i = c ∧ ((cstopAt K s c).proc i j).state = ZOMBIE) := by
      intro i j
      rw [cstopAt_proc]
      split
      · rename_i g
        exact Or.inr ⟨g.1, rfl⟩
      · exact Or.inl rfl
    refine ⟨(cstopAt_fields K s c).1, fun i => ?_, fun i j => ?_⟩
    · by_cases hi : i = c
      · subst hi
        refine Or.inr (Or.inr (Or.inr (Or.inr (Or.inr (Or.inr ⟨rfl, ?_, ?_⟩)))))
        · rw [cstopAt_cont]
          simp
        · intro j hj
          rw [cstopAt_proc]
          by_cases hu : (s.proc i j).state ≠ UNUSED
          · rw [if_pos ⟨rfl, hj, hu⟩]
            simp
          · rw [if_neg (fun g => hu g.2.2), not_not.1 hu]
            simp
      · left
        rw [cstopAt_cont]
        simp [hi]
    · rcases hp i j with g | g
      · exact Or.inl g
      · exact Or.inr (Or.inr (Or.inr (Or.inr (Or.inr (Or.inr (Or.inr ⟨by rw [g.1], g.2⟩))))))

theorem schedVisit_kstep (K : Params) (s s1 : State) (ii : Nat) (d : Option PRef)
    (cur : Option PRef) (pa so : Option Nat)
    (h : schedVisit K s ii = some (s1, d)) : KStep K s s1 cur pa so := by
  rcases schedVisit_cases K s s1 ii d h with ⟨_, rfl, _⟩ | ⟨hs, _, p, _, _, _, h2⟩
  · exact kstep_of_eq K _ _ _ _ _ rfl (fun _ => rfl) (fun _ _ => rfl)
  · rcases h2 with ⟨_, _, rfl⟩ | ⟨hr, _, rfl⟩
    · refine kstep_of_eq K _ _ _ _ _ rfl (fun i => ?_) (fun _ _ => rfl)
      simp only [setCont_cont]
      split
      · rename_i e
        rw [e]
      · rfl
    · refine ⟨rfl, fun i => ?_, fun i j => ?_⟩
      · simp only [schedSwitch, setCont_cont, setProc_cont]
        by_cases hi : i = ii
        · subst hi
          simp only [if_true]
          rcases hs with h1 | h1
          · exact Or.inr (Or.inl ⟨trivial, h1⟩)
          · exact Or.inl h1.symm
        · simp [hi]
      · simp only [schedSwitch, setCont_proc, setProc_proc]
        split
        · rename_i g
          obtain ⟨rfl, rfl⟩ := g
          exact Or.inr (Or.inr (Or.inl ⟨hr, rfl⟩))
        · exact Or.inl rfl

theorem schedReturn_state (s : State) (ii i : Nat) :
    (schedReturn s ii).initproc = s.initproc ∧ (schedReturn s ii).proc = s.proc ∧
    (((schedReturn s ii).cont i).state = (s.cont i).state ∨
      (((schedReturn s ii).cont i).state = CRUNNABLE ∧ (s.cont i).state ≠ CSTOPPING ∧
        (s.cont i).state ≠ CPAUSED)) := by
  unfold schedReturn
  split
  · rename_i g
    refine ⟨rfl, rfl, ?_⟩
    simp only [setCont_cont]
    split
    · rename_i e
      rw [e]
      exact Or.inr ⟨rfl, g⟩
    · exact Or.inl rfl
  · exact ⟨rfl, rfl, Or.inl rfl⟩

/-- The tables right after `userinit`: one container, CRUNNABLE with cid 1, holding
`initproc`, RUNNABLE with pid 1; everything else as zero-initialised; both counters
at 2. -/
theorem userinit_spec (K : Params) (rootdir kalloc setupkvm : Nat) (st : State)
    (h : userinit K zeroState rootdir kalloc setupkvm = some st) :
    ∃ c j, st.initproc = some (c, j) ∧ c < K.NCONT ∧ j < K.NPROC ∧
      (st.cont c).state = CRUNNABLE ∧ (st.cont c).cid = 1 ∧
      (∀ i, i ≠ c → st.cont i = zeroState.cont i) ∧
      (st.proc c j).state = RUNNABLE ∧ (st.proc c j).pid = 1 ∧
      (st.proc c j).parent = none ∧
      (∀ i j', ¬ (i = c ∧ j' = j) → st.proc i j' = zeroState.proc i j') ∧
      st.nextpid = 2 ∧ st.nextcid = 2 := by
  unfold userinit at h
  cases hc : initcontainer K zeroState rootdir with
  | none => rw [hc] at h; cases h
  | some r =>
    obtain ⟨s1, c⟩ := r
    rw [hc] at h
    simp only [] at h
    unfold initcontainer at hc
    rcases alloccont_spec K zeroState with ⟨ha, _⟩ | ⟨c0, ha, hc0, _⟩
    · rw [ha] at hc; cases hc
    · rw [ha] at hc
      simp only [] at hc
      split at hc
      · cases hc
      · simp only [Option.some.injEq, Prod.mk.injEq] at hc
        obtain ⟨rfl, rfl⟩ := hc
        cases hp : initprocess K _ c0 kalloc setupkvm with
        | none => rw [hp] at h; cases h
        | some r2 =>
          obtain ⟨s2, p⟩ := r2
          rw [hp] at h
          simp only [Option.some.injEq] at h
          subst h
          unfold initprocess at hp
          rcases allocproc_spec K _ c0 kalloc with ⟨s3, hb, _⟩ | ⟨j, hb, _, _, hj, _, _⟩
          · rw [hb] at hp; cases hp
          · rw [hb] at hp
            simp only [] at hp
            split at hp
            · cases hp
            · simp only [Option.some.injEq, Prod.mk.injEq] at hp
              obtain ⟨rfl, rfl⟩ := hp
              refine ⟨c0, j, rfl, hc0, hj, ?_, ?_, ?_, ?_, ?_, ?_, ?_, ?_, ?_⟩
              · simp
              · simp [zeroState]
              · intro i hi
                simp [hi]
              · simp
              · simp [zeroState]
              · simp [zeroState]
              · intro i j' hij
                simp [hij]
              · simp [zeroState, int32]
              · simp [zeroState, int32]

theorem reachableVia_reachable (K : Params) (ok : Sys → Op → Bool) (s : Sys)
    (h : ReachableVia K ok s) : Reachable K s := by
  induction h with
  | boot rootdir kalloc setupkvm st h => exact Reachable.boot rootdir kalloc setupkvm st h
  | step s s1 op _ _ h ih => exact Reachable.step s s1 op ih h

theorem reachableVia_run (K : Params) (ok : Sys → Op → Bool) (ops : List Op) :
    ∀ s s1, ReachableVia K ok s → runVia K ok s ops = some s1 → ReachableVia K ok s1 := by
  induction ops with
  | nil =>
    intro s s1 hs h
    simp only [runVia, Option.some.injEq] at h
    rw [← h]
    exact hs
  | cons op ops ih =>
    intro s s1 hs h
    simp only [runVia] at h
    split at h
    · rename_i hok
      cases hst : step K s op with
      | none => rw [hst] at h; cases h
      | some s2 =>
        rw [hst] at h
        exact ih s2 s1 (ReachableVia.step s s2 op hs hok hst) h
    · cases h

/-- Every step is one kernel operation, followed or not by the scheduler's code
after `swtch`. -/
theorem step_kstep (K : Params) (s s1 : Sys) (op : Op) (h : step K s op = some s1) :
    ∃ st, KStep K s.st st (callerOf K s op) (pausedBy K s op) (stoppedBy K s op) ∧
      (s1.st = st ∨ ∃ ii, s1.st = schedReturn st ii) := by
  cases op with
  | visit k =>
    simp only [step] at h
    split at h
    · cases hv : schedVisit K s.st (s.cpu k).ii with
      | none => rw [hv] at h; cases h
      | some r =>
        obtain ⟨st, d⟩ := r
        rw [hv] at h
        refine ⟨st, schedVisit_kstep K s.st st _ d _ _ _ hv, Or.inl ?_⟩
        cases d with
        | none =>
          simp only [Option.some.injEq] at h
          rw [← h]
        | some p =>
          simp only [Option.some.injEq] at h
          rw [← h]
    · cases h
  | yield k =>
    simp only [step] at h
    cases hr : running K s k with
    | none => rw [hr] at h; cases h
    | some p =>
      rw [hr] at h
      simp only [Option.map_some', Option.some.injEq] at h
      subst h
      refine ⟨yield s.st p, ?_, Or.inr ⟨_, rfl⟩⟩
      simp only [callerOf, hr]
      exact kstep_setProc_self K s.st p _ _ _ (Or.inl rfl)
  | sleep k chan =>
    simp only [step] at h
    cases hr : running K s k with
    | none => rw [hr] at h; cases h
    | some p =>
      rw [hr] at h
      simp only [Option.map_some', Option.some.injEq] at h
      subst h
      refine ⟨sleep s.st p chan, ?_, Or.inr ⟨_, rfl⟩⟩
      simp only [callerOf, hr]
      exact kstep_setProc_self K s.st p _ _ _ (Or.inr rfl)
  | tidy k =>
    simp only [step] at h
    cases hr : running K s k with
    | none => rw [hr] at h; cases h
    | some p =>
      rw [hr] at h
      simp only [Option.map_some', Option.some.injEq] at h
      subst h
      exact ⟨sleepTidy s.st p, kstep_setProc_same K s.st p _ _ _ _ rfl, Or.inl rfl⟩
  | exit k =>
    simp only [step] at h
    cases hr : running K s k with
    | none => rw [hr] at h; cases h
    | some p =>
      rw [hr] at h
      simp only [Option.some_bind] at h
      cases he : exit K s.st p with
      | none => rw [he] at h; cases h
      | some st =>
        rw [he] at h
        simp only [Option.map_some', Option.some.injEq] at h
        subst h
        refine ⟨st, ?_, Or.inr ⟨_, rfl⟩⟩
        simp only [callerOf, hr]
        exact exit_kstep K s.st st p _ _ he
  | wait k =>
    simp only [step] at h
    cases hr : running K s k with
    | none => rw [hr] at h; cases h
    | some p =>
      rw [hr] at h
      simp only [Option.map_some', Option.some.injEq] at h
      have hk := wait_kstep K s.st p (pausedBy K s (Op.wait k)) (stoppedBy K s (Op.wait k))
      refine ⟨(wait K s.st p).1, by simp only [callerOf, hr]; exact hk, ?_⟩
      cases hwt : wait K s.st p with
      | mk st r =>
        rw [hwt] at h
        cases r with
        | none =>
          simp only [] at h
          subst h
          exact Or.inr ⟨_, rfl⟩
        | some v =>
          simp only [] at h
          subst h
          exact Or.inl rfl
  | fork k kalloc copyuvm =>
    simp only [step] at h
    cases hr : running K s k with
    | none => rw [hr] at h; cases h
    | some p =>
      rw [hr] at h
      simp only [Option.some_bind] at h
      cases he : fork K s.st p none kalloc copyuvm with
      | none => rw [he] at h; cases h
      | some r =>
        obtain ⟨st, v⟩ := r
        rw [he] at h
        simp only [Option.map_some', Option.some.injEq] at h
        subst h
        exact ⟨st, fork_kstep K s.st st p none kalloc copyuvm v _ _ _ he, Or.inl rfl⟩
  | cfork k cid kalloc copyuvm =>
    simp only [step] at h
    cases hr : running K s k with
    | none => rw [hr] at h; cases h
    | some p =>
      rw [hr] at h
      simp only [Option.some_bind] at h
      cases he : cfork K s.st p cid kalloc copyuvm with
      | none => rw [he] at h; cases h
      | some r =>
        obtain ⟨st, v⟩ := r
        rw [he] at h
        simp only [Option.map_some', Option.some.injEq] at h
        subst h
        exact ⟨st, cfork_kstep K s.st st p cid kalloc copyuvm v _ _ _ he, Or.inl rfl⟩
  | kill k pid =>
    simp only [step] at h
    cases hr : running K s k with
    | none => rw [hr] at h; cases h
    | some p =>
      rw [hr] at h
      simp only [Option.some_bind] at h
      cases he : kill K s.st p pid with
      | none => rw [he] at h; cases h
      | some r =>
        obtain ⟨st, v⟩ := r
        rw [he] at h
        simp only [Option.map_some', Option.some.injEq] at h
        subst h
        exact ⟨st, kill_kstep K s.st st p pid v _ _ _ he, Or.inl rfl⟩
  | wakeup chan =>
    simp only [step, Option.some.injEq] at h
    subst h
    exact ⟨wakeup1 K s.st chan, wakeup1_kstep K s.st chan _ _ _, Or.inl rfl⟩
  | ccreate k fpath namei =>
    simp only [step] at h
    cases hr : running K s k with
    | none => rw [hr] at h; cases h
    | some p =>
      rw [hr] at h
      simp only [Option.map_some', Option.some.injEq] at h
      subst h
      exact ⟨_, ccreate_kstep K s.st fpath namei _ _ _, Or.inl rfl⟩
  | cstart k cont_name =>
    simp only [step] at h
    cases hr : running K s k with
    | none => rw [hr] at h; cases h
    | some p =>
      rw [hr] at h
      simp only [Option.map_some', Option.some.injEq] at h
      subst h
      exact ⟨_, cstart_kstep K s.st cont_name _ _ _, Or.inl rfl⟩
  | cpause k cont_name =>
    simp only [step] at h
    cases hr : running K s k with
    | none => rw [hr] at h; cases h
    | some p =>
      rw [hr] at h
      simp only [Option.map_some', Option.some.injEq] at h
      subst h
      exact ⟨_, cpause_kstep K s.st cont_name _ _, Or.inl rfl⟩
  | cresume k cont_name =>
    simp only [step] at h
    cases hr : running K s k with
    | none => rw [hr] at h; cases h
    | some p =>
      rw [hr] at h
      simp only [Option.map_some', Option.some.injEq] at h
      subst h
      exact ⟨_, cresume_kstep K s.st cont_name _ _ _, Or.inl rfl⟩
  | cstop k cont_name =>
    simp only [step] at h
    cases hr : running K s k with
    | none => rw [hr] at h; cases h
    | some p =>
      rw [hr] at h
      simp only [Option.map_some', Option.some.injEq] at h
      subst h
      exact ⟨_, cstop_kstep K s.st cont_name _ _, Or.inl rfl⟩

/-! ## C22: the root container -/

/-- What a step does to the processors: nothing; or processor `k` is back in its
scheduler, which goes on to the next container; or processor `k` has switched to the
process its scheduler took at the container it is at. -/
theorem step_cpu (K : Params) (s s1 : Sys) (op : Op) (h : step K s op = some s1) :
    s1.cpu = s.cpu ∨
    (∃ k, s1.cpu = fun i =>
      if i = k then { proc := none, ii := nextIdx K (s.cpu k).ii } else s.cpu i) ∨
    (∃ k p, (p.1 = (s.cpu k).ii ∨ p.1 + 1 = (s.cpu k).ii) ∧ s1.cpu = fun i =>
      if i = k then { proc := some p, ii := (s.cpu k).ii } else s.cpu i) := by
  cases op with
  | visit k =>
    simp only [step] at h
    split at h
    · cases hv : schedVisit K s.st (s.cpu k).ii with
      | none => rw [hv] at h; cases h
      | some r =>
        obtain ⟨st, d⟩ := r
        rw [hv] at h
        cases d with
        | none =>
          simp only [Option.some.injEq] at h
          rw [← h]
          exact Or.inr (Or.inl ⟨k, rfl⟩)
        | some p =>
          simp only [Option.some.injEq] at h
          rw [← h]
          exact Or.inr (Or.inr ⟨k, p, ((schedVisit_frame K s.st st _ _ hv).2.2.2.1 p rfl).1, rfl⟩)
    · cases h
  | yield k =>
    simp only [step] at h
    cases hr : running K s k with
    | none => rw [hr] at h; cases h
    | some p =>
      rw [hr] at h
      simp only [Option.map_some', Option.some.injEq] at h
      rw [← h]
      exact Or.inr (Or.inl ⟨k, rfl⟩)
  | sleep k chan =>
    simp only [step] at h
    cases hr : running K s k with
    | none => rw [hr] at h; cases h
    | some p =>
      rw [hr] at h
      simp only [Option.map_some', Option.some.injEq] at h
      rw [← h]
      exact Or.inr (Or.inl ⟨k, rfl⟩)
  | tidy k =>
    simp only [step] at h
    cases hr : running K s k with
    | none => rw [hr] at h; cases h
    | some p =>
      rw [hr] at h
      simp only [Option.map_some', Option.some.injEq] at h
      rw [← h]
      exact Or.inl rfl
  | exit k =>
    simp only [step] at h
    cases hr : running K s k with
    | none => rw [hr] at h; cases h
    | some p =>
      rw [hr] at h
      simp only [Option.some_bind] at h
      cases he : exit K s.st p with
      | none => rw [he] at h; cases h
      | some st =>
        rw [he] at h
        simp only [Option.map_some', Option.some.injEq] at h
        rw [← h]
        exact Or.inr (Or.inl ⟨k, rfl⟩)
  | wait k =>
    simp only [step] at h
    cases hr : running K s k with
    | none => rw [hr] at h; cases h
    | some p =>
      rw [hr] at h
      simp only [Option.map_some', Option.some.injEq] at h
      cases hwt : wait K s.st p with
      | mk st r =>
        rw [hwt] at h
        cases r with
        | none =>
          simp only [] at h
          rw [← h]
          exact Or.inr (Or.inl ⟨k, rfl⟩)
        | some v =>
          simp only [] at h
          rw [← h]
          exact Or.inl rfl
  | fork k kalloc copyuvm =>
    simp only [step] at h
    cases hr : running K s k with
    | none => rw [hr] at h; cases h
    | some p =>
      rw [hr] at h
      simp only [Option.some_bind] at h
      cases he : fork K s.st p none kalloc copyuvm with
      | none => rw [he] at h; cases h
      | some r =>
        rw [he] at h
        simp only [Option.map_some', Option.some.injEq] at h
        rw [← h]
        exact Or.inl rfl
  | cfork k cid kalloc copyuvm =>
    simp only [step] at h
    cases hr : running K s k with
    | none => rw [hr] at h; cases h
    | some p =>
      rw [hr] at h
      simp only [Option.some_bind] at h
      cases he : cfork K s.st p cid kalloc copyuvm with
      | none => rw [he] at h; cases h
      | some r =>
        rw [he] at h
        simp only [Option.map_some', Option.some.injEq] at h
        rw [← h]
        exact Or.inl rfl
  | kill k pid =>
    simp only [step] at h
    cases hr : running K s k with
    | none => rw [hr] at h; cases h
    | some p =>
      rw [hr] at h
      simp only [Option.some_bind] at h
      cases he : kill K s.st p pid with
      | none => rw [he] at h; cases h
      | some r =>
        rw [he] at h
        simp only [Option.map_some', Option.some.injEq] at h
        rw [← h]
        exact Or.inl rfl
  | wakeup chan =>
    simp only [step, Option.some.injEq] at h
    rw [← h]
    exact Or.inl rfl
  | ccreate k fpath namei =>
    simp only [step] at h
    cases hr : running K s k with
    | none => rw [hr] at h; cases h
    | some p =>
      rw [hr] at h
      simp only [Option.map_some', Option.some.injEq] at h
      rw [← h]
      exact Or.inl rfl
  | cstart k cont_name =>
    simp only [step] at h
    cases hr : running K s k with
    | none => rw [hr] at h; cases h
    | some p =>
      rw [hr] at h
      simp only [Option.map_some', Option.some.injEq] at h
      rw [← h]
      exact Or.inl rfl
  | cpause k cont_name =>
    simp only [step] at h
    cases hr : running K s k with
    | none => rw [hr] at h; cases h
    | some p =>
      rw [hr] at h
      simp only [Option.map_some', Option.some.injEq] at h
      rw [← h]
      exact Or.inl rfl
  | cresume k cont_name =>
    simp only [step] at h
    cases hr : running K s k with
    | none => rw [hr] at h; cases h
    | some p =>
      rw [hr] at h
      simp only [Option.map_some', Option.some.injEq] at h
      rw [← h]
      exact Or.inl rfl
  | cstop k cont_name =>
    simp only [step] at h
    cases hr : running K s k with
    | none => rw [hr] at h; cases h
    | some p =>
      rw [hr] at h
      simp only [Option.map_some', Option.some.injEq] at h
      rw [← h]
      exact Or.inl rfl

theorem reachable_cpuRow (K : Params) (s : Sys) (h : Reachable K s) : CpuRow s := by
  induction h with
  | boot rootdir kalloc setupkvm st hb =>
    intro k p hp
    simp [bootSys] at hp
  | step s s1 op _ hst ih =>
    intro k p hp
    rcases step_cpu K s s1 op hst with e | ⟨k0, e⟩ | ⟨k0, p0, hp0, e⟩
    · rw [e] at hp ⊢
      exact ih k p hp
    · rw [e] at hp ⊢
      simp only [] at hp ⊢
      split at hp
      · cases hp
      · rename_i hk
        rw [if_neg hk]
        exact ih k p hp
    · rw [e] at hp ⊢
      simp only [] at hp ⊢
      split at hp
      · rename_i hk
        rw [if_pos hk]
        simp only [Option.some.injEq] at hp
        rw [← hp]
        exact hp0
      · rename_i hk
        rw [if_neg hk]
        exact ih k p hp

/-- The root container is the first slot of the table: `userinit` runs on the zeroed
tables, where `alloccont` takes slot 0. -/
theorem userinit_row (K : Params) (rootdir kalloc setupkvm : Nat) (st : State)
    (h : userinit K zeroState rootdir kalloc setupkvm = some st) :
    ∃ j, st.initproc = some (0, j) := by
  unfold userinit at h
  cases hc : initcontainer K zeroState rootdir with
  | none => rw [hc] at h; cases h
  | some r =>
    obtain ⟨s1, c⟩ := r
    rw [hc] at h
    simp only [] at h
    unfold initcontainer at hc
    rcases alloccont_spec K zeroState with ⟨ha, _⟩ | ⟨c0, ha, _, _, hmin⟩
    · rw [ha] at hc; cases hc
    · have hc0 : c0 = 0 := by
        by_contra hne
        exact hmin 0 (Nat.pos_of_ne_zero hne) rfl
      subst hc0
      rw [ha] at hc
      simp only [] at hc
      split at hc
      · cases hc
      · simp only [Option.some.injEq, Prod.mk.injEq] at hc
        obtain ⟨rfl, rfl⟩ := hc
        cases hp : initprocess K _ 0 kalloc setupkvm with
        | none => rw [hp] at h; cases h
        | some r2 =>
          obtain ⟨s2, p⟩ := r2
          rw [hp] at h
          simp only [Option.some.injEq] at h
          subst h
          unfold initprocess at hp
          rcases allocproc_spec K _ 0 kalloc with ⟨s3, hb, _⟩ | ⟨j, hb, _, _, hj, _, _⟩
          · rw [hb] at hp; cases hp
          · rw [hb] at hp
            simp only [] at hp
            split at hp
            · cases hp
            · simp only [Option.some.injEq, Prod.mk.injEq] at hp
              obtain ⟨rfl, rfl⟩ := hp
              exact ⟨j, rfl⟩

/-- In every reachable state `initproc` is a slot of row 0. -/
theorem reachable_initRow (K : Params) (s : Sys) (h : Reachable K s) :
    ∀ r, s.st.initproc = some r → r.1 = 0 := by
  induction h with
  | boot rootdir kalloc setupkvm st hb =>
    intro r hr
    obtain ⟨j, hj⟩ := userinit_row K rootdir kalloc setupkvm st hb
    simp only [bootSys] at hr
    rw [hj] at hr
    cases hr
    rfl
  | step s s1 op _ hst ih =>
    intro r hr
    obtain ⟨st, hk, e | ⟨ii, e⟩⟩ := step_kstep K s s1 op hst
    · rw [e, hk.1] at hr
      exact ih r hr
    · rw [e, (schedReturn_state st ii 0).1, hk.1] at hr
      exact ih r hr

theorem rootOk_kstep (K : Params) (s st : State) (cur : Option PRef) (pa so : Option Nat)
    (hI : RootOk s) (h : KStep K s st cur pa so)
    (hspare : ∀ r, s.initproc = some r → pa ≠ some r.1 ∧ so ≠ some r.1) : RootOk st := by
  obtain ⟨r, hr, hc, hz, hu⟩ := hI
  obtain ⟨h1, h2, h3⟩ := h
  obtain ⟨hpa, hso⟩ := hspare r hr
  refine ⟨r, by rw [h1]; exact hr, ?_, ?_, ?_⟩
  · rcases h2 r.1 with g | g | g | g | g | g | g
    · rw [g]; exact hc
    · exact Or.inr g.1
    · exact Or.inl g.1
    · rcases hc with e | e <;> rw [e] at g <;> cases g.2
    · rcases hc with e | e <;> rw [e] at g <;> cases g.2
    · exact absurd g.1 hpa
    · exact absurd g.1 hso
  · intro hzz
    rcases h3 r.1 r.2 with g | g | g | g | g | g | g | g
    · exact hz (by rw [← g]; exact hzz)
    · rw [g.2] at hzz; cases hzz
    · rw [g.2] at hzz; cases hzz
    · rcases g.2 with e | e <;> rw [e] at hzz <;> cases hzz
    · exact g.2.1 (by rw [hr, g.1])
    · rw [g.2] at hzz; cases hzz
    · rw [g.2] at hzz; cases hzz
    · exact hso g.1
  · intro huu
    rcases h3 r.1 r.2 with g | g | g | g | g | g | g | g
    · exact hu (by rw [← g]; exact huu)
    · rw [g.2] at huu; cases huu
    · rw [g.2] at huu; cases huu
    · rcases g.2 with e | e <;> rw [e] at huu <;> cases huu
    · rw [g.2.2] at huu; cases huu
    · exact hz g.1
    · rw [g.2] at huu; cases huu
    · rw [g.2] at huu; cases huu

theorem rootOk_schedReturn (s : State) (ii : Nat) (hI : RootOk s) :
    RootOk (schedReturn s ii) := by
  obtain ⟨r, hr, hc, hz, hu⟩ := hI
  obtain ⟨e1, e2, e3⟩ := schedReturn_state s ii r.1
  refine ⟨r, by rw [e1]; exact hr, ?_, by rw [e2]; exact hz, by rw [e2]; exact hu⟩
  rcases e3 with g | g
  · rw [g]; exact hc
  · exact Or.inl g.1

theorem reachableVia_rootOk (K : Params) (s : Sys)
    (h : ReachableVia K (sparesRoot K) s) : RootOk s.st := by
  induction h with
  | boot rootdir kalloc setupkvm st hb =>
    obtain ⟨c, j, h1, _, _, h4, _, _, h7, _⟩ := userinit_spec K rootdir kalloc setupkvm st hb
    exact ⟨(c, j), h1, Or.inl h4, by simp only [bootSys]; rw [h7]; decide,
      by simp only [bootSys]; rw [h7]; decide⟩
  | step s s1 op _ hok hst ih =>
    have hsp : ∀ r, s.st.initproc = some r →
        pausedBy K s op ≠ some r.1 ∧ stoppedBy K s op ≠ some r.1 := by
      intro r hr
      unfold sparesRoot at hok
      rw [hr] at hok
      simpa using hok
    obtain ⟨st, hk, e | ⟨ii, e⟩⟩ := step_kstep K s s1 op hst
    · rw [e]
      exact rootOk_kstep K s.st st _ _ _ ih hk hsp
    · rw [e]
      exact rootOk_schedReturn st ii (rootOk_kstep K s.st st _ _ _ ih hk hsp)

/-- C22 (as amended): in every state reachable from boot by steps of which no
`cpause` and no `cstop` finds the container of `initproc` (whatever names the other
calls are given), the container of `initproc` is CRUNNABLE or CRUNNING, and CRUNNING
only while a processor runs a process taken from it; it is not CPAUSED, CSTOPPING
or CUNUSED; and `initproc`, a slot of that container, is neither a ZOMBIE nor free. -/
theorem root_container_stays_schedulable (K : Params) (s : Sys)
    (h : ReachableVia K (sparesRoot K) s) :
    ∃ r, s.st.initproc = some r ∧ (s.st.proc r.1 r.2).cont = some r.1 ∧
      ((s.st.cont r.1).state = CRUNNABLE ∨ (s.st.cont r.1).state = CRUNNING) ∧
      ((s.st.cont r.1).state = CRUNNING →
        ∃ k p, k < K.NCPU ∧ (s.cpu k).proc = some p ∧ p.1 = r.1) ∧
      (s.st.cont r.1).state ≠ CPAUSED ∧ (s.st.cont r.1).state ≠ CSTOPPING ∧
      (s.st.cont r.1).state ≠ CUNUSED ∧
      (s.st.proc r.1 r.2).state ≠ ZOMBIE ∧ (s.st.proc r.1 r.2).state ≠ UNUSED := by
  obtain ⟨r, hr, hc, hz, hu⟩ := reachableVia_rootOk K s h
  have hreach := reachableVia_reachable K _ s h
  refine ⟨r, hr, (reachable_procsLocal K s hreach).2.2.1 r.1 r.2 hu, hc, ?_, ?_, ?_, ?_, hz, hu⟩
  · intro hrun
    obtain ⟨k, hk, hp, hii⟩ := reachable_runningHeld K s hreach r.1 hrun
    cases hcp : (s.cpu k).proc with
    | none => exact absurd hcp hp
    | some p =>
      have h0 := reachable_initRow K s hreach r hr
      have hrow := reachable_cpuRow K s hreach k p hcp
      exact ⟨k, p, hk, hcp, by omega⟩
  · rcases hc with e | e <;> rw [e] <;> decide
  · rcases hc with e | e <;> rw [e] <;> decide
  · rcases hc with e | e <;> rw [e] <;> decide

/-- Witness of C22 (as amended): after `traceSparing`, which pauses, resumes and
stops "c1", the root container is CRUNNING with `initproc` on the first processor. -/
theorem root_container_stays_schedulable_witness :
    ReachableVia K2 (sparesRoot K2) sysSparing ∧
    sysSparing.st.initproc = some (0, 0) ∧ (sysSparing.st.cont 1).state = CSTOPPING ∧
    ∃ r, sysSparing.st.initproc = some r ∧
      ((sysSparing.st.cont r.1).state = CRUNNABLE ∨
        (sysSparing.st.cont r.1).state = CRUNNING) ∧
      (sysSparing.st.proc r.1 r.2).state ≠ ZOMBIE := by
  have hr : ReachableVia K2 (sparesRoot K2) sysSparing :=
    reachableVia_run K2 (sparesRoot K2) traceSparing _ _
      (ReachableVia.boot 7 100 200 boot2 rfl) rfl
  obtain ⟨r, h1, _, h3, _, _, _, _, h8, _⟩ := root_container_stays_schedulable K2 sysSparing hr
  exact ⟨hr, by decide, by decide, r, h1, h3, h8⟩

/-- C22, counterexample: `initproc` calls `cstop("root container")`, the name
`initcontainer` gave the root container: the state is reachable, the root container
is CSTOPPING and `initproc` a ZOMBIE; and after `cpause("root container")` the root
container is CPAUSED. -/
theorem root_container_stopped_by_its_name :
    (boot2.cont 0).name = rootContName ∧
    Reachable K2 sysRootStopped ∧ sysRootStopped.st.initproc = some (0, 0) ∧
    (sysRootStopped.st.cont 0).state = CSTOPPING ∧
    (sysRootStopped.st.proc 0 0).state = ZOMBIE ∧
    Reachable K2 sysRootPaused ∧ sysRootPaused.st.initproc = some (0, 0) ∧
    (sysRootPaused.st.cont 0).state = CPAUSED :=
  ⟨by decide, reachable_run K2 [Op.visit 0, Op.cstop 0 rootContName] _ _ reachable_boot2 rfl,
    by decide, by decide, by decide,
    reachable_run K2 [Op.visit 0, Op.cpause 0 rootContName] _ _ reachable_boot2 rfl,
    by decide, by decide⟩

/-! ## Pids, cids and the two counters -/

theorem idstep_of_kept (s st : State) (h : IdsKept s st) : IdStep s st :=
  ⟨Or.inl ⟨h.1, fun i j => Or.inl (h.2.2.1 i j)⟩, Or.inl ⟨h.2.1, h.2.2.2⟩⟩

theorem idsKept_refl (s : State) : IdsKept s s := ⟨rfl, rfl, fun _ _ => rfl, fun _ => rfl⟩

theorem idsKept_setProc (s : State) (p : PRef) (v : Proc)
    (hv : v.pid = (s.proc p.1 p.2).pid) : IdsKept s (s.setProc p.1 p.2 v) := by
  refine ⟨rfl, rfl, fun i j => ?_, fun _ => rfl⟩
  simp only [setProc_proc]
  split
  · rename_i g
    rw [g.1, g.2]
    exact hv
  · rfl

theorem idsKept_setCont (s : State) (c : Nat) (v : Container)
    (hv : v.cid = (s.cont c).cid) : IdsKept s (s.setCont c v) := by
  refine ⟨rfl, rfl, fun _ _ => rfl, fun i => ?_⟩
  simp only [setCont_cont]
  split
  · rename_i g
    rw [g]
    exact hv
  · rfl

theorem idsKept_trans (s t u : State) (h1 : IdsKept s t) (h2 : IdsKept t u) : IdsKept s u :=
  ⟨h2.1.trans h1.1, h2.2.1.trans h1.2.1, fun i j => (h2.2.2.1 i j).trans (h1.2.2.1 i j),
    fun i => (h2.2.2.2 i).trans (h1.2.2.2 i)⟩

theorem exit_idsKept (K : Params) (s st : State) (p : PRef) (h : exit K s p = some st) :
    IdsKept s st := by
  have hinit : s.initproc ≠ some p := by
    intro e
    unfold exit at h
    rw [if_pos e] at h
    cases h
  cases hc : (s.proc p.1 p.2).cont with
  | none =>
    unfold exit at h
    rw [if_neg hinit, hc] at h
    cases h
  | some c =>
    obtain ⟨st1, he, e1, _, _, e4, e5, _, _, e8, _⟩ := exit_spec K s p c hinit hc
    rw [he] at h
    cases h
    exact ⟨e5, e4, fun i j => (e8 i j).2.2.1, fun i => by rw [e1]⟩

theorem wait_idstep (K : Params) (s : State) (p : PRef) : IdStep s (wait K s p).1 := by
  have hcid : ∀ n i, ((sweep s n).cont i).cid = (s.cont i).cid := by
    intro n i
    rw [sweep_cont]
    split <;> rfl
  rw [wait_eq]
  cases firstZombieCont K s p K.NCONT with
  | some i0 =>
    simp only []
    refine ⟨Or.inl ⟨rfl, fun i j => ?_⟩, Or.inl ⟨rfl, fun i => hcid i0 i⟩⟩
    simp only [reap_proc, sweep_proc]
    split
    · exact Or.inr rfl
    · exact Or.inl rfl
  | none =>
    simp only []
    split
    · exact ⟨Or.inl ⟨rfl, fun i j => Or.inl rfl⟩, Or.inl ⟨rfl, fun i => hcid K.NCONT i⟩⟩
    · refine ⟨Or.inl ⟨rfl, fun i j => ?_⟩, Or.inl ⟨rfl, fun i => hcid K.NCONT i⟩⟩
      left
      exact (idsKept_setProc (sweep s K.NCONT) p
        { (sweep s K.NCONT).proc p.1 p.2 with chan := procChan (some p), state := SLEEPING }
        rfl).2.2.1 i j

/-- The pids after `allocproc`: nothing has changed, or the slot taken holds the
value of the counter, which is incremented, whether or not `kalloc` succeeded. -/
theorem allocproc_ids (K : Params) (s : State) (c kalloc : Nat) :
    (allocproc K s c kalloc).1.cont = s.cont ∧
    (allocproc K s c kalloc).1.nextcid = s.nextcid ∧
    (((allocproc K s c kalloc).1 = s ∧ (allocproc K s c kalloc).2 = none) ∨
      ((allocproc K s c kalloc).1.nextpid = int32 (s.nextpid + 1) ∧
        ∃ j, ((allocproc K s c kalloc).2 = none ∨ (allocproc K s c kalloc).2 = some (c, j)) ∧
          ((allocproc K s c kalloc).1.proc c j).pid = s.nextpid ∧
          ∀ i j', ¬ (i = c ∧ j' = j) →
            (allocproc K s c kalloc).1.proc i j' = s.proc i j')) := by
  unfold allocproc
  split
  · exact ⟨rfl, rfl, Or.inl ⟨rfl, rfl⟩⟩
  · cases firstIdx (fun j => decide ((s.proc c j).state = UNUSED)) K.NPROC with
    | none => exact ⟨rfl, rfl, Or.inl ⟨rfl, rfl⟩⟩
    | some j =>
      simp only []
      split
      · refine ⟨rfl, rfl, Or.inr ⟨rfl, j, Or.inl rfl, by simp, ?_⟩⟩
        intro i j' hij
        simp [hij]
      · refine ⟨rfl, rfl, Or.inr ⟨rfl, j, Or.inr rfl, by simp, ?_⟩⟩
        intro i j' hij
        simp [hij]

theorem fork_idstep (K : Params) (s s1 : State) (p : PRef) (target : Option Nat)
    (kalloc copyuvm : Nat) (r : Int)
    (h : fork K s p target kalloc copyuvm = some (s1, r)) : IdStep s s1 := by
  have hcont := fork_cont K s s1 p target kalloc copyuvm r h
  unfold fork at h
  have hchoice : forkChoice s p target =
      ((forkChoice s p target).1, (forkChoice s p target).2) := rfl
  rw [hchoice] at h
  cases hc : (forkChoice s p target).1 with
  | none => rw [hc] at h; simp at h
  | some c =>
    rw [hc] at h
    simp only [] at h
    obtain ⟨_, a2, a3⟩ := allocproc_ids K s c kalloc
    have hsplit : allocproc K s c kalloc =
        ((allocproc K s c kalloc).1, (allocproc K s c kalloc).2) := rfl
    rw [hsplit] at h
    rcases a3 with ⟨e1, e2⟩ | ⟨e1, j, e2, e3, e4⟩
    · rw [e2] at h
      simp only [Option.some.injEq, Prod.mk.injEq] at h
      obtain ⟨rfl, _⟩ := h
      rw [e1]
      exact idstep_of_kept _ _ (idsKept_refl s)
    · have hcid : ∀ i, (s1.cont i).cid = (s.cont i).cid := fun i => by rw [hcont]
      rcases e2 with e2 | e2
      · rw [e2] at h
        simp only [Option.some.injEq, Prod.mk.injEq] at h
        obtain ⟨rfl, _⟩ := h
        exact ⟨Or.inr ⟨e1, c, j, e3, fun i j' hij => by rw [e4 i j' hij]⟩, Or.inl ⟨a2, hcid⟩⟩
      · rw [e2] at h
        simp only [] at h
        split at h
        · simp only [Option.some.injEq, Prod.mk.injEq] at h
          obtain ⟨rfl, _⟩ := h
          refine ⟨Or.inr ⟨e1, c, j, ?_, fun i j' hij => ?_⟩, Or.inl ⟨a2, hcid⟩⟩
          · simp only [setProc_proc, and_self, if_true]
            exact e3
          · simp only [setProc_proc, if_neg hij]
            rw [e4 i j' hij]
        · simp only [Option.some.injEq, Prod.mk.injEq] at h
          obtain ⟨rfl, _⟩ := h
          refine ⟨Or.inr ⟨e1, c, j, ?_, fun i j' hij => ?_⟩, Or.inl ⟨a2, hcid⟩⟩
          · simp only [setProc_proc, and_self, if_true]
            exact e3
          · simp only [setProc_proc, if_neg hij]
            rw [e4 i j' hij]

theorem cfork_idstep (K : Params) (s s1 : State) (p : PRef) (cid : Int)
    (kalloc copyuvm : Nat) (r : Int)
    (h : cfork K s p cid kalloc copyuvm = some (s1, r)) : IdStep s s1 := by
  unfold cfork at h
  split at h
  · simp only [Option.some.injEq, Prod.mk.injEq] at h
    obtain ⟨rfl, _⟩ := h
    exact idstep_of_kept _ _ (idsKept_refl _)
  · exact fork_idstep K s s1 p _ kalloc copyuvm r h

theorem kill_idsKept (K : Params) (s s1 : State) (p : PRef) (pid r : Int)
    (h : kill K s p pid = some (s1, r)) : IdsKept s s1 := by
  unfold kill kill1 at h
  cases hc : (s.proc p.1 p.2).cont with
  | none => rw [hc] at h; cases h
  | some c =>
    rw [hc] at h
    simp only [] at h
    cases hf : firstIdx (fun j => decide ((s.proc c j).pid = pid)) K.NPROC with
    | none =>
      rw [hf] at h
      simp only [Option.some.injEq, Prod.mk.injEq] at h
      obtain ⟨rfl, _⟩ := h
      exact idsKept_refl _
    | some j0 =>
      rw [hf] at h
      simp only [] at h
      have h1 : IdsKept s (s.setProc c j0 { s.proc c j0 with killed := 1 }) :=
        idsKept_setProc s (c, j0) _ rfl
      split at h
      · simp only [Option.some.injEq, Prod.mk.injEq] at h
        obtain ⟨rfl, _⟩ := h
        exact idsKept_trans _ _ _ h1 (idsKept_setProc _ (c, j0) _ rfl)
      · simp only [Option.some.injEq, Prod.mk.injEq] at h
        obtain ⟨rfl, _⟩ := h
        exact h1

theorem wakeup1_idsKept (K : Params) (s : State) (chan : Chan) :
    IdsKept s (wakeup1 K s chan) := by
  obtain ⟨_, _, e3, e4⟩ := wakeup1_fields K s chan
  refine ⟨e4, e3, fun i j => ?_, fun i => by rw [wakeup1_cont]⟩
  rw [wakeup1_proc]
  split <;> rfl

theorem ccreate_idstep (K : Params) (s : State) (fpath : List Nat) (namei : Nat) :
    IdStep s (ccreate K s fpath namei).1 := by
  rcases ccreate_cases K s fpath namei with ⟨he, _⟩ | ⟨n, c, _, _, _, hu, _, ⟨_, he⟩ | ⟨_, he⟩⟩
  · rw [he]
    exact idstep_of_kept _ _ (idsKept_refl _)
  · rw [he]
    refine ⟨Or.inl ⟨rfl, fun _ _ => Or.inl rfl⟩, Or.inr (Or.inl ⟨rfl, c, by simp, ?_⟩)⟩
    intro i hi
    simp [hi]
  · rw [he]
    refine ⟨Or.inl ⟨rfl, fun _ _ => Or.inl rfl⟩, Or.inr (Or.inr ⟨rfl, c, by simp, hu, ?_⟩)⟩
    intro i hi
    simp [hi]

theorem cstart_idsKept (K : Params) (s : State) (cont_name : List Nat) :
    IdsKept s (cstart K s cont_name).1 := by
  unfold cstart
  cases get_container_by_name K s cont_name with
  | none => exact idsKept_refl _
  | some c =>
    simp only []
    split
    · exact idsKept_refl _
    · exact idsKept_setCont s c _ rfl

theorem cpause_idsKept (K : Params) (s : State) (cont_name : List Nat) :
    IdsKept s (cpause K s cont_name).1 := by
  unfold cpause
  cases get_container_by_name K s cont_name with
  | none => exact idsKept_refl _
  | some c =>
    simp only []
    split
    · exact idsKept_refl _
    · exact idsKept_setCont s c _ rfl

theorem cresume_idsKept (K : Params) (s : State) (cont_name : List Nat) :
    IdsKept s (cresume K s cont_name).1 := by
  unfold cresume
  cases get_container_by_name K s cont_name with
  | none => exact idsKept_refl _
  | some c =>
    simp only []
    split
    · exact idsKept_refl _
    · exact idsKept_setCont s c _ rfl

theorem cstop_idsKept (K : Params) (s : State) (cont_name : List Nat) :
    IdsKept s (cstop K s cont_name).1 := by
  unfold cstop
  cases get_container_by_name K s cont_name with
  | none => exact idsKept_refl _
  | some c =>
    simp only []
    obtain ⟨_, _, e3, e4⟩ := cstopAt_fields K s c
    refine ⟨e4, e3, fun i j => ?_, fun i => ?_⟩
    · rw [cstopAt_proc]
      split
      · rename_i g
        rw [g.1]
      · rfl
    · rw [cstopAt_cont]
      split
      · rename_i g
        rw [g]
      · rfl

theorem schedVisit_idsKept (K : Params) (s s1 : State) (ii : Nat) (d : Option PRef)
    (h : schedVisit K s ii = some (s1, d)) : IdsKept s s1 := by
  obtain ⟨_, _, f3, f4, _, _, f7, f8, f9⟩ := schedVisit_frame K s s1 ii d h
  refine ⟨f7, f8, fun i j => ?_, f9⟩
  cases d with
  | none => rw [(f3 rfl).1]
  | some p =>
    obtain ⟨_, _, _, _, hp, hfr⟩ := f4 p rfl
    by_cases hij : i = p.1 ∧ j = p.2
    · obtain ⟨rfl, rfl⟩ := hij
      rw [hp]
    · rw [hfr i j hij]

theorem schedReturn_idsKept (s : State) (ii : Nat) : IdsKept s (schedReturn s ii) := by
  unfold schedReturn
  split
  · exact idsKept_setCont s ii _ rfl
  · exact idsKept_refl _

theorem idstep_kept (s t u : State) (h1 : IdStep s t) (h2 : IdsKept t u) : IdStep s u := by
  obtain ⟨k1, k2, k3, k4⟩ := h2
  obtain ⟨hp, hc⟩ := h1
  refine ⟨?_, ?_⟩
  · rcases hp with ⟨a, b⟩ | ⟨a, x, y, b, c⟩
    · exact Or.inl ⟨k1.trans a, fun i j => by rw [k3]; exact b i j⟩
    · exact Or.inr ⟨k1.trans a, x, y, by rw [k3]; exact b, fun i j hij => by
        rw [k3]; exact c i j hij⟩
  · rcases hc with ⟨a, b⟩ | ⟨a, x, b, c⟩ | ⟨a, x, b, c, d⟩
    · exact Or.inl ⟨k2.trans a, fun i => by rw [k4]; exact b i⟩
    · exact Or.inr (Or.inl ⟨k2.trans a, x, by rw [k4]; exact b, fun i hi => by
        rw [k4]; exact c i hi⟩)
    · exact Or.inr (Or.inr ⟨k2.trans a, x, by rw [k4]; exact b, c, fun i hi => by
        rw [k4]; exact d i hi⟩)

/-- What a step does to the pids, the cids and the two counters. -/
theorem step_idstep (K : Params) (s s1 : Sys) (op : Op) (h : step K s op = some s1) :
    IdStep s.st s1.st := by
  cases op with
  | visit k =>
    simp only [step] at h
    split at h
    · cases hv : schedVisit K s.st (s.cpu k).ii with
      | none => rw [hv] at h; cases h
      | some r =>
        obtain ⟨st, d⟩ := r
        rw [hv] at h
        have hk := idstep_of_kept _ _ (schedVisit_idsKept K s.st st _ d hv)
        cases d with
        | none =>
          simp only [Option.some.injEq] at h
          rw [← h]
          exact hk
        | some p =>
          simp only [Option.some.injEq] at h
          rw [← h]
          exact hk
    · cases h
  | yield k =>
    simp only [step] at h
    cases hr : running K s k with
    | none => rw [hr] at h; cases h
    | some p =>
      rw [hr] at h
      simp only [Option.map_some', Option.some.injEq] at h
      rw [← h]
      have h1 : IdsKept s.st (yield s.st p) := idsKept_setProc s.st p _ rfl
      exact idstep_of_kept _ _ (idsKept_trans _ _ _ h1 (schedReturn_idsKept _ (s.cpu k).ii))
  | sleep k chan =>
    simp only [step] at h
    cases hr : running K s k with
    | none => rw [hr] at h; cases h
    | some p =>
      rw [hr] at h
      simp only [Option.map_some', Option.some.injEq] at h
      rw [← h]
      have h1 : IdsKept s.st (sleep s.st p chan) := idsKept_setProc s.st p _ rfl
      exact idstep_of_kept _ _ (idsKept_trans _ _ _ h1 (schedReturn_idsKept _ (s.cpu k).ii))
  | tidy k =>
    simp only [step] at h
    cases hr : running K s k with
    | none => rw [hr] at h; cases h
    | some p =>
      rw [hr] at h
      simp only [Option.map_some', Option.some.injEq] at h
      rw [← h]
      have h1 : IdsKept s.st (sleepTidy s.st p) := idsKept_setProc s.st p _ rfl
      exact idstep_of_kept _ _ h1
  | exit k =>
    simp only [step] at h
    cases hr : running K s k with
    | none => rw [hr] at h; cases h
    | some p =>
      rw [hr] at h
      simp only [Option.some_bind] at h
      cases he : exit K s.st p with
      | none => rw [he] at h; cases h
      | some st =>
        rw [he] at h
        simp only [Option.map_some', Option.some.injEq] at h
        rw [← h]
        exact idstep_of_kept _ _ (idsKept_trans _ _ _ (exit_idsKept K s.st st p he)
          (schedReturn_idsKept _ _))
  | wait k =>
    simp only [step] at h
    cases hr : running K s k with
    | none => rw [hr] at h; cases h
    | some p =>
      rw [hr] at h
      simp only [Option.map_some', Option.some.injEq] at h
      have hk := wait_idstep K s.st p
      cases hwt : wait K s.st p with
      | mk st r =>
        rw [hwt] at h hk
        cases r with
        | none =>
          simp only [] at h
          rw [← h]
          exact idstep_kept _ _ _ hk (schedReturn_idsKept _ _)
        | some v =>
          simp only [] at h
          rw [← h]
          exact hk
  | fork k kalloc copyuvm =>
    simp only [step] at h
    cases hr : running K s k with
    | none => rw [hr] at h; cases h
    | some p =>
      rw [hr] at h
      simp only [Option.some_bind] at h
      cases he : fork K s.st p none kalloc copyuvm with
      | none => rw [he] at h; cases h
      | some r =>
        obtain ⟨st, v⟩ := r
        rw [he] at h
        simp only [Option.map_some', Option.some.injEq] at h
        rw [← h]
        exact fork_idstep K s.st st p none kalloc copyuvm v he
  | cfork k cid kalloc copyuvm =>
    simp only [step] at h
    cases hr : running K s k with
    | none => rw [hr] at h; cases h
    | some p =>
      rw [hr] at h
      simp only [Option.some_bind] at h
      cases he : cfork K s.st p cid kalloc copyuvm with
      | none => rw [he] at h; cases h
      | some r =>
        obtain ⟨st, v⟩ := r
        rw [he] at h
        simp only [Option.map_some', Option.some.injEq] at h
        rw [← h]
        exact cfork_idstep K s.st st p cid kalloc copyuvm v he
  | kill k pid =>
    simp only [step] at h
    cases hr : running K s k with
    | none => rw [hr] at h; cases h
    | some p =>
      rw [hr] at h
      simp only [Option.some_bind] at h
      cases he : kill K s.st p pid with
      | none => rw [he] at h; cases h
      | some r =>
        obtain ⟨st, v⟩ := r
        rw [he] at h
        simp only [Option.map_some', Option.some.injEq] at h
        rw [← h]
        exact idstep_of_kept _ _ (kill_idsKept K s.st st p pid v he)
  | wakeup chan =>
    simp only [step, Option.some.injEq] at h
    rw [← h]
    exact idstep_of_kept _ _ (wakeup1_idsKept K s.st chan)
  | ccreate k fpath namei =>
    simp only [step] at h
    cases hr : running K s k with
    | none => rw [hr] at h; cases h
    | some p =>
      rw [hr] at h
      simp only [Option.map_some', Option.some.injEq] at h
      rw [← h]
      exact ccreate_idstep K s.st fpath namei
  | cstart k cont_name =>
    simp only [step] at h
    cases hr : running K s k with
    | none => rw [hr] at h; cases h
    | some p =>
      rw [hr] at h
      simp only [Option.map_some', Option.some.injEq] at h
      rw [← h]
      exact idstep_of_kept _ _ (cstart_idsKept K s.st cont_name)
  | cpause k cont_name =>
    simp only [step] at h
    cases hr : running K s k with
    | none => rw [hr] at h; cases h
    | some p =>
      rw [hr] at h
      simp only [Option.map_some', Option.some.injEq] at h
      rw [← h]
      exact idstep_of_kept _ _ (cpause_idsKept K s.st cont_name)
  | cresume k cont_name =>
    simp only [step] at h
    cases hr : running K s k with
    | none => rw [hr] at h; cases h
    | some p =>
      rw [hr] at h
      simp only [Option.map_some', Option.some.injEq] at h
      rw [← h]
      exact idstep_of_kept _ _ (cresume_idsKept K s.st cont_name)
  | cstop k cont_name =>
    simp only [step] at h
    cases hr : running K s k with
    | none => rw [hr] at h; cases h
    | some p =>
      rw [hr] at h
      simp only [Option.map_some', Option.some.injEq] at h
      rw [← h]
      exact idstep_of_kept _ _ (cstop_idsKept K s.st cont_name)

theorem idsFresh_idstep (s st : State) (hI : IdsFresh s) (h : IdStep s st)
    (hp : s.nextpid < 2147483647) (hc : s.nextcid < 2147483647) :
    IdsFresh st ∧ s.nextpid ≤ st.nextpid ∧ s.nextcid ≤ st.nextcid := by
  obtain ⟨i1, i2, i3, i4, i5⟩ := hI
  obtain ⟨hpid, hcid⟩ := h
  have e32p : int32 (s.nextpid + 1) = s.nextpid + 1 := by unfold int32; omega
  have e32c : int32 (s.nextcid + 1) = s.nextcid + 1 := by unfold int32; omega
  have e32d : int32 (int32 (s.nextcid + 1) - 1) = s.nextcid := by
    rw [e32c]; unfold int32; omega
  have hP : 0 < st.nextpid ∧ s.nextpid ≤ st.nextpid ∧
      (∀ i j, 0 ≤ (st.proc i j).pid ∧ (st.proc i j).pid < st.nextpid) ∧
      (∀ i j i' j', (st.proc i j).pid ≠ 0 → (st.proc i j).pid = (st.proc i' j').pid →
        i = i' ∧ j = j') := by
    rcases hpid with ⟨a, b⟩ | ⟨a, x, y, b, c⟩
    · refine ⟨by rw [a]; exact i1, by rw [a], fun i j => ?_, fun i j i' j' hne he => ?_⟩
      · rw [a]
        rcases b i j with g | g
        · rw [g]; exact i3 i j
        · rw [g]; exact ⟨le_refl _, i1⟩
      · rcases b i j with g | g
        · rcases b i' j' with g' | g'
          · rw [g] at hne he
            rw [g'] at he
            exact i4 i j i' j' hne he
          · rw [g'] at he
            exact absurd he hne
        · exact absurd g hne
    · rw [e32p] at a
      refine ⟨by omega, by omega, fun i j => ?_, fun i j i' j' hne he => ?_⟩
      · rw [a]
        by_cases hij : i = x ∧ j = y
        · rw [hij.1, hij.2, b]; omega
        · rw [c i j hij]
          have := i3 i j
          omega
      · by_cases hij : i = x ∧ j = y
        · by_cases hij' : i' = x ∧ j' = y
          · exact ⟨hij.1.trans hij'.1.symm, hij.2.trans hij'.2.symm⟩
          · rw [hij.1, hij.2, b, c i' j' hij'] at he
            have := (i3 i' j').2
            omega
        · by_cases hij' : i' = x ∧ j' = y
          · rw [hij'.1, hij'.2, b, c i j hij] at he
            have := (i3 i j).2
            omega
          · rw [c i j hij] at hne he
            rw [c i' j' hij'] at he
            exact i4 i j i' j' hne he
  have hC : 0 < st.nextcid ∧ s.nextcid ≤ st.nextcid ∧ ∀ i, (st.cont i).cid ≤ st.nextcid := by
    rcases hcid with ⟨a, b⟩ | ⟨a, x, b, c⟩ | ⟨a, x, b, _, c⟩
    · exact ⟨by rw [a]; exact i2, by rw [a], fun i => by rw [a, b]; exact i5 i⟩
    · rw [e32d] at a
      refine ⟨by rw [a]; exact i2, by rw [a], fun i => ?_⟩
      rw [a]
      by_cases hi : i = x
      · rw [hi, b]
      · rw [c i hi]; exact i5 i
    · rw [e32c] at a
      refine ⟨by omega, by omega, fun i => ?_⟩
      rw [a]
      by_cases hi : i = x
      · rw [hi, b]; omega
      · rw [c i hi]
        have := i5 i
        omega
  exact ⟨⟨hP.1, hC.1, hP.2.2.1, hP.2.2.2, hC.2.2⟩, hP.2.1, hC.2.1⟩

theorem reachableVia_idsFresh (K : Params) (s : Sys) (h : ReachableVia K noWrap s) :
    IdsFresh s.st := by
  induction h with
  | boot rootdir kalloc setupkvm st hb =>
    obtain ⟨c, j, _, _, _, _, h5, h6, _, h8, _, h10, h11, h12⟩ :=
      userinit_spec K rootdir kalloc setupkvm st hb
    have hpid : ∀ i j', (st.proc i j').pid = if i = c ∧ j' = j then 1 else 0 := by
      intro i j'
      by_cases hij : i = c ∧ j' = j
      · rw [if_pos hij, hij.1, hij.2, h8]
      · rw [if_neg hij, h10 i j' hij]
        rfl
    refine ⟨by simp only [bootSys]; rw [h11]; decide, by simp only [bootSys]; rw [h12]; decide,
      fun i j' => ?_, fun i j' i' j'' hne he => ?_, fun i => ?_⟩
    · simp only [bootSys]
      rw [hpid, h11]
      split <;> decide
    · simp only [bootSys] at hne he
      rw [hpid] at hne he
      rw [hpid] at he
      by_cases hij : i = c ∧ j' = j
      · by_cases hij' : i' = c ∧ j'' = j
        · exact ⟨hij.1.trans hij'.1.symm, hij.2.trans hij'.2.symm⟩
        · rw [if_pos hij, if_neg hij'] at he
          cases he
      · rw [if_neg hij] at hne
        exact absurd rfl hne
    · simp only [bootSys]
      rw [h12]
      by_cases hi : i = c
      · rw [hi, h5]; decide
      · rw [h6 i hi]
        simp [zeroState]
  | step s s1 op _ hok hst ih =>
    have hw : s.st.nextpid < 2147483647 ∧ s.st.nextcid < 2147483647 := by
      simpa [noWrap] using hok
    exact (idsFresh_idstep s.st s1.st ih (step_idstep K s s1 op hst) hw.1 hw.2).1

/-! ## C32: the cursor after wraparound -/

/-- For a cursor that is not negative the index `nextproc % NPROC` is a slot of the
container's array. -/
theorem cmod_range_of_nonneg (K : Params) (c : Int) (hN : 0 < K.NPROC) (hc : 0 ≤ c) :
    0 ≤ cmod c K.NPROC ∧ cmod c K.NPROC < K.NPROC :=
  ⟨Int.tmod_nonneg _ hc, Int.tmod_lt_of_pos _ (by exact_mod_cast hN)⟩

/-- Whatever `NPROC` is, from 2 on: of the first two values the cursor takes after
the wraparound, one gives a negative index. -/
theorem cmod_negative_after_wrap (K : Params) (hN : 2 ≤ K.NPROC) :
    cmod (-2147483648) K.NPROC < 0 ∨ cmod (-2147483647) K.NPROC < 0 := by
  have key : ∀ m : Nat, m % K.NPROC ≠ 0 → cmod (-(m : Int)) K.NPROC < 0 := by
    intro m hm
    cases m with
    | zero => simp at hm
    | succ k =>
      have e : cmod (-((k + 1 : Nat) : Int)) K.NPROC = -(((k + 1) % K.NPROC : Nat) : Int) := rfl
      rw [e]
      exact Int.neg_neg_of_pos (by exact_mod_cast Nat.pos_of_ne_zero hm)
  by_cases h : 2147483648 % K.NPROC = 0
  · right
    have h2 : 2147483647 % K.NPROC ≠ 0 := by
      intro e
      have d1 := Nat.dvd_of_mod_eq_zero h
      have d2 := Nat.dvd_of_mod_eq_zero e
      have d3 : K.NPROC ∣ 2147483648 - 2147483647 := Nat.dvd_sub' d1 d2
      have : K.NPROC = 1 := Nat.dvd_one.1 (by simpa using d3)
      omega
    exact key 2147483647 h2
  · left
    exact key 2147483648 h

/-- One pass of the scheduler of processor 1 over the two containers of a
`Spinning` machine whose cursor gives an index that is not negative: the cursor is
incremented (as an `int`) and nothing else changes. -/
theorem spinning_round (s : Sys) (c : Int) (h : Spinning s c) (hc : 0 ≤ cmod c K2.NPROC) :
    ∃ s1 s2, step K2 s (Op.visit 1) = some s1 ∧ step K2 s1 (Op.visit 1) = some s2 ∧
      Spinning s2 (int32 (c + 1)) := by
  obtain ⟨h1, h2, h3, h4, h5, h6⟩ := h
  have hidx : (cmod c K2.NPROC).toNat < K2.NPROC := by
    have h2' : cmod c K2.NPROC < 2 := Int.tmod_lt_of_pos c (by decide)
    show (cmod c K2.NPROC).toNat < 2
    omega
  have hslot : slotAt K2 0 (cmod (s.st.cont 0).nextproc K2.NPROC) =
      some (0, (cmod c K2.NPROC).toNat) := by
    rw [h2]
    unfold slotAt
    rw [if_pos hc]
  have hv : schedVisit K2 s.st 0 =
      some (s.st.setCont 0 { s.st.cont 0 with nextproc := int32 (c + 1) }, none) := by
    rw [schedVisit_pass K2 s.st 0 _ (by decide) (by rw [h1]; simp) hslot (h3 _ hidx), h2]
  have e1 : step K2 s (Op.visit 1) = some
      { st := s.st.setCont 0 { s.st.cont 0 with nextproc := int32 (c + 1) }
        cpu := fun i => if i = 1 then { proc := none, ii := 1 } else s.cpu i } := by
    simp only [step]
    rw [if_pos ⟨by decide, h5, by rw [h6]; decide⟩, h6, hv]
    rfl
  refine ⟨_, { st := s.st.setCont 0 { s.st.cont 0 with nextproc := int32 (c + 1) }
               cpu := fun i => if i = 1 then { proc := none, ii := 0 } else
                 (if i = 1 then { proc := none, ii := 1 } else s.cpu i) }, e1, ?_, ?_⟩
  · simp only [step]
    rw [if_pos ⟨by decide, by simp, by simp; decide⟩]
    have hv2 : schedVisit K2 (s.st.setCont 0 { s.st.cont 0 with nextproc := int32 (c + 1) }) 1 =
        some (s.st.setCont 0 { s.st.cont 0 with nextproc := int32 (c + 1) }, none) := by
      exact schedVisit_skip K2 _ 1 (by simp [h4])
    simp only [if_true, hv2]
    rfl
  · refine ⟨by simp [h1], by simp, fun j hj => by simp only [setCont_proc]; exact h3 j hj,
      by simp [h4], by simp, by simp⟩

/-- From a reachable `Spinning` machine with the cursor at `n`, `t` further passes of
the scheduler of processor 1 reach the cursor `n + t`, as long as that is an `int`. -/
theorem spinning_reach : ∀ (t n : Nat) (s : Sys), Reachable K2 s → Spinning s (n : Int) →
    n + t ≤ 2147483647 → ∃ s1, Reachable K2 s1 ∧ Spinning s1 ((n + t : Nat) : Int) := by
  intro t
  induction t with
  | zero => intro n s hr hs _; exact ⟨s, hr, hs⟩
  | succ t ih =>
    intro n s hr hs hle
    have hc : 0 ≤ cmod (n : Int) K2.NPROC := by
      rw [cmod_natCast]
      exact Int.ofNat_nonneg _
    obtain ⟨s1, s2, e1, e2, h2⟩ := spinning_round s n hs hc
    have h32 : int32 ((n : Int) + 1) = ((n + 1 : Nat) : Int) := by
      rw [int32_small _ (by omega) (by omega)]
      push_cast
      rfl
    rw [h32] at h2
    have hr2 : Reachable K2 s2 :=
      Reachable.step s1 s2 _ (Reachable.step s s1 _ hr e1) e2
    obtain ⟨s3, hr3, h3⟩ := ih (n + 1) s2 hr2 h2 (by omega)
    refine ⟨s3, hr3, ?_⟩
    have : n + 1 + t = n + (t + 1) := by omega
    rw [this] at h3
    exact h3

/-- C32, evaluation: on the small machine (`NPROC = 2`), after `initproc` was
switched to, the scheduler of the second processor alone brings the cursor of the
root container to the largest `int`; the next `++` wraps it to the smallest, and
one pass later the cursor is -2147483647 in a reachable state.  There the index
`nextproc % NPROC` is -1, so the slot the next visit takes is before the
container's array (the model stops there: `schedVisit` has no result). -/
theorem scheduler_index_negative_after_wraparound :
    int32 (2147483647 + 1) = -2147483648 ∧
    ∃ s : Sys, Reachable K2 s ∧ (s.cpu 1).proc = none ∧ (s.cpu 1).ii = 0 ∧
      (s.st.cont 0).state = CRUNNING ∧ (s.st.cont 0).nextproc = -2147483647 ∧
      cmod (s.st.cont 0).nextproc K2.NPROC = -1 ∧ schedVisit K2 s.st 0 = none ∧
      step K2 s (Op.visit 1) = none := by
  refine ⟨by decide, ?_⟩
  have h0 : Spinning sysInit ((1 : Nat) : Int) :=
    ⟨by decide, by decide, by decide, by decide, by decide, by decide⟩
  have hr0 : Reachable K2 sysInit := reachable_run K2 [Op.visit 0] _ _ reachable_boot2 rfl
  obtain ⟨s1, hr1, h1⟩ := spinning_reach 2147483646 1 sysInit hr0 h0 (by decide)
  have e1 : ((1 + 2147483646 : Nat) : Int) = 2147483647 := by norm_num
  rw [e1] at h1
  obtain ⟨a1, a2, x1, x2, h2⟩ := spinning_round s1 _ h1 (by decide)
  have e2 : int32 (2147483647 + 1) = -2147483648 := by decide
  rw [e2] at h2
  obtain ⟨b1, b2, y1, y2, h3⟩ := spinning_round a2 _ h2 (by decide)
  have e3 : int32 (-2147483648 + 1) = -2147483647 := by decide
  rw [e3] at h3
  have hr : Reachable K2 b2 :=
    Reachable.step b1 b2 _ (Reachable.step a2 b1 _
      (Reachable.step a1 a2 _ (Reachable.step s1 a1 _ hr1 x1) x2) y1) y2
  obtain ⟨g1, g2, _, _, g5, g6⟩ := h3
  have hv : schedVisit K2 b2.st 0 = none :=
    schedVisit_fault K2 b2.st 0 (by decide) (by rw [g1]; simp) (by rw [g2]; decide)
  refine ⟨b2, hr, g5, g6, g1, g2, by rw [g2]; decide, hv, ?_⟩
  simp only [step]
  rw [if_pos ⟨by decide, g5, by rw [g6]; decide⟩, g6, hv]

/-! ## `extract_container_name`, path by path (C31) -/

theorem getD_strlen (l : List Nat) : l.getD (strlen l) 0 = 0 := by
  induction l with
  | nil => rfl
  | cons x l ih =>
    by_cases hx : x = 0
    · simp [strlen, hx]
    · simp only [strlen, hx, if_false, List.getD_cons_succ]
      exact ih

theorem range_map_getD (b : List Nat) (off : Nat) (g : Nat → Nat)
    (hg : ∀ k, k < b.length → g (off + k) = b.getD k 0) :
    (List.range b.length).map (fun k => g (off + k)) = b := by
  apply List.ext_getElem
  · simp
  · intro i h1 h2
    simp only [List.getElem_map, List.getElem_range]
    rw [hg i h2, List.getD_eq_getElem b 0 h2]

/-- For a path with a '/', `extract_container_name` gives the bytes after the last
'/', and fails exactly when they are more than 15. -/
theorem extract_container_name_with_slash (p a b : List Nat)
    (hp : cstr p = a ++ 47 :: b) (hb : 47 ∉ b) :
    extract_container_name p = if 15 < b.length then none else some b := by
  have hlen : strlen p = a.length + 1 + b.length := by
    rw [strlen_eq, hp]
    simp only [List.length_append, List.length_cons]
    omega
  have hget : ∀ k, k < strlen p → p.getD k 0 = (a ++ 47 :: b).getD k 0 := by
    intro k hk
    rw [← hp, cstr_getD p k hk]
  have hb' : ∀ m, m < b.length → (a ++ 47 :: b).getD (a.length + 1 + m) 0 = b.getD m 0 := by
    intro m _
    rw [List.getD_append_right _ _ _ _ (by omega)]
    have : a.length + 1 + m - a.length = m + 1 := by omega
    rw [this, List.getD_cons_succ]
  have hloop : ∀ m, m ≤ b.length →
      forLoop (fun k (x : Nat × Nat) => if p.getD k 0 = 47 then (0, k) else (x.1 + 1, x.2))
        (a.length + 1 + m) (0, 0) = (m, a.length) := by
    intro m
    induction m with
    | zero =>
      intro _
      simp only [Nat.add_zero, forLoop]
      rw [hget _ (by omega), List.getD_append_right _ _ _ _ (le_refl _)]
      simp
    | succ m ih =>
      intro hm
      rw [← Nat.add_assoc]
      simp only [forLoop]
      rw [ih (by omega), hget _ (by omega), hb' m (by omega)]
      have hne : b.getD m 0 ≠ 47 := by
        rw [List.getD_eq_getElem b 0 (by omega : m < b.length)]
        intro e
        exact hb (e ▸ List.getElem_mem _)
      rw [if_neg hne]
  unfold extract_container_name
  simp only []
  rw [hlen, hloop b.length (le_refl _)]
  simp only [gt_iff_lt]
  split
  · rfl
  · congr 1
    exact range_map_getD b (a.length + 1) (fun k => p.getD k 0)
      (fun k hk => by simp only []; rw [hget _ (by omega), hb' k hk])

/-- For a path without '/', `extract_container_name` fails exactly when the path is
longer than 15 bytes, and else gives the path without its first byte, then the
NUL that ends the path. -/
theorem extract_container_name_without_slash (p : List Nat) (hp : 47 ∉ cstr p) :
    extract_container_name p =
      if 15 < (cstr p).length then none
      else some (if cstr p = [] then [] else (cstr p).tail ++ [0]) := by
  have hloop : ∀ m, m ≤ strlen p →
      forLoop (fun k (x : Nat × Nat) => if p.getD k 0 = 47 then (0, k) else (x.1 + 1, x.2))
        m (0, 0) = (m, 0) := by
    intro m
    induction m with
    | zero => intro _; rfl
    | succ m ih =>
      intro hm
      simp only [forLoop]
      rw [ih (by omega)]
      have hne : p.getD m 0 ≠ 47 := by
        rw [← cstr_getD p m (by omega), List.getD_eq_getElem _ 0 (by rw [← strlen_eq]; omega)]
        intro e
        exact hp (e ▸ List.getElem_mem _)
      rw [if_neg hne]
  unfold extract_container_name
  simp only []
  rw [hloop (strlen p) (le_refl _)]
  simp only [gt_iff_lt, strlen_eq]
  split
  · rfl
  · congr 1
    by_cases hnil : cstr p = []
    · simp [hnil]
    · rw [if_neg hnil]
      have hpos : 0 < (cstr p).length := List.length_pos.2 hnil
      have hl : (cstr p).length = ((cstr p).tail ++ [0]).length := by
        simp
        omega
      rw [hl]
      apply range_map_getD _ (0 + 1) (fun k => p.getD k 0)
      intro k hk
      show p.getD (0 + 1 + k) 0 = _
      rw [← hl] at hk
      by_cases hk1 : k + 1 < (cstr p).length
      · rw [show 0 + 1 + k = k + 1 by omega, ← cstr_getD p (k + 1) (by rw [strlen_eq]; exact hk1),
          List.getD_append _ _ _ _ (by simp; omega)]
        cases hc : cstr p with
        | nil => exact absurd hc hnil
        | cons y t => simp
      · have hk2 : k + 1 = (cstr p).length := by omega
        rw [show 0 + 1 + k = strlen p by rw [strlen_eq]; omega, getD_strlen,
          List.getD_append_right _ _ _ _ (by simp; omega)]
        have : k - (cstr p).tail.length = 0 := by simp; omega
        rw [this]
        rfl

/-! ## The two loops of `cont_start` (C34) -/

/-- A loop of stores `args[off + k] = v k` for `k < n` that stays inside the array:
the indices from `off` to `off + n - 1` hold the new values, the others are as
before. -/
theorem setArg_loop (idx : Nat → Nat) (v : Nat → Option (List Nat)) (off : Nat)
    (hidx : ∀ k, idx k = off + k) (args : List (Option (List Nat))) :
    ∀ n, (∀ k, k < n → off + k < args.length) →
      ∃ a, forLoop (fun k (o : Option (List (Option (List Nat)))) =>
          o.bind (fun a => setArg a (idx k) (v k))) n (some args) = some a ∧
        a.length = args.length ∧
        ∀ i, a[i]? = if off ≤ i ∧ i < off + n then some (v (i - off)) else args[i]? := by
  intro n
  induction n with
  | zero =>
    intro _
    refine ⟨args, rfl, rfl, fun i => ?_⟩
    rw [if_neg (by omega)]
  | succ n ih =>
    intro hn
    obtain ⟨a, e, hl, hi⟩ := ih (fun k hk => hn k (by omega))
    have hin : off + n < a.length := by rw [hl]; exact hn n (by omega)
    refine ⟨a.set (off + n) (v n), ?_, by rw [List.length_set, hl], fun i => ?_⟩
    · simp only [forLoop]
      rw [e]
      simp only [Option.some_bind, setArg, hidx]
      rw [if_pos hin]
    · rw [List.getElem?_set, hi]
      by_cases h1 : off + n = i
      · rw [if_pos h1, if_pos hin, if_pos (by omega)]
        have : i - off = n := by omega
        rw [this]
      · rw [if_neg h1]
        by_cases h2 : off ≤ i ∧ i < off + n
        · rw [if_pos h2, if_pos (by omega)]
        · rw [if_neg h2, if_neg (by omega)]

/-- What the two loops of `cont_start` do for a command line that passes the
argument-count check, whatever the array `args` holds at entry: no store is
outside the array; the indices below `argc - 3` hold the copies of `argv[3]`, ...,
`argv[argc - 1]` in that order; the indices from `argc - 3` up to `argc - 1` (inside
the array) are as they were at entry; and the indices from `argc` on hold null
pointers. -/
theorem cont_start_args_spec (argc : Nat) (argv : List (List Nat))
    (args : List (Option (List Nat))) (hlen : args.length = MAX_ARG) (h4 : 4 ≤ argc)
    (hle : argc ≤ MAX_ARG + 3) :
    ∃ a, cont_start_args argc argv args = some a ∧ a.length = MAX_ARG ∧
      (∀ k, k < argc - 3 → a[k]? = some (some (argCopy (argv.getD (3 + k) [])))) ∧
      (∀ k, argc - 3 ≤ k → k < argc → a[k]? = args[k]?) ∧
      (∀ k, argc ≤ k → k < MAX_ARG → a[k]? = some none) := by
  obtain ⟨a1, e1, l1, g1⟩ := setArg_loop (fun jj => jj)
    (fun jj => some (argCopy (argv.getD (3 + jj) []))) 0 (fun k => (Nat.zero_add k).symm)
    args (argc - 3) (fun k hk => by rw [hlen]; unfold MAX_ARG at *; omega)
  obtain ⟨a2, e2, l2, g2⟩ := setArg_loop (fun k => 3 + (argc - 3) + k) (fun _ => none)
    (3 + (argc - 3)) (fun _ => rfl) a1 (MAX_ARG - (3 + (argc - 3)))
    (fun k hk => by rw [l1, hlen]; unfold MAX_ARG at *; omega)
  refine ⟨a2, ?_, by rw [l2, l1, hlen], fun k hk => ?_, fun k hk1 hk2 => ?_,
    fun k hk1 hk2 => ?_⟩
  · unfold cont_start_args
    simp only []
    exact (congrArg _ e1).trans e2
  · rw [g2, if_neg (by omega), g1, if_pos (by omega)]
    simp
  · rw [g2, if_neg (by omega), g1, if_neg (by omega)]
  · rw [g2, if_pos (by unfold MAX_ARG at *; omega)]

/-! ## C33: `extract_cont_path` -/

theorem contPathScan_shift (x y : Nat) (f c : List Nat) :
    ∀ n idx, contPathScan (x :: f) (y :: c) n (idx + 1) =
      (contPathScan f c n idx).map (fun o => o.map (fun i => i + 1)) := by
  intro n
  induction n with
  | zero => intro idx; rfl
  | succ n ih =>
    intro idx
    simp only [contPathScan, List.getD_cons_succ]
    rw [ih]
    split
    · split <;> rfl
    · rfl

theorem contPathCopy_shift (x : Nat) (f : List Nat) :
    ∀ n cp idx fidx, contPathCopy (x :: f) n cp (idx + 1) fidx = contPathCopy f n cp idx fidx := by
  intro n
  induction n with
  | zero => intro cp idx fidx; rfl
  | succ n ih =>
    intro cp idx fidx
    simp only [contPathCopy, List.getD_cons_succ]
    rw [ih]

/-- The last loop of `extract_cont_path` from the start of `f`, appending to an array
that is full up to `fidx`: it ends and has appended the string `f`. -/
theorem contPathCopy_spec (f : List Nat) :
    ∀ (n : Nat) (cp : List Nat), f.length < n →
      contPathCopy f n cp 0 cp.length = some (cp ++ cstr f) := by
  induction f with
  | nil =>
    intro n cp hn
    obtain ⟨n, rfl⟩ : ∃ m, n = m + 1 := ⟨n - 1, by omega⟩
    simp [contPathCopy, cstr]
  | cons x f ih =>
    intro n cp hn
    obtain ⟨n, rfl⟩ : ∃ m, n = m + 1 := ⟨n - 1, by omega⟩
    simp only [List.length_cons] at hn
    by_cases hx : x = 0
    · simp [contPathCopy, cstr_cons, hx]
    · simp only [contPathCopy, List.getD_cons_zero, ne_eq, hx, not_false_eq_true, if_true,
        cstr_cons, if_false]
      rw [contPathCopy_shift, store_length]
      have := ih n (cp ++ [x]) (by omega)
      simp only [List.length_append, List.length_singleton] at this
      rw [this]
      simp

/-- The first loop of `extract_cont_path` ends, and where it ends tells how the
string `c` lies in the string `f`: a byte differs, or `c` is longer, or they are
equal, or `c` is a proper prefix of `f`, in which case the last loop copies the rest
of `f`. -/
theorem contPathScan_spec (f : List Nat) :
    ∀ (c : List Nat) (n : Nat), f.length < n →
      (contPathScan f c n 0 = some none ∧ ¬ cstr c <+: cstr f) ∨
      ∃ idx, contPathScan f c n 0 = some (some idx) ∧
        ((f.getD idx 0 = 0 ∧ c.getD idx 0 ≠ 0 ∧ ¬ cstr c <+: cstr f) ∨
         (f.getD idx 0 = 0 ∧ c.getD idx 0 = 0 ∧ cstr f = cstr c) ∨
         (f.getD idx 0 ≠ 0 ∧ c.getD idx 0 = 0 ∧ cstr c <+: cstr f ∧ cstr f ≠ cstr c ∧
           idx = (cstr c).length ∧
           ∀ m, f.length < m → contPathCopy f m [] idx 0 = some ((cstr f).drop idx))) := by
  induction f with
  | nil =>
    intro c n hn
    obtain ⟨n, rfl⟩ : ∃ m, n = m + 1 := ⟨n - 1, by simp at hn; omega⟩
    right
    refine ⟨0, by simp [contPathScan], ?_⟩
    by_cases hc : c.getD 0 0 = 0
    · exact Or.inr (Or.inl ⟨by simp, hc, by rw [(cstr_nil_iff c).2 hc]; rfl⟩)
    · refine Or.inl ⟨by simp, hc, ?_⟩
      intro h
      have : cstr c = [] := by simpa [cstr] using h
      exact hc ((cstr_nil_iff c).1 this)
  | cons x f ih =>
    intro c n hn
    obtain ⟨n, rfl⟩ : ∃ m, n = m + 1 := ⟨n - 1, by omega⟩
    simp only [List.length_cons] at hn
    have hn' : f.length < n := by omega
    by_cases hx : x = 0
    · right
      refine ⟨0, by simp [contPathScan, hx], ?_⟩
      by_cases hc : c.getD 0 0 = 0
      · refine Or.inr (Or.inl ⟨by simp [hx], hc, ?_⟩)
        rw [(cstr_nil_iff c).2 hc]
        simp [cstr_cons, hx]
      · refine Or.inl ⟨by simp [hx], hc, ?_⟩
        intro h
        have : cstr c = [] := by simpa [cstr_cons, hx] using h
        exact hc ((cstr_nil_iff c).1 this)
    · by_cases hc : c.getD 0 0 = 0
      · right
        have hs : contPathScan (x :: f) c (n + 1) 0 = some (some 0) := by
          simp only [contPathScan]
          rw [if_neg (fun g : (x :: f).getD 0 0 ≠ 0 ∧ c.getD 0 0 ≠ 0 => g.2 hc)]
        refine ⟨0, hs, Or.inr (Or.inr ⟨by simpa using hx, hc, ?_, ?_, ?_, ?_⟩)⟩
        · rw [(cstr_nil_iff c).2 hc]
          exact List.nil_prefix
        · rw [(cstr_nil_iff c).2 hc]
          simp [cstr_cons, hx]
        · rw [(cstr_nil_iff c).2 hc]
          rfl
        · intro m hm
          have := contPathCopy_spec (x :: f) m [] hm
          simpa using this
      · cases c with
        | nil => simp at hc
        | cons y c =>
          simp only [List.getD_cons_zero] at hc
          by_cases hxy : x = y
          · subst hxy
            have hstep : contPathScan (x :: f) (x :: c) (n + 1) 0 =
                (contPathScan f c n 0).map (fun o => o.map (fun i => i + 1)) := by
              simp only [contPathScan, List.getD_cons_zero, ne_eq, hx, not_false_eq_true,
                and_self, if_true, not_true_eq_false, if_false]
              exact contPathScan_shift x x f c n 0
            rw [hstep]
            simp only [cstr_cons, hx, if_false, List.cons_prefix_cons, true_and,
              List.cons.injEq, List.length_cons]
            rcases ih c n hn' with ⟨e, hnp⟩ | ⟨idx, e, h⟩
            · left
              rw [e]
              exact ⟨rfl, hnp⟩
            · right
              refine ⟨idx + 1, by rw [e]; rfl, ?_⟩
              simp only [List.getD_cons_succ]
              rcases h with ⟨a, b, d⟩ | ⟨a, b, d⟩ | ⟨a, b, d1, d2, d3, d4⟩
              · exact Or.inl ⟨a, b, d⟩
              · exact Or.inr (Or.inl ⟨a, b, d⟩)
              · refine Or.inr (Or.inr ⟨a, b, d1, fun h => d2 (by simpa using h), by rw [d3], ?_⟩)
                intro m hm
                rw [contPathCopy_shift, d4 m (Nat.lt_of_succ_lt (by simpa using hm))]
                rfl
          · left
            refine ⟨by simp [contPathScan, hx, hc, hxy], ?_⟩
            simp only [cstr_cons, hx, hc, if_false, List.cons_prefix_cons]
            exact fun h => hxy h.1.symm

/-- What `extract_cont_path` does on a zero-filled `cont_path`: it returns 0 exactly
when the string `cont_rootdir` is a prefix of the string `fpath`, byte by byte, and
then has written "/" when the two are equal and else the rest of `fpath`; it
returns -1 otherwise and has written nothing. -/
theorem extract_cont_path_eq (f r : List Nat) :
    ∃ res, extract_cont_path [] f r = some res ∧
      ((res.2 = 0 ∧ cstr r <+: cstr f ∧
          res.1 = if cstr f = cstr r then [47] else (cstr f).drop (cstr r).length) ∨
        (res.2 = -1 ∧ ¬ cstr r <+: cstr f ∧ res.1 = [])) := by
  unfold extract_cont_path
  rcases contPathScan_spec f r (f.length + 1) (by omega) with ⟨e, hnp⟩ | ⟨idx, e, h⟩
  · rw [e]
    exact ⟨_, rfl, Or.inr ⟨rfl, hnp, rfl⟩⟩
  · rw [e]
    simp only []
    rcases h with ⟨a, b, d⟩ | ⟨a, b, d⟩ | ⟨a, b, d1, d2, d3, d4⟩
    · rw [if_pos ⟨a, b⟩]
      exact ⟨_, rfl, Or.inr ⟨rfl, d, rfl⟩⟩
    · rw [if_neg (fun g => g.2 b), if_pos ⟨a, b⟩]
      refine ⟨_, rfl, Or.inl ⟨rfl, by rw [d], ?_⟩⟩
      rw [if_pos d]
      rfl
    · rw [if_neg (fun g => a g.1), if_neg (fun g => a g.1), d4 _ (by omega)]
      refine ⟨_, rfl, Or.inl ⟨rfl, d1, ?_⟩⟩
      rw [if_neg d2, d3]

/-- C33, evaluation: `extract_cont_path` on a zero-filled `cont_path` returns 0
exactly when the string `cont_rootdir` is a prefix of the string `fpath` byte by
byte, and then writes "/" when the two are equal and else the bytes of `fpath`
after the prefix.  So for the root directory "/" and the full path "/x" it writes
"x", which does not begin with '/' and is not the full path; and for the root
directory "/a" and the full path "/ab", which `is_prefix_path` rejects, it returns
0 and writes "b".  For "/a/b" under "/a" it writes "/b", and for "/a" under "/a" it
writes "/". -/
theorem extract_cont_path_ignores_separator :
    (∀ f r : List Nat, ∃ res, extract_cont_path [] f r = some res ∧
      ((res.2 = 0 ∧ cstr r <+: cstr f ∧
          res.1 = if cstr f = cstr r then [47] else (cstr f).drop (cstr r).length) ∨
        (res.2 = -1 ∧ ¬ cstr r <+: cstr f ∧ res.1 = []))) ∧
    extract_cont_path [] slashX [47] = some ([120], 0) ∧
    is_prefix_path slashX [47] = some 1 ∧
    extract_cont_path [] slashAB slashA = some ([98], 0) ∧
    is_prefix_path slashAB slashA = some 0 ∧
    extract_cont_path [] [47, 97, 47, 98] slashA = some ([47, 98], 0) ∧
    extract_cont_path [] slashA slashA = some ([47], 0) :=
  ⟨extract_cont_path_eq, by decide, by decide, by decide, by decide, by decide, by decide⟩

/-! ## C31: `extract_container_name` on a path without '/' -/

/-- C31, evaluation: for the path "c1", which contains no '/', the name
`extract_container_name` writes is "1": the copy starts at the second byte.  So
`ccreate("c1")` succeeds and the container it creates has the name "1".  For "/c1"
and for "a/b" the name is the trailing component, "c1" and "b". -/
theorem extract_container_name_drops_first_byte :
    extract_container_name c1Name = some [49, 0] ∧
    (extract_container_name c1Name).map cstr = some [49] ∧
    (ccreate K2 sysInit.st c1Name 9).2 = 0 ∧
    ((ccreate K2 sysInit.st c1Name 9).1.cont 1).state = CREADY ∧
    ((ccreate K2 sysInit.st c1Name 9).1.cont 1).name = [49] ∧
    extract_container_name c1Path = some c1Name ∧
    extract_container_name [97, 47, 98] = some [98] :=
  ⟨by decide, by decide, by decide, by decide, by decide, by decide, by decide⟩

/-! ## C34: the argument vector of `cont_start` -/

/-- C34, evaluation: for `cont start c1 sh` (`argc = 4`) and an array `args` that
holds stale pointers at entry, the two loops leave a copy of "sh" at index 0, the
stale pointers at the indices 1, 2 and 3, and null pointers from index 4 on: the
second loop starts at `argc`, not at `argc - 3`, so index 1 holds no null pointer.
With an array that is all null at entry, index 1 is null.  For `argc = MAX_ARG + 3`
the ten copies fill the array and no null pointer is stored at all: index
`argc - 3` is outside the array.  One more argument would store outside the array,
which the argument-count check excludes. -/
theorem cont_start_args_unterminated :
    cont_start_args 4 argvSh staleArgs =
      some [some [115, 104, 0], some [33], some [33], some [33],
        none, none, none, none, none, none] ∧
    cont_start_args 4 argvSh (List.replicate 10 none) =
      some [some [115, 104, 0], none, none, none, none, none, none, none, none, none] ∧
    cont_start_args 13 argvFull staleArgs = some (List.replicate 10 (some [97, 0])) ∧
    cont_start_args 14 (argvFull ++ [[97]]) staleArgs = none :=
  ⟨by decide, by decide, by decide, by decide⟩

/-! ## Calls and their pieces -/

/-- The body of `cstop` is its loop followed by the lines after the loop. -/
theorem cstopAt_eq (K : Params) (s : State) (c : Nat) :
    cstopAt K s c = cstopFinish (cstopMark K s c) c := rfl

/-- The function `ccreate` is its part down to `alloccont` followed by its part
after `namei`. -/
theorem ccreate_eq (K : Params) (s : State) (fpath : List Nat) (namei : Nat) :
    ccreate K s fpath namei =
      match ccreateAlloc K s fpath with
      | (s1, none) => (s1, -1)
      | (s1, some (c, cont_name)) => ccreateFinish s1 c cont_name fpath namei := by
  unfold ccreate ccreateAlloc ccreateFinish
  cases extract_container_name fpath with
  | none => rfl
  | some n =>
    simp only []
    split
    · rfl
    · cases h : alloccont K s with
      | mk s1 o =>
        cases o with
        | none => rfl
        | some c => rfl

/-! ## A paused container beside a container whose cursor wraps around (C6) -/

/-- One pass of the scheduler of processor 1 over the two containers of a
`SpinningBesidePaused` machine whose cursor gives an index that is not negative: the
paused root container is skipped, the cursor of "c1" is incremented (as an `int`),
and nothing else changes. -/
theorem spinningBeside_round (s : Sys) (c : Int) (h : SpinningBesidePaused s c)
    (hc : 0 ≤ cmod c K2.NPROC) :
    ∃ s1 s2, step K2 s (Op.visit 1) = some s1 ∧ step K2 s1 (Op.visit 1) = some s2 ∧
      SpinningBesidePaused s2 (int32 (c + 1)) := by
  obtain ⟨h1, h2, h3, h4, h5, h6, h7⟩ := h
  have hidx : (cmod c K2.NPROC).toNat < K2.NPROC := by
    have h2' : cmod c K2.NPROC < 2 := Int.tmod_lt_of_pos c (by decide)
    show (cmod c K2.NPROC).toNat < 2
    omega
  have hv1 : schedVisit K2 s.st 0 = some (s.st, none) :=
    schedVisit_skip K2 s.st 0 ⟨by rw [h1]; decide, by rw [h1]; decide⟩
  have e1 : step K2 s (Op.visit 1) = some
      { st := s.st
        cpu := fun i => if i = 1 then { proc := none, ii := 1 } else s.cpu i } := by
    simp only [step]
    rw [if_pos ⟨by decide, h6, by rw [h7]; decide⟩, h7, hv1]
    rfl
  have hslot : slotAt K2 1 (cmod (s.st.cont 1).nextproc K2.NPROC) =
      some (1, (cmod c K2.NPROC).toNat) := by
    rw [h4]
    unfold slotAt
    rw [if_pos hc]
  have hv2 : schedVisit K2 s.st 1 =
      some (s.st.setCont 1 { s.st.cont 1 with nextproc := int32 (c + 1) }, none) := by
    rw [schedVisit_pass K2 s.st 1 _ (by decide) (by rw [h3]; simp) hslot (h5 _ hidx), h4]
  refine ⟨_, { st := s.st.setCont 1 { s.st.cont 1 with nextproc := int32 (c + 1) }
               cpu := fun i => if i = 1 then { proc := none, ii := 0 } else
                 (if i = 1 then { proc := none, ii := 1 } else s.cpu i) }, e1, ?_, ?_⟩
  · simp only [step]
    rw [if_pos ⟨by decide, by simp, by simp; decide⟩]
    simp only [if_true, hv2]
    rfl
  · refine ⟨by simp [h1], by simp only [setCont_proc]; exact h2, by simp [h3], by simp,
      fun j hj => by simp only [setCont_proc]; exact h5 j hj, by simp, by simp⟩

/-- From a reachable `SpinningBesidePaused` machine with the cursor at `n`, `t`
further passes of the scheduler of processor 1 reach the cursor `n + t`, as long as
that is an `int`. -/
theorem spinningBeside_reach : ∀ (t n : Nat) (s : Sys), Reachable K2 s →
    SpinningBesidePaused s (n : Int) → n + t ≤ 2147483647 →
    ∃ s1, Reachable K2 s1 ∧ SpinningBesidePaused s1 ((n + t : Nat) : Int) := by
  intro t
  induction t with
  | zero => intro n s hr hs _; exact ⟨s, hr, hs⟩
  | succ t ih =>
    intro n s hr hs hle
    have hc : 0 ≤ cmod (n : Int) K2.NPROC := by
      rw [cmod_natCast]
      exact Int.ofNat_nonneg _
    obtain ⟨s1, s2, e1, e2, h2⟩ := spinningBeside_round s n hs hc
    have h32 : int32 ((n : Int) + 1) = ((n + 1 : Nat) : Int) := by
      rw [int32_small _ (by omega) (by omega)]
      push_cast
      rfl
    rw [h32] at h2
    have hr2 : Reachable K2 s2 :=
      Reachable.step s1 s2 _ (Reachable.step s s1 _ hr e1) e2
    obtain ⟨s3, hr3, h3⟩ := ih (n + 1) s2 hr2 h2 (by omega)
    refine ⟨s3, hr3, ?_⟩
    have : n + 1 + t = n + (t + 1) := by omega
    rw [this] at h3
    exact h3

/-- After the cursor of "c1" has wrapped around, a visit of "c1" switches to the
RUNNABLE slot 1 of the paused root container. -/
theorem paused_slot_dispatched_after_wraparound :
    ∃ s s1 s2 : Sys, Reachable K2 s ∧ (s.st.cont 0).state = CPAUSED ∧
      (s.st.proc 0 1).state = RUNNABLE ∧ (s.st.cont 1).nextproc = -2147483647 ∧
      step K2 s (Op.visit 1) = some s1 ∧ step K2 s1 (Op.visit 1) = some s2 ∧
      (s2.st.cont 0).state = CPAUSED ∧ (s2.st.proc 0 1).state = RUNNING ∧
      (s2.cpu 1).proc = some (0, 1) := by
  have h0 : SpinningBesidePaused sysBesidePaused ((0 : Nat) : Int) :=
    ⟨by decide, by decide, by decide, by decide, by decide, by decide, by decide⟩
  have hr0 : Reachable K2 sysBesidePaused :=
    reachable_run K2 traceBesidePaused _ _ reachable_boot2 rfl
  obtain ⟨a, hra, ha⟩ := spinningBeside_reach 2147483647 0 sysBesidePaused hr0 h0 (by decide)
  have e1 : ((0 + 2147483647 : Nat) : Int) = 2147483647 := by norm_num
  rw [e1] at ha
  obtain ⟨a1, a2, x1, x2, h2⟩ := spinningBeside_round a _ ha (by decide)
  have e2 : int32 (2147483647 + 1) = -2147483648 := by decide
  rw [e2] at h2
  obtain ⟨b1, b2, y1, y2, h3⟩ := spinningBeside_round a2 _ h2 (by decide)
  have e3 : int32 (-2147483648 + 1) = -2147483647 := by decide
  rw [e3] at h3
  have hr : Reachable K2 b2 :=
    Reachable.step b1 b2 _ (Reachable.step a2 b1 _
      (Reachable.step a1 a2 _ (Reachable.step a _ _ hra x1) x2) y1) y2
  obtain ⟨g1, g2, g3, g4, g5, g6, g7⟩ := h3
  have hv1 : schedVisit K2 b2.st 0 = some (b2.st, none) :=
    schedVisit_skip K2 b2.st 0 ⟨by rw [g1]; decide, by rw [g1]; decide⟩
  have z1 : step K2 b2 (Op.visit 1) = some
      { st := b2.st
        cpu := fun i => if i = 1 then { proc := none, ii := 1 } else b2.cpu i } := by
    simp only [step]
    rw [if_pos ⟨by decide, g6, by rw [g7]; decide⟩, g7, hv1]
    rfl
  have hslot : slotAt K2 1 (cmod (b2.st.cont 1).nextproc K2.NPROC) = some (0, 1) := by
    rw [g4]
    decide
  have hv2 := schedVisit_switch K2 b2.st 1 (0, 1) (by decide) (by rw [g3]; simp) hslot g2
  refine ⟨b2, _, ⟨schedSwitch (b2.st.setCont 1
      { b2.st.cont 1 with nextproc := int32 ((b2.st.cont 1).nextproc + 1) }) 1 (0, 1),
    fun i => if i = 1 then { proc := some (0, 1), ii := 1 } else
      (if i = 1 then { proc := none, ii := 1 } else b2.cpu i)⟩,
    hr, g1, g2, g4, z1, ?_, ?_, ?_, ?_⟩
  · simp only [step]
    rw [if_pos ⟨by decide, by simp, by simp; decide⟩]
    simp only [if_true, hv2]
  · simp [schedSwitch, g1]
  · simp [schedSwitch]
  · simp

/-! ## C6: the scheduler and a container that is not schedulable -/

set_option maxRecDepth 100000 in
/-- C6, evaluation.  (a) In the reachable state `sysAtC1` "c1" is CRUNNABLE, its
slot 0 is RUNNABLE and the scheduler of the second processor stands at "c1".  It
tests the two states (`schedChoose`, under `ptable.lock`) and chooses the slot; then
`cpause("c1")`, called by `initproc` on the first processor under `ctable.lock`,
returns 0 and "c1" is CPAUSED; then the scheduler goes on with
`p->state = RUNNING; cont->state = CRUNNING`: a process of the paused container is
RUNNING, and the container is CRUNNING without a `cresume`.  (b) In a pass of the
scheduler over the table from the same state, the process switched to is stopped by
`initproc`, calls `wait` (which frees "c1") and `exit`; when `swtch` comes back "c1"
is CUNUSED, and the pass makes it CRUNNABLE.  (c) In a reachable state the root
container is CPAUSED, its slot 1 is RUNNABLE and the cursor of "c1" is -2147483647;
the scheduler of the second processor skips the root container, and its visit of
"c1" makes the slot 1 of the paused root container RUNNING. -/
theorem scheduler_runs_process_of_paused_container :
    (Reachable K2 sysAtC1 ∧ running K2 sysAtC1 0 = some (0, 0) ∧
      (sysAtC1.cpu 1).proc = none ∧ (sysAtC1.cpu 1).ii = 1 ∧
      (sysAtC1.st.cont 1).state = CRUNNABLE ∧ (sysAtC1.st.proc 1 0).state = RUNNABLE ∧
      (schedChoose K2 sysAtC1.st 1).map Prod.snd = some (some (1, 0)) ∧
      (cpause K2 chosenSt c1Name).2 = 0 ∧ (pausedMeanwhileSt.cont 1).state = CPAUSED ∧
      (pausedMeanwhileSt.proc 1 0).state = RUNNABLE ∧
      (pauseRaceSt.proc 1 0).state = RUNNING ∧ (pauseRaceSt.cont 1).state = CRUNNING) ∧
    ((schedVisit K2 sysAtC1.st 1).map Prod.snd = some (some (1, 0)) ∧
      (backFromExitSt.cont 1).state = CUNUSED ∧
      (schedulerPass K2 envStopWaitExit sysAtC1.st).map (fun t => (t.cont 1).state) =
        some CRUNNABLE) ∧
    (∃ s s1 s2 : Sys, Reachable K2 s ∧ (s.st.cont 0).state = CPAUSED ∧
      (s.st.proc 0 1).state = RUNNABLE ∧ (s.st.cont 1).nextproc = -2147483647 ∧
      step K2 s (Op.visit 1) = some s1 ∧ step K2 s1 (Op.visit 1) = some s2 ∧
      (s2.st.cont 0).state = CPAUSED ∧ (s2.st.proc 0 1).state = RUNNING ∧
      (s2.cpu 1).proc = some (0, 1)) :=
  ⟨⟨reachable_run K2 traceAtC1 _ _ reachable_boot2 rfl, by decide, by decide, by decide,
      by decide, by decide, by decide, by decide, by decide, by decide, by decide,
      by decide⟩,
    ⟨by decide, by decide, by decide⟩, paused_slot_dispatched_after_wraparound⟩

/-! ## C23: `cstop` and the scheduler -/

set_option maxRecDepth 100000 in
/-- C23, evaluation: in the reachable state `sysAtC1` the scheduler of the second
processor, under `ptable.lock`, finds "c1" CRUNNABLE and its slot 0 RUNNABLE
(`schedChoose`); `cstop("c1")`, called by `initproc` on the first processor under
`ctable.lock`, runs its loop and marks the slot ZOMBIE; the scheduler goes on with
`p->state = RUNNING; cont->state = CRUNNING`; `cstop` sets `cont->state = CSTOPPING`
and returns.  The container is CSTOPPING and its slot 0 is RUNNING. -/
theorem stopping_container_with_running_slot :
    Reachable K2 sysAtC1 ∧ running K2 sysAtC1 0 = some (0, 0) ∧
    (sysAtC1.cpu 1).proc = none ∧ (sysAtC1.cpu 1).ii = 1 ∧
    (schedChoose K2 sysAtC1.st 1).map Prod.snd = some (some (1, 0)) ∧
    get_container_by_name K2 chosenSt c1Name = some 1 ∧
    ((cstopMark K2 chosenSt 1).proc 1 0).state = ZOMBIE ∧
    ((cstopMark K2 chosenSt 1).cont 1).state = CRUNNABLE ∧
    ((schedSwitch (cstopMark K2 chosenSt 1) 1 (1, 0)).proc 1 0).state = RUNNING ∧
    (stopRaceSt.cont 1).state = CSTOPPING ∧ (stopRaceSt.proc 1 0).state = RUNNING :=
  ⟨reachable_run K2 traceAtC1 _ _ reachable_boot2 rfl, by decide, by decide, by decide,
    by decide, by decide, by decide, by decide, by decide, by decide, by decide⟩

/-! ## C24: two calls of `ccreate` at the same time -/

set_option maxRecDepth 100000 in
/-- C24, evaluation: in the reachable state `sysTwoCallers` a process runs on each
processor and `nextcid` is 2.  `initproc` calls `ccreate("/x")`: `alloccont` gives it
slot 1 with cid 2.  The other process calls `ccreate("/c1")`: `alloccont` gives it
slot 2 with cid 3, and `nextcid` is 4.  `namei("/x")` fails, and the first call does
`--nextcid; cont->state = CUNUSED` (holding no lock) and returns -1: `nextcid` is 3.
The second call returns 0: "c1" is CREADY with cid 3.  Now `ccreate("/c2")` returns
0: it takes slot 1 and the cid 3.  Two containers that are not CUNUSED have the cid
3. -/
theorem concurrent_ccreate_gives_one_cid_twice :
    (Reachable K3 sysTwoCallers ∧ running K3 sysTwoCallers 0 = some (0, 0) ∧
      running K3 sysTwoCallers 1 = some (0, 1) ∧ sysTwoCallers.st.nextcid = 2) ∧
    ((ccreateAlloc K3 sysTwoCallers.st xPath).2 = some (1, xName) ∧
      (raceA1.cont 1).cid = 2 ∧
      (ccreateAlloc K3 raceA1 c1Path).2 = some (2, c1Name) ∧
      (raceB1.cont 2).cid = 3 ∧ raceB1.nextcid = 4 ∧
      (ccreateFinish raceB1 1 xName xPath 0).2 = -1 ∧ raceA2.nextcid = 3 ∧
      (raceA2.cont 1).state = CUNUSED ∧
      (ccreateFinish raceA2 2 c1Name c1Path 9).2 = 0 ∧
      (ccreate K3 raceB2 c2Path 8).2 = 0) ∧
    ((raceC.cont 1).state = CREADY ∧ (raceC.cont 2).state = CREADY ∧
      (raceC.cont 1).cid = 3 ∧ (raceC.cont 2).cid = 3) :=
  ⟨⟨reachable_run K3 traceTwoCallers _ _ (Reachable.boot 7 100 200 boot3 rfl) rfl,
      by decide, by decide, by decide⟩,
    ⟨by decide, by decide, by decide, by decide, by decide, by decide, by decide,
      by decide, by decide, by decide⟩,
    ⟨by decide, by decide, by decide, by decide⟩⟩

/-! ## C25: the container that `cont start` checks and the one that `cstart` starts -/

set_option maxRecDepth 100000 in
/-- C25, evaluation: in the reachable state `sysC10` slot 1 holds the container "c10"
with root "/c10" and slot 2 the container "c1" with root "/c1", both CREADY.  For
`cont start c1` in the working directory "/c1", `can_start_container` returns 1 (it
takes the root of the container named exactly "c1").  Then `cstart("c1")` starts the
container that `get_container_by_name` finds, slot 1: "c10" becomes CRUNNABLE and
`curcont`, "c1" stays CREADY; and "/c1" is not inside "/c10", the root of the
container started. -/
theorem cont_start_starts_container_not_checked :
    Reachable K3 sysC10 ∧
    (sysC10.st.cont 1).name = c10Name ∧ (sysC10.st.cont 1).rootpath = c10Path ∧
    (sysC10.st.cont 1).state = CREADY ∧
    (sysC10.st.cont 2).name = c1Name ∧ (sysC10.st.cont 2).rootpath = c1Path ∧
    (sysC10.st.cont 2).state = CREADY ∧
    can_start_container K3 sysC10.st (some c1Path) c1Name = some 1 ∧
    get_container_by_name K3 sysC10.st c1Name = some 1 ∧
    (cstart K3 sysC10.st c1Name).2 = (sysC10.st.cont 1).cid ∧
    ((cstart K3 sysC10.st c1Name).1.cont 1).state = CRUNNABLE ∧
    ((cstart K3 sysC10.st c1Name).1.cont 2).state = CREADY ∧
    (cstart K3 sysC10.st c1Name).1.curcont = some 1 ∧
    is_prefix_path c1Path (sysC10.st.cont 1).rootpath = some 0 :=
  ⟨reachable_run K3 traceC10 _ _ (Reachable.boot 7 100 200 boot3 rfl) rfl, by decide,
    by decide, by decide, by decide, by decide, by decide, by decide, by decide, by decide,
    by decide, by decide, by decide, by decide⟩

/-! ## C30: a child whose parent was reaped -/

set_option maxRecDepth 100000 in
/-- C30, evaluation: the state after `traceLateFork` is reached by steps whose
callers are all live.  In it the slot 1 of row 1 is RUNNABLE and is not `initproc`;
its parent is the slot 0 of row 1; and that slot is UNUSED.  (`cstop` marked the
parent ZOMBIE while it was on its processor; its own `wait` freed the container,
which was created again; it forked; and the `wait` of `initproc` reaped it.) -/
theorem runnable_child_of_free_slot :
    ReachableVia K2 (live K2) sysLateFork ∧ Reachable K2 sysLateFork ∧
    sysLateFork.st.initproc = some (0, 0) ∧
    (sysLateFork.st.cont 1).state = CREADY ∧
    (sysLateFork.st.proc 1 1).state = RUNNABLE ∧
    (sysLateFork.st.proc 1 1).parent = some (1, 0) ∧
    (sysLateFork.st.proc 1 0).state = UNUSED :=
  ⟨reachableVia_run K2 (live K2) traceLateFork _ _ (ReachableVia.boot 7 100 200 boot2 rfl) rfl,
    reachableVia_reachable K2 _ _
      (reachableVia_run K2 (live K2) traceLateFork _ _
        (ReachableVia.boot 7 100 200 boot2 rfl) rfl),
    by decide, by decide, by decide, by decide, by decide⟩

/-! ## C28: the cursor at the largest `int` -/

/-- While the cursor is negative, no slot of the container other than its slot 0 is
the one examined. -/
theorem slotAt_negative_cursor (K : Params) (ii m j : Nat) :
    slotAt K ii (cmod (-((m : Int) + 1)) K.NPROC) ≠ some (ii, j + 1) := by
  have e0 : -((m : Int) + 1) = -(((m + 1 : Nat)) : Int) := by push_cast; ring
  have e : cmod (-(((m + 1 : Nat)) : Int)) K.NPROC = -((((m + 1) % K.NPROC : Nat)) : Int) := rfl
  rw [e0, e]
  unfold slotAt
  by_cases hz : (m + 1) % K.NPROC = 0
  · rw [hz]
    simp
  · have hneg : ¬ (0 : Int) ≤ -((((m + 1) % K.NPROC : Nat)) : Int) := by
      have : (0 : Int) < (((m + 1) % K.NPROC : Nat) : Int) := by
        exact_mod_cast Nat.pos_of_ne_zero hz
      omega
    rw [if_neg hneg]
    split
    · simp
    · rename_i h0
      intro h
      have h1 := congrArg (fun o : Option PRef => o.map Prod.fst) h
      simp only [Option.map_some'] at h1
      have h2 : ii - 1 = ii := Option.some.inj h1
      omega

/-- C28, evaluation.  On the small machine (`NPROC = 2`) the scheduler of the second
processor alone brings the cursor of the root container to the largest `int` in a
reachable state `s`.  The next visit (and the visit of the free slot 1 after it)
leaves the cursor at -2147483648, not at 2147483648; the visit after that examines
slot 0 of the row, and the following one, with the cursor at -2147483647, has no
slot of the table to examine: over these `NPROC` consecutive visits the slot 1 of
the container is not examined.  And for every `NPROC`, every container and every
negative value of the cursor, the slot examined is not a slot of the container other
than its slot 0. -/
theorem round_robin_lost_after_wraparound :
    (∃ s s1 s2 s3 s4 : Sys, Reachable K2 s ∧
      (s.st.cont 0).state = CRUNNING ∧ (s.st.cont 0).nextproc = 2147483647 ∧
      step K2 s (Op.visit 1) = some s1 ∧ step K2 s1 (Op.visit 1) = some s2 ∧
      (s2.st.cont 0).state = CRUNNING ∧ (s2.st.cont 0).nextproc = -2147483648 ∧
      examined K2 s2.st 0 = some (0, 0) ∧
      step K2 s2 (Op.visit 1) = some s3 ∧ step K2 s3 (Op.visit 1) = some s4 ∧
      (s4.st.cont 0).state = CRUNNING ∧ (s4.st.cont 0).nextproc = -2147483647 ∧
      examined K2 s4.st 0 = none) ∧
    (∀ (K : Params) (ii m j : Nat),
      slotAt K ii (cmod (-((m : Int) + 1)) K.NPROC) ≠ some (ii, j + 1)) := by
  refine ⟨?_, slotAt_negative_cursor⟩
  have h0 : Spinning sysInit ((1 : Nat) : Int) :=
    ⟨by decide, by decide, by decide, by decide, by decide, by decide⟩
  have hr0 : Reachable K2 sysInit := reachable_run K2 [Op.visit 0] _ _ reachable_boot2 rfl
  obtain ⟨s, hr, h1⟩ := spinning_reach 2147483646 1 sysInit hr0 h0 (by decide)
  have e1 : ((1 + 2147483646 : Nat) : Int) = 2147483647 := by norm_num
  rw [e1] at h1
  obtain ⟨s1, s2, x1, x2, h2⟩ := spinning_round s _ h1 (by decide)
  have e2 : int32 (2147483647 + 1) = -2147483648 := by decide
  rw [e2] at h2
  obtain ⟨s3, s4, y1, y2, h3⟩ := spinning_round s2 _ h2 (by decide)
  have e3 : int32 (-2147483648 + 1) = -2147483647 := by decide
  rw [e3] at h3
  refine ⟨s, s1, s2, s3, s4, hr, h1.1, h1.2.1, x1, x2, h2.1, h2.2.1, ?_, y1, y2,
    h3.1, h3.2.1, ?_⟩
  · unfold examined
    rw [h2.2.1]
    decide
  · unfold examined
    rw [h3.2.1]
    decide

end Xv6
